import Mathlib

/-!
# Domino puzzle engine: a shallow embedding of `src/DominoGame.h`

The C++ class `DominoGame` is embedded as a record `GameState` and one Lean
function per member function, with explicit state passing.  The class
`HintSystem` of `src/HintSystem.h` follows in the same namespace; the piece
class and the hint counter of `src/DominoPiece.h` are in `DominoPieceH`, the
player side of the `DominoGame` of `src/GameGrid.h` in `GameGridH`, and the
engine of `src/GameLogic.cpp` on the `GameState` of `src/GameState.h` in
`GameLogicCpp`.

Conventions of the embedding

* `int` is `Int`; every value that occurs is far below `2^31`, so no wrap-around
  is modelled.
* `std::vector<std::vector<int>>` is `List (List Int)`.  Reading or writing an
  index outside a vector is undefined behaviour in C++; the embedding reads
  `-1` (a placeholder piece from a piece vector) there and ignores the write.
  Every theorem below is about accesses the source guards with
  `isValidForGrid`, or about cells inside the grid.
* `std::set<int>` is a strictly ascending list (`IntSet`), `std::map<Position,int>`
  an association list in ascending key order.
* `std::shuffle(v, rng)` is an oracle: the `k`-th call made on the generator
  returns `sh.pieces k v` (resp. `cands`, `cells`), and the state field `rng`
  counts the calls.  A shuffle outcome is any permutation (`ValidShuffles`).
* A member function that can leave through an exception returns
  `Except String _ × GameState`: the value or the exception, and the state of the
  object at that moment.
* `dist(rng)` of `HintSystem` is an oracle as well (`Picks`); a draw lies in the
  range of its distribution (`ValidPicks`).
* The static counter `DominoPiece::nextId` of `DominoPiece.h` is threaded through
  the functions that construct pieces.
* `gameStartTime` (wall-clock time) is not part of the embedding.
-/

namespace DominoGameH

/-! ## Data model -/

inductive Difficulty where
  | EASY
  | MEDIUM
  | HARD
deriving DecidableEq, Repr

inductive Orientation where
  | HORIZONTAL
  | VERTICAL
deriving DecidableEq, Repr

structure Position where
  row : Int
  col : Int
deriving DecidableEq, Repr

/-- Source: `Position::operator<`. -/
def Position.lt (a b : Position) : Bool :=
  decide (a.row < b.row) || (decide (a.row = b.row) && decide (a.col < b.col))

/-- Source: `Position::isValidForGrid`. -/
def Position.isValidForGrid (p : Position) (gridSize : Int) : Bool :=
  decide (p.row ≥ 0) && decide (p.row < gridSize) && decide (p.col ≥ 0) && decide (p.col < gridSize)

structure DominoPiece where
  value1 : Int
  value2 : Int
  sum : Int
  position : Position
  orientation : Orientation
  isPlaced : Bool
deriving DecidableEq, Repr

/-- Source: the constructor `DominoPiece(int v1, int v2)`. -/
def DominoPiece.new (v1 v2 : Int) : DominoPiece :=
  { value1 := v1, value2 := v2, sum := v1 + v2, position := ⟨-1, -1⟩,
    orientation := Orientation.HORIZONTAL, isPlaced := false }

/-- Source: `DominoPiece::operator==`. -/
def DominoPiece.opEq (a b : DominoPiece) : Bool :=
  (decide (a.value1 = b.value1) && decide (a.value2 = b.value2)) ||
    (decide (a.value1 = b.value2) && decide (a.value2 = b.value1))

/-- Source: `DominoPiece::getCanonicalForm`. -/
def DominoPiece.getCanonicalForm (a : DominoPiece) : Int × Int :=
  let smaller := if a.value1 < a.value2 then a.value1 else a.value2
  let larger := if a.value1 < a.value2 then a.value2 else a.value1
  (smaller, larger)

/-- Source: `DominoPiece::operator<`. -/
def DominoPiece.opLt (a b : DominoPiece) : Bool :=
  let thisCanon := a.getCanonicalForm
  let otherCanon := b.getCanonicalForm
  if thisCanon.1 ≠ otherCanon.1 then decide (thisCanon.1 < otherCanon.1)
  else decide (thisCanon.2 < otherCanon.2)

def GRID_SIZE : Int := 8

def MAX_GENERATION_ATTEMPTS : Nat := 100

abbrev Grid := List (List Int)

/-- The vector `assign(GRID_SIZE, std::vector<int>(GRID_SIZE, v))`. -/
def Grid.fill (v : Int) : Grid := List.replicate 8 (List.replicate 8 v)

/-- The read `g[r][c]`. -/
def Grid.get (g : Grid) (r c : Int) : Int :=
  if r < 0 ∨ c < 0 then -1 else (g.getD r.toNat []).getD c.toNat (-1)

/-- The write `g[r][c] = v`. -/
def Grid.set (g : Grid) (r c : Int) (v : Int) : Grid :=
  if r < 0 ∨ c < 0 then g else List.set g r.toNat (List.set (g.getD r.toNat []) c.toNat v)

/-- The read `pieces[i]` of a `std::vector<DominoPiece>` at an `int` index. -/
def pieceAt (pieces : List DominoPiece) (i : Int) : DominoPiece :=
  if i < 0 then DominoPiece.new 0 0 else pieces.getD i.toNat (DominoPiece.new 0 0)

/-- The write `pieces[i] = p` of a `std::vector<DominoPiece>` at an `int` index. -/
def setPieceAt (pieces : List DominoPiece) (i : Int) (p : DominoPiece) : List DominoPiece :=
  if i < 0 then pieces else pieces.set i.toNat p

/-- The values `0, 1, ..., GRID_SIZE - 1` of a loop `for (int i = 0; i < GRID_SIZE; ++i)`. -/
def gridIndices : List Int := [0, 1, 2, 3, 4, 5, 6, 7]

/-- All cells in the order of the nested loop `for row ... for col ...`. -/
def allCells : List Position :=
  gridIndices.flatMap fun row => gridIndices.map fun col => ({ row := row, col := col } : Position)

/-! ### `std::set<int>` and `std::map<Position, int>` -/

abbrev IntSet := List Int

/-- Source: `std::set<int>::insert`, on a strictly ascending list. -/
def IntSet.insert (x : Int) : IntSet → IntSet
  | [] => [x]
  | y :: ys => if x < y then x :: y :: ys else if x = y then y :: ys else y :: IntSet.insert x ys

/-- Source: `std::set<int>::count(x) > 0`. -/
def IntSet.contains (s : IntSet) (x : Int) : Bool := s.elem x

abbrev Cache := List (Position × Int)

/-- Source: `std::map::find`. -/
def Cache.find : Cache → Position → Option Int
  | [], _ => none
  | (k, v) :: rest, pos => if k = pos then some v else Cache.find rest pos

/-- Source: `cache[pos] = v` on a `std::map`, kept in ascending key order. -/
def Cache.assign : Cache → Position → Int → Cache
  | [], pos, v => [(pos, v)]
  | (k, w) :: rest, pos, v =>
    if k = pos then (k, v) :: rest
    else if pos.lt k then (pos, v) :: (k, w) :: rest
    else (k, w) :: Cache.assign rest pos v

/-! ### The state of a `DominoGame` object -/

structure GameState where
  grid : Grid
  dominoGrid : Grid
  availableDominoes : List DominoPiece
  placedDominoes : List DominoPiece
  currentDifficulty : Difficulty
  gameCompleted : Bool
  hintsUsed : Int
  solutionGrid : Grid
  solutionDominoes : List DominoPiece
  hasSolution : Bool
  rng : Nat
  constraintCache : Cache
  cacheValid : Bool
deriving DecidableEq

/-- The outcomes of the calls of `std::shuffle`, by call number. -/
structure Shuffles where
  pieces : Nat → List DominoPiece → List DominoPiece
  cands : Nat → List (Position × Orientation) → List (Position × Orientation)
  cells : Nat → List Position → List Position

/-- Every shuffle returns a permutation of its argument. -/
def ValidShuffles (sh : Shuffles) : Prop :=
  (∀ k l, (sh.pieces k l).Perm l) ∧ (∀ k l, (sh.cands k l).Perm l) ∧ (∀ k l, (sh.cells k l).Perm l)

/-- The shuffle that leaves every vector in its order. -/
def idShuffles : Shuffles :=
  { pieces := fun _ l => l, cands := fun _ l => l, cells := fun _ l => l }

/-! ## Piece catalog -/

/-- Source: `std::set<DominoPiece>::emplace`, ordered by `operator<`. -/
def pieceSetInsert (p : DominoPiece) : List DominoPiece → List DominoPiece
  | [] => [p]
  | q :: qs =>
    if p.opLt q then p :: q :: qs
    else if q.opLt p then q :: pieceSetInsert p qs
    else q :: qs

/-- Source: `std::sort` by `operator<` (insertion sort). -/
def sortPieces : List DominoPiece → List DominoPiece
  | [] => []
  | p :: ps => List.orderedInsert (fun a b => a.opLt b = true) p (sortPieces ps)

/-- Source: `DominoGame::generateAvailableDominoes`. -/
def generateAvailableDominoes : List DominoPiece :=
  let uniquePieces : List DominoPiece :=
    ([1, 2, 3, 4, 5] : List Int).foldl
      (fun acc v1 =>
        (([2, 3, 4, 5, 6] : List Int).filter fun v2 => decide (v1 + 1 ≤ v2)).foldl
          (fun acc v2 => pieceSetInsert (DominoPiece.new v1 v2) acc) acc)
      []
  sortPieces uniquePieces

/-- Source: `DominoGame::initializeGame`. -/
def initializeGame (s : GameState) : GameState :=
  { s with
    grid := Grid.fill 0
    dominoGrid := Grid.fill (-1)
    placedDominoes := []
    gameCompleted := false
    hintsUsed := 0
    hasSolution := false
    cacheValid := false
    constraintCache := []
    availableDominoes := generateAvailableDominoes }

/-! ## Placement validator and mutators -/

/-- Source: `DominoGame::getDominoPositions`. -/
def getDominoPositions (domino : DominoPiece) : List Position :=
  match domino.orientation with
  | Orientation.HORIZONTAL =>
    [domino.position, { row := domino.position.row, col := domino.position.col + 1 }]
  | Orientation.VERTICAL =>
    [domino.position, { row := domino.position.row + 1, col := domino.position.col }]

/-- The vector `checkPositions` built by `wouldTouchOtherDominoes` and by
`touchesOtherDominoes`. -/
def checkPositions (position : Position) (orientation : Orientation) : List Position :=
  match orientation with
  | Orientation.HORIZONTAL =>
    ([-1, 0, 1] : List Int).flatMap fun dr =>
      ([-1, 0, 1, 2] : List Int).filterMap fun dc =>
        if dr = 0 ∧ (dc = 0 ∨ dc = 1) then none
        else some { row := position.row + dr, col := position.col + dc }
  | Orientation.VERTICAL =>
    ([-1, 0, 1, 2] : List Int).flatMap fun dr =>
      ([-1, 0, 1] : List Int).filterMap fun dc =>
        if dc = 0 ∧ (dr = 0 ∨ dr = 1) then none
        else some { row := position.row + dr, col := position.col + dc }

/-- The final loop of `wouldTouchOtherDominoes` / `touchesOtherDominoes` over a grid. -/
def anyOccupied (g : Grid) (cells : List Position) : Bool :=
  cells.any fun checkPos =>
    checkPos.isValidForGrid GRID_SIZE && decide (g.get checkPos.row checkPos.col ≠ -1)

/-- Source: `DominoGame::wouldTouchOtherDominoes`. -/
def wouldTouchOtherDominoes (s : GameState) (position : Position) (orientation : Orientation) :
    Bool :=
  anyOccupied s.dominoGrid (checkPositions position orientation)

/-- The set `rowDigits` / `colDigits` that `wouldMaintainRowColumnUniqueness` collects along
the cells of one row or column. -/
def collectDigits (g : Grid) (pieces : List DominoPiece) (cells : List Position) : IntSet :=
  cells.foldl
    (fun digits cell =>
      let dominoId := g.get cell.row cell.col
      if dominoId ≠ -1 ∧ dominoId < (pieces.length : Int) then
        let piece := pieceAt pieces dominoId
        IntSet.insert piece.value2 (IntSet.insert piece.value1 digits)
      else digits)
    []

/-- The cells `(row, 0), ..., (row, GRID_SIZE - 1)`. -/
def rowCells (row : Int) : List Position := gridIndices.map fun c => { row := row, col := c }

/-- The cells `(0, col), ..., (GRID_SIZE - 1, col)`. -/
def colCells (col : Int) : List Position := gridIndices.map fun r => { row := r, col := col }

/-- The set `affectedRows` in ascending order. -/
def affectedRows (position : Position) (orientation : Orientation) : List Int :=
  match orientation with
  | Orientation.HORIZONTAL => [position.row]
  | Orientation.VERTICAL => [position.row, position.row + 1]

/-- The set `affectedCols` in ascending order. -/
def affectedCols (position : Position) (orientation : Orientation) : List Int :=
  match orientation with
  | Orientation.HORIZONTAL => [position.col, position.col + 1]
  | Orientation.VERTICAL => [position.col]

/-- Source: `DominoGame::wouldMaintainRowColumnUniqueness`. -/
def wouldMaintainRowColumnUniqueness (s : GameState) (domino : DominoPiece)
    (position : Position) (orientation : Orientation) : Bool :=
  ((affectedRows position orientation).all fun row =>
      let rowDigits := collectDigits s.dominoGrid s.placedDominoes (rowCells row)
      !(rowDigits.contains domino.value1 || rowDigits.contains domino.value2)) &&
    ((affectedCols position orientation).all fun col =>
      let colDigits := collectDigits s.dominoGrid s.placedDominoes (colCells col)
      !(colDigits.contains domino.value1 || colDigits.contains domino.value2))

/-- Source: `DominoGame::canPlaceDomino`. -/
def canPlaceDomino (s : GameState) (domino : DominoPiece) (position : Position)
    (orientation : Orientation) : Bool :=
  if !position.isValidForGrid GRID_SIZE then false
  else
    let secondPos : Position :=
      match orientation with
      | Orientation.HORIZONTAL => { row := position.row, col := position.col + 1 }
      | Orientation.VERTICAL => { row := position.row + 1, col := position.col }
    if !secondPos.isValidForGrid GRID_SIZE then false
    else if s.dominoGrid.get position.row position.col ≠ -1 ∨
        s.dominoGrid.get secondPos.row secondPos.col ≠ -1 then false
    else if s.grid.get position.row position.col > 0 ∨
        s.grid.get secondPos.row secondPos.col > 0 then false
    else
      wouldMaintainRowColumnUniqueness s domino position orientation &&
        !wouldTouchOtherDominoes s position orientation

/-- The neighbour loop of `calculateConstraintValue`: the set `adjacentDominoes`. -/
def adjacentDominoes (solutionGrid : Grid) (row col : Int) : IntSet :=
  (([-1, 0, 1] : List Int).flatMap fun dr => ([-1, 0, 1] : List Int).map fun dc => (dr, dc)).foldl
    (fun acc d =>
      if d.1 = 0 ∧ d.2 = 0 then acc
      else
        let newRow := row + d.1
        let newCol := col + d.2
        if newRow ≥ 0 ∧ newRow < GRID_SIZE ∧ newCol ≥ 0 ∧ newCol < GRID_SIZE then
          let dominoId := solutionGrid.get newRow newCol
          if dominoId ≠ -1 then IntSet.insert dominoId acc else acc
        else acc)
    []

/-- The part of `calculateConstraintValue` after the cache lookup: the sum over
`adjacentDominoes`. -/
def computeConstraintSum (solutionGrid : Grid) (solutionDominoes : List DominoPiece)
    (row col : Int) : Int :=
  (adjacentDominoes solutionGrid row col).foldl
    (fun sum dominoId =>
      if dominoId < (solutionDominoes.length : Int) then sum + (pieceAt solutionDominoes dominoId).sum
      else sum)
    0

/-- Source: `DominoGame::calculateConstraintValue`.  The function is `const`, but writes the
`mutable` cache, so it returns the state as well. -/
def calculateConstraintValue (s : GameState) (row col : Int) : Int × GameState :=
  let s1 := if !s.cacheValid then { s with constraintCache := [], cacheValid := true } else s
  let pos : Position := { row := row, col := col }
  match s1.constraintCache.find pos with
  | some v => (v, s1)
  | none =>
    let sum := computeConstraintSum s1.solutionGrid s1.solutionDominoes row col
    (sum, { s1 with constraintCache := s1.constraintCache.assign pos sum })

/-- The loop body of `checkRowColumnUniqueness` and `checkRowColumnUniquenessForPlacement`
along the cells of one row or column: `none` when the function returns `false` in the loop,
the digit set otherwise. -/
def scanDigits (g : Grid) (pieces : List DominoPiece) : List Position → IntSet → Option IntSet
  | [], digits => some digits
  | cell :: rest, digits =>
    let dominoId := g.get cell.row cell.col
    if dominoId ≠ -1 ∧ dominoId < (pieces.length : Int) then
      let piece := pieceAt pieces dominoId
      if digits.contains piece.value1 then none
      else
        let digits1 := IntSet.insert piece.value1 digits
        if digits1.contains piece.value2 then none
        else scanDigits g pieces rest (IntSet.insert piece.value2 digits1)
    else scanDigits g pieces rest digits

/-- Source: `DominoGame::checkRowColumnUniqueness`. -/
def checkRowColumnUniqueness (s : GameState) : Bool :=
  (gridIndices.all fun r => (scanDigits s.dominoGrid s.placedDominoes (rowCells r) []).isSome) &&
    (gridIndices.all fun c => (scanDigits s.dominoGrid s.placedDominoes (colCells c) []).isSome)

/-- The nested loop of `isValidSolution` over the cells that remain. -/
def checkClues : List Position → GameState → Bool × GameState
  | [], s => (true, s)
  | cell :: rest, s =>
    if s.grid.get cell.row cell.col > 0 then
      let r := calculateConstraintValue s cell.row cell.col
      if r.1 ≠ s.grid.get cell.row cell.col then (false, r.2)
      else checkClues rest r.2
    else checkClues rest s

/-- Source: `DominoGame::isValidSolution` (`const`, but it fills the `mutable` cache). -/
def isValidSolution (s : GameState) : Bool × GameState :=
  if s.placedDominoes.length ≠ s.availableDominoes.length then (false, s)
  else
    let r := checkClues allCells s
    if r.1 then (checkRowColumnUniqueness r.2, r.2) else (false, r.2)

/-- Source: `DominoGame::placeDomino`. -/
def placeDomino (s : GameState) (domino : DominoPiece) (position : Position)
    (orientation : Orientation) : Bool × GameState :=
  if !position.isValidForGrid GRID_SIZE || !canPlaceDomino s domino position orientation then
    (false, s)
  else if s.placedDominoes.any (fun placed => placed.opEq domino) then (false, s)
  else
    let newDomino : DominoPiece :=
      { domino with position := position, orientation := orientation, isPlaced := true }
    let placed := s.placedDominoes ++ [newDomino]
    let dominoId : Int := (placed.length : Int) - 1
    let dg := (getDominoPositions newDomino).foldl
      (fun g pos => g.set pos.row pos.col dominoId) s.dominoGrid
    let s1 : GameState :=
      { s with placedDominoes := placed, dominoGrid := dg, constraintCache := [],
               cacheValid := false }
    if placed.length = s1.availableDominoes.length then
      let r := isValidSolution s1
      (true, { r.2 with gameCompleted := r.1 })
    else (true, s1)

/-- The loop of `updateDominoIds` over the positions of piece `i`. -/
def updateDominoIds.cells (i : Int) : List Position → Grid → Except String Grid
  | [], tempGrid => Except.ok tempGrid
  | pos :: rest, tempGrid =>
    if tempGrid.get pos.row pos.col ≠ -1 then Except.error "Domino position conflict detected"
    else updateDominoIds.cells i rest (tempGrid.set pos.row pos.col i)

/-- The loop of `updateDominoIds` over `placedDominoes`, from index `i` on. -/
def updateDominoIds.pieces : List DominoPiece → Nat → Grid → Except String Grid
  | [], _, tempGrid => Except.ok tempGrid
  | piece :: rest, i, tempGrid =>
    match updateDominoIds.cells (i : Int) (getDominoPositions piece) tempGrid with
    | Except.error e => Except.error e
    | Except.ok g => updateDominoIds.pieces rest (i + 1) g

/-- Source: `DominoGame::updateDominoIds`. -/
def updateDominoIds (s : GameState) : Except String Unit × GameState :=
  match updateDominoIds.pieces s.placedDominoes 0 (Grid.fill (-1)) with
  | Except.error e => (Except.error e, s)
  | Except.ok tempGrid => (Except.ok (), { s with dominoGrid := tempGrid })

/-- The search loop of `removeDomino`: the index of the first piece one of whose cells is
`position`. -/
def findCovering (position : Position) : List DominoPiece → Nat → Option Nat
  | [], _ => none
  | piece :: rest, i =>
    if (getDominoPositions piece).any (fun pos => decide (pos = position)) then some i
    else findCovering position rest (i + 1)

/-- Source: `DominoGame::removeDomino`. -/
def removeDomino (s : GameState) (position : Position) : Except String Bool × GameState :=
  if !position.isValidForGrid GRID_SIZE then (Except.ok false, s)
  else
    let dominoId := s.dominoGrid.get position.row position.col
    if dominoId = -1 then (Except.ok false, s)
    else
      match findCovering position s.placedDominoes 0 with
      | none => (Except.ok false, s)
      | some i =>
        let positions := getDominoPositions (s.placedDominoes.getD i (DominoPiece.new 0 0))
        let dg := positions.foldl (fun g pos => g.set pos.row pos.col (-1)) s.dominoGrid
        let s1 : GameState :=
          { s with dominoGrid := dg, placedDominoes := s.placedDominoes.eraseIdx i }
        match updateDominoIds s1 with
        | (Except.error e, s2) => (Except.error e, s2)
        | (Except.ok _, s2) =>
          (Except.ok true,
            { s2 with constraintCache := [], cacheValid := false, gameCompleted := false })

/-- Source: `DominoGame::moveDomino`. -/
def moveDomino (s : GameState) (fromPosition toPosition : Position)
    (newOrientation : Orientation) : Except String Bool × GameState :=
  if !fromPosition.isValidForGrid GRID_SIZE || !toPosition.isValidForGrid GRID_SIZE then
    (Except.ok false, s)
  else
    let dominoId := s.dominoGrid.get fromPosition.row fromPosition.col
    if dominoId = -1 ∨ dominoId ≥ (s.placedDominoes.length : Int) then (Except.ok false, s)
    else
      let originalState := pieceAt s.placedDominoes dominoId
      let originalPositions := getDominoPositions originalState
      let dg := originalPositions.foldl (fun g pos => g.set pos.row pos.col (-1)) s.dominoGrid
      -- the body of the `try` block
      let domino : DominoPiece :=
        { originalState with position := toPosition, orientation := newOrientation }
      let s1 : GameState :=
        { s with dominoGrid := dg, placedDominoes := setPieceAt s.placedDominoes dominoId domino }
      let body : Except String (Bool × GameState) :=
        if !canPlaceDomino s1 domino toPosition newOrientation then Except.error "Invalid move"
        else
          let dg2 := (getDominoPositions domino).foldl
            (fun g pos => g.set pos.row pos.col dominoId) s1.dominoGrid
          Except.ok (true, { s1 with dominoGrid := dg2, constraintCache := [], cacheValid := false })
      match body with
      | Except.ok r => (Except.ok r.1, r.2)
      | Except.error _ =>
        -- the handler `catch (...)`
        let restored := originalPositions.foldl
          (fun g pos => g.set pos.row pos.col dominoId) s1.dominoGrid
        (Except.ok false,
          { s1 with placedDominoes := setPieceAt s1.placedDominoes dominoId originalState,
                    dominoGrid := restored })

/-- Source: `DominoGame::isGameCompleted`. -/
def isGameCompleted (s : GameState) : Bool := s.gameCompleted

/-! ## Solution generator, clue grid and difficulty mask -/

/-- Source: `DominoGame::touchesOtherDominoes`. -/
def touchesOtherDominoes (s : GameState) (pos : Position) (orient : Orientation) : Bool :=
  anyOccupied s.solutionGrid (checkPositions pos orient)

/-- Source: `DominoGame::canPlaceDominoInSolution`. -/
def canPlaceDominoInSolution (s : GameState) (_domino : DominoPiece) (pos : Position)
    (orient : Orientation) : Bool :=
  match orient with
  | Orientation.HORIZONTAL =>
    if pos.col + 1 ≥ GRID_SIZE then false
    else
      decide (s.solutionGrid.get pos.row pos.col = -1) &&
        decide (s.solutionGrid.get pos.row (pos.col + 1) = -1) &&
        !touchesOtherDominoes s pos orient
  | Orientation.VERTICAL =>
    if pos.row + 1 ≥ GRID_SIZE then false
    else
      decide (s.solutionGrid.get pos.row pos.col = -1) &&
        decide (s.solutionGrid.get (pos.row + 1) pos.col = -1) &&
        !touchesOtherDominoes s pos orient

/-- Source: `DominoGame::checkRowColumnUniquenessForPlacement`. -/
def checkRowColumnUniquenessForPlacement (s : GameState) (pos : Position) (orient : Orientation)
    (_domino : DominoPiece) : Bool :=
  ((affectedRows pos orient).all fun row =>
      (scanDigits s.solutionGrid s.solutionDominoes (rowCells row) []).isSome) &&
    ((affectedCols pos orient).all fun col =>
      (scanDigits s.solutionGrid s.solutionDominoes (colCells col) []).isSome)

/-- Source: `DominoGame::placeDominoInSolution`.  `resize` pads with a placeholder piece,
which the assignment that follows overwrites at index `dominoId`. -/
def placeDominoInSolution (s : GameState) (domino : DominoPiece) (pos : Position)
    (orient : Orientation) (dominoId : Nat) : GameState :=
  let sg :=
    match orient with
    | Orientation.HORIZONTAL =>
      (s.solutionGrid.set pos.row pos.col dominoId).set pos.row (pos.col + 1) dominoId
    | Orientation.VERTICAL =>
      (s.solutionGrid.set pos.row pos.col dominoId).set (pos.row + 1) pos.col dominoId
  let placedDomino : DominoPiece :=
    { domino with position := pos, orientation := orient, isPlaced := true }
  let resized :=
    if s.solutionDominoes.length ≤ dominoId then
      s.solutionDominoes ++
        List.replicate (dominoId + 1 - s.solutionDominoes.length) (DominoPiece.new 0 0)
    else s.solutionDominoes
  { s with solutionGrid := sg, solutionDominoes := resized.set dominoId placedDomino }

/-- Source: `DominoGame::removeDominoFromSolution`. -/
def removeDominoFromSolution (s : GameState) (pos : Position) (orient : Orientation) :
    GameState :=
  match orient with
  | Orientation.HORIZONTAL =>
    { s with solutionGrid :=
        (s.solutionGrid.set pos.row pos.col (-1)).set pos.row (pos.col + 1) (-1) }
  | Orientation.VERTICAL =>
    { s with solutionGrid :=
        (s.solutionGrid.set pos.row pos.col (-1)).set (pos.row + 1) pos.col (-1) }

/-- Source: `DominoGame::generateConstraintGrid`. -/
def generateConstraintGrid (s : GameState) : GameState :=
  allCells.foldl
    (fun st cell =>
      if st.solutionGrid.get cell.row cell.col = -1 then
        let r := calculateConstraintValue st cell.row cell.col
        { r.2 with grid := r.2.grid.set cell.row cell.col r.1 }
      else st)
    { s with grid := Grid.fill 0 }

/-- The local `cellsToHide` of `applyDifficultySettings`. -/
def cellsToHide (d : Difficulty) : Int :=
  match d with
  | Difficulty.EASY => GRID_SIZE * GRID_SIZE / 6
  | Difficulty.MEDIUM => GRID_SIZE * GRID_SIZE / 4
  | Difficulty.HARD => GRID_SIZE * GRID_SIZE / 3

/-- Source: `DominoGame::applyDifficultySettings`. -/
def applyDifficultySettings (sh : Shuffles) (s : GameState) : GameState :=
  let constraintPositions := allCells.filter fun p => decide (s.grid.get p.row p.col > 0)
  let shuffled := sh.cells s.rng constraintPositions
  let n := min (cellsToHide s.currentDifficulty) (shuffled.length : Int)
  { s with
    grid := (shuffled.take n.toNat).foldl (fun g pos => g.set pos.row pos.col 0) s.grid
    rng := s.rng + 1 }

/-- The vector `positions` of `backtrackSolution` before it is shuffled. -/
def allCandidates : List (Position × Orientation) :=
  allCells.flatMap fun pos => [(pos, Orientation.HORIZONTAL), (pos, Orientation.VERTICAL)]

/-- The loop of `backtrackSolution` over the shuffled candidates; `next` is the recursive
call `backtrackSolution(dominoIndex + 1, dominoes)`. -/
def tryCandidates (next : GameState → Bool × GameState) (domino : DominoPiece)
    (dominoIndex : Nat) : List (Position × Orientation) → GameState → Bool × GameState
  | [], s => (false, s)
  | (pos, orient) :: rest, s =>
    if canPlaceDominoInSolution s domino pos orient then
      let s1 := placeDominoInSolution s domino pos orient dominoIndex
      if checkRowColumnUniquenessForPlacement s1 pos orient domino then
        let r := next s1
        if r.1 then (true, r.2)
        else tryCandidates next domino dominoIndex rest (removeDominoFromSolution r.2 pos orient)
      else tryCandidates next domino dominoIndex rest (removeDominoFromSolution s1 pos orient)
    else tryCandidates next domino dominoIndex rest s

/-- Source: `DominoGame::backtrackSolution`. -/
def backtrackSolution (sh : Shuffles) (dominoes : List DominoPiece) (dominoIndex : Nat)
    (s : GameState) : Bool × GameState :=
  if h : dominoIndex ≥ dominoes.length then (true, { s with hasSolution := true })
  else
    let domino := dominoes.getD dominoIndex (DominoPiece.new 0 0)
    let positions := sh.cands s.rng allCandidates
    tryCandidates (fun s1 => backtrackSolution sh dominoes (dominoIndex + 1) s1) domino
      dominoIndex positions { s with rng := s.rng + 1 }
termination_by dominoes.length - dominoIndex

/-- Source: `DominoGame::generateSolution`. -/
def generateSolution (sh : Shuffles) (s : GameState) : Bool × GameState :=
  let s1 : GameState := { s with solutionGrid := Grid.fill (-1), solutionDominoes := [] }
  let shuffledDominoes := sh.pieces s1.rng s1.availableDominoes
  backtrackSolution sh shuffledDominoes 0 { s1 with rng := s1.rng + 1 }

/-- The inner loop of the scans of `generateSimplifiedPuzzle`: one candidate anchor per entry
of `anchors`, while `dominoIndex < shuffledDominoes.size()`. -/
def scanAnchors (shuffledDominoes : List DominoPiece) (orient : Orientation) :
    List Position → Nat × GameState → Nat × GameState
  | [], acc => acc
  | pos :: rest, (dominoIndex, s) =>
    if dominoIndex < shuffledDominoes.length then
      let domino := shuffledDominoes.getD dominoIndex (DominoPiece.new 0 0)
      if canPlaceDominoInSolution s domino pos orient then
        scanAnchors shuffledDominoes orient rest
          (dominoIndex + 1, placeDominoInSolution s domino pos orient dominoIndex)
      else scanAnchors shuffledDominoes orient rest (dominoIndex, s)
    else (dominoIndex, s)

/-- Anchors of the first scan: `row = 0, 2, 4, 6` and `col = 0, 3, 6`, row by row. -/
def horizontalAnchors : List Position :=
  ([0, 2, 4, 6] : List Int).flatMap fun row =>
    ([0, 3, 6] : List Int).map fun col => ({ row := row, col := col } : Position)

/-- Anchors of the second scan: `col = 0, 3, 6` and `row = 0, 3, 6`, column by column. -/
def verticalAnchors : List Position :=
  ([0, 3, 6] : List Int).flatMap fun col =>
    ([0, 3, 6] : List Int).map fun row => ({ row := row, col := col } : Position)

/-- Source: `DominoGame::generateSimplifiedPuzzle`. -/
def generateSimplifiedPuzzle (sh : Shuffles) (s : GameState) (_difficulty : Difficulty) :
    Bool × GameState :=
  let s0 := initializeGame s
  let shuffledDominoes := sh.pieces s0.rng s0.availableDominoes
  let s1 : GameState :=
    { s0 with rng := s0.rng + 1, solutionGrid := Grid.fill (-1), solutionDominoes := [] }
  let r1 := scanAnchors shuffledDominoes Orientation.HORIZONTAL horizontalAnchors (0, s1)
  let r2 := scanAnchors shuffledDominoes Orientation.VERTICAL verticalAnchors r1
  if r2.1 > 10 then
    (true, applyDifficultySettings sh (generateConstraintGrid { r2.2 with hasSolution := true }))
  else (false, r2.2)

/-- The loop `for (attempt = 0; attempt < MAX_GENERATION_ATTEMPTS; ++attempt)` of
`generateNewGame`, with `n` attempts left. -/
def generateAttempts (sh : Shuffles) : Nat → GameState → Bool × GameState
  | 0, s => (false, s)
  | n + 1, s =>
    let r := generateSolution sh (initializeGame s)
    if r.1 then (true, applyDifficultySettings sh (generateConstraintGrid r.2))
    else generateAttempts sh n r.2

/-- Source: `DominoGame::generateNewGame`. -/
def generateNewGame (sh : Shuffles) (s : GameState) (difficulty : Difficulty) :
    Bool × GameState :=
  let r := generateAttempts sh MAX_GENERATION_ATTEMPTS { s with currentDifficulty := difficulty }
  if r.1 then r else generateSimplifiedPuzzle sh r.2 difficulty

/-- The state of a newly constructed `DominoGame`: empty vectors, then `initializeGame()`.
The constructor leaves `currentDifficulty` unset; the embedding starts it at `EASY`. -/
def newGame : GameState :=
  initializeGame
    { grid := [], dominoGrid := [], availableDominoes := [], placedDominoes := [],
      currentDifficulty := Difficulty.EASY, gameCompleted := false, hintsUsed := 0,
      solutionGrid := [], solutionDominoes := [], hasSolution := false, rng := 0,
      constraintCache := [], cacheValid := false }

/-! ## HintSystem.h

The class holds a reference to the game, which it only reads, so its methods take the game
state as an argument and return the hint together with the new `HintSystem`. -/

/-- The data members of `HintSystem` besides the reference to the game; `rng` counts the draws
made from the generator of the hint system. -/
structure HintSystem where
  maxHintsAllowed : Int
  hintsUsed : Int
  rng : Nat
deriving DecidableEq

/-- The outcomes of `dist(rng)` for `std::uniform_int_distribution<size_t> dist(0, hi)`, by
draw number. -/
structure Picks where
  pick : Nat → Nat → Nat

/-- Every draw lies in the range of its distribution. -/
def ValidPicks (pk : Picks) : Prop := ∀ k hi, pk.pick k hi ≤ hi

/-- The draws that always return 0. -/
def zeroPicks : Picks := { pick := fun _ _ => 0 }

/-- Source: the constructor `HintSystem(DominoGame& gameRef, int maxHints)`. -/
def HintSystem.new (maxHints : Int) : HintSystem :=
  { maxHintsAllowed := maxHints, hintsUsed := 0, rng := 0 }

/-- The constructor with its default argument `maxHints = 3`. -/
def HintSystem.default : HintSystem := HintSystem.new 3

/-- Source: `HintSystem::getUnplacedDominoes`. The `std::set` is built by inserting the placed
pieces in order; `find` returns an element equivalent to its argument under `operator<`. -/
def getUnplacedDominoes (s : GameState) : List DominoPiece :=
  let placedSet := s.placedDominoes.foldl (fun acc p => pieceSetInsert p acc) []
  s.availableDominoes.filter fun domino =>
    !(placedSet.any fun e => !e.opLt domino && !domino.opLt e)

/-- The neighbour loop of `calculateConstraintValueHelper`: the set `adjacentDominoes`. -/
def helperAdjacentDominoes (dominoGrid : Grid) (size : Int) (row col : Int) : IntSet :=
  (([-1, 0, 1] : List Int).flatMap fun dr => ([-1, 0, 1] : List Int).map fun dc => (dr, dc)).foldl
    (fun acc d =>
      if d.1 = 0 ∧ d.2 = 0 then acc
      else
        let newRow := row + d.1
        let newCol := col + d.2
        if newRow ≥ 0 ∧ newRow < GRID_SIZE ∧ newCol ≥ 0 ∧ newCol < GRID_SIZE then
          let dominoId := dominoGrid.get newRow newCol
          if dominoId ≠ -1 ∧ dominoId < size then IntSet.insert dominoId acc else acc
        else acc)
    []

/-- Source: `HintSystem::calculateConstraintValueHelper`. -/
def calculateConstraintValueHelper (s : GameState) (row col : Int) : Int :=
  (helperAdjacentDominoes s.dominoGrid (s.placedDominoes.length : Int) row col).foldl
    (fun sum dominoId =>
      if dominoId < (s.placedDominoes.length : Int) then
        sum + (pieceAt s.placedDominoes dominoId).sum
      else sum)
    0

/-- Source: `HintSystem::getHintsRemaining`. -/
def HintSystem.getHintsRemaining (h : HintSystem) : Int := h.maxHintsAllowed - h.hintsUsed

/-- Source: `HintSystem::canProvideHint`. -/
def HintSystem.canProvideHint (h : HintSystem) (s : GameState) : Bool :=
  decide (h.hintsUsed < h.maxHintsAllowed) && !s.gameCompleted

/-- Source: `HintSystem::reset`. -/
def HintSystem.reset (h : HintSystem) : HintSystem := { h with hintsUsed := 0 }

/-- Source: `HintSystem::getHintsUsed`. -/
def HintSystem.getHintsUsed (h : HintSystem) : Int := h.hintsUsed

/-- Source: `HintSystem::setHintsUsed`. -/
def HintSystem.setHintsUsed (h : HintSystem) (used : Int) : HintSystem :=
  { h with hintsUsed := max 0 (min used h.maxHintsAllowed) }

/-- Source: `struct HintSystem::DominoHint`. -/
structure DominoHint where
  domino : DominoPiece
  position : Position
  orientation : Orientation
  isValid : Bool
deriving DecidableEq

/-- Source: the default constructor `DominoHint()`. -/
def DominoHint.default : DominoHint :=
  { domino := DominoPiece.new 1 2, position := { row := -1, col := -1 },
    orientation := Orientation.HORIZONTAL, isValid := false }

/-- The entries one piece adds to `validPlacements`: all cells in row-major order, horizontal
before vertical. -/
def placementsOf (s : GameState) (domino : DominoPiece) :
    List (DominoPiece × Position × Orientation) :=
  allCells.flatMap fun pos =>
    (if canPlaceDomino s domino pos Orientation.HORIZONTAL then
        [(domino, pos, Orientation.HORIZONTAL)] else []) ++
      (if canPlaceDomino s domino pos Orientation.VERTICAL then
        [(domino, pos, Orientation.VERTICAL)] else [])

/-- The loop of `getNextDominoHint` over `unplaced`, left at the first piece that has added a
placement. -/
def firstPlacements (s : GameState) :
    List DominoPiece → List (DominoPiece × Position × Orientation)
  | [] => []
  | domino :: rest =>
    if !(placementsOf s domino).isEmpty then placementsOf s domino else firstPlacements s rest

/-- Source: `HintSystem::getNextDominoHint`. -/
def getNextDominoHint (pk : Picks) (s : GameState) (h : HintSystem) : DominoHint × HintSystem :=
  if !h.canProvideHint s then (DominoHint.default, h)
  else
    let unplaced := getUnplacedDominoes s
    if unplaced.isEmpty then (DominoHint.default, h)
    else
      let validPlacements := firstPlacements s unplaced
      if !validPlacements.isEmpty then
        let selection := validPlacements.getD (pk.pick h.rng (validPlacements.length - 1))
          (DominoPiece.new 1 2, { row := -1, col := -1 }, Orientation.HORIZONTAL)
        ({ domino := selection.1, position := selection.2.1, orientation := selection.2.2,
           isValid := true },
          { h with hintsUsed := h.hintsUsed + 1, rng := h.rng + 1 })
      else (DominoHint.default, h)

/-- Source: `struct HintSystem::ConstraintHint`. -/
structure ConstraintHint where
  position : Position
  expectedValue : Int
  currentSum : Int
  isValid : Bool
deriving DecidableEq

/-- Source: the default constructor `ConstraintHint()`. -/
def ConstraintHint.default : ConstraintHint :=
  { position := { row := -1, col := -1 }, expectedValue := 0, currentSum := 0, isValid := false }

/-- Source: `HintSystem::getConstraintHint`. -/
def getConstraintHint (s : GameState) (h : HintSystem) : ConstraintHint × HintSystem :=
  if !h.canProvideHint s then (ConstraintHint.default, h)
  else
    match allCells.find? (fun pos =>
        decide (s.grid.get pos.row pos.col > 0) &&
          decide (calculateConstraintValueHelper s pos.row pos.col ≠
            s.grid.get pos.row pos.col)) with
    | some pos =>
      ({ position := pos, expectedValue := s.grid.get pos.row pos.col,
         currentSum := calculateConstraintValueHelper s pos.row pos.col, isValid := true },
        { h with hintsUsed := h.hintsUsed + 1 })
    | none => (ConstraintHint.default, h)

/-- Source: `struct HintSystem::PositionHint`. -/
structure PositionHint where
  position : Position
  constraintValue : Int
  isValid : Bool
deriving DecidableEq

/-- Source: the default constructor `PositionHint()`. -/
def PositionHint.default : PositionHint :=
  { position := { row := -1, col := -1 }, constraintValue := 0, isValid := false }

/-- The search loop of `getMostConstrainedHint`: `(bestPos, maxConstraint)` after all cells. -/
def mostConstrained (s : GameState) : Position × Int :=
  allCells.foldl
    (fun best pos =>
      if s.grid.get pos.row pos.col > best.2 ∧ s.dominoGrid.get pos.row pos.col = -1 then
        (pos, s.grid.get pos.row pos.col)
      else best)
    (({ row := -1, col := -1 } : Position), -1)

/-- Source: `HintSystem::getMostConstrainedHint`. -/
def getMostConstrainedHint (s : GameState) (h : HintSystem) : PositionHint × HintSystem :=
  if !h.canProvideHint s then (PositionHint.default, h)
  else
    let best := mostConstrained s
    if best.2 > 0 then
      ({ position := best.1, constraintValue := best.2, isValid := true },
        { h with hintsUsed := h.hintsUsed + 1 })
    else (PositionHint.default, h)

/-- Source: `enum HintSystem::RandomHint::HintType`. -/
inductive HintType where
  | DOMINO_PLACEMENT
  | CONSTRAINT_MISMATCH
  | MOST_CONSTRAINED
deriving DecidableEq

/-- Source: `struct HintSystem::RandomHint`. -/
structure RandomHint where
  type : HintType
  dominoHint : DominoHint
  constraintHint : ConstraintHint
  positionHint : PositionHint
  isValid : Bool
deriving DecidableEq

/-- Source: the default constructor `RandomHint()`. -/
def RandomHint.default : RandomHint :=
  { type := HintType.DOMINO_PLACEMENT, dominoHint := DominoHint.default,
    constraintHint := ConstraintHint.default, positionHint := PositionHint.default,
    isValid := false }

/-- Source: `HintSystem::getRandomHint`. -/
def getRandomHint (pk : Picks) (s : GameState) (h : HintSystem) : RandomHint × HintSystem :=
  if !h.canProvideHint s then (RandomHint.default, h)
  else
    let r1 := getNextDominoHint pk s h
    if r1.1.isValid then
      ({ RandomHint.default with
          dominoHint := r1.1, type := HintType.DOMINO_PLACEMENT, isValid := true }, r1.2)
    else
      let r2 := getConstraintHint s r1.2
      if r2.1.isValid then
        ({ RandomHint.default with
            dominoHint := r1.1, constraintHint := r2.1, type := HintType.CONSTRAINT_MISMATCH,
            isValid := true }, r2.2)
      else
        let r3 := getMostConstrainedHint s r2.2
        if r3.1.isValid then
          ({ RandomHint.default with
              dominoHint := r1.1, constraintHint := r2.1, positionHint := r3.1,
              type := HintType.MOST_CONSTRAINED, isValid := true }, r3.2)
        else (RandomHint.default, r3.2)

end DominoGameH

/-!
## The engine variant of `src/DominoPiece.h`

`DominoPiece.h` declares its own `DominoPiece` (a class with a `uniqueId` drawn from the static
counter `nextId`) and its own `DominoGame`.  `Position`, `Orientation` and `Difficulty` are
declared there with the text of `DominoGame.h`, so the embedding shares them.  The static
counter is threaded explicitly: a function that constructs pieces takes the counter and
returns its new value.
-/

namespace DominoPieceH

open DominoGameH (Position Orientation Difficulty Grid Cache)

structure DominoPiece where
  value1 : Int
  value2 : Int
  sum : Int
  position : Position
  orientation : Orientation
  isPlaced : Bool
  uniqueId : Int
deriving DecidableEq, Repr

/-- Source: the constructor `DominoPiece(int v1, int v2)`, which takes `uniqueId` from
`nextId++`. -/
def DominoPiece.new (v1 v2 : Int) (nextId : Int) : DominoPiece × Int :=
  ({ value1 := v1, value2 := v2, sum := v1 + v2, position := ⟨-1, -1⟩,
     orientation := Orientation.HORIZONTAL, isPlaced := false, uniqueId := nextId },
   nextId + 1)

/-- Source: `DominoPiece::operator==`. -/
def DominoPiece.opEq (a b : DominoPiece) : Bool :=
  (decide (a.value1 = b.value1) && decide (a.value2 = b.value2)) ||
    (decide (a.value1 = b.value2) && decide (a.value2 = b.value1))

/-- Source: `DominoPiece::getCanonicalForm`. -/
def DominoPiece.getCanonicalForm (a : DominoPiece) : Int × Int :=
  let smaller := if a.value1 < a.value2 then a.value1 else a.value2
  let larger := if a.value1 < a.value2 then a.value2 else a.value1
  (smaller, larger)

/-- Source: `DominoPiece::operator<`. -/
def DominoPiece.opLt (a b : DominoPiece) : Bool :=
  let thisCanon := a.getCanonicalForm
  let otherCanon := b.getCanonicalForm
  if thisCanon.1 ≠ otherCanon.1 then decide (thisCanon.1 < otherCanon.1)
  else decide (thisCanon.2 < otherCanon.2)

/-- Source: `std::set<DominoPiece>::emplace` of an already constructed piece, ordered by
`operator<`. -/
def pieceSetInsert (p : DominoPiece) : List DominoPiece → List DominoPiece
  | [] => [p]
  | q :: qs =>
    if p.opLt q then p :: q :: qs
    else if q.opLt p then q :: pieceSetInsert p qs
    else q :: qs

/-- Source: `std::sort` by `operator<` (insertion sort). -/
def sortPieces : List DominoPiece → List DominoPiece
  | [] => []
  | p :: ps => List.orderedInsert (fun a b => a.opLt b = true) p (sortPieces ps)

/-- The values `lo, lo + 1, ..., hi` of a loop `for (int v = lo; v <= hi; ++v)`. -/
def intRange (lo hi : Int) : List Int :=
  (List.range (hi + 1 - lo).toNat).map fun (k : Nat) => lo + (k : Int)

/-- Source: `DominoPiece::createStandardSet`. -/
def createStandardSet (nextId : Int) : List DominoPiece × Int :=
  let r := (intRange 1 5).foldl
    (fun acc v1 =>
      (intRange (v1 + 1) 6).foldl
        (fun acc v2 =>
          let c := DominoPiece.new v1 v2 acc.2
          (pieceSetInsert c.1 acc.1, c.2))
        acc)
    (([] : List DominoPiece), nextId)
  (sortPieces r.1, r.2)

/-- Source: `DominoPiece::createExtendedSet`. -/
def createExtendedSet (nextId : Int) : List DominoPiece × Int :=
  let r := (intRange 12 56).foldl
    (fun acc sum =>
      (intRange 6 28).foldl
        (fun acc v1 =>
          let v2 := sum - v1
          if v2 ≥ v1 ∧ v2 ≤ 28 then
            let c := DominoPiece.new v1 v2 acc.2
            (pieceSetInsert c.1 acc.1, c.2)
          else acc)
        acc)
    (([] : List DominoPiece), nextId)
  (sortPieces r.1, r.2)

def MAX_HINTS_ALLOWED : Int := 3

/-- The state of a `DominoGame` object of `DominoPiece.h`, with the static `nextId` of
`DominoPiece`. -/
structure GameState where
  grid : Grid
  dominoGrid : Grid
  availableDominoes : List DominoPiece
  placedDominoes : List DominoPiece
  currentDifficulty : Difficulty
  gameCompleted : Bool
  hintsUsed : Int
  movesCount : Int
  solutionGrid : Grid
  solutionDominoes : List DominoPiece
  hasSolution : Bool
  rng : Nat
  constraintCache : Cache
  cacheValid : Bool
  useExtendedSet : Bool
  nextId : Int
deriving DecidableEq

/-- Source: `DominoGame::generateAvailableDominoes` of `DominoPiece.h`. -/
def generateAvailableDominoes (s : GameState) : GameState :=
  if s.useExtendedSet then
    let r := createExtendedSet s.nextId
    { s with availableDominoes := r.1, nextId := r.2 }
  else
    let r := createStandardSet s.nextId
    { s with availableDominoes := r.1, nextId := r.2 }

/-- Source: `DominoGame::initializeGame` of `DominoPiece.h`. -/
def initializeGame (s : GameState) : GameState :=
  generateAvailableDominoes
    { s with
      grid := DominoGameH.Grid.fill 0
      dominoGrid := DominoGameH.Grid.fill (-1)
      placedDominoes := []
      gameCompleted := false
      hintsUsed := 0
      movesCount := 0
      hasSolution := false
      cacheValid := false
      constraintCache := [] }

/-- Source: `DominoGame::useHint`. -/
def useHint (s : GameState) : Bool × GameState :=
  if s.hintsUsed ≥ MAX_HINTS_ALLOWED then (false, s)
  else (true, { s with hintsUsed := s.hintsUsed + 1 })

/-- Source: `DominoGame::canUseHint`. -/
def canUseHint (s : GameState) : Bool := decide (s.hintsUsed < MAX_HINTS_ALLOWED)

/-- Source: `DominoGame::getHintsRemaining`. -/
def getHintsRemaining (s : GameState) : Int := MAX_HINTS_ALLOWED - s.hintsUsed

/-- The piece with its `uniqueId` moved by `k`; nothing else of a piece depends on the counter
it was constructed from. -/
def shiftId (k : Int) (p : DominoPiece) : DominoPiece := { p with uniqueId := p.uniqueId + k }

/-- The pip pair of a piece. -/
def pips (p : DominoPiece) : Int × Int := (p.value1, p.value2)

/-- The piece with its two pip values exchanged. -/
def swapValues (p : DominoPiece) : DominoPiece :=
  { p with value1 := p.value2, value2 := p.value1 }

/-! ### The placement validator of `DominoPiece.h` -/

/-- The read `pieces[i]` of a `std::vector<DominoPiece>` at an `int` index. -/
def pieceAt (pieces : List DominoPiece) (i : Int) : DominoPiece :=
  if i < 0 then (DominoPiece.new 0 0 0).1 else pieces.getD i.toNat (DominoPiece.new 0 0 0).1

/-- Source: `DominoGame::wouldTouchOtherDominoes` of `DominoPiece.h`. -/
def wouldTouchOtherDominoes (s : GameState) (position : Position) (orientation : Orientation) :
    Bool :=
  DominoGameH.anyOccupied s.dominoGrid (DominoGameH.checkPositions position orientation)

/-- The loop of `wouldMaintainRowColumnUniqueness` of `DominoPiece.h` along the cells of one
row or column: `none` when the function returns `false` inside the loop (an `insert` that
finds its value present), the digit set otherwise. -/
def scanLine (g : Grid) (pieces : List DominoPiece) :
    List Position → DominoGameH.IntSet → Option DominoGameH.IntSet
  | [], digits => some digits
  | cell :: rest, digits =>
    let dominoId := g.get cell.row cell.col
    if dominoId ≠ -1 ∧ dominoId < (pieces.length : Int) then
      let piece := pieceAt pieces dominoId
      if digits.contains piece.value1 then none
      else
        let digits1 := DominoGameH.IntSet.insert piece.value1 digits
        if digits1.contains piece.value2 then none
        else scanLine g pieces rest (DominoGameH.IntSet.insert piece.value2 digits1)
    else scanLine g pieces rest digits

/-- One round of a loop of `wouldMaintainRowColumnUniqueness`: the scan of the line, then the
test of the values of the new piece. -/
def lineAccepts (g : Grid) (pieces : List DominoPiece) (cells : List Position)
    (domino : DominoPiece) : Bool :=
  match scanLine g pieces cells [] with
  | none => false
  | some digits => !(digits.contains domino.value1 || digits.contains domino.value2)

/-- Source: `DominoGame::wouldMaintainRowColumnUniqueness` of `DominoPiece.h`. -/
def wouldMaintainRowColumnUniqueness (s : GameState) (domino : DominoPiece)
    (position : Position) (orientation : Orientation) : Bool :=
  ((DominoGameH.affectedRows position orientation).all fun row =>
      lineAccepts s.dominoGrid s.placedDominoes (DominoGameH.rowCells row) domino) &&
    ((DominoGameH.affectedCols position orientation).all fun col =>
      lineAccepts s.dominoGrid s.placedDominoes (DominoGameH.colCells col) domino)

/-- Source: `DominoGame::canPlaceDomino` of `DominoPiece.h`. -/
def canPlaceDomino (s : GameState) (domino : DominoPiece) (position : Position)
    (orientation : Orientation) : Bool :=
  if !position.isValidForGrid DominoGameH.GRID_SIZE then false
  else
    let secondPos : Position :=
      match orientation with
      | Orientation.HORIZONTAL => { row := position.row, col := position.col + 1 }
      | Orientation.VERTICAL => { row := position.row + 1, col := position.col }
    if !secondPos.isValidForGrid DominoGameH.GRID_SIZE then false
    else if s.dominoGrid.get position.row position.col ≠ -1 ∨
        s.dominoGrid.get secondPos.row secondPos.col ≠ -1 then false
    else if s.grid.get position.row position.col > 0 ∨
        s.grid.get secondPos.row secondPos.col > 0 then false
    else
      wouldMaintainRowColumnUniqueness s domino position orientation &&
        !wouldTouchOtherDominoes s position orientation

/-! ### Vocabulary for the comparison with `DominoGame.h` -/

/-- The piece of `DominoGame.h` as a piece of `DominoPiece.h` with the given `uniqueId`. -/
def ofGamePiece (p : DominoGameH.DominoPiece) (uniqueId : Int) : DominoPiece :=
  { value1 := p.value1, value2 := p.value2, sum := p.sum, position := p.position,
    orientation := p.orientation, isPlaced := p.isPlaced, uniqueId := uniqueId }

/-- The game of `DominoPiece.h` with the clue grid, the id grid (tiling) and the placed pieces
of a game of `DominoGame.h`; the catalog is the standard set, whose construction uses the ids
0 to 14, and the placed pieces carry the ids that follow. -/
def ofGame (s : DominoGameH.GameState) : GameState :=
  { grid := s.grid, dominoGrid := s.dominoGrid,
    availableDominoes := (createStandardSet 0).1,
    placedDominoes := s.placedDominoes.enum.map fun e => ofGamePiece e.2 (15 + (e.1 : Int)),
    currentDifficulty := s.currentDifficulty, gameCompleted := s.gameCompleted,
    hintsUsed := s.hintsUsed, movesCount := (s.placedDominoes.length : Int),
    solutionGrid := s.solutionGrid, solutionDominoes := [], hasSolution := false,
    rng := s.rng, constraintCache := [], cacheValid := false, useExtendedSet := false,
    nextId := 15 + (s.placedDominoes.length : Int) }

end DominoPieceH

/-!
## The engine variant of `src/GameGrid.h`

`GameGrid.h` declares a third `DominoGame`: the board is a square of `gridSize` cells per side
(1 to 20, fixed by the constructor), its piece class is called `Domino`, and a placement is
refused when the sum of the piece is in the set `usedSums`.  `Position`, `Orientation` and
`Difficulty` are declared with the text of `DominoGame.h`, so the embedding shares them, and
so are the loops that build `checkPositions`, `affectedRows` and `affectedCols`.

The embedding covers the player side of the class: `canPlaceDomino` with its two helpers,
`placeDomino`, `removeDomino` with `updateDominoIds`, and `isValidSolution` with
`calculateConstraintValue` and `checkRowColumnUniqueness`.  `std::unordered_set<int>` is an
`IntSet` and `std::unordered_map<Position, int>` a `Cache`; the order of their elements is
not observed by any of these functions.
-/

namespace GameGridH

open DominoGameH (Position Orientation Difficulty Grid IntSet Cache)

/-- Source: `Position::isValid`. -/
def Position.isValid (p : Position) : Bool := decide (p.row ≥ 0) && decide (p.col ≥ 0)

structure Domino where
  value1 : Int
  value2 : Int
  sum : Int
  position : Position
  orientation : Orientation
  isPlaced : Bool
  uniqueId : Int
deriving DecidableEq, Repr

/-- Source: the constructor `Domino(int v1, int v2)`; `uniqueId` is the value that the static
counter `nextId` has at the call. -/
def Domino.new (v1 v2 : Int) (uniqueId : Int) : Domino :=
  { value1 := v1, value2 := v2, sum := v1 + v2, position := ⟨-1, -1⟩,
    orientation := Orientation.HORIZONTAL, isPlaced := false, uniqueId := uniqueId }

/-- Source: `Domino::getOccupiedPositions`. -/
def Domino.getOccupiedPositions (d : Domino) : List Position :=
  if d.isPlaced && Position.isValid d.position then
    match d.orientation with
    | Orientation.HORIZONTAL => [d.position, { row := d.position.row, col := d.position.col + 1 }]
    | Orientation.VERTICAL => [d.position, { row := d.position.row + 1, col := d.position.col }]
  else [d.position]

/-- Source: `Domino::place`. -/
def Domino.place (d : Domino) (pos : Position) (orient : Orientation) : Domino :=
  { d with position := pos, orientation := orient, isPlaced := true }

/-- The read `pieces[i]` of a `std::vector<Domino>` at an `int` index. -/
def dominoAt (pieces : List Domino) (i : Int) : Domino :=
  if i < 0 then Domino.new 0 0 0 else pieces.getD i.toNat (Domino.new 0 0 0)

/-- The vector `std::vector<std::vector<int>>(gridSize, std::vector<int>(gridSize, v))`. -/
def gridOf (gridSize : Int) (v : Int) : Grid :=
  List.replicate gridSize.toNat (List.replicate gridSize.toNat v)

/-- The values `0, 1, ..., gridSize - 1` of a loop `for (int i = 0; i < gridSize; ++i)`. -/
def gridIndices (gridSize : Int) : List Int :=
  (List.range gridSize.toNat).map fun (k : Nat) => (k : Int)

/-- All cells in the order of the nested loop `for row ... for col ...`. -/
def allCells (gridSize : Int) : List Position :=
  (gridIndices gridSize).flatMap fun row =>
    (gridIndices gridSize).map fun col => ({ row := row, col := col } : Position)

/-- The cells `(row, 0), ..., (row, gridSize - 1)`. -/
def rowCells (gridSize : Int) (row : Int) : List Position :=
  (gridIndices gridSize).map fun c => { row := row, col := c }

/-- The cells `(0, col), ..., (gridSize - 1, col)`. -/
def colCells (gridSize : Int) (col : Int) : List Position :=
  (gridIndices gridSize).map fun r => { row := r, col := col }

/-- Source: `std::unordered_set<int>::erase`. -/
def eraseSum (usedSums : IntSet) (x : Int) : IntSet := usedSums.filter fun y => decide (y ≠ x)

/-! ### The state of a `DominoGame` object -/

structure GameState where
  gridSize : Int
  grid : Grid
  dominoGrid : Grid
  availableDominoes : List Domino
  placedDominoes : List Domino
  usedSums : IntSet
  currentDifficulty : Difficulty
  gameCompleted : Bool
  hintsUsed : Int
  movesCount : Int
  useExtendedSet : Bool
  solutionGrid : Grid
  solutionDominoes : List Domino
  hasSolution : Bool
  rng : Nat
  constraintCache : Cache
  cacheValid : Bool
deriving DecidableEq

/-! ### Placement checks -/

/-- Source: `DominoGame::wouldTouchOtherDominoes`. -/
def wouldTouchOtherDominoes (s : GameState) (position : Position) (orientation : Orientation) :
    Bool :=
  (DominoGameH.checkPositions position orientation).any fun checkPos =>
    checkPos.isValidForGrid s.gridSize &&
      decide (s.dominoGrid.get checkPos.row checkPos.col ≠ -1)

/-- The loop of `wouldMaintainRowColumnUniqueness` along the cells of one row or column:
`none` when the function returns `false` inside the loop, the digit set otherwise. -/
def scanLine (g : Grid) (pieces : List Domino) : List Position → IntSet → Option IntSet
  | [], digits => some digits
  | cell :: rest, digits =>
    let dominoId := g.get cell.row cell.col
    if dominoId ≠ -1 then
      let piece := dominoAt pieces dominoId
      if digits.contains piece.value1 then none
      else
        let digits1 := IntSet.insert piece.value1 digits
        if digits1.contains piece.value2 then none
        else scanLine g pieces rest (IntSet.insert piece.value2 digits1)
    else scanLine g pieces rest digits

/-- One round of a loop of `wouldMaintainRowColumnUniqueness`: the scan of the line, then the
test of the values of the new piece. -/
def lineAccepts (g : Grid) (pieces : List Domino) (cells : List Position) (domino : Domino) :
    Bool :=
  match scanLine g pieces cells [] with
  | none => false
  | some digits => !(digits.contains domino.value1 || digits.contains domino.value2)

/-- Source: `DominoGame::wouldMaintainRowColumnUniqueness`. -/
def wouldMaintainRowColumnUniqueness (s : GameState) (domino : Domino) (position : Position)
    (orientation : Orientation) : Bool :=
  ((DominoGameH.affectedRows position orientation).all fun row =>
      lineAccepts s.dominoGrid s.placedDominoes (rowCells s.gridSize row) domino) &&
    ((DominoGameH.affectedCols position orientation).all fun col =>
      lineAccepts s.dominoGrid s.placedDominoes (colCells s.gridSize col) domino)

/-- Source: `DominoGame::canPlaceDomino`. -/
def canPlaceDomino (s : GameState) (domino : Domino) (position : Position)
    (orientation : Orientation) : Bool :=
  if !position.isValidForGrid s.gridSize then false
  else
    let secondPos : Position :=
      match orientation with
      | Orientation.HORIZONTAL => { row := position.row, col := position.col + 1 }
      | Orientation.VERTICAL => { row := position.row + 1, col := position.col }
    if !secondPos.isValidForGrid s.gridSize then false
    else if s.dominoGrid.get position.row position.col ≠ -1 ∨
        s.dominoGrid.get secondPos.row secondPos.col ≠ -1 then false
    else if s.usedSums.contains domino.sum then false
    else
      wouldMaintainRowColumnUniqueness s domino position orientation &&
        !wouldTouchOtherDominoes s position orientation

/-! ### Clue values and the completion check -/

/-- The neighbour loop of `calculateConstraintValue`: the set `adjacentDominoes`. -/
def adjacentDominoes (gridSize : Int) (solutionGrid : Grid) (row col : Int) : IntSet :=
  (([-1, 0, 1] : List Int).flatMap fun dr => ([-1, 0, 1] : List Int).map fun dc => (dr, dc)).foldl
    (fun acc d =>
      if d.1 = 0 ∧ d.2 = 0 then acc
      else
        let newRow := row + d.1
        let newCol := col + d.2
        if newRow ≥ 0 ∧ newRow < gridSize ∧ newCol ≥ 0 ∧ newCol < gridSize then
          let dominoId := solutionGrid.get newRow newCol
          if dominoId ≠ -1 then IntSet.insert dominoId acc else acc
        else acc)
    []

/-- Source: `DominoGame::calculateConstraintValue`.  The function is `const`, but writes the
`mutable` cache, so it returns the state as well. -/
def calculateConstraintValue (s : GameState) (row col : Int) : Int × GameState :=
  let s1 := if !s.cacheValid then { s with constraintCache := [], cacheValid := true } else s
  let pos : Position := { row := row, col := col }
  match s1.constraintCache.find pos with
  | some v => (v, s1)
  | none =>
    let sum := (adjacentDominoes s1.gridSize s1.solutionGrid row col).foldl
      (fun sum dominoId =>
        if dominoId < (s1.solutionDominoes.length : Int) then
          sum + (dominoAt s1.solutionDominoes dominoId).sum
        else sum)
      0
    (sum, { s1 with constraintCache := s1.constraintCache.assign pos sum })

/-- The loop of `checkRowColumnUniqueness` along the cells of one row or column, which counts
a piece at its first cell only: `none` when the function returns `false` inside the loop. -/
def scanFirstCells (g : Grid) (pieces : List Domino) : List Position → IntSet → Option IntSet
  | [], digits => some digits
  | cell :: rest, digits =>
    let dominoId := g.get cell.row cell.col
    if dominoId ≠ -1 ∧ dominoId < (pieces.length : Int) then
      let domino := dominoAt pieces dominoId
      if cell.row = domino.position.row ∧ cell.col = domino.position.col then
        if digits.contains domino.value1 then none
        else
          let digits1 := IntSet.insert domino.value1 digits
          if digits1.contains domino.value2 then none
          else scanFirstCells g pieces rest (IntSet.insert domino.value2 digits1)
      else scanFirstCells g pieces rest digits
    else scanFirstCells g pieces rest digits

/-- Source: `DominoGame::checkRowColumnUniqueness`. -/
def checkRowColumnUniqueness (s : GameState) : Bool :=
  ((gridIndices s.gridSize).all fun r =>
      (scanFirstCells s.dominoGrid s.placedDominoes (rowCells s.gridSize r) []).isSome) &&
    ((gridIndices s.gridSize).all fun c =>
      (scanFirstCells s.dominoGrid s.placedDominoes (colCells s.gridSize c) []).isSome)

/-- The nested loop of `isValidSolution` over the cells that remain. -/
def checkClues : List Position → GameState → Bool × GameState
  | [], s => (true, s)
  | cell :: rest, s =>
    if s.grid.get cell.row cell.col > 0 then
      let r := calculateConstraintValue s cell.row cell.col
      if r.1 ≠ s.grid.get cell.row cell.col then (false, r.2)
      else checkClues rest r.2
    else checkClues rest s

/-- Source: `DominoGame::isValidSolution` (`const`, but it fills the `mutable` cache). -/
def isValidSolution (s : GameState) : Bool × GameState :=
  if s.placedDominoes.length ≠ s.availableDominoes.length then (false, s)
  else
    let r := checkClues (allCells s.gridSize) s
    if r.1 then (checkRowColumnUniqueness r.2, r.2) else (false, r.2)

/-! ### The mutators -/

/-- The state of `placeDomino` when it reaches the completion check: the piece is stored, its
two cells are written and the cache is cleared. -/
def placedState (s : GameState) (domino : Domino) (position : Position)
    (orientation : Orientation) : GameState :=
  let newDomino := domino.place position orientation
  let placed := s.placedDominoes ++ [newDomino]
  let dominoId : Int := (placed.length : Int) - 1
  let positions := newDomino.getOccupiedPositions
  { s with
    placedDominoes := placed,
    movesCount := s.movesCount + 1,
    usedSums := IntSet.insert newDomino.sum s.usedSums,
    dominoGrid := positions.foldl (fun g pos => g.set pos.row pos.col dominoId) s.dominoGrid,
    grid := positions.foldl (fun g pos => g.set pos.row pos.col newDomino.sum) s.grid,
    constraintCache := [],
    cacheValid := false }

/-- Source: `DominoGame::placeDomino`. -/
def placeDomino (s : GameState) (domino : Domino) (position : Position)
    (orientation : Orientation) : Bool × GameState :=
  if !position.isValidForGrid s.gridSize || !canPlaceDomino s domino position orientation then
    (false, s)
  else if s.usedSums.contains domino.sum then (false, s)
  else
    let s1 := placedState s domino position orientation
    if s1.placedDominoes.length = s1.availableDominoes.length then
      let r := isValidSolution s1
      (true, { r.2 with gameCompleted := r.1 })
    else (true, s1)

/-- The loop of `updateDominoIds` over `placedDominoes`, from index `i` on. -/
def updateDominoIds.pieces : List Domino → Nat → Grid → Grid
  | [], _, newDominoGrid => newDominoGrid
  | piece :: rest, i, newDominoGrid =>
    updateDominoIds.pieces rest (i + 1)
      (piece.getOccupiedPositions.foldl (fun g pos => g.set pos.row pos.col (i : Int))
        newDominoGrid)

/-- Source: `DominoGame::updateDominoIds`. -/
def updateDominoIds (s : GameState) : GameState :=
  { s with dominoGrid := updateDominoIds.pieces s.placedDominoes 0 (gridOf s.gridSize (-1)) }

/-- Source: `DominoGame::removeDomino`. -/
def removeDomino (s : GameState) (position : Position) : Bool × GameState :=
  if !position.isValidForGrid s.gridSize then (false, s)
  else
    let dominoId := s.dominoGrid.get position.row position.col
    if dominoId = -1 ∨ dominoId ≥ (s.placedDominoes.length : Int) then (false, s)
    else
      let domino := dominoAt s.placedDominoes dominoId
      let positions := domino.getOccupiedPositions
      let s1 : GameState :=
        { s with
          dominoGrid := positions.foldl (fun g pos => g.set pos.row pos.col (-1)) s.dominoGrid,
          grid := positions.foldl (fun g pos => g.set pos.row pos.col 0) s.grid,
          usedSums := eraseSum s.usedSums domino.sum,
          placedDominoes := s.placedDominoes.eraseIdx dominoId.toNat,
          movesCount := s.movesCount + 1,
          gameCompleted := false }
      (true, updateDominoIds s1)

/-! ### Vocabulary for runs of `placeDomino` -/

/-- One call `placeDomino(domino, position, orientation)`. -/
structure Placement where
  domino : Domino
  position : Position
  orientation : Orientation
deriving DecidableEq

/-- The calls of the list on one game, in order: whether all of them returned `true`, and the
state after the last. -/
def placeAll (s : GameState) (calls : List Placement) : Bool × GameState :=
  calls.foldl
    (fun acc c =>
      let r := placeDomino acc.2 c.domino c.position c.orientation
      (acc.1 && r.1, r.2))
    (true, s)

/-- The grid has `n` rows of `n` cells. -/
def IsGridOf (n : Nat) (g : Grid) : Prop := g.length = n ∧ ∀ row ∈ g, row.length = n

/-- The state of a game on a board of side 20 whose tiling is empty and whose catalog holds 28
pieces, which is how `generateNewGame` leaves a game of the standard set built with
`DominoGame(false, 20)`: nothing is placed, no sum is used, the id grid holds -1 everywhere,
and the clue grid is some grid of 20 rows of 20 cells.  The solution, the cache and the
counters are not constrained. -/
def EmptyBoard20 (s : GameState) : Prop :=
  s.gridSize = 20 ∧ s.dominoGrid = gridOf 20 (-1) ∧ s.placedDominoes = [] ∧ s.usedSums = [] ∧
    s.availableDominoes.length = 28 ∧ IsGridOf 20 s.grid

/-- The fields of a game that the cache functions do not write. -/
def boardOf (s : GameState) : Int × Grid × Grid × List Domino × List Domino × IntSet :=
  (s.gridSize, s.grid, s.dominoGrid, s.availableDominoes, s.placedDominoes, s.usedSums)

/-- Two games agree on the tiling: on the side of the board, the id grid, the placed pieces,
the used sums and the size of the catalog. -/
def SameTiling (s c : GameState) : Prop :=
  s.gridSize = c.gridSize ∧ s.dominoGrid = c.dominoGrid ∧ s.placedDominoes = c.placedDominoes ∧
    s.usedSums = c.usedSums ∧ s.availableDominoes.length = c.availableDominoes.length

/-- The piece number `i` of the run below: `Domino(2 i, 2 i + 1)`, constructed by the caller
after the 28 pieces of the catalog. -/
def runPiece (i : Nat) : Domino := Domino.new (2 * (i : Int)) (2 * (i : Int) + 1) (28 + (i : Int))

/-- A run of 28 placements that all succeed on an empty board of side 20: eight vertical
pieces in the columns 0 to 7, in the rows 0-1 and 3-4 by turns, then twenty horizontal
pieces, one in each row, in the columns 9-10 and 12-13 by turns. -/
def fullBoardCalls : List Placement :=
  ((List.range 8).map fun (j : Nat) =>
      ({ domino := runPiece j, position := { row := 3 * ((j : Int) % 2), col := (j : Int) },
         orientation := Orientation.VERTICAL } : Placement)) ++
    ((List.range 20).map fun (k : Nat) =>
      ({ domino := runPiece (8 + k),
         position := { row := (k : Int), col := 9 + 3 * ((k : Int) % 2) },
         orientation := Orientation.HORIZONTAL } : Placement))

/-- The 28 pieces `(v1, v2)` with `0 ≤ v1 ≤ v2 ≤ 6` in the order of the loops of
`Domino::createStandardSet`, with the ids that the constructor gives them after
`resetIdCounter`. -/
def standardPieces : List Domino :=
  (((List.range 7).flatMap fun (v1 : Nat) =>
      ((List.range 7).filter fun (v2 : Nat) => decide (v1 ≤ v2)).map fun (v2 : Nat) =>
        (v1, v2)).enum).map
    fun (e : Nat × Nat × Nat) => Domino.new (e.2.1 : Int) (e.2.2 : Int) (e.1 : Int)

/-- A concrete game on an empty board of side 20 with the standard catalog, no clue shown and
no solution piece. -/
def emptyBoard20 : GameState :=
  { gridSize := 20, grid := gridOf 20 0, dominoGrid := gridOf 20 (-1),
    availableDominoes := standardPieces,
    placedDominoes := [], usedSums := [], currentDifficulty := Difficulty.EASY,
    gameCompleted := false, hintsUsed := 0, movesCount := 0, useExtendedSet := false,
    solutionGrid := gridOf 20 (-1), solutionDominoes := [], hasSolution := false, rng := 0,
    constraintCache := [], cacheValid := false }

end GameGridH

/-!
## The engine of `src/GameLogic.cpp`

`GameLogic` is the engine that `GameUI` calls.  It works on the `GameState` of `GameState.h`
through the pointer `m_gameState`, which `GameUI` sets before every call; the embedding passes
the state explicitly and leaves out the null test.  `Orientation` and `Difficulty` have the
enumerators of `DominoGame.h`, so the embedding shares them; the arrays `int[8][8]` are grids.

Two pieces of program state live outside `GameState` and are carried in it here: the counter
`static int nextId` of `GetNextAvailableDominoId` (an unbounded integer; it starts at 0 and is
only incremented), and the number of calls of `ShuffleDominoes` so far, which selects the
outcome of `std::shuffle`.  `gameStartTime` is written and never read by the engine; it has
no field.
-/

namespace GameLogicCpp

open DominoGameH (Position Orientation Difficulty Grid allCells)

/-- Source: `struct Domino` of `GameState.h`. -/
structure Domino where
  value1 : Int
  value2 : Int
  orientation : Orientation
deriving DecidableEq, Repr

/-- Source: `struct PlacedDomino` of `GameState.h`. -/
structure PlacedDomino where
  domino : Domino
  row : Int
  col : Int
  orientation : Orientation
  id : Int
deriving DecidableEq, Repr

/-- Source: `class GameState` of `GameState.h`, with the counter `nextId` and the number of
shuffles made so far. -/
structure GameState where
  gameGrid : Grid
  dominoGrid : Grid
  availableDominoes : List Domino
  placedDominoes : List PlacedDomino
  selectedDomino : Int
  currentOrientation : Orientation
  currentDifficulty : Difficulty
  hintsUsed : Int
  gameWon : Bool
  nextId : Int
  shuffleCount : Nat

/-- Source: the constructor `GameState()`, at the start of the program (`nextId` is 0). -/
def GameState.new : GameState :=
  { gameGrid := Grid.fill 0, dominoGrid := Grid.fill (-1), availableDominoes := [],
    placedDominoes := [], selectedDomino := -1, currentOrientation := Orientation.HORIZONTAL,
    currentDifficulty := Difficulty.EASY, hintsUsed := 0, gameWon := false, nextId := 0,
    shuffleCount := 0 }

/-- Source: `GameLogic::ResetGame`. -/
def ResetGame (s : GameState) : GameState :=
  { s with
    gameGrid := Grid.fill 0, dominoGrid := Grid.fill (-1), availableDominoes := [],
    placedDominoes := [], selectedDomino := -1, currentOrientation := Orientation.HORIZONTAL,
    hintsUsed := 0 }

/-- Source: `GameLogic::InitializeGrid`. -/
def InitializeGrid (s : GameState) : GameState :=
  { s with gameGrid := Grid.fill 0, dominoGrid := Grid.fill (-1) }

/-- The pieces pushed by the loops of `GenerateDominoes`: `i` from 0 to 6, `j` from `i` to 6. -/
def standardSet : List Domino :=
  ([0, 1, 2, 3, 4, 5, 6] : List Int).flatMap fun i =>
    (([0, 1, 2, 3, 4, 5, 6] : List Int).filter fun j => decide (i ≤ j)).map fun j =>
      ({ value1 := i, value2 := j, orientation := Orientation.HORIZONTAL } : Domino)

/-- Source: `GameLogic::ShuffleDominoes`; `sh k` is the outcome of the `k`-th shuffle. -/
def ShuffleDominoes (sh : Nat → List Domino → List Domino) (s : GameState) : GameState :=
  { s with
    availableDominoes := sh s.shuffleCount s.availableDominoes
    shuffleCount := s.shuffleCount + 1 }

/-- Source: `GameLogic::GenerateDominoes`. -/
def GenerateDominoes (sh : Nat → List Domino → List Domino) (s : GameState) : GameState :=
  ShuffleDominoes sh { s with availableDominoes := standardSet }

/-- Source: `GameLogic::CreateEasyPuzzle`. -/
def CreateEasyPuzzle (s : GameState) : GameState :=
  if s.availableDominoes.length > 10 then
    { s with availableDominoes := s.availableDominoes.take 10 }
  else s

/-- Source: `GameLogic::CreateMediumPuzzle`. -/
def CreateMediumPuzzle (s : GameState) : GameState :=
  if s.availableDominoes.length > 15 then
    { s with availableDominoes := s.availableDominoes.take 15 }
  else s

/-- Source: `GameLogic::CreateHardPuzzle`. -/
def CreateHardPuzzle (s : GameState) : GameState :=
  if s.availableDominoes.length > 20 then
    { s with availableDominoes := s.availableDominoes.take 20 }
  else s

/-- Source: `GameLogic::GeneratePuzzle`. -/
def GeneratePuzzle (sh : Nat → List Domino → List Domino) (s : GameState)
    (difficulty : Difficulty) : Bool × GameState :=
  let s1 := GenerateDominoes sh (InitializeGrid (ResetGame s))
  let s2 :=
    match difficulty with
    | Difficulty.EASY => CreateEasyPuzzle s1
    | Difficulty.MEDIUM => CreateMediumPuzzle s1
    | Difficulty.HARD => CreateHardPuzzle s1
  (true, { s2 with currentDifficulty := difficulty })

/-- Source: `GameLogic::IsValidPlacement`. -/
def IsValidPlacement (s : GameState) (row col : Int) (domino : Domino)
    (orientation : Orientation) : Bool :=
  match orientation with
  | Orientation.HORIZONTAL =>
    if col + 1 ≥ 8 then false
    else if s.dominoGrid.get row col ≠ -1 ∨ s.dominoGrid.get row (col + 1) ≠ -1 then false
    else if s.gameGrid.get row col > 0 ∧ s.gameGrid.get row col ≠ domino.value1 then false
    else if s.gameGrid.get row (col + 1) > 0 ∧ s.gameGrid.get row (col + 1) ≠ domino.value2
      then false
    else true
  | Orientation.VERTICAL =>
    if row + 1 ≥ 8 then false
    else if s.dominoGrid.get row col ≠ -1 ∨ s.dominoGrid.get (row + 1) col ≠ -1 then false
    else if s.gameGrid.get row col > 0 ∧ s.gameGrid.get row col ≠ domino.value1 then false
    else if s.gameGrid.get (row + 1) col > 0 ∧ s.gameGrid.get (row + 1) col ≠ domino.value2
      then false
    else true

/-- Source: `GameLogic::CheckDominoFits`. -/
def CheckDominoFits (s : GameState) (row col : Int) (orientation : Orientation) : Bool :=
  match orientation with
  | Orientation.HORIZONTAL =>
    decide (col + 1 < 8) && decide (s.dominoGrid.get row col = -1) &&
      decide (s.dominoGrid.get row (col + 1) = -1)
  | Orientation.VERTICAL =>
    decide (row + 1 < 8) && decide (s.dominoGrid.get row col = -1) &&
      decide (s.dominoGrid.get (row + 1) col = -1)

/-- Source: `GameLogic::GetNextAvailableDominoId`: `return ++nextId`. -/
def GetNextAvailableDominoId (s : GameState) : Int × GameState :=
  (s.nextId + 1, { s with nextId := s.nextId + 1 })

/-- Source: `GameLogic::PlaceDomino`. -/
def PlaceDomino (s : GameState) (row col : Int) : Bool × GameState :=
  if s.selectedDomino < 0 ∨ s.selectedDomino ≥ (s.availableDominoes.length : Int) then (false, s)
  else
    let domino := s.availableDominoes.getD s.selectedDomino.toNat ⟨0, 0, Orientation.HORIZONTAL⟩
    if IsValidPlacement s row col domino s.currentOrientation = false then (false, s)
    else
      let r := GetNextAvailableDominoId s
      let dominoId := r.1
      let s1 := r.2
      let placed : Option Grid :=
        match s1.currentOrientation with
        | Orientation.HORIZONTAL =>
          if col + 1 ≥ 8 then none
          else some ((s1.dominoGrid.set row col dominoId).set row (col + 1) dominoId)
        | Orientation.VERTICAL =>
          if row + 1 ≥ 8 then none
          else some ((s1.dominoGrid.set row col dominoId).set (row + 1) col dominoId)
      match placed with
      | none => (false, s1)
      | some g =>
        let placedDomino : PlacedDomino :=
          { domino := domino, row := row, col := col, orientation := s1.currentOrientation,
            id := dominoId }
        (true,
          { s1 with
            dominoGrid := g
            placedDominoes := s1.placedDominoes ++ [placedDomino]
            availableDominoes := s1.availableDominoes.eraseIdx s1.selectedDomino.toNat
            selectedDomino := -1 })

/-- The double loop of `RemoveDomino` that writes -1 to every cell holding `dominoId`. -/
def clearId (dominoGrid : Grid) (dominoId : Int) : Grid :=
  allCells.foldl
    (fun g p => if g.get p.row p.col = dominoId then g.set p.row p.col (-1) else g) dominoGrid

/-- Source: `GameLogic::RemoveDomino`; `std::find_if` is `List.find?` and `erase(it)` removes
the first entry with the id. -/
def RemoveDomino (s : GameState) (row col : Int) : Bool × GameState :=
  let dominoId := s.dominoGrid.get row col
  if dominoId = -1 then (false, s)
  else
    match s.placedDominoes.find? (fun pd => decide (pd.id = dominoId)) with
    | none => (false, s)
    | some it =>
      (true,
        { s with
          dominoGrid := clearId s.dominoGrid dominoId
          availableDominoes := s.availableDominoes ++ [it.domino]
          placedDominoes := s.placedDominoes.eraseP (fun pd => decide (pd.id = dominoId)) })

/-- Source: `GameLogic::CheckWin`. -/
def CheckWin (s : GameState) : Bool := s.availableDominoes.isEmpty

end GameLogicCpp

namespace DominoGameH

/-! ## Specification vocabulary -/

/-- The second cell a piece anchored at `position` covers. -/
def secondCell (position : Position) (orientation : Orientation) : Position :=
  match orientation with
  | Orientation.HORIZONTAL => { row := position.row, col := position.col + 1 }
  | Orientation.VERTICAL => { row := position.row + 1, col := position.col }

/-- The cell lies inside the 8x8 grid. -/
def InGrid (p : Position) : Prop := 0 ≤ p.row ∧ p.row < 8 ∧ 0 ≤ p.col ∧ p.col < 8

/-- Two distinct cells that share an edge or a corner. -/
def Adjacent (a b : Position) : Prop :=
  a ≠ b ∧ a.row - b.row ≤ 1 ∧ b.row - a.row ≤ 1 ∧ a.col - b.col ≤ 1 ∧ b.col - a.col ≤ 1

/-- Each occupied cell of `dominoGrid` holds the index of the placed piece that covers it. -/
def OccupiedCellsIndexed (s : GameState) : Prop :=
  ∀ q : Position, InGrid q → s.dominoGrid.get q.row q.col ≠ -1 →
    0 ≤ s.dominoGrid.get q.row q.col ∧
      s.dominoGrid.get q.row q.col < (s.placedDominoes.length : Int) ∧
      q ∈ getDominoPositions (pieceAt s.placedDominoes (s.dominoGrid.get q.row q.col))

/-- The vector has `GRID_SIZE` rows of `GRID_SIZE` entries. -/
def IsGrid8 (g : Grid) : Prop := g.length = 8 ∧ ∀ row ∈ g, row.length = 8

/-- The tiling invariant: `dominoGrid` is 8x8, each occupied cell holds the index of the placed
piece that covers it, and the two cells of each placed piece are inside the grid and hold the
index of that piece. -/
structure WellFormed (s : GameState) : Prop where
  dims : IsGrid8 s.dominoGrid
  occupied : OccupiedCellsIndexed s
  pieces : ∀ (i : Nat) (h : i < s.placedDominoes.length),
    ∀ pos ∈ getDominoPositions (s.placedDominoes.get ⟨i, h⟩),
      InGrid pos ∧ s.dominoGrid.get pos.row pos.col = (i : Int)

/-- The piece `placeDomino` appends. -/
def placedCopy (d : DominoPiece) (pos : Position) (o : Orientation) : DominoPiece :=
  { d with position := pos, orientation := o, isPlaced := true }

/-- The state of `placeDomino` right before its completion check. -/
def placedState (s : GameState) (d : DominoPiece) (pos : Position) (o : Orientation) :
    GameState :=
  { s with
    placedDominoes := s.placedDominoes ++ [placedCopy d pos o]
    dominoGrid :=
      (s.dominoGrid.set pos.row pos.col (s.placedDominoes.length : Int)).set
        (secondCell pos o).row (secondCell pos o).col (s.placedDominoes.length : Int)
    constraintCache := []
    cacheValid := false }

/-- The five conditions of the placement rule for piece `d` anchored at `pos`: both target
cells inside the grid; both unoccupied; neither a shown clue; no other in-grid cell adjacent to
a target cell occupied; no pip value of `d` equal to a pip value of a placed piece that occupies
a cell of a row or column containing a target cell. -/
def PlacementAllowed (s : GameState) (d : DominoPiece) (pos : Position) (o : Orientation) :
    Prop :=
  (InGrid pos ∧ InGrid (secondCell pos o)) ∧
  (s.dominoGrid.get pos.row pos.col = -1 ∧
    s.dominoGrid.get (secondCell pos o).row (secondCell pos o).col = -1) ∧
  (¬ s.grid.get pos.row pos.col > 0 ∧
    ¬ s.grid.get (secondCell pos o).row (secondCell pos o).col > 0) ∧
  (∀ q : Position, InGrid q → q ≠ pos → q ≠ secondCell pos o →
    (Adjacent q pos ∨ Adjacent q (secondCell pos o)) → s.dominoGrid.get q.row q.col = -1) ∧
  (∀ q : Position, InGrid q →
    (q.row = pos.row ∨ q.row = (secondCell pos o).row ∨ q.col = pos.col ∨
      q.col = (secondCell pos o).col) →
    s.dominoGrid.get q.row q.col ≠ -1 →
    ∀ v ∈ [(pieceAt s.placedDominoes (s.dominoGrid.get q.row q.col)).value1,
            (pieceAt s.placedDominoes (s.dominoGrid.get q.row q.col)).value2],
      d.value1 ≠ v ∧ d.value2 ≠ v)

/-- A new game with the piece (1,2) placed horizontally at the top-left corner. -/
def onePieceState : GameState :=
  (placeDomino newGame (DominoPiece.new 1 2) { row := 0, col := 0 } Orientation.HORIZONTAL).2

instance (p : Position) : Decidable (InGrid p) := by
  unfold InGrid; infer_instance

instance (g : Grid) : Decidable (IsGrid8 g) := by
  unfold IsGrid8; infer_instance

/-- A state that carries only a solution grid. -/
def gridState (g : Grid) : GameState := { newGame with solutionGrid := g }

/-- The solution grid the simplified fallback builds: twelve horizontal pieces. -/
def fallbackGrid : Grid :=
  [[0, 0, -1, 1, 1, -1, 2, 2], [-1, -1, -1, -1, -1, -1, -1, -1],
   [3, 3, -1, 4, 4, -1, 5, 5], [-1, -1, -1, -1, -1, -1, -1, -1],
   [6, 6, -1, 7, 7, -1, 8, 8], [-1, -1, -1, -1, -1, -1, -1, -1],
   [9, 9, -1, 10, 10, -1, 11, 11], [-1, -1, -1, -1, -1, -1, -1, -1]]

/-- The solution pieces the simplified fallback records: the shuffled pieces, in order, on the
anchors of the horizontal scan. -/
def fallbackPieces (shuffled : List DominoPiece) : List DominoPiece :=
  List.zipWith (fun p a => placedCopy p a Orientation.HORIZONTAL) shuffled horizontalAnchors

/-- The anchors a scan of `generateSimplifiedPuzzle` accepts and the grid it leaves, as a
function of the grid alone (`n` is the number of shuffled pieces). -/
def scanTrace (n : Nat) (o : Orientation) : List Position → Nat → Grid → List Position × Grid
  | [], _, g => ([], g)
  | pos :: rest, i, g =>
    if i < n then
      if canPlaceDominoInSolution (gridState g) (DominoPiece.new 0 0) pos o then
        let r := scanTrace n o rest (i + 1)
          (placeDominoInSolution (gridState g) (DominoPiece.new 0 0) pos o i).solutionGrid
        (pos :: r.1, r.2)
      else scanTrace n o rest i g
    else ([], g)

/-- The state of `generateSimplifiedPuzzle` after its two scans, before the clue grid is
derived. -/
def fallbackSolution (sh : Shuffles) (s : GameState) : GameState :=
  { initializeGame s with
    rng := s.rng + 1
    solutionGrid := fallbackGrid
    solutionDominoes := fallbackPieces (sh.pieces s.rng generateAvailableDominoes)
    hasSolution := true }

instance (a b : Position) : Decidable (Adjacent a b) := by
  unfold Adjacent; infer_instance

/-- No two distinct solution pieces occupy cells that share an edge or a corner: two occupied
adjacent cells hold the same piece index. -/
def SolutionNonAdjacent (sg : Grid) : Prop :=
  ∀ a b : Position, InGrid a → InGrid b → Adjacent a b →
    sg.get a.row a.col ≠ -1 → sg.get b.row b.col ≠ -1 → sg.get a.row a.col = sg.get b.row b.col

/-- The indices of the distinct pieces that occupy a cell of the line `cells`. -/
def piecesOnLine (sg : Grid) (cells : List Position) : List Int :=
  ((cells.map fun q => sg.get q.row q.col).filter fun id => decide (id ≠ -1)).dedup

/-- The pip values of the pieces on a line, each piece counted once. -/
def pipsOnLine (sg : Grid) (sd : List DominoPiece) (cells : List Position) : List Int :=
  (piecesOnLine sg cells).flatMap fun id => [(pieceAt sd id).value1, (pieceAt sd id).value2]

/-- Every row and every column holds each pip value at most once over the pieces that occupy
it (`sg` maps cells to piece indices, `sd` lists the pieces). -/
def PipsUnique (sg : Grid) (sd : List DominoPiece) : Prop :=
  ∀ i ∈ gridIndices, (pipsOnLine sg sd (rowCells i)).Nodup ∧ (pipsOnLine sg sd (colCells i)).Nodup

/-- The in-grid cells among the eight neighbours of `(r, c)`; the cell itself is left out. -/
def neighbourCells (r c : Int) : List Position :=
  ((([(-1, -1), (-1, 0), (-1, 1), (0, -1), (0, 0), (0, 1), (1, -1), (1, 0), (1, 1)] :
      List (Int × Int)).filter fun d => decide (¬ (d.1 = 0 ∧ d.2 = 0))).map
    fun d => ({ row := r + d.1, col := c + d.2 } : Position)).filter fun q => decide (InGrid q)

/-- The indices of the distinct solution pieces found on the neighbours of `(r, c)`. -/
def neighbourPieceIds (sg : Grid) (r c : Int) : List Int :=
  (((neighbourCells r c).map fun q => sg.get q.row q.col).filter fun id => decide (id ≠ -1)).dedup

/-- The neighbour-sum recomputed from the solution: the sum of the pip-sums of the distinct
solution pieces on the in-grid neighbours of `(r, c)`. -/
def neighbourSum (sg : Grid) (sd : List DominoPiece) (r c : Int) : Int :=
  ((neighbourPieceIds sg r c).map fun id =>
    (pieceAt sd id).value1 + (pieceAt sd id).value2).sum

/-- The cache holds only values the uncached computation would return. -/
def CacheOK (s : GameState) : Prop :=
  s.cacheValid = true → ∀ pos v, s.constraintCache.find pos = some v →
    v = computeConstraintSum s.solutionGrid s.solutionDominoes pos.row pos.col

/-- What one offset contributes to the set `adjacentDominoes`. -/
def neighbourId (sg : Grid) (row col : Int) (d : Int × Int) : Option Int :=
  if d.1 = 0 ∧ d.2 = 0 then none
  else if row + d.1 ≥ 0 ∧ row + d.1 < GRID_SIZE ∧ col + d.2 ≥ 0 ∧ col + d.2 < GRID_SIZE then
    if sg.get (row + d.1) (col + d.2) ≠ -1 then some (sg.get (row + d.1) (col + d.2)) else none
  else none

/-- The cell `q` of the solution grid is occupied by a piece equal to `p` (`operator==`). -/
def occupiesCell (sg : Grid) (sd : List DominoPiece) (p : DominoPiece) (q : Position) : Bool :=
  decide (sg.get q.row q.col ≠ -1) && (pieceAt sd (sg.get q.row q.col)).opEq p

/-- The number of cells of the solution grid that the piece `p` occupies. -/
def cellCount (sg : Grid) (sd : List DominoPiece) (p : DominoPiece) : Nat :=
  allCells.countP (occupiesCell sg sd p)

instance (sg : Grid) (sd : List DominoPiece) : Decidable (PipsUnique sg sd) := by
  unfold PipsUnique; infer_instance

/-- A clue grid of the data model: 8x8 with non-negative entries. -/
def ClueGrid (g : Grid) : Prop :=
  IsGrid8 g ∧ ∀ q : Position, InGrid q → 0 ≤ g.get q.row q.col

/-- The number of clues a difficulty hides: 64/6, 64/4, 64/3 in integer division. -/
def hideCount (d : Difficulty) : Nat :=
  match d with
  | Difficulty.EASY => 10
  | Difficulty.MEDIUM => 16
  | Difficulty.HARD => 21

/-- The fallback solution of a new game, shuffles leaving every order, with its clue grid
derived and no clue hidden yet. -/
def clueState : GameState := generateConstraintGrid (fallbackSolution idShuffles newGame)

/-- One call of a client on the live tiling. -/
inductive Call where
  | place (d : DominoPiece) (pos : Position) (o : Orientation)
  | remove (pos : Position)
  | move (fromPosition toPosition : Position) (o : Orientation)

/-- The result and the state after one call. -/
def applyCall (s : GameState) : Call → Except String Bool × GameState
  | Call.place d pos o => (Except.ok (placeDomino s d pos o).1, (placeDomino s d pos o).2)
  | Call.remove pos => removeDomino s pos
  | Call.move a b o => moveDomino s a b o

/-- The state after a sequence of calls, first call first. -/
def runCalls (s : GameState) (calls : List Call) : GameState :=
  calls.foldl (fun t c => (applyCall t c).2) s

/-- The state with its tiling emptied: no placed piece, no occupied cell. -/
def emptyTiling (s : GameState) : GameState :=
  { s with dominoGrid := Grid.fill (-1), placedDominoes := [] }

/-- The piece record `moveDomino` writes: the piece at a new anchor and orientation. -/
def movedCopy (p : DominoPiece) (pos : Position) (o : Orientation) : DominoPiece :=
  { p with position := pos, orientation := o }

/-- No cell of `a` equals or is adjacent to a cell of `b`. -/
def Apart (a b : DominoPiece) : Prop :=
  ∀ x ∈ getDominoPositions a, ∀ y ∈ getDominoPositions b, x ≠ y ∧ ¬ Adjacent x y

/-- If a cell of `a` and a cell of `b` lie in one row or one column, no pip value of `a`
equals a pip value of `b`. -/
def PipsApart (a b : DominoPiece) : Prop :=
  (∃ x ∈ getDominoPositions a, ∃ y ∈ getDominoPositions b, x.row = y.row ∨ x.col = y.col) →
    a.value1 ≠ b.value1 ∧ a.value1 ≠ b.value2 ∧ a.value2 ≠ b.value1 ∧ a.value2 ≠ b.value2

/-- The piece `a` lies inside the grid on cells that show no clue, apart from every piece of
`others` and sharing no pip with those of them it shares a row or column with. -/
def Fits (grid : Grid) (a : DominoPiece) (others : List DominoPiece) : Prop :=
  (∀ y ∈ getDominoPositions a, InGrid y ∧ ¬ grid.get y.row y.col > 0) ∧
    ∀ p ∈ others, Apart a p ∧ PipsApart a p

/-- A call that places a piece places one with two different pip values, as all pieces of the
standard catalog are. -/
def CatalogLike : Call → Prop
  | Call.place d _ _ => d.value1 ≠ d.value2
  | _ => True

/-- Every call of the list is `CatalogLike`. -/
def PlacesCatalogLike (calls : List Call) : Prop := ∀ c ∈ calls, CatalogLike c

/-- The grid with entry `f r c` at row `r`, column `c`. -/
def Grid.ofFn (f : Int → Int → Int) : Grid :=
  gridIndices.map fun r => gridIndices.map fun c => f r c

/-- The id grid of a list of pieces: each cell holds the index of the first piece covering it,
or -1 if there is none. -/
def gridOfPieces (L : List DominoPiece) : Grid :=
  Grid.ofFn fun r c =>
    if L.findIdx (fun p => decide (({ row := r, col := c } : Position) ∈ getDominoPositions p)) <
        L.length then
      (L.findIdx
        (fun p => decide (({ row := r, col := c } : Position) ∈ getDominoPositions p)) : Int)
    else -1

/-- What one call can do to the list of placed pieces: nothing, append a piece that fits the
others, erase a piece, or rewrite one piece into a copy that fits the others. -/
def TilingStep (grid : Grid) (c : Call) (L L1 : List DominoPiece) : Prop :=
  L1 = L ∨
    (∃ d pos o, c = Call.place d pos o ∧ L1 = L ++ [placedCopy d pos o] ∧
      Fits grid (placedCopy d pos o) L) ∨
    (∃ i, i < L.length ∧ L1 = L.eraseIdx i) ∨
    (∃ (i : Nat) (hi : i < L.length) (b : Position) (o : Orientation),
      L1 = L.set i (movedCopy (L.get ⟨i, hi⟩) b o) ∧
        Fits grid (movedCopy (L.get ⟨i, hi⟩) b o) (L.eraseIdx i))

/-- The placed pieces lie inside the grid on cells that show no clue, and any two of them are
apart and share no pip when they share a row or column. -/
def TilingOK (grid : Grid) (L : List DominoPiece) : Prop :=
  (∀ p ∈ L, ∀ y ∈ getDominoPositions p, InGrid y ∧ ¬ grid.get y.row y.col > 0) ∧
    L.Pairwise (fun a b => Apart a b ∧ PipsApart a b)

instance : DecidablePred CatalogLike := fun c => by
  cases c <;> unfold CatalogLike <;> infer_instance

instance (calls : List Call) : Decidable (PlacesCatalogLike calls) := by
  unfold PlacesCatalogLike; infer_instance

/-- A short session: two placements, a move of the second piece and the removal of the
first. -/
def sampleCalls : List Call :=
  [Call.place (DominoPiece.new 1 2) { row := 0, col := 0 } Orientation.HORIZONTAL,
   Call.place (DominoPiece.new 3 4) { row := 0, col := 3 } Orientation.HORIZONTAL,
   Call.move { row := 0, col := 3 } { row := 2, col := 0 } Orientation.VERTICAL,
   Call.remove { row := 0, col := 1 }]

/-- The four hint methods of `HintSystem`. -/
inductive HintCall where
  | random
  | nextDomino
  | constraint
  | mostConstrained
deriving DecidableEq

/-- One call of a hint method on the game state `s`: whether the returned hint is valid, and
the new `HintSystem`. -/
def hintCall (pk : Picks) (s : GameState) (h : HintSystem) : HintCall → Bool × HintSystem
  | HintCall.random => ((getRandomHint pk s h).1.isValid, (getRandomHint pk s h).2)
  | HintCall.nextDomino => ((getNextDominoHint pk s h).1.isValid, (getNextDominoHint pk s h).2)
  | HintCall.constraint => ((getConstraintHint s h).1.isValid, (getConstraintHint s h).2)
  | HintCall.mostConstrained =>
    ((getMostConstrainedHint s h).1.isValid, (getMostConstrainedHint s h).2)

/-- A sequence of hint calls, each on the game state of its moment: the final `HintSystem` and
the number of valid hints returned. -/
def hintRun (pk : Picks) (h : HintSystem) : List (GameState × HintCall) → HintSystem × Nat
  | [] => (h, 0)
  | (s, c) :: rest =>
    let r := hintRun pk (hintCall pk s h c).2 rest
    (r.1, (if (hintCall pk s h c).1 then 1 else 0) + r.2)

/-- The game after `n` calls of `useHint` (`DominoPiece.h`). -/
def useHints (n : Nat) (s : DominoPieceH.GameState) : DominoPieceH.GameState :=
  (fun t => (DominoPieceH.useHint t).2)^[n] s

/-- The piece is in the catalog and no placed piece equals it under `operator==`. -/
def Unplaced (s : GameState) (d : DominoPiece) : Prop :=
  d ∈ s.availableDominoes ∧ ∀ p ∈ s.placedDominoes, p.opEq d = false

/-- The lexicographic order on canonical forms `(smaller, larger)`. -/
def canonLt (x y : Int × Int) : Prop := x.1 < y.1 ∨ (x.1 = y.1 ∧ x.2 < y.2)

instance (x y : Int × Int) : Decidable (canonLt x y) := by
  unfold canonLt; infer_instance

/-- The piece with its two pip values exchanged. -/
def swapValues (p : DominoPiece) : DominoPiece :=
  { p with value1 := p.value2, value2 := p.value1 }

/-- One call of a client on the game: a new puzzle, or a call on the live tiling. -/
inductive GameCall where
  | newGame (d : Difficulty)
  | tiling (c : Call)

/-- The state after one call. -/
def applyGameCall (sh : Shuffles) (s : GameState) : GameCall → GameState
  | GameCall.newGame d => (generateNewGame sh s d).2
  | GameCall.tiling c => (applyCall s c).2

/-- The state after a sequence of calls, first call first. -/
def runGameCalls (sh : Shuffles) (s : GameState) (calls : List GameCall) : GameState :=
  calls.foldl (applyGameCall sh) s

/-- `calculateConstraintValue` with the cache removed: the neighbour loop and the sum, with
neither the lookup nor the store. -/
def calculateConstraintValueNoCache (s : GameState) (row col : Int) : Int :=
  computeConstraintSum s.solutionGrid s.solutionDominoes row col

/-- `generateConstraintGrid` with the cache removed: the clue grid it assigns. -/
def generateConstraintGridNoCache (s : GameState) : Grid :=
  allCells.foldl
    (fun g cell =>
      if s.solutionGrid.get cell.row cell.col = -1 then
        g.set cell.row cell.col (calculateConstraintValueNoCache s cell.row cell.col)
      else g)
    (Grid.fill 0)

/-- `isValidSolution` with the cache removed. -/
def isValidSolutionNoCache (s : GameState) : Bool :=
  if s.placedDominoes.length ≠ s.availableDominoes.length then false
  else if allCells.all (fun cell =>
      !decide (s.grid.get cell.row cell.col > 0) ||
        decide (calculateConstraintValueNoCache s cell.row cell.col =
          s.grid.get cell.row cell.col)) then
    checkRowColumnUniqueness s
  else false

/-- The state inside `moveDomino` at its call of `canPlaceDomino`: piece `i` is lifted off the
id grid and its record already holds the new anchor and orientation. -/
def liftedState (s : GameState) (i : Nat) (b : Position) (o : Orientation) : GameState :=
  { s with
    dominoGrid :=
      (s.dominoGrid.set (s.placedDominoes.getD i (DominoPiece.new 0 0)).position.row
        (s.placedDominoes.getD i (DominoPiece.new 0 0)).position.col (-1)).set
        (secondCell (s.placedDominoes.getD i (DominoPiece.new 0 0)).position
          (s.placedDominoes.getD i (DominoPiece.new 0 0)).orientation).row
        (secondCell (s.placedDominoes.getD i (DominoPiece.new 0 0)).position
          (s.placedDominoes.getD i (DominoPiece.new 0 0)).orientation).col (-1),
    placedDominoes :=
      s.placedDominoes.set i (movedCopy (s.placedDominoes.getD i (DominoPiece.new 0 0)) b o) }

/-- The cell shows a clue that differs from the neighbour-sum of the live tiling: the sum of
the pip-sums of the distinct placed pieces on its in-grid neighbours. -/
def ClueMismatch (s : GameState) (q : Position) : Prop :=
  s.grid.get q.row q.col > 0 ∧
    neighbourSum s.dominoGrid s.placedDominoes q.row q.col ≠ s.grid.get q.row q.col

instance (s : GameState) (q : Position) : Decidable (ClueMismatch s q) := by
  unfold ClueMismatch; infer_instance

/-- The six cells of the 2x3 (or 3x2) block that a piece covers together with the cells to its
right and below it. -/
def block (p : DominoPiece) : List Position :=
  match p.orientation with
  | Orientation.HORIZONTAL =>
    [⟨p.position.row, p.position.col⟩, ⟨p.position.row, p.position.col + 1⟩,
     ⟨p.position.row, p.position.col + 2⟩, ⟨p.position.row + 1, p.position.col⟩,
     ⟨p.position.row + 1, p.position.col + 1⟩, ⟨p.position.row + 1, p.position.col + 2⟩]
  | Orientation.VERTICAL =>
    [⟨p.position.row, p.position.col⟩, ⟨p.position.row, p.position.col + 1⟩,
     ⟨p.position.row + 1, p.position.col⟩, ⟨p.position.row + 1, p.position.col + 1⟩,
     ⟨p.position.row + 2, p.position.col⟩, ⟨p.position.row + 2, p.position.col + 1⟩]

/-- The 81 cells of the 9x9 square that holds the blocks of all pieces inside the grid. -/
def cells9 : List Position :=
  (List.range 9).flatMap fun (r : Nat) =>
    (List.range 9).map fun (c : Nat) => ({ row := (r : Int), col := (c : Int) } : Position)

/-- The loop of `backtrackSolution` over the shuffled candidates, counting calls: `next` is the
recursive call and reports, next to its result, the number of calls of `backtrackSolution` it
made; the loop returns the result of `tryCandidates` and the sum of these numbers. -/
def tryCandidatesCalls (next : GameState → (Bool × GameState) × Nat) (domino : DominoPiece)
    (dominoIndex : Nat) :
    List (Position × Orientation) → GameState → (Bool × GameState) × Nat
  | [], s => ((false, s), 0)
  | (pos, orient) :: rest, s =>
    if canPlaceDominoInSolution s domino pos orient then
      let s1 := placeDominoInSolution s domino pos orient dominoIndex
      if checkRowColumnUniquenessForPlacement s1 pos orient domino then
        let r := next s1
        if r.1.1 then ((true, r.1.2), r.2)
        else
          let t := tryCandidatesCalls next domino dominoIndex rest
            (removeDominoFromSolution r.1.2 pos orient)
          (t.1, r.2 + t.2)
      else tryCandidatesCalls next domino dominoIndex rest (removeDominoFromSolution s1 pos orient)
    else tryCandidatesCalls next domino dominoIndex rest s

/-- The function `backtrackSolution` with a counter: its result, and the number of calls of
`backtrackSolution` the run makes, the outermost one included. -/
def backtrackSolutionCalls (sh : Shuffles) (dominoes : List DominoPiece) (dominoIndex : Nat)
    (s : GameState) : (Bool × GameState) × Nat :=
  if h : dominoIndex ≥ dominoes.length then ((true, { s with hasSolution := true }), 1)
  else
    let domino := dominoes.getD dominoIndex (DominoPiece.new 0 0)
    let positions := sh.cands s.rng allCandidates
    let t := tryCandidatesCalls (fun s1 => backtrackSolutionCalls sh dominoes (dominoIndex + 1) s1)
      domino dominoIndex positions { s with rng := s.rng + 1 }
    (t.1, t.2 + 1)
termination_by dominoes.length - dominoIndex

/-- The size of a call tree with `m` levels below the root and 128 branches at every call:
`1 + 128 + ... + 128 ^ m`. -/
def callBound : Nat → Nat
  | 0 => 1
  | m + 1 => 1 + 128 * callBound m

/-- The number of calls of `generateSolution` made by the loop of `generateNewGame` with `n`
attempts left. -/
def generateAttemptsCalls (sh : Shuffles) : Nat → GameState → Nat
  | 0, _ => 0
  | n + 1, s =>
    let r := generateSolution sh (initializeGame s)
    if r.1 then 1 else 1 + generateAttemptsCalls sh n r.2

/-! ### Vocabulary for the engine of `GameLogic.cpp` -/

/-- One call of `GameUI` on the engine of `GameLogic.cpp`.  `place` is a click on the board: the
view has stored the selected index and the orientation in the state and calls
`PlaceDomino(row, col)`. -/
inductive LogicCall where
  | reset
  | generate (difficulty : Difficulty)
  | place (selectedDomino : Int) (orientation : Orientation) (row col : Int)
  | remove (row col : Int)

/-- The cell of the call is inside the grid; `GameUI::GetCellFromPoint` clamps it so. -/
def LogicCall.OnBoard : LogicCall → Prop
  | LogicCall.place _ _ row col => InGrid ⟨row, col⟩
  | LogicCall.remove row col => InGrid ⟨row, col⟩
  | _ => True

instance : DecidablePred LogicCall.OnBoard := fun c => by
  cases c <;> unfold LogicCall.OnBoard <;> infer_instance

/-- The call is `PlaceDomino` or `RemoveDomino`, on a cell inside the grid. -/
def LogicCall.IsMove : LogicCall → Prop
  | LogicCall.place _ _ row col => InGrid ⟨row, col⟩
  | LogicCall.remove row col => InGrid ⟨row, col⟩
  | _ => False

instance : DecidablePred LogicCall.IsMove := fun c => by
  cases c <;> unfold LogicCall.IsMove <;> infer_instance

/-- The state after one call; `sh k` is the outcome of the `k`-th shuffle. -/
def applyLogicCall (sh : Nat → List GameLogicCpp.Domino → List GameLogicCpp.Domino)
    (s : GameLogicCpp.GameState) : LogicCall → GameLogicCpp.GameState
  | LogicCall.reset => GameLogicCpp.ResetGame s
  | LogicCall.generate d => (GameLogicCpp.GeneratePuzzle sh s d).2
  | LogicCall.place sel o row col =>
    (GameLogicCpp.PlaceDomino { s with selectedDomino := sel, currentOrientation := o } row col).2
  | LogicCall.remove row col => (GameLogicCpp.RemoveDomino s row col).2

/-- The state after a sequence of calls, first call first. -/
def runLogicCalls (sh : Nat → List GameLogicCpp.Domino → List GameLogicCpp.Domino)
    (s : GameLogicCpp.GameState) (calls : List LogicCall) : GameLogicCpp.GameState :=
  calls.foldl (applyLogicCall sh) s

/-- The two cells that `PlaceDomino` wrote for a placed domino. -/
def placedCells (pd : GameLogicCpp.PlacedDomino) : List Position :=
  [⟨pd.row, pd.col⟩, secondCell ⟨pd.row, pd.col⟩ pd.orientation]

/-- The non-adjacency rule on the live tiling of `GameLogic`: no cell that holds the id of a
placed domino is edge- or corner-adjacent to a cell that holds the id of another one. -/
def LogicNonAdjacent (s : GameLogicCpp.GameState) : Prop :=
  ∀ a ∈ s.placedDominoes, ∀ b ∈ s.placedDominoes, a.id ≠ b.id →
    ∀ x y : Position, InGrid x → InGrid y →
      s.dominoGrid.get x.row x.col = a.id → s.dominoGrid.get y.row y.col = b.id →
      ¬ Adjacent x y

/-- The tiling invariant of `GameLogic`: ids are positive, pairwise different and at most
`nextId`, and a cell of the grid holds the id of a placed domino exactly when it is one of the
two cells of that domino. -/
structure LogicInv (s : GameLogicCpp.GameState) : Prop where
  dims : IsGrid8 s.dominoGrid
  counter : 0 ≤ s.nextId
  cellsBelow : ∀ q : Position, InGrid q → s.dominoGrid.get q.row q.col ≤ s.nextId
  ids : ∀ pd ∈ s.placedDominoes, 1 ≤ pd.id ∧ pd.id ≤ s.nextId
  distinct : s.placedDominoes.Pairwise fun a b => a.id ≠ b.id
  inGrid : ∀ pd ∈ s.placedDominoes, ∀ q ∈ placedCells pd, InGrid q
  cells : ∀ pd ∈ s.placedDominoes, ∀ q : Position, InGrid q →
    (s.dominoGrid.get q.row q.col = pd.id ↔ q ∈ placedCells pd)

/-- The pip pairs of the pieces of the game: the available ones, then the placed ones. -/
def pipPairs (s : GameLogicCpp.GameState) : List (Int × Int) :=
  (s.availableDominoes ++ s.placedDominoes.map fun pd => pd.domino).map
    fun d => (d.value1, d.value2)

/-- The state after `PlaceDomino(row, col)` has returned true. -/
def logicPlaced (s : GameLogicCpp.GameState) (row col : Int) : GameLogicCpp.GameState :=
  { s with
    nextId := s.nextId + 1
    dominoGrid := (s.dominoGrid.set row col (s.nextId + 1)).set
      (secondCell ⟨row, col⟩ s.currentOrientation).row
      (secondCell ⟨row, col⟩ s.currentOrientation).col (s.nextId + 1)
    placedDominoes := s.placedDominoes ++
      [{ domino := s.availableDominoes.getD s.selectedDomino.toNat
            ⟨0, 0, Orientation.HORIZONTAL⟩,
         row := row, col := col, orientation := s.currentOrientation, id := s.nextId + 1 }]
    availableDominoes := s.availableDominoes.eraseIdx s.selectedDomino.toNat
    selectedDomino := -1 }

/-- A short session on the engine of `GameLogic.cpp`: a new easy puzzle, then the first
available piece laid horizontally on (0,0) and the next one horizontally on (1,0). -/
def logicSampleCalls : List LogicCall :=
  [LogicCall.generate Difficulty.EASY,
   LogicCall.place 0 Orientation.HORIZONTAL 0 0,
   LogicCall.place 0 Orientation.HORIZONTAL 1 0]

/-- The shuffle that leaves `availableDominoes` in its order. -/
def logicIdShuffle : Nat → List GameLogicCpp.Domino → List GameLogicCpp.Domino := fun _ l => l

/-- The state after `GeneratePuzzle(d)`, called after the session `calls` from the start of the
program, and then the session `moves`. -/
def logicGame (sh : Nat → List GameLogicCpp.Domino → List GameLogicCpp.Domino)
    (calls : List LogicCall) (d : Difficulty) (moves : List LogicCall) : GameLogicCpp.GameState :=
  runLogicCalls sh
    (GameLogicCpp.GeneratePuzzle sh (runLogicCalls sh GameLogicCpp.GameState.new calls) d).2 moves

/-- Two pieces laid, the first one taken off again. -/
def logicSampleMoves : List LogicCall :=
  [LogicCall.place 0 Orientation.HORIZONTAL 0 0,
   LogicCall.place 0 Orientation.HORIZONTAL 1 0,
   LogicCall.remove 0 0]

theorem mem_gridIndices (c : Int) : c ∈ gridIndices ↔ 0 ≤ c ∧ c < 8 := by
  simp only [gridIndices, List.mem_cons, List.mem_singleton, List.not_mem_nil, or_false]
  omega

theorem isValidForGrid_iff (p : Position) :
    p.isValidForGrid GRID_SIZE = true ↔ 0 ≤ p.row ∧ p.row < 8 ∧ 0 ≤ p.col ∧ p.col < 8 := by
  simp [Position.isValidForGrid, GRID_SIZE, and_assoc]

theorem IntSet.mem_insert (x y : Int) (s : IntSet) :
    y ∈ IntSet.insert x s ↔ y = x ∨ y ∈ s := by
  induction s with
  | nil => simp [IntSet.insert]
  | cons z zs ih =>
    simp only [IntSet.insert]
    split
    · simp
    · split
      · rename_i h; subst h; simp
      · simp [ih]; tauto

theorem IntSet.contains_iff (s : IntSet) (x : Int) : s.contains x = true ↔ x ∈ s := by
  simp [IntSet.contains]

theorem mem_collectDigits_aux (g : Grid) (pieces : List DominoPiece) (cells : List Position)
    (acc : IntSet) (v : Int) :
    v ∈ cells.foldl
      (fun digits cell =>
        let dominoId := g.get cell.row cell.col
        if dominoId ≠ -1 ∧ dominoId < (pieces.length : Int) then
          let piece := pieceAt pieces dominoId
          IntSet.insert piece.value2 (IntSet.insert piece.value1 digits)
        else digits) acc ↔
    v ∈ acc ∨ ∃ cell ∈ cells, g.get cell.row cell.col ≠ -1 ∧
      g.get cell.row cell.col < (pieces.length : Int) ∧
      (v = (pieceAt pieces (g.get cell.row cell.col)).value1 ∨
        v = (pieceAt pieces (g.get cell.row cell.col)).value2) := by
  induction cells generalizing acc with
  | nil => simp
  | cons cell rest ih =>
    simp only [List.foldl_cons, ih, List.mem_cons, exists_eq_or_imp]
    rw [← or_assoc]
    apply or_congr_left
    by_cases h : g.get cell.row cell.col ≠ -1 ∧ g.get cell.row cell.col < (pieces.length : Int)
    · simp only [h, and_self, if_true, IntSet.mem_insert, ne_eq, not_false_eq_true, true_and]
      tauto
    · simp only [h, if_false]
      tauto

theorem mem_collectDigits (g : Grid) (pieces : List DominoPiece) (cells : List Position)
    (v : Int) :
    v ∈ collectDigits g pieces cells ↔
      ∃ cell ∈ cells, g.get cell.row cell.col ≠ -1 ∧
        g.get cell.row cell.col < (pieces.length : Int) ∧
        (v = (pieceAt pieces (g.get cell.row cell.col)).value1 ∨
          v = (pieceAt pieces (g.get cell.row cell.col)).value2) := by
  unfold collectDigits
  rw [mem_collectDigits_aux]
  simp

theorem mem_checkPositions_horizontal (pos q : Position) :
    q ∈ checkPositions pos Orientation.HORIZONTAL ↔
      (pos.row - 1 ≤ q.row ∧ q.row ≤ pos.row + 1 ∧ pos.col - 1 ≤ q.col ∧ q.col ≤ pos.col + 2 ∧
        ¬ (q.row = pos.row ∧ (q.col = pos.col ∨ q.col = pos.col + 1))) := by
  obtain ⟨qr, qc⟩ := q
  simp [checkPositions, List.mem_filterMap]
  omega

theorem mem_checkPositions_vertical (pos q : Position) :
    q ∈ checkPositions pos Orientation.VERTICAL ↔
      (pos.row - 1 ≤ q.row ∧ q.row ≤ pos.row + 2 ∧ pos.col - 1 ≤ q.col ∧ q.col ≤ pos.col + 1 ∧
        ¬ (q.col = pos.col ∧ (q.row = pos.row ∨ q.row = pos.row + 1))) := by
  obtain ⟨qr, qc⟩ := q
  simp [checkPositions, List.mem_filterMap]
  omega

theorem mem_checkPositions_iff (pos q : Position) (o : Orientation) :
    q ∈ checkPositions pos o ↔
      q ≠ pos ∧ q ≠ secondCell pos o ∧ (Adjacent q pos ∨ Adjacent q (secondCell pos o)) := by
  obtain ⟨qr, qc⟩ := q
  obtain ⟨pr, pc⟩ := pos
  cases o
  · rw [mem_checkPositions_horizontal]
    simp only [secondCell, Adjacent, ne_eq, Position.mk.injEq]
    omega
  · rw [mem_checkPositions_vertical]
    simp only [secondCell, Adjacent, ne_eq, Position.mk.injEq]
    omega

theorem anyOccupied_eq_false_iff (g : Grid) (cells : List Position) :
    anyOccupied g cells = false ↔ ∀ q ∈ cells, InGrid q → g.get q.row q.col = -1 := by
  simp only [anyOccupied, List.any_eq_false, Bool.and_eq_true, isValidForGrid_iff,
    decide_eq_true_eq, InGrid, ne_eq, not_and, Decidable.not_not]

theorem wouldTouchOtherDominoes_eq_false_iff (s : GameState) (pos : Position) (o : Orientation) :
    wouldTouchOtherDominoes s pos o = false ↔
      ∀ q : Position, InGrid q → q ≠ pos → q ≠ secondCell pos o →
        (Adjacent q pos ∨ Adjacent q (secondCell pos o)) → s.dominoGrid.get q.row q.col = -1 := by
  unfold wouldTouchOtherDominoes
  rw [anyOccupied_eq_false_iff]
  constructor
  · intro h q hq h1 h2 h3
    exact h q ((mem_checkPositions_iff pos q o).2 ⟨h1, h2, h3⟩) hq
  · intro h q hq hin
    obtain ⟨h1, h2, h3⟩ := (mem_checkPositions_iff pos q o).1 hq
    exact h q hin h1 h2 h3

theorem mem_rowCells (row : Int) (q : Position) :
    q ∈ rowCells row ↔ q.row = row ∧ 0 ≤ q.col ∧ q.col < 8 := by
  obtain ⟨qr, qc⟩ := q
  simp only [rowCells, List.mem_map, mem_gridIndices, Position.mk.injEq]
  constructor
  · rintro ⟨c, hc, h1, h2⟩; subst h1 h2; exact ⟨rfl, hc⟩
  · rintro ⟨h1, hc⟩; exact ⟨qc, hc, h1.symm, rfl⟩

theorem mem_colCells (col : Int) (q : Position) :
    q ∈ colCells col ↔ q.col = col ∧ 0 ≤ q.row ∧ q.row < 8 := by
  obtain ⟨qr, qc⟩ := q
  simp only [colCells, List.mem_map, mem_gridIndices, Position.mk.injEq]
  constructor
  · rintro ⟨c, hc, h1, h2⟩; subst h1 h2; exact ⟨rfl, hc⟩
  · rintro ⟨h1, hc⟩; exact ⟨qr, hc, rfl, h1.symm⟩

/-- The digit test of `wouldMaintainRowColumnUniqueness` on one line of cells. -/
theorem digits_free_iff (s : GameState) (hwf : OccupiedCellsIndexed s) (d : DominoPiece)
    (cells : List Position) (hin : ∀ q ∈ cells, InGrid q) :
    (!((collectDigits s.dominoGrid s.placedDominoes cells).contains d.value1 ||
        (collectDigits s.dominoGrid s.placedDominoes cells).contains d.value2)) = true ↔
      ∀ q ∈ cells, s.dominoGrid.get q.row q.col ≠ -1 →
        ∀ v ∈ [(pieceAt s.placedDominoes (s.dominoGrid.get q.row q.col)).value1,
                (pieceAt s.placedDominoes (s.dominoGrid.get q.row q.col)).value2],
          d.value1 ≠ v ∧ d.value2 ≠ v := by
  have key : ∀ v : Int,
      (collectDigits s.dominoGrid s.placedDominoes cells).contains v = false ↔
        ∀ q ∈ cells, s.dominoGrid.get q.row q.col ≠ -1 →
          v ≠ (pieceAt s.placedDominoes (s.dominoGrid.get q.row q.col)).value1 ∧
            v ≠ (pieceAt s.placedDominoes (s.dominoGrid.get q.row q.col)).value2 := by
    intro v
    rw [Bool.eq_false_iff, ne_eq, IntSet.contains_iff, mem_collectDigits]
    constructor
    · intro h q hq hne
      have hlt := (hwf q (hin q hq) hne).2.1
      constructor
      · intro hv; exact h ⟨q, hq, hne, hlt, Or.inl hv⟩
      · intro hv; exact h ⟨q, hq, hne, hlt, Or.inr hv⟩
    · rintro h ⟨q, hq, hne, _, hv⟩
      have a := h q hq hne
      rcases hv with hv | hv
      · exact a.1 hv
      · exact a.2 hv
  rw [Bool.not_eq_true', Bool.or_eq_false_iff, key, key]
  simp only [List.mem_cons, List.mem_singleton, List.not_mem_nil, or_false, forall_eq_or_imp,
    forall_eq]
  constructor
  · rintro ⟨h1, h2⟩ q hq hne
    have a := h1 q hq hne
    have b := h2 q hq hne
    exact ⟨⟨a.1, b.1⟩, ⟨a.2, b.2⟩⟩
  · intro h
    constructor
    · intro q hq hne
      have a := h q hq hne
      exact ⟨a.1.1, a.2.1⟩
    · intro q hq hne
      have a := h q hq hne
      exact ⟨a.1.2, a.2.2⟩

theorem Grid.get_set_of_ne (g : Grid) (r c v r1 c1 : Int) (h : ¬ (r1 = r ∧ c1 = c)) :
    (g.set r c v).get r1 c1 = g.get r1 c1 := by
  unfold Grid.get Grid.set
  by_cases h0 : r < 0 ∨ c < 0
  · simp [h0]
  by_cases h1 : r1 < 0 ∨ c1 < 0
  · simp [h1]
  simp only [h0, h1, if_false]
  have hr : 0 ≤ r := by omega
  have hc : 0 ≤ c := by omega
  have hr1 : 0 ≤ r1 := by omega
  have hc1 : 0 ≤ c1 := by omega
  simp only [List.getD_eq_getElem?_getD, List.getElem?_set]
  by_cases e : r.toNat = r1.toNat
  · have hcc : c.toNat ≠ c1.toNat := by omega
    rw [if_pos e]
    by_cases hlt : r.toNat < g.length
    · simp only [hlt, if_true, Option.getD_some, List.getElem?_set, hcc, if_false, ← e]
    · simp only [hlt, if_false]
      rw [← e]
      simp [List.getElem?_eq_none (Nat.le_of_not_lt hlt)]
  · rw [if_neg e]

theorem Grid.get_set_same (g : Grid) (hg : IsGrid8 g) (r c v : Int) (h0 : 0 ≤ r) (h1 : r < 8)
    (h2 : 0 ≤ c) (h3 : c < 8) : (g.set r c v).get r c = v := by
  unfold Grid.get Grid.set
  have hn : ¬ (r < 0 ∨ c < 0) := by omega
  simp only [hn, if_false]
  have hlt : r.toNat < g.length := by rw [hg.1]; omega
  have hrow : (g[r.toNat]).length = 8 := hg.2 _ (List.getElem_mem _)
  simp only [List.getD_eq_getElem?_getD, List.getElem?_set, hlt, if_true, Option.getD_some,
    List.getElem?_eq_getElem hlt]
  have hc : c.toNat < (g[r.toNat]).length := by rw [hrow]; omega
  simp [hc]

theorem Grid.set_isGrid8 (g : Grid) (hg : IsGrid8 g) (r c v : Int) : IsGrid8 (g.set r c v) := by
  unfold Grid.set
  split
  · exact hg
  · refine ⟨by simp [hg.1], ?_⟩
    intro row hrow
    rcases List.mem_or_eq_of_mem_set hrow with h | h
    · exact hg.2 row h
    · subst h
      simp only [List.length_set, List.getD_eq_getElem?_getD]
      by_cases hlt : r.toNat < g.length
      · simp only [List.getElem?_eq_getElem hlt, Option.getD_some]
        exact hg.2 _ (List.getElem_mem _)
      · exfalso
        rw [List.set_eq_of_length_le (Nat.le_of_not_lt hlt)] at hrow
        have := hg.2 _ hrow
        simp [List.getElem?_eq_none (Nat.le_of_not_lt hlt)] at this

theorem Grid.fill_isGrid8 (v : Int) : IsGrid8 (Grid.fill v) := by
  refine ⟨by simp [Grid.fill], ?_⟩
  intro row hrow
  simp only [Grid.fill, List.mem_replicate] at hrow
  rw [hrow.2]; simp

theorem Grid.get_fill (v r c : Int) (h0 : 0 ≤ r) (h1 : r < 8) (h2 : 0 ≤ c) (h3 : c < 8) :
    (Grid.fill v).get r c = v := by
  unfold Grid.get Grid.fill
  have hn : ¬ (r < 0 ∨ c < 0) := by omega
  have hr : r.toNat < 8 := by omega
  have hc : c.toNat < 8 := by omega
  simp only [hn, if_false, List.getD_eq_getElem?_getD, List.getElem?_replicate, hr, hc, if_true,
    Option.getD_some]

theorem Grid.ext8 (g1 g2 : Grid) (h1 : IsGrid8 g1) (h2 : IsGrid8 g2)
    (h : ∀ r c : Int, 0 ≤ r → r < 8 → 0 ≤ c → c < 8 → g1.get r c = g2.get r c) : g1 = g2 := by
  apply List.ext_getElem (by rw [h1.1, h2.1])
  intro i hi1 hi2
  have l1 : (g1[i]).length = 8 := h1.2 _ (List.getElem_mem _)
  have l2 : (g2[i]).length = 8 := h2.2 _ (List.getElem_mem _)
  apply List.ext_getElem (by rw [l1, l2])
  intro j hj1 hj2
  have hi : i < 8 := by rw [h1.1] at hi1; exact hi1
  have hj : j < 8 := by rw [l1] at hj1; exact hj1
  have := h (i : Int) (j : Int) (by omega) (by omega) (by omega) (by omega)
  unfold Grid.get at this
  have hn : ¬ ((i : Int) < 0 ∨ (j : Int) < 0) := by omega
  simp only [hn, if_false, Int.toNat_ofNat, List.getD_eq_getElem?_getD,
    List.getElem?_eq_getElem hi1, List.getElem?_eq_getElem hi2, Option.getD_some,
    List.getElem?_eq_getElem hj1, List.getElem?_eq_getElem hj2] at this
  exact this

theorem calculateConstraintValue_frame (s : GameState) (row col : Int) :
    ∃ cache valid, (calculateConstraintValue s row col).2 =
      { s with constraintCache := cache, cacheValid := valid } := by
  unfold calculateConstraintValue
  by_cases hv : s.cacheValid = true
  · simp only [hv, Bool.not_true, Bool.false_eq_true, if_false]
    split
    · exact ⟨s.constraintCache, s.cacheValid, rfl⟩
    · exact ⟨_, _, rfl⟩
  · simp only [hv, Bool.not_false, if_true, Bool.not_eq_true]
    split
    · exact ⟨_, _, rfl⟩
    · exact ⟨_, _, rfl⟩

theorem checkClues_frame (cells : List Position) (s : GameState) :
    ∃ cache valid, (checkClues cells s).2 =
      { s with constraintCache := cache, cacheValid := valid } := by
  induction cells generalizing s with
  | nil => exact ⟨s.constraintCache, s.cacheValid, rfl⟩
  | cons cell rest ih =>
    unfold checkClues
    obtain ⟨c1, v1, h1⟩ := calculateConstraintValue_frame s cell.row cell.col
    by_cases hg : s.grid.get cell.row cell.col > 0
    · rw [if_pos hg]
      dsimp only
      by_cases hne : (calculateConstraintValue s cell.row cell.col).1 ≠ s.grid.get cell.row cell.col
      · rw [if_pos hne]
        exact ⟨c1, v1, h1⟩
      · rw [if_neg hne]
        obtain ⟨c2, v2, h2⟩ := ih (calculateConstraintValue s cell.row cell.col).2
        rw [h2, h1]
        exact ⟨c2, v2, rfl⟩
    · rw [if_neg hg]
      exact ih s

theorem isValidSolution_frame (s : GameState) :
    ∃ cache valid, (isValidSolution s).2 =
      { s with constraintCache := cache, cacheValid := valid } := by
  unfold isValidSolution
  split
  · exact ⟨s.constraintCache, s.cacheValid, rfl⟩
  · obtain ⟨c, v, h⟩ := checkClues_frame allCells s
    dsimp only
    split <;> exact ⟨c, v, h⟩

theorem getDominoPositions_placedCopy (d : DominoPiece) (pos : Position) (o : Orientation) :
    getDominoPositions (placedCopy d pos o) = [pos, secondCell pos o] := by
  cases o <;> rfl

theorem placeDomino_true (s : GameState) (d : DominoPiece) (pos : Position) (o : Orientation)
    (h : (placeDomino s d pos o).1 = true) :
    canPlaceDomino s d pos o = true ∧
      s.placedDominoes.any (fun placed => placed.opEq d) = false ∧
      ∃ cache valid completed, (placeDomino s d pos o).2 =
        { placedState s d pos o with
          constraintCache := cache, cacheValid := valid, gameCompleted := completed } := by
  unfold placeDomino at h ⊢
  by_cases h1 : (!pos.isValidForGrid GRID_SIZE || !canPlaceDomino s d pos o) = true
  · rw [if_pos h1] at h; simp at h
  rw [if_neg h1] at h ⊢
  by_cases h2 : s.placedDominoes.any (fun placed => placed.opEq d) = true
  · rw [if_pos h2] at h; simp at h
  rw [if_neg h2] at h ⊢
  simp only [Bool.or_eq_true, Bool.not_eq_true', not_or, Bool.not_eq_false] at h1
  refine ⟨h1.2, by simpa using h2, ?_⟩
  have hpos : getDominoPositions
      { d with position := pos, orientation := o, isPlaced := true } =
      [pos, secondCell pos o] := getDominoPositions_placedCopy d pos o
  have hlen : (((s.placedDominoes ++
      [({ d with position := pos, orientation := o, isPlaced := true } : DominoPiece)]).length :
        Int) - 1) = (s.placedDominoes.length : Int) := by
    simp
  simp only [hpos, hlen, List.foldl_cons, List.foldl_nil]
  split
  · obtain ⟨c, v, hf⟩ := isValidSolution_frame (placedState s d pos o)
    refine ⟨c, v, (isValidSolution (placedState s d pos o)).1, ?_⟩
    show ({ (isValidSolution (placedState s d pos o)).2 with
      gameCompleted := (isValidSolution (placedState s d pos o)).1 } : GameState) = _
    rw [hf]
  · exact ⟨[], false, s.gameCompleted, rfl⟩

theorem getDominoPositions_eq (p : DominoPiece) :
    getDominoPositions p = [p.position, secondCell p.position p.orientation] := by
  unfold getDominoPositions secondCell
  cases p.orientation <;> rfl

theorem secondCell_ne (pos : Position) (o : Orientation) : secondCell pos o ≠ pos := by
  obtain ⟨r, c⟩ := pos
  cases o <;> simp [secondCell]

theorem pieceAt_natCast (pieces : List DominoPiece) (i : Nat) (h : i < pieces.length) :
    pieceAt pieces (i : Int) = pieces.get ⟨i, h⟩ := by
  unfold pieceAt
  have : ¬ ((i : Int) < 0) := by omega
  simp [this, List.getD_eq_getElem?_getD, List.getElem?_eq_getElem h]

/-- Rebuilding the id grid from the placed pieces, from piece `i` on. -/
theorem updateDominoIds_pieces_eq (dg : Grid) (placed : List DominoPiece) (hdims : IsGrid8 dg)
    (hocc : ∀ q : Position, InGrid q → dg.get q.row q.col ≠ -1 →
      0 ≤ dg.get q.row q.col ∧ dg.get q.row q.col < (placed.length : Int) ∧
        q ∈ getDominoPositions (pieceAt placed (dg.get q.row q.col)))
    (hpieces : ∀ (i : Nat) (h : i < placed.length),
      ∀ pos ∈ getDominoPositions (placed.get ⟨i, h⟩),
        InGrid pos ∧ dg.get pos.row pos.col = (i : Int)) :
    ∀ (rest : List DominoPiece) (i : Nat) (g : Grid), placed.drop i = rest → IsGrid8 g →
      (∀ q : Position, InGrid q →
        g.get q.row q.col =
          if dg.get q.row q.col ≠ -1 ∧ dg.get q.row q.col < (i : Int) then dg.get q.row q.col
          else -1) →
      updateDominoIds.pieces rest i g = Except.ok dg := by
  intro rest
  induction rest with
  | nil =>
    intro i g hdrop hg hinv
    have hlen : placed.length ≤ i := by
      by_contra hlt
      have : 0 < (placed.drop i).length := by rw [List.length_drop]; omega
      rw [hdrop] at this; simp at this
    unfold updateDominoIds.pieces
    congr 1
    apply Grid.ext8 _ _ hg hdims
    intro r c h0 h1 h2 h3
    have hq := hinv ⟨r, c⟩ ⟨h0, h1, h2, h3⟩
    simp only at hq
    rw [hq]
    by_cases hne : dg.get r c ≠ -1
    · have := (hocc ⟨r, c⟩ ⟨h0, h1, h2, h3⟩ hne).2.1
      simp only at this
      rw [if_pos ⟨hne, by omega⟩]
    · rw [if_neg (fun h => hne h.1)]
      simp only [ne_eq, Decidable.not_not] at hne
      exact hne.symm
  | cons piece rest ih =>
    intro i g hdrop hg hinv
    have hlt : i < placed.length := by
      by_contra hge
      rw [List.drop_eq_nil_of_le (Nat.le_of_not_lt hge)] at hdrop
      simp at hdrop
    have hpiece : placed.get ⟨i, hlt⟩ = piece := by
      have := List.drop_eq_getElem_cons hlt
      rw [hdrop] at this
      simp only [List.cons.injEq] at this
      exact this.1.symm
    have hdrop2 : placed.drop (i + 1) = rest := by
      have := List.drop_eq_getElem_cons hlt
      rw [hdrop] at this
      simp only [List.cons.injEq] at this
      exact this.2.symm
    have hpos := hpieces i hlt
    rw [hpiece, getDominoPositions_eq] at hpos
    have hp1 := hpos piece.position (by simp)
    have hp2 := hpos (secondCell piece.position piece.orientation) (by simp)
    have hne12 := secondCell_ne piece.position piece.orientation
    unfold updateDominoIds.pieces
    rw [getDominoPositions_eq]
    have g1 : g.get piece.position.row piece.position.col = -1 := by
      rw [hinv _ hp1.1, hp1.2]; simp
    have g2 : g.get (secondCell piece.position piece.orientation).row
        (secondCell piece.position piece.orientation).col = -1 := by
      rw [hinv _ hp2.1, hp2.2]; simp
    have g2' : (g.set piece.position.row piece.position.col (i : Int)).get
        (secondCell piece.position piece.orientation).row
        (secondCell piece.position piece.orientation).col = -1 := by
      rw [Grid.get_set_of_ne, g2]
      intro h
      apply hne12
      cases hs : secondCell piece.position piece.orientation
      cases hp : piece.position
      rw [hs, hp] at h
      simp only at h
      rw [h.1, h.2]
    simp only [updateDominoIds.cells, g1, g2', ne_eq, not_true_eq_false, if_false]
    apply ih (i + 1) _ hdrop2
    · exact Grid.set_isGrid8 _ (Grid.set_isGrid8 _ hg _ _ _) _ _ _
    · intro q hq
      by_cases e2 : q = secondCell piece.position piece.orientation
      · subst e2
        rw [Grid.get_set_same _ (Grid.set_isGrid8 _ hg _ _ _) _ _ _ hq.1 hq.2.1 hq.2.2.1 hq.2.2.2,
          hp2.2]
        have : ((i : Int) ≠ -1 ∧ (i : Int) < ((i + 1 : Nat) : Int)) := by omega
        rw [if_pos this]
      · have e2' : ¬ (q.row = (secondCell piece.position piece.orientation).row ∧
            q.col = (secondCell piece.position piece.orientation).col) := by
          intro h; apply e2
          cases hs : secondCell piece.position piece.orientation
          obtain ⟨qr, qc⟩ := q
          rw [hs] at h; simp only at h
          rw [h.1, h.2]
        rw [Grid.get_set_of_ne _ _ _ _ _ _ e2']
        by_cases e1 : q = piece.position
        · subst e1
          rw [Grid.get_set_same _ hg _ _ _ hq.1 hq.2.1 hq.2.2.1 hq.2.2.2, hp1.2]
          have : ((i : Int) ≠ -1 ∧ (i : Int) < ((i + 1 : Nat) : Int)) := by omega
          rw [if_pos this]
        · have e1' : ¬ (q.row = piece.position.row ∧ q.col = piece.position.col) := by
            intro h; apply e1
            cases hs : piece.position
            obtain ⟨qr, qc⟩ := q
            rw [hs] at h; simp only at h
            rw [h.1, h.2]
          rw [Grid.get_set_of_ne _ _ _ _ _ _ e1', hinv q hq]
          by_cases hne : dg.get q.row q.col ≠ -1
          · have hq3 := (hocc q hq hne)
            have hidne : dg.get q.row q.col ≠ (i : Int) := by
              intro hid
              have hm := hq3.2.2
              rw [hid, pieceAt_natCast placed i hlt, hpiece, getDominoPositions_eq] at hm
              simp only [List.mem_cons, List.mem_singleton, List.not_mem_nil, or_false] at hm
              rcases hm with hm | hm
              · exact e1 hm
              · exact e2 hm
            by_cases hlt2 : dg.get q.row q.col < (i : Int)
            · rw [if_pos ⟨hne, hlt2⟩, if_pos ⟨hne, by omega⟩]
            · rw [if_neg (fun h => hlt2 h.2), if_neg (fun h => by omega)]
          · rw [if_neg (fun h => hne h.1), if_neg (fun h => hne h.1)]

theorem updateDominoIds_wellFormed (s : GameState) (hwf : WellFormed s) (t : GameState)
    (ht : t.placedDominoes = s.placedDominoes) :
    updateDominoIds t = (Except.ok (), { t with dominoGrid := s.dominoGrid }) := by
  unfold updateDominoIds
  rw [ht, updateDominoIds_pieces_eq s.dominoGrid s.placedDominoes hwf.dims hwf.occupied hwf.pieces
    s.placedDominoes 0 (Grid.fill (-1)) rfl (Grid.fill_isGrid8 _)]
  intro q hq
  rw [Grid.get_fill _ _ _ hq.1 hq.2.1 hq.2.2.1 hq.2.2.2]
  by_cases hne : s.dominoGrid.get q.row q.col ≠ -1
  · have := (hwf.occupied q hq hne).1
    rw [if_neg]
    intro h
    have := h.2
    simp only [Nat.cast_zero] at this
    omega
  · rw [if_neg (fun h => hne h.1)]

theorem findCovering_append (position : Position) (l : List DominoPiece) (p : DominoPiece)
    (i : Nat) (hl : ∀ q ∈ l, position ∉ getDominoPositions q)
    (hp : position ∈ getDominoPositions p) :
    findCovering position (l ++ [p]) i = some (i + l.length) := by
  induction l generalizing i with
  | nil =>
    simp only [List.nil_append, findCovering, List.length_nil, Nat.add_zero]
    rw [if_pos]
    simp only [List.any_eq_true, decide_eq_true_eq]
    exact ⟨position, hp, rfl⟩
  | cons q rest ih =>
    rw [List.cons_append, findCovering, List.length_cons]
    rw [if_neg]
    · rw [ih (i + 1) (fun q hq => hl q (List.mem_cons_of_mem _ hq))]
      congr 1; omega
    · simp only [List.any_eq_true, decide_eq_true_eq, not_exists, not_and]
      intro x hx hxe
      subst hxe
      exact hl q (List.mem_cons_self _ _) hx

theorem canPlaceDomino_eq (s : GameState) (d : DominoPiece) (pos : Position) (o : Orientation) :
    canPlaceDomino s d pos o =
      if !pos.isValidForGrid GRID_SIZE then false
      else if !(secondCell pos o).isValidForGrid GRID_SIZE then false
      else if s.dominoGrid.get pos.row pos.col ≠ -1 ∨
          s.dominoGrid.get (secondCell pos o).row (secondCell pos o).col ≠ -1 then false
      else if s.grid.get pos.row pos.col > 0 ∨
          s.grid.get (secondCell pos o).row (secondCell pos o).col > 0 then false
      else
        wouldMaintainRowColumnUniqueness s d pos o && !wouldTouchOtherDominoes s pos o := by
  cases o <;> rfl

theorem canPlaceDomino_true_cells (s : GameState) (d : DominoPiece) (pos : Position)
    (o : Orientation) (h : canPlaceDomino s d pos o = true) :
    InGrid pos ∧ InGrid (secondCell pos o) ∧ s.dominoGrid.get pos.row pos.col = -1 ∧
      s.dominoGrid.get (secondCell pos o).row (secondCell pos o).col = -1 := by
  rw [canPlaceDomino_eq] at h
  by_cases h1 : pos.isValidForGrid GRID_SIZE = true
  swap
  · simp [h1] at h
  by_cases h2 : (secondCell pos o).isValidForGrid GRID_SIZE = true
  swap
  · simp [h1, h2] at h
  simp only [h1, h2, Bool.not_true, Bool.false_eq_true, if_false] at h
  by_cases h3 : s.dominoGrid.get pos.row pos.col ≠ -1 ∨
      s.dominoGrid.get (secondCell pos o).row (secondCell pos o).col ≠ -1
  · rw [if_pos h3] at h; simp at h
  simp only [not_or, ne_eq, Decidable.not_not] at h3
  exact ⟨(isValidForGrid_iff pos).1 h1, (isValidForGrid_iff _).1 h2, h3.1, h3.2⟩

theorem wouldMaintainRowColumnUniqueness_iff (s : GameState) (hwf : OccupiedCellsIndexed s)
    (d : DominoPiece) (pos : Position) (o : Orientation) (h1 : InGrid pos)
    (h2 : InGrid (secondCell pos o)) :
    wouldMaintainRowColumnUniqueness s d pos o = true ↔
      ∀ q : Position, InGrid q →
        (q.row = pos.row ∨ q.row = (secondCell pos o).row ∨ q.col = pos.col ∨
          q.col = (secondCell pos o).col) →
        s.dominoGrid.get q.row q.col ≠ -1 →
        ∀ v ∈ [(pieceAt s.placedDominoes (s.dominoGrid.get q.row q.col)).value1,
                (pieceAt s.placedDominoes (s.dominoGrid.get q.row q.col)).value2],
          d.value1 ≠ v ∧ d.value2 ≠ v := by
  have hrow : ∀ row : Int, 0 ≤ row → row < 8 → ∀ q ∈ rowCells row, InGrid q := by
    intro row hr0 hr8 q hq
    rw [mem_rowCells] at hq
    exact ⟨by omega, by omega, hq.2.1, hq.2.2⟩
  have hcol : ∀ col : Int, 0 ≤ col → col < 8 → ∀ q ∈ colCells col, InGrid q := by
    intro col hc0 hc8 q hq
    rw [mem_colCells] at hq
    exact ⟨hq.2.1, hq.2.2, by omega, by omega⟩
  obtain ⟨a1, a2, a3, a4⟩ := h1
  obtain ⟨b1, b2, b3, b4⟩ := h2
  unfold wouldMaintainRowColumnUniqueness
  cases o
  · simp only [secondCell] at b1 b2 b3 b4
    simp only [affectedRows, affectedCols, List.all_cons, List.all_nil, Bool.and_true,
      Bool.and_eq_true, secondCell]
    rw [digits_free_iff s hwf d _ (hrow _ a1 a2), digits_free_iff s hwf d _ (hcol _ a3 a4),
      digits_free_iff s hwf d _ (hcol _ b3 b4)]
    simp only [mem_rowCells, mem_colCells]
    constructor
    · rintro ⟨hr, hc1, hc2⟩ q hq hline hne
      rcases hline with h | h | h | h
      · exact hr q ⟨h, hq.2.2.1, hq.2.2.2⟩ hne
      · exact hr q ⟨h, hq.2.2.1, hq.2.2.2⟩ hne
      · exact hc1 q ⟨h, hq.1, hq.2.1⟩ hne
      · exact hc2 q ⟨h, hq.1, hq.2.1⟩ hne
    · intro h
      refine ⟨?_, ?_, ?_⟩
      · rintro q ⟨e, c0, c8⟩ hne
        exact h q ⟨by omega, by omega, c0, c8⟩ (Or.inl e) hne
      · rintro q ⟨e, c0, c8⟩ hne
        exact h q ⟨c0, c8, by omega, by omega⟩ (Or.inr (Or.inr (Or.inl e))) hne
      · rintro q ⟨e, c0, c8⟩ hne
        exact h q ⟨c0, c8, by omega, by omega⟩ (Or.inr (Or.inr (Or.inr e))) hne
  · simp only [secondCell] at b1 b2 b3 b4
    simp only [affectedRows, affectedCols, List.all_cons, List.all_nil, Bool.and_true,
      Bool.and_eq_true, secondCell]
    rw [digits_free_iff s hwf d _ (hrow _ a1 a2), digits_free_iff s hwf d _ (hrow _ b1 b2),
      digits_free_iff s hwf d _ (hcol _ a3 a4)]
    simp only [mem_rowCells, mem_colCells]
    constructor
    · rintro ⟨⟨hr1, hr2⟩, hc⟩ q hq hline hne
      rcases hline with h | h | h | h
      · exact hr1 q ⟨h, hq.2.2.1, hq.2.2.2⟩ hne
      · exact hr2 q ⟨h, hq.2.2.1, hq.2.2.2⟩ hne
      · exact hc q ⟨h, hq.1, hq.2.1⟩ hne
      · exact hc q ⟨h, hq.1, hq.2.1⟩ hne
    · intro h
      refine ⟨⟨?_, ?_⟩, ?_⟩
      · rintro q ⟨e, c0, c8⟩ hne
        exact h q ⟨by omega, by omega, c0, c8⟩ (Or.inl e) hne
      · rintro q ⟨e, c0, c8⟩ hne
        exact h q ⟨by omega, by omega, c0, c8⟩ (Or.inr (Or.inl e)) hne
      · rintro q ⟨e, c0, c8⟩ hne
        exact h q ⟨c0, c8, by omega, by omega⟩ (Or.inr (Or.inr (Or.inl e))) hne

theorem mem_allCells (q : Position) : q ∈ allCells ↔ InGrid q := by
  obtain ⟨r, c⟩ := q
  simp only [allCells, List.mem_flatMap, List.mem_map, mem_gridIndices, Position.mk.injEq, InGrid]
  constructor
  · rintro ⟨a, ha, b, hb, h1, h2⟩; subst h1 h2; exact ⟨ha.1, ha.2, hb.1, hb.2⟩
  · rintro ⟨h1, h2, h3, h4⟩; exact ⟨r, ⟨h1, h2⟩, c, ⟨h3, h4⟩, rfl, rfl⟩

theorem canPlaceDomino_spec (s : GameState) (hwf : OccupiedCellsIndexed s) (d : DominoPiece)
    (pos : Position) (o : Orientation) :
    canPlaceDomino s d pos o = true ↔ PlacementAllowed s d pos o := by
  unfold PlacementAllowed
  rw [canPlaceDomino_eq]
  by_cases h1 : InGrid pos
  swap
  · have : pos.isValidForGrid GRID_SIZE = false := by
      rw [Bool.eq_false_iff, ne_eq, isValidForGrid_iff]; exact h1
    simp [this, h1]
  by_cases h2 : InGrid (secondCell pos o)
  swap
  · have : (secondCell pos o).isValidForGrid GRID_SIZE = false := by
      rw [Bool.eq_false_iff, ne_eq, isValidForGrid_iff]; exact h2
    simp [this, h2]
  have e1 : pos.isValidForGrid GRID_SIZE = true := (isValidForGrid_iff pos).2 h1
  have e2 : (secondCell pos o).isValidForGrid GRID_SIZE = true := (isValidForGrid_iff _).2 h2
  simp only [e1, e2, Bool.not_true, Bool.false_eq_true, if_false]
  by_cases h3 : s.dominoGrid.get pos.row pos.col ≠ -1 ∨
      s.dominoGrid.get (secondCell pos o).row (secondCell pos o).col ≠ -1
  · rw [if_pos h3]
    simp only [Bool.false_eq_true, false_iff]
    rintro ⟨_, ⟨a, b⟩, _⟩
    rcases h3 with h | h
    · exact h a
    · exact h b
  rw [if_neg h3]
  by_cases h4 : s.grid.get pos.row pos.col > 0 ∨
      s.grid.get (secondCell pos o).row (secondCell pos o).col > 0
  · rw [if_pos h4]
    simp only [Bool.false_eq_true, false_iff]
    rintro ⟨_, _, ⟨a, b⟩, _⟩
    rcases h4 with h | h
    · exact a h
    · exact b h
  rw [if_neg h4]
  rw [Bool.and_eq_true, Bool.not_eq_true', wouldTouchOtherDominoes_eq_false_iff,
    wouldMaintainRowColumnUniqueness_iff s hwf d pos o h1 h2]
  simp only [not_or, ne_eq, Decidable.not_not] at h3 h4
  constructor
  · rintro ⟨hu, ht⟩
    exact ⟨⟨h1, h2⟩, h3, h4, ht, hu⟩
  · rintro ⟨_, _, _, ht, hu⟩
    exact ⟨hu, ht⟩

set_option maxRecDepth 100000 in
theorem onePieceState_occupied : OccupiedCellsIndexed onePieceState := by
  intro q hq
  have hall : ∀ q ∈ allCells, onePieceState.dominoGrid.get q.row q.col ≠ -1 →
      0 ≤ onePieceState.dominoGrid.get q.row q.col ∧
        onePieceState.dominoGrid.get q.row q.col < (onePieceState.placedDominoes.length : Int) ∧
        q ∈ getDominoPositions
          (pieceAt onePieceState.placedDominoes (onePieceState.dominoGrid.get q.row q.col)) := by
    decide
  exact hall q ((mem_allCells q).2 hq)

theorem Position.eq_of_fields (a b : Position) (h : a.row = b.row ∧ a.col = b.col) : a = b := by
  obtain ⟨ar, ac⟩ := a
  obtain ⟨br, bc⟩ := b
  simp only at h
  rw [h.1, h.2]

theorem list_set_get_self {α : Type} (l : List α) (i : Nat) (h : i < l.length) :
    l.set i (l.get ⟨i, h⟩) = l := by
  apply List.ext_getElem (by simp)
  intro n h1 h2
  rw [List.getElem_set]
  split
  · rename_i e; subst e; rfl
  · rfl

/-- Clearing the two cells of a piece and writing its index back gives the grid back. -/
theorem restore_cells (dg : Grid) (hdims : IsGrid8 dg) (p1 p2 : Position) (id : Int)
    (h1 : InGrid p1) (h2 : InGrid p2) (e1 : dg.get p1.row p1.col = id)
    (e2 : dg.get p2.row p2.col = id) :
    (((dg.set p1.row p1.col (-1)).set p2.row p2.col (-1)).set p1.row p1.col id).set
      p2.row p2.col id = dg := by
  have d1 := Grid.set_isGrid8 dg hdims p1.row p1.col (-1)
  have d2 := Grid.set_isGrid8 _ d1 p2.row p2.col (-1)
  have d3 := Grid.set_isGrid8 _ d2 p1.row p1.col id
  have d4 := Grid.set_isGrid8 _ d3 p2.row p2.col id
  apply Grid.ext8 _ _ d4 hdims
  intro r c h0 h8 c0 c8
  by_cases q2 : r = p2.row ∧ c = p2.col
  · rw [q2.1, q2.2, Grid.get_set_same _ d3 _ _ _ h2.1 h2.2.1 h2.2.2.1 h2.2.2.2, e2]
  · rw [Grid.get_set_of_ne _ _ _ _ _ _ q2]
    by_cases q1 : r = p1.row ∧ c = p1.col
    · rw [q1.1, q1.2, Grid.get_set_same _ d2 _ _ _ h1.1 h1.2.1 h1.2.2.1 h1.2.2.2, e1]
    · rw [Grid.get_set_of_ne _ _ _ _ _ _ q1, Grid.get_set_of_ne _ _ _ _ _ _ q2,
        Grid.get_set_of_ne _ _ _ _ _ _ q1]

theorem moveDomino_spec (s : GameState) (hwf : WellFormed s) (fromPosition toPosition : Position)
    (newOrientation : Orientation) :
    (∃ b, (moveDomino s fromPosition toPosition newOrientation).1 = Except.ok b) ∧
      ((moveDomino s fromPosition toPosition newOrientation).1 = Except.ok false →
        (moveDomino s fromPosition toPosition newOrientation).2.dominoGrid = s.dominoGrid ∧
        (moveDomino s fromPosition toPosition newOrientation).2.placedDominoes =
          s.placedDominoes ∧
        (moveDomino s fromPosition toPosition newOrientation).2.grid = s.grid) := by
  unfold moveDomino
  by_cases hg : (!fromPosition.isValidForGrid GRID_SIZE || !toPosition.isValidForGrid GRID_SIZE)
      = true
  · rw [if_pos hg]
    exact ⟨⟨false, rfl⟩, fun _ => ⟨rfl, rfl, rfl⟩⟩
  rw [if_neg hg]
  dsimp only
  by_cases hid : s.dominoGrid.get fromPosition.row fromPosition.col = -1 ∨
      s.dominoGrid.get fromPosition.row fromPosition.col ≥ (s.placedDominoes.length : Int)
  · rw [if_pos hid]
    exact ⟨⟨false, rfl⟩, fun _ => ⟨rfl, rfl, rfl⟩⟩
  rw [if_neg hid]
  simp only [Bool.or_eq_true, Bool.not_eq_true', not_or, Bool.not_eq_false] at hg
  have hfrom : InGrid fromPosition := (isValidForGrid_iff _).1 hg.1
  have hne : s.dominoGrid.get fromPosition.row fromPosition.col ≠ -1 := fun h => hid (Or.inl h)
  obtain ⟨h0, hlt, _⟩ := hwf.occupied fromPosition hfrom hne
  obtain ⟨i, hi⟩ := Int.eq_ofNat_of_zero_le h0
  rw [hi] at hlt ⊢
  have hilt : i < s.placedDominoes.length := by omega
  rw [pieceAt_natCast _ i hilt, getDominoPositions_eq]
  have hp := hwf.pieces i hilt
  rw [getDominoPositions_eq] at hp
  have hp1 := hp (s.placedDominoes.get ⟨i, hilt⟩).position (by simp)
  have hp2 := hp (secondCell (s.placedDominoes.get ⟨i, hilt⟩).position
    (s.placedDominoes.get ⟨i, hilt⟩).orientation) (by simp)
  have hset : ∀ (ps : List DominoPiece) (p : DominoPiece),
      setPieceAt ps (i : Int) p = ps.set i p := by
    intro ps p
    unfold setPieceAt
    rw [if_neg (by omega), Int.toNat_ofNat]
  simp only [List.foldl_cons, List.foldl_nil, hset]
  split
  · rename_i r hr
    split at hr
    · simp at hr
    · simp only [Except.ok.injEq] at hr
      subst hr
      exact ⟨⟨true, rfl⟩, fun h => by simp at h⟩
  · refine ⟨⟨false, rfl⟩, fun _ => ⟨?_, ?_, rfl⟩⟩
    · exact restore_cells s.dominoGrid hwf.dims _ _ _ hp1.1 hp2.1 hp1.2 hp2.2
    · simp only [List.set_set]
      exact list_set_get_self _ i hilt

theorem newGame_wellFormed : WellFormed newGame := by
  refine ⟨Grid.fill_isGrid8 (-1), ?_, ?_⟩
  · intro q hq hne
    exact absurd (Grid.get_fill (-1) q.row q.col hq.1 hq.2.1 hq.2.2.1 hq.2.2.2) hne
  · intro i h
    exact absurd h (Nat.not_lt_zero i)

set_option maxRecDepth 100000 in
theorem onePieceState_wellFormed : WellFormed onePieceState := by
  refine ⟨by decide, onePieceState_occupied, ?_⟩
  decide

theorem placeDomino_false_state (s : GameState) (d : DominoPiece) (pos : Position)
    (o : Orientation) (h : (placeDomino s d pos o).1 = false) : (placeDomino s d pos o).2 = s := by
  unfold placeDomino at h ⊢
  split
  · rfl
  · rename_i h1
    rw [if_neg h1] at h
    split
    · rfl
    · rename_i h2
      rw [if_neg h2] at h
      dsimp only at h
      split at h <;> simp at h

theorem removeDomino_false_state (s : GameState) (pos : Position)
    (h : (removeDomino s pos).1 = Except.ok false) : (removeDomino s pos).2 = s := by
  unfold removeDomino at h ⊢
  split
  · rfl
  · rename_i h1
    rw [if_neg h1] at h
    dsimp only at h ⊢
    split
    · rfl
    · rename_i h2
      rw [if_neg h2] at h
      split
      · rfl
      · rename_i i hf
        rw [hf] at h
        dsimp only at h
        split at h
        · simp at h
        · simp at h

theorem scanDigits_none_of_seen (g : Grid) (pieces : List DominoPiece) (cells : List Position)
    (digits : IntSet)
    (h : ∃ cell ∈ cells, g.get cell.row cell.col ≠ -1 ∧
      g.get cell.row cell.col < (pieces.length : Int) ∧
      (pieceAt pieces (g.get cell.row cell.col)).value1 ∈ digits) :
    scanDigits g pieces cells digits = none := by
  induction cells generalizing digits with
  | nil => obtain ⟨c, hc, _⟩ := h; simp at hc
  | cons hd tl ih =>
    obtain ⟨c, hc, hne, hlt, hv⟩ := h
    unfold scanDigits
    dsimp only
    by_cases hvalid : g.get hd.row hd.col ≠ -1 ∧ g.get hd.row hd.col < (pieces.length : Int)
    · rw [if_pos hvalid]
      by_cases h1 : IntSet.contains digits (pieceAt pieces (g.get hd.row hd.col)).value1 = true
      · rw [if_pos h1]
      · rw [if_neg h1]
        by_cases h2 : IntSet.contains
            (IntSet.insert (pieceAt pieces (g.get hd.row hd.col)).value1 digits)
            (pieceAt pieces (g.get hd.row hd.col)).value2 = true
        · rw [if_pos h2]
        · rw [if_neg h2]
          apply ih
          rcases List.mem_cons.1 hc with e | hmem
          · subst e
            exact absurd ((IntSet.contains_iff _ _).2 hv) h1
          · refine ⟨c, hmem, hne, hlt, ?_⟩
            rw [IntSet.mem_insert, IntSet.mem_insert]
            exact Or.inr (Or.inr hv)
    · rw [if_neg hvalid]
      apply ih
      rcases List.mem_cons.1 hc with e | hmem
      · subst e
        exact absurd ⟨hne, hlt⟩ hvalid
      · exact ⟨c, hmem, hne, hlt, hv⟩

/-- A line of cells on which two different cells hold the same valid piece index makes the
digit scan of the uniqueness checks fail. -/
theorem scanDigits_none_of_two (g : Grid) (pieces : List DominoPiece) (cells : List Position)
    (digits : IntSet) (a b : Position) (ha : a ∈ cells) (hb : b ∈ cells) (hab : a ≠ b)
    (hid : g.get a.row a.col = g.get b.row b.col) (hne : g.get a.row a.col ≠ -1)
    (hlt : g.get a.row a.col < (pieces.length : Int)) :
    scanDigits g pieces cells digits = none := by
  induction cells generalizing digits with
  | nil => simp at ha
  | cons hd tl ih =>
    have key : ∀ x y : Position, x = hd → y ∈ tl → g.get x.row x.col = g.get y.row y.col →
        g.get x.row x.col ≠ -1 → g.get x.row x.col < (pieces.length : Int) →
        scanDigits g pieces (hd :: tl) digits = none := by
      intro x y hx hy hxy hxne hxlt
      subst hx
      unfold scanDigits
      dsimp only
      rw [if_pos ⟨hxne, hxlt⟩]
      split
      · rfl
      · split
        · rfl
        · apply scanDigits_none_of_seen
          refine ⟨y, hy, by rw [← hxy]; exact hxne, by rw [← hxy]; exact hxlt, ?_⟩
          rw [← hxy, IntSet.mem_insert, IntSet.mem_insert]
          exact Or.inr (Or.inl rfl)
    rcases List.mem_cons.1 ha with ea | ha'
    · rcases List.mem_cons.1 hb with eb | hb'
      · exact absurd (ea.trans eb.symm) hab
      · exact key a b ea hb' hid hne hlt
    · rcases List.mem_cons.1 hb with eb | hb'
      · exact key b a eb ha' hid.symm (by rw [← hid]; exact hne) (by rw [← hid]; exact hlt)
      · unfold scanDigits
        dsimp only
        split
        · split
          · rfl
          · split
            · rfl
            · exact ih _ ha' hb'
        · exact ih _ ha' hb'

theorem placeDominoInSolution_grid (s : GameState) (d : DominoPiece) (pos : Position)
    (o : Orientation) (idx : Nat) :
    (placeDominoInSolution s d pos o idx).solutionGrid =
      (s.solutionGrid.set pos.row pos.col (idx : Int)).set (secondCell pos o).row
        (secondCell pos o).col (idx : Int) := by
  cases o <;> rfl

theorem placeDominoInSolution_length (s : GameState) (d : DominoPiece) (pos : Position)
    (o : Orientation) (idx : Nat) :
    idx < (placeDominoInSolution s d pos o idx).solutionDominoes.length := by
  unfold placeDominoInSolution
  simp only [List.length_set]
  split
  · simp only [List.length_append, List.length_replicate]; omega
  · omega

theorem placeDominoInSolution_frame (s : GameState) (d : DominoPiece) (pos : Position)
    (o : Orientation) (idx : Nat) :
    placeDominoInSolution s d pos o idx =
      { s with
        solutionGrid := (placeDominoInSolution s d pos o idx).solutionGrid
        solutionDominoes := (placeDominoInSolution s d pos o idx).solutionDominoes } := by
  rfl

theorem removeDominoFromSolution_frame (s : GameState) (pos : Position) (o : Orientation) :
    removeDominoFromSolution s pos o =
      { s with solutionGrid := (removeDominoFromSolution s pos o).solutionGrid } := by
  cases o <;> rfl

theorem removeDominoFromSolution_isGrid8 (s : GameState) (pos : Position) (o : Orientation)
    (h : IsGrid8 s.solutionGrid) : IsGrid8 (removeDominoFromSolution s pos o).solutionGrid := by
  cases o <;> exact Grid.set_isGrid8 _ (Grid.set_isGrid8 _ h _ _ _) _ _ _

theorem canPlaceDominoInSolution_second (s : GameState) (d : DominoPiece) (pos : Position)
    (o : Orientation) (hpos : InGrid pos) (h : canPlaceDominoInSolution s d pos o = true) :
    InGrid (secondCell pos o) := by
  unfold canPlaceDominoInSolution at h
  obtain ⟨h1, h2, h3, h4⟩ := hpos
  cases o
  · simp only [GRID_SIZE] at h
    by_cases hc : pos.col + 1 ≥ 8
    · rw [if_pos hc] at h; simp at h
    · exact ⟨h1, h2, by simp only [secondCell]; omega, by simp only [secondCell]; omega⟩
  · simp only [GRID_SIZE] at h
    by_cases hc : pos.row + 1 ≥ 8
    · rw [if_pos hc] at h; simp at h
    · exact ⟨by simp only [secondCell]; omega, by simp only [secondCell]; omega, h3, h4⟩

/-- Right after `placeDominoInSolution` the uniqueness check of `backtrackSolution` fails: the
row (or column) through both cells of the new piece holds its index twice. -/
theorem checkRowColumnUniquenessForPlacement_after_place (s : GameState) (d : DominoPiece)
    (pos : Position) (o : Orientation) (idx : Nat) (hg : IsGrid8 s.solutionGrid)
    (hpos : InGrid pos) (hsec : InGrid (secondCell pos o)) :
    checkRowColumnUniquenessForPlacement (placeDominoInSolution s d pos o idx) pos o d = false := by
  have hne : ¬ (pos.row = (secondCell pos o).row ∧ pos.col = (secondCell pos o).col) := by
    intro hh
    exact secondCell_ne pos o (Position.eq_of_fields _ _ ⟨hh.1.symm, hh.2.symm⟩)
  have g1 : (placeDominoInSolution s d pos o idx).solutionGrid.get pos.row pos.col = (idx : Int) := by
    rw [placeDominoInSolution_grid, Grid.get_set_of_ne _ _ _ _ _ _ hne,
      Grid.get_set_same _ hg _ _ _ hpos.1 hpos.2.1 hpos.2.2.1 hpos.2.2.2]
  have g2 : (placeDominoInSolution s d pos o idx).solutionGrid.get (secondCell pos o).row
      (secondCell pos o).col = (idx : Int) := by
    rw [placeDominoInSolution_grid,
      Grid.get_set_same _ (Grid.set_isGrid8 _ hg _ _ _) _ _ _ hsec.1 hsec.2.1 hsec.2.2.1
        hsec.2.2.2]
  have hlen := placeDominoInSolution_length s d pos o idx
  have scan : ∀ cells : List Position, pos ∈ cells → secondCell pos o ∈ cells →
      scanDigits (placeDominoInSolution s d pos o idx).solutionGrid
        (placeDominoInSolution s d pos o idx).solutionDominoes cells [] = none := by
    intro cells h1 h2
    apply scanDigits_none_of_two _ _ _ _ pos (secondCell pos o) h1 h2 (secondCell_ne pos o).symm
    · rw [g1, g2]
    · rw [g1]; omega
    · rw [g1]; omega
  unfold checkRowColumnUniquenessForPlacement
  cases o
  · have := scan (rowCells pos.row)
      ((mem_rowCells _ _).2 ⟨rfl, hpos.2.2.1, hpos.2.2.2⟩)
      ((mem_rowCells _ _).2 ⟨rfl, hsec.2.2.1, hsec.2.2.2⟩)
    simp [affectedRows, this]
  · have := scan (colCells pos.col)
      ((mem_colCells _ _).2 ⟨rfl, hpos.1, hpos.2.1⟩)
      ((mem_colCells _ _).2 ⟨rfl, hsec.1, hsec.2.1⟩)
    simp [affectedCols, this]

/-- The candidate loop of `backtrackSolution` never accepts a candidate. -/
theorem tryCandidates_false (next : GameState → Bool × GameState) (d : DominoPiece) (idx : Nat)
    (cands : List (Position × Orientation)) (s : GameState) (hg : IsGrid8 s.solutionGrid)
    (hc : ∀ c ∈ cands, InGrid c.1) :
    ∃ sg sd, IsGrid8 sg ∧
      tryCandidates next d idx cands s =
        (false, { s with solutionGrid := sg, solutionDominoes := sd }) := by
  induction cands generalizing s with
  | nil => exact ⟨s.solutionGrid, s.solutionDominoes, hg, rfl⟩
  | cons c rest ih =>
    obtain ⟨pos, o⟩ := c
    have hpos : InGrid pos := hc (pos, o) (List.mem_cons_self _ _)
    have hrest : ∀ c ∈ rest, InGrid c.1 := fun c h => hc c (List.mem_cons_of_mem _ h)
    unfold tryCandidates
    by_cases hcan : canPlaceDominoInSolution s d pos o = true
    · rw [if_pos hcan]
      dsimp only
      have hsec := canPlaceDominoInSolution_second s d pos o hpos hcan
      rw [checkRowColumnUniquenessForPlacement_after_place s d pos o idx hg hpos hsec]
      simp only [Bool.false_eq_true, if_false]
      have hg1 : IsGrid8 (placeDominoInSolution s d pos o idx).solutionGrid := by
        rw [placeDominoInSolution_grid]
        exact Grid.set_isGrid8 _ (Grid.set_isGrid8 _ hg _ _ _) _ _ _
      obtain ⟨sg, sd, hsg, heq⟩ := ih (removeDominoFromSolution
        (placeDominoInSolution s d pos o idx) pos o)
        (removeDominoFromSolution_isGrid8 _ _ _ hg1) hrest
      refine ⟨sg, sd, hsg, ?_⟩
      rw [heq, removeDominoFromSolution_frame, placeDominoInSolution_frame]
    · rw [if_neg hcan]
      exact ih s hg hrest

theorem mem_allCandidates (c : Position × Orientation) (h : c ∈ allCandidates) : InGrid c.1 := by
  simp only [allCandidates, List.mem_flatMap, List.mem_cons, List.mem_singleton,
    List.not_mem_nil, or_false] at h
  obtain ⟨p, hp, h | h⟩ := h
  · rw [h]; exact (mem_allCells p).1 hp
  · rw [h]; exact (mem_allCells p).1 hp

/-- `backtrackSolution` fails at every index that has a piece. -/
theorem backtrackSolution_false (sh : Shuffles) (hsh : ValidShuffles sh)
    (dominoes : List DominoPiece) (idx : Nat) (s : GameState) (hidx : idx < dominoes.length)
    (hg : IsGrid8 s.solutionGrid) :
    ∃ sg sd, IsGrid8 sg ∧
      backtrackSolution sh dominoes idx s =
        (false, { s with rng := s.rng + 1, solutionGrid := sg, solutionDominoes := sd }) := by
  rw [backtrackSolution]
  have hn : ¬ (idx ≥ dominoes.length) := by omega
  rw [dif_neg hn]
  dsimp only
  obtain ⟨sg, sd, hsg, heq⟩ := tryCandidates_false
    (fun s1 => backtrackSolution sh dominoes (idx + 1) s1)
    (dominoes.getD idx (DominoPiece.new 0 0)) idx (sh.cands s.rng allCandidates)
    { s with rng := s.rng + 1 } hg
    (fun c hc => mem_allCandidates c ((hsh.2.1 s.rng allCandidates).mem_iff.1 hc))
  exact ⟨sg, sd, hsg, heq⟩

theorem generateSolution_false (sh : Shuffles) (hsh : ValidShuffles sh) (s : GameState)
    (hav : s.availableDominoes ≠ []) :
    ∃ sg sd, generateSolution sh s =
        (false, { s with rng := s.rng + 2, solutionGrid := sg, solutionDominoes := sd }) := by
  unfold generateSolution
  dsimp only
  have hlen : 0 < (sh.pieces s.rng s.availableDominoes).length := by
    rw [(hsh.1 s.rng s.availableDominoes).length_eq]
    exact List.length_pos.2 hav
  obtain ⟨sg, sd, _, heq⟩ := backtrackSolution_false sh hsh
    (sh.pieces s.rng s.availableDominoes) 0
    { s with solutionGrid := Grid.fill (-1), solutionDominoes := [], rng := s.rng + 1 }
    hlen (Grid.fill_isGrid8 _)
  exact ⟨sg, sd, heq⟩

theorem generateAttempts_false (sh : Shuffles) (hsh : ValidShuffles sh) (n : Nat)
    (s : GameState) :
    ∃ s1, generateAttempts sh n s = (false, s1) ∧ s1.rng = s.rng + 2 * n ∧
      s1.currentDifficulty = s.currentDifficulty := by
  induction n generalizing s with
  | zero => exact ⟨s, rfl, rfl, rfl⟩
  | succ n ih =>
    unfold generateAttempts
    obtain ⟨sg, sd, heq⟩ := generateSolution_false sh hsh (initializeGame s)
      (by show generateAvailableDominoes ≠ []; decide)
    dsimp only
    rw [heq]
    simp only [Bool.false_eq_true, if_false]
    obtain ⟨s1, h1, h2, h3⟩ := ih
      { initializeGame s with
        rng := (initializeGame s).rng + 2, solutionGrid := sg, solutionDominoes := sd }
    refine ⟨s1, h1, ?_, ?_⟩
    · rw [h2]; show s.rng + 2 + 2 * n = s.rng + 2 * (n + 1); omega
    · rw [h3]; rfl

theorem generateSimplifiedPuzzle_congr (sh : Shuffles) (s t : GameState) (d : Difficulty)
    (h1 : s.rng = t.rng) (h2 : s.currentDifficulty = t.currentDifficulty) :
    generateSimplifiedPuzzle sh s d = generateSimplifiedPuzzle sh t d := by
  have h0 : ({ initializeGame s with
      rng := (initializeGame s).rng + 1, solutionGrid := Grid.fill (-1), solutionDominoes := [] }
        : GameState) =
      { initializeGame t with
        rng := (initializeGame t).rng + 1, solutionGrid := Grid.fill (-1),
        solutionDominoes := [] } := by
    simp only [initializeGame, h1, h2]
  have h3 : (initializeGame s).rng = (initializeGame t).rng := h1
  have h4 : (initializeGame s).availableDominoes = (initializeGame t).availableDominoes := rfl
  unfold generateSimplifiedPuzzle
  dsimp only
  rw [h0, h3, h4]

/-- For every shuffle outcome `generateNewGame` ends in the simplified fallback: the hundred
backtracking attempts all fail and use two shuffles each. -/
theorem generateNewGame_eq_fallback (sh : Shuffles) (hsh : ValidShuffles sh) (s : GameState)
    (d : Difficulty) :
    generateNewGame sh s d =
      generateSimplifiedPuzzle sh { s with currentDifficulty := d, rng := s.rng + 200 } d := by
  unfold generateNewGame
  obtain ⟨s1, h1, h2, h3⟩ := generateAttempts_false sh hsh MAX_GENERATION_ATTEMPTS
    { s with currentDifficulty := d }
  dsimp only
  rw [h1]
  simp only [Bool.false_eq_true, if_false]
  apply generateSimplifiedPuzzle_congr
  · rw [h2]; rfl
  · rw [h3]

theorem canPlaceDominoInSolution_gridState (s : GameState) (d : DominoPiece) (pos : Position)
    (o : Orientation) :
    canPlaceDominoInSolution s d pos o =
      canPlaceDominoInSolution (gridState s.solutionGrid) (DominoPiece.new 0 0) pos o := by
  cases o <;> rfl

theorem placeDominoInSolution_append (s : GameState) (d : DominoPiece) (pos : Position)
    (o : Orientation) (i : Nat) (h : s.solutionDominoes.length = i) :
    placeDominoInSolution s d pos o i =
      { s with
        solutionGrid := (placeDominoInSolution (gridState s.solutionGrid) (DominoPiece.new 0 0)
          pos o i).solutionGrid
        solutionDominoes := s.solutionDominoes ++ [placedCopy d pos o] } := by
  have hd : (placeDominoInSolution s d pos o i).solutionDominoes =
      s.solutionDominoes ++ [placedCopy d pos o] := by
    unfold placeDominoInSolution
    simp only [h, Nat.le_refl, if_true, Nat.add_sub_cancel_left, List.replicate_one]
    subst h
    rw [List.set_append_right _ _ (Nat.le_refl _)]
    simp [placedCopy]
  rw [placeDominoInSolution_frame, hd, placeDominoInSolution_grid, placeDominoInSolution_grid]
  rfl

theorem scanAnchors_eq_trace (l : List DominoPiece) (o : Orientation) (anchors : List Position)
    (i : Nat) (s : GameState) (h : s.solutionDominoes.length = i) :
    scanAnchors l o anchors (i, s) =
      (i + (scanTrace l.length o anchors i s.solutionGrid).1.length,
        { s with
          solutionGrid := (scanTrace l.length o anchors i s.solutionGrid).2
          solutionDominoes := s.solutionDominoes ++
            List.zipWith (fun p a => placedCopy p a o) (l.drop i)
              (scanTrace l.length o anchors i s.solutionGrid).1 }) := by
  induction anchors generalizing i s with
  | nil => simp [scanAnchors, scanTrace]
  | cons pos rest ih =>
    unfold scanAnchors scanTrace
    by_cases hi : i < l.length
    · rw [if_pos hi, if_pos hi]
      dsimp only
      rw [canPlaceDominoInSolution_gridState s]
      by_cases hc : canPlaceDominoInSolution (gridState s.solutionGrid) (DominoPiece.new 0 0)
          pos o = true
      · rw [if_pos hc, if_pos hc]
        rw [placeDominoInSolution_append s _ pos o i h]
        rw [ih (i + 1) _ (by simp [h])]
        have hdrop : l.drop i = l.getD i (DominoPiece.new 0 0) :: l.drop (i + 1) := by
          rw [List.getD_eq_getElem _ _ hi]
          exact List.drop_eq_getElem_cons hi
        simp only [List.length_cons, hdrop, List.zipWith_cons_cons, List.append_assoc,
          List.singleton_append]
        congr 1
        omega
      · rw [if_neg hc, if_neg hc]
        exact ih i s h
    · rw [if_neg hi, if_neg hi]
      simp

theorem scanTrace_horizontal :
    scanTrace 15 Orientation.HORIZONTAL horizontalAnchors 0 (Grid.fill (-1)) =
      (horizontalAnchors, fallbackGrid) := by
  decide

theorem scanTrace_vertical :
    scanTrace 15 Orientation.VERTICAL verticalAnchors 12 fallbackGrid = ([], fallbackGrid) := by
  decide

theorem scanAnchors_both (l : List DominoPiece) (hl : l.length = 15) (s1 : GameState)
    (h1 : s1.solutionGrid = Grid.fill (-1)) (h2 : s1.solutionDominoes = []) :
    scanAnchors l Orientation.VERTICAL verticalAnchors
        (scanAnchors l Orientation.HORIZONTAL horizontalAnchors (0, s1)) =
      (12, { s1 with solutionGrid := fallbackGrid, solutionDominoes := fallbackPieces l }) := by
  have hH : scanAnchors l Orientation.HORIZONTAL horizontalAnchors (0, s1) =
      (12, { s1 with solutionGrid := fallbackGrid, solutionDominoes := fallbackPieces l }) := by
    rw [scanAnchors_eq_trace l Orientation.HORIZONTAL horizontalAnchors 0 s1 (by rw [h2]; rfl)]
    rw [hl, h1, h2, scanTrace_horizontal]
    rfl
  have hlen : (fallbackPieces l).length = 12 := by
    unfold fallbackPieces
    rw [List.length_zipWith, hl]
    decide
  rw [hH, scanAnchors_eq_trace l Orientation.VERTICAL verticalAnchors 12 _ hlen]
  rw [hl]
  dsimp only
  rw [scanTrace_vertical]
  simp

theorem generateSimplifiedPuzzle_eq (sh : Shuffles) (hsh : ValidShuffles sh) (s : GameState)
    (d : Difficulty) :
    generateSimplifiedPuzzle sh s d =
      (true, applyDifficultySettings sh (generateConstraintGrid (fallbackSolution sh s))) := by
  have hlen : (sh.pieces s.rng generateAvailableDominoes).length = 15 := by
    rw [(hsh.1 s.rng generateAvailableDominoes).length_eq]; decide
  unfold generateSimplifiedPuzzle
  dsimp only
  have e1 : (initializeGame s).rng = s.rng := rfl
  have e2 : (initializeGame s).availableDominoes = generateAvailableDominoes := rfl
  rw [e1, e2, scanAnchors_both _ hlen _ rfl rfl]
  dsimp only
  rw [if_pos (by decide)]
  rfl

theorem generateNewGame_eq (sh : Shuffles) (hsh : ValidShuffles sh) (s : GameState)
    (d : Difficulty) :
    generateNewGame sh s d =
      (true, applyDifficultySettings sh (generateConstraintGrid
        (fallbackSolution sh { s with currentDifficulty := d, rng := s.rng + 200 }))) := by
  rw [generateNewGame_eq_fallback sh hsh, generateSimplifiedPuzzle_eq sh hsh]

theorem generateConstraintGrid_frame (s : GameState) :
    ∃ grid cache valid, generateConstraintGrid s =
      { s with grid := grid, constraintCache := cache, cacheValid := valid } := by
  unfold generateConstraintGrid
  have key : ∀ (cells : List Position) (t : GameState),
      ∃ grid cache valid, cells.foldl
        (fun st cell =>
          if st.solutionGrid.get cell.row cell.col = -1 then
            let r := calculateConstraintValue st cell.row cell.col
            { r.2 with grid := r.2.grid.set cell.row cell.col r.1 }
          else st) t =
        { t with grid := grid, constraintCache := cache, cacheValid := valid } := by
    intro cells
    induction cells with
    | nil => intro t; exact ⟨t.grid, t.constraintCache, t.cacheValid, rfl⟩
    | cons cell rest ih =>
      intro t
      rw [List.foldl_cons]
      by_cases h : t.solutionGrid.get cell.row cell.col = -1
      · rw [if_pos h]
        obtain ⟨c1, v1, h1⟩ := calculateConstraintValue_frame t cell.row cell.col
        dsimp only
        obtain ⟨g2, c2, v2, h2⟩ := ih
          { (calculateConstraintValue t cell.row cell.col).2 with
            grid := (calculateConstraintValue t cell.row cell.col).2.grid.set cell.row cell.col
              (calculateConstraintValue t cell.row cell.col).1 }
        rw [h2, h1]
        exact ⟨g2, c2, v2, rfl⟩
      · rw [if_neg h]
        exact ih t
  obtain ⟨g, c, v, h⟩ := key allCells { s with grid := Grid.fill 0 }
  exact ⟨g, c, v, by rw [h]⟩

theorem generateNewGame_solution (sh : Shuffles) (hsh : ValidShuffles sh) (s : GameState)
    (d : Difficulty) :
    (generateNewGame sh s d).1 = true ∧
      (generateNewGame sh s d).2.solutionGrid = fallbackGrid ∧
      (generateNewGame sh s d).2.solutionDominoes =
        fallbackPieces (sh.pieces (s.rng + 200) generateAvailableDominoes) := by
  rw [generateNewGame_eq sh hsh]
  obtain ⟨g, c, v, h⟩ := generateConstraintGrid_frame
    (fallbackSolution sh { s with currentDifficulty := d, rng := s.rng + 200 })
  rw [h]
  exact ⟨rfl, rfl, rfl⟩

theorem idShuffles_valid : ValidShuffles idShuffles :=
  ⟨fun _ l => List.Perm.refl l, fun _ l => List.Perm.refl l, fun _ l => List.Perm.refl l⟩

set_option maxRecDepth 100000 in
theorem fallbackGrid_nonAdjacent : SolutionNonAdjacent fallbackGrid := by
  have h : ∀ a ∈ allCells, ∀ b ∈ allCells, Adjacent a b →
      fallbackGrid.get a.row a.col ≠ -1 → fallbackGrid.get b.row b.col ≠ -1 →
      fallbackGrid.get a.row a.col = fallbackGrid.get b.row b.col := by
    decide
  intro a b ha hb
  exact h a ((mem_allCells a).2 ha) b ((mem_allCells b).2 hb)

theorem IntSet.insert_sorted (x : Int) (s : IntSet) (h : s.Pairwise (· < ·)) :
    (IntSet.insert x s).Pairwise (· < ·) := by
  induction s with
  | nil => simp [IntSet.insert]
  | cons y ys ih =>
    rw [List.pairwise_cons] at h
    unfold IntSet.insert
    by_cases h1 : x < y
    · rw [if_pos h1]
      refine List.pairwise_cons.2 ⟨?_, List.pairwise_cons.2 h⟩
      intro a ha
      rcases List.mem_cons.1 ha with e | e
      · rw [e]; exact h1
      · have := h.1 a e; omega
    · rw [if_neg h1]
      by_cases h2 : x = y
      · rw [if_pos h2]; exact List.pairwise_cons.2 h
      · rw [if_neg h2]
        refine List.pairwise_cons.2 ⟨?_, ih h.2⟩
        intro a ha
        rcases (IntSet.mem_insert x a ys).1 ha with e | e
        · rw [e]; omega
        · exact h.1 a e

theorem foldl_insert_mem (l : List Int) (acc : IntSet) (x : Int) :
    x ∈ l.foldl (fun a id => IntSet.insert id a) acc ↔ x ∈ acc ∨ x ∈ l := by
  induction l generalizing acc with
  | nil => simp
  | cons y ys ih =>
    rw [List.foldl_cons, ih, IntSet.mem_insert, List.mem_cons]
    tauto

theorem foldl_insert_sorted (l : List Int) (acc : IntSet) (h : acc.Pairwise (· < ·)) :
    (l.foldl (fun a id => IntSet.insert id a) acc).Pairwise (· < ·) := by
  induction l generalizing acc with
  | nil => exact h
  | cons y ys ih => exact ih _ (IntSet.insert_sorted y acc h)

/-- The loop of `calculateConstraintValue` inserts the non-empty ids of the in-grid
neighbours, whatever the list of offsets. -/
theorem adjacent_foldl_eq (sg : Grid) (row col : Int) (ds : List (Int × Int)) (acc : IntSet) :
    ds.foldl
      (fun acc d =>
        if d.1 = 0 ∧ d.2 = 0 then acc
        else
          let newRow := row + d.1
          let newCol := col + d.2
          if newRow ≥ 0 ∧ newRow < GRID_SIZE ∧ newCol ≥ 0 ∧ newCol < GRID_SIZE then
            let dominoId := sg.get newRow newCol
            if dominoId ≠ -1 then IntSet.insert dominoId acc else acc
          else acc) acc =
    (ds.filterMap (neighbourId sg row col)).foldl (fun a id => IntSet.insert id a) acc := by
  induction ds generalizing acc with
  | nil => rfl
  | cons d rest ih =>
    rw [List.foldl_cons, ih, List.filterMap_cons]
    unfold neighbourId
    by_cases h0 : d.1 = 0 ∧ d.2 = 0
    · rw [if_pos h0, if_pos h0]
    · rw [if_neg h0, if_neg h0]
      dsimp only
      by_cases hin : row + d.1 ≥ 0 ∧ row + d.1 < GRID_SIZE ∧ col + d.2 ≥ 0 ∧ col + d.2 < GRID_SIZE
      · rw [if_pos hin, if_pos hin]
        by_cases hid : sg.get (row + d.1) (col + d.2) ≠ -1
        · rw [if_pos hid, if_pos hid, List.foldl_cons]
        · rw [if_neg hid, if_neg hid]
      · rw [if_neg hin, if_neg hin]

theorem mem_filterMap_neighbourId (sg : Grid) (row col : Int) (ds : List (Int × Int))
    (x : Int) :
    x ∈ ds.filterMap (neighbourId sg row col) ↔
      x ∈ (((((ds.filter fun d => decide (¬ (d.1 = 0 ∧ d.2 = 0))).map
        fun d => ({ row := row + d.1, col := col + d.2 } : Position)).filter
          fun q => decide (InGrid q)).map fun q => sg.get q.row q.col).filter
            fun id => decide (id ≠ -1)) := by
  rw [List.mem_filterMap, List.mem_filter, List.mem_map]
  constructor
  · rintro ⟨d, hd, hφ⟩
    unfold neighbourId at hφ
    by_cases h0 : d.1 = 0 ∧ d.2 = 0
    · rw [if_pos h0] at hφ; exact absurd hφ (by simp)
    rw [if_neg h0] at hφ
    by_cases hin : row + d.1 ≥ 0 ∧ row + d.1 < GRID_SIZE ∧ col + d.2 ≥ 0 ∧ col + d.2 < GRID_SIZE
    swap
    · rw [if_neg hin] at hφ; exact absurd hφ (by simp)
    rw [if_pos hin] at hφ
    by_cases hid : sg.get (row + d.1) (col + d.2) ≠ -1
    swap
    · rw [if_neg hid] at hφ; exact absurd hφ (by simp)
    rw [if_pos hid] at hφ
    have hx : sg.get (row + d.1) (col + d.2) = x := Option.some.inj hφ
    simp only [GRID_SIZE] at hin
    refine ⟨⟨{ row := row + d.1, col := col + d.2 }, ?_, hx⟩, ?_⟩
    · rw [List.mem_filter, List.mem_map]
      refine ⟨⟨d, ?_, rfl⟩, decide_eq_true ⟨hin.1, hin.2.1, hin.2.2.1, hin.2.2.2⟩⟩
      rw [List.mem_filter]
      exact ⟨hd, decide_eq_true h0⟩
    · rw [← hx]; exact decide_eq_true hid
  · rintro ⟨⟨q, hq, hqx⟩, hne⟩
    rw [List.mem_filter, List.mem_map] at hq
    obtain ⟨⟨d, hd, hdq⟩, hin⟩ := hq
    rw [List.mem_filter] at hd
    have h0 : ¬ (d.1 = 0 ∧ d.2 = 0) := of_decide_eq_true hd.2
    have hin' : InGrid q := of_decide_eq_true hin
    have hne' : x ≠ -1 := of_decide_eq_true hne
    subst hdq
    refine ⟨d, hd.1, ?_⟩
    unfold neighbourId
    rw [if_neg h0, if_pos (by simp only [GRID_SIZE]; exact ⟨hin'.1, hin'.2.1, hin'.2.2.1,
      hin'.2.2.2⟩)]
    simp only at hqx
    rw [hqx, if_pos hne']

theorem adjacentDominoes_perm (sg : Grid) (row col : Int) :
    (adjacentDominoes sg row col).Perm (neighbourPieceIds sg row col) := by
  have hflat : (([-1, 0, 1] : List Int).flatMap fun dr =>
      ([-1, 0, 1] : List Int).map fun dc => (dr, dc)) =
      [(-1, -1), (-1, 0), (-1, 1), (0, -1), (0, 0), (0, 1), (1, -1), (1, 0), (1, 1)] := by
    decide
  unfold adjacentDominoes neighbourPieceIds neighbourCells
  rw [hflat, adjacent_foldl_eq]
  apply (List.perm_ext_iff_of_nodup ?_ (List.nodup_dedup _)).2
  · intro a
    rw [foldl_insert_mem, List.mem_dedup, mem_filterMap_neighbourId]
    simp
  · exact (foldl_insert_sorted _ [] List.Pairwise.nil).imp (fun h => ne_of_lt h)

theorem foldl_sum_eq (l : List Int) (g : Int → Int) (a : Int) (len : Int)
    (sd : List DominoPiece) (hg : ∀ id ∈ l, id < len ∧ (pieceAt sd id).sum = g id) :
    l.foldl (fun sum id => if id < len then sum + (pieceAt sd id).sum else sum) a =
      a + (l.map g).sum := by
  induction l generalizing a with
  | nil => simp
  | cons x xs ih =>
    have hx := hg x (List.mem_cons_self _ _)
    rw [List.foldl_cons, if_pos hx.1, ih _ (fun id h => hg id (List.mem_cons_of_mem _ h)),
      List.map_cons, List.sum_cons, hx.2]
    omega

theorem mem_neighbourPieceIds (sg : Grid) (row col id : Int)
    (h : id ∈ neighbourPieceIds sg row col) :
    ∃ q : Position, InGrid q ∧ sg.get q.row q.col = id ∧ id ≠ -1 := by
  unfold neighbourPieceIds at h
  rw [List.mem_dedup, List.mem_filter, List.mem_map] at h
  obtain ⟨⟨q, hq, hqe⟩, hne⟩ := h
  unfold neighbourCells at hq
  rw [List.mem_filter] at hq
  exact ⟨q, by simpa using hq.2, hqe, by simpa using hne⟩

theorem pieceAt_mem (sd : List DominoPiece) (id : Int) (h0 : 0 ≤ id)
    (h1 : id < (sd.length : Int)) : pieceAt sd id ∈ sd := by
  unfold pieceAt
  rw [if_neg (by omega)]
  have : id.toNat < sd.length := by omega
  rw [List.getD_eq_getElem _ _ this]
  exact List.getElem_mem _

/-- The value `calculateConstraintValue` computes on a cache miss is the neighbour-sum of the
specification, when the solution grid holds valid indices and each solution piece carries the
sum of its pips. -/
theorem computeConstraintSum_eq_neighbourSum (sg : Grid) (sd : List DominoPiece)
    (h1 : ∀ q : Position, InGrid q → sg.get q.row q.col ≠ -1 →
      0 ≤ sg.get q.row q.col ∧ sg.get q.row q.col < (sd.length : Int))
    (h2 : ∀ p ∈ sd, p.sum = p.value1 + p.value2) (row col : Int) :
    computeConstraintSum sg sd row col = neighbourSum sg sd row col := by
  unfold computeConstraintSum neighbourSum
  rw [foldl_sum_eq _ (fun id => (pieceAt sd id).value1 + (pieceAt sd id).value2)]
  · rw [Int.zero_add]
    exact ((adjacentDominoes_perm sg row col).map _).sum_eq
  · intro id hid
    obtain ⟨q, hq, hqe, hne⟩ := mem_neighbourPieceIds sg row col id
      ((adjacentDominoes_perm sg row col).mem_iff.1 hid)
    have hb := h1 q hq (by rw [hqe]; exact hne)
    rw [hqe] at hb
    exact ⟨hb.2, h2 _ (pieceAt_mem sd id hb.1 hb.2)⟩

theorem Cache.find_assign (c : Cache) (pos p : Position) (v : Int) :
    (c.assign pos v).find p = if pos = p then some v else c.find p := by
  induction c with
  | nil => simp [Cache.assign, Cache.find]
  | cons kv rest ih =>
    obtain ⟨k, w⟩ := kv
    unfold Cache.assign
    by_cases h1 : k = pos
    · rw [if_pos h1]
      subst h1
      simp only [Cache.find]
      by_cases h2 : k = p
      · rw [if_pos h2, if_pos h2]
      · rw [if_neg h2, if_neg h2, if_neg h2]
    · rw [if_neg h1]
      by_cases h3 : pos.lt k = true
      · rw [if_pos h3]
        simp only [Cache.find]
      · rw [if_neg h3]
        simp only [Cache.find, ih]
        by_cases h2 : k = p
        · rw [if_pos h2, if_pos h2, if_neg (by rw [← h2]; exact fun h => h1 h.symm)]
        · rw [if_neg h2, if_neg h2]

/-- With a consistent cache `calculateConstraintValue` returns the uncached sum, keeps the
cache consistent and changes nothing but the cache. -/
theorem calculateConstraintValue_spec (s : GameState) (hc : CacheOK s) (row col : Int) :
    (calculateConstraintValue s row col).1 =
        computeConstraintSum s.solutionGrid s.solutionDominoes row col ∧
      CacheOK (calculateConstraintValue s row col).2 ∧
      (calculateConstraintValue s row col).2.cacheValid = true ∧
      ∃ cache, (calculateConstraintValue s row col).2 =
        { s with constraintCache := cache, cacheValid := true } := by
  unfold calculateConstraintValue
  by_cases hv : s.cacheValid = true
  · simp only [hv, Bool.not_true, Bool.false_eq_true, if_false]
    split
    · rename_i v hf
      refine ⟨hc hv _ _ hf, hc, hv, s.constraintCache, ?_⟩
      cases s
      simp only at hv
      subst hv
      rfl
    · rename_i hf
      refine ⟨rfl, ?_, rfl, _, rfl⟩
      intro _ pos v hfind
      simp only [Cache.find_assign] at hfind
      by_cases hp : ({ row := row, col := col } : Position) = pos
      · rw [if_pos hp] at hfind
        rw [← hp, ← Option.some.inj hfind]
      · rw [if_neg hp] at hfind
        exact hc hv pos v hfind
  · simp only [hv, Bool.not_false, if_true, Bool.not_eq_true]
    split
    · rename_i v hf
      simp [Cache.find] at hf
    · refine ⟨rfl, ?_, rfl, _, rfl⟩
      intro _ pos v hfind
      simp only [Cache.find_assign, Cache.find] at hfind
      by_cases hp : ({ row := row, col := col } : Position) = pos
      · rw [if_pos hp] at hfind
        rw [← hp, ← Option.some.inj hfind]
      · rw [if_neg hp] at hfind
        exact absurd hfind (by simp)

theorem Grid.get_set_cases (g : Grid) (hg : IsGrid8 g) (r c v : Int) (q : Position)
    (hq : InGrid q) :
    (g.set r c v).get q.row q.col = if q.row = r ∧ q.col = c then v else g.get q.row q.col := by
  by_cases h : q.row = r ∧ q.col = c
  · rw [if_pos h, ← h.1, ← h.2]
    exact Grid.get_set_same g hg _ _ _ hq.1 hq.2.1 hq.2.2.1 hq.2.2.2
  · rw [if_neg h]
    exact Grid.get_set_of_ne g r c v _ _ h

/-- The fold of `generateConstraintGrid` over a list of cells: it writes the uncached sum into
every listed cell that the solution leaves empty and nothing else. -/
theorem constraintFold_spec (cells : List Position) (t : GameState) (hc : CacheOK t)
    (hg : IsGrid8 t.grid) :
    CacheOK (cells.foldl
      (fun st cell =>
        if st.solutionGrid.get cell.row cell.col = -1 then
          let r := calculateConstraintValue st cell.row cell.col
          { r.2 with grid := r.2.grid.set cell.row cell.col r.1 }
        else st) t) ∧
    (∀ q : Position, InGrid q →
      (cells.foldl
        (fun st cell =>
          if st.solutionGrid.get cell.row cell.col = -1 then
            let r := calculateConstraintValue st cell.row cell.col
            { r.2 with grid := r.2.grid.set cell.row cell.col r.1 }
          else st) t).grid.get q.row q.col =
        if q ∈ cells ∧ t.solutionGrid.get q.row q.col = -1 then
          computeConstraintSum t.solutionGrid t.solutionDominoes q.row q.col
        else t.grid.get q.row q.col) := by
  induction cells generalizing t with
  | nil => exact ⟨hc, fun q _ => by simp⟩
  | cons cell rest ih =>
    rw [List.foldl_cons]
    by_cases he : t.solutionGrid.get cell.row cell.col = -1
    · rw [if_pos he]
      dsimp only
      obtain ⟨h1, h2, _, cache, h4⟩ := calculateConstraintValue_spec t hc cell.row cell.col
      have hc' : CacheOK { (calculateConstraintValue t cell.row cell.col).2 with
          grid := (calculateConstraintValue t cell.row cell.col).2.grid.set cell.row cell.col
            (calculateConstraintValue t cell.row cell.col).1 } := h2
      have hg' : IsGrid8 ({ (calculateConstraintValue t cell.row cell.col).2 with
          grid := (calculateConstraintValue t cell.row cell.col).2.grid.set cell.row cell.col
            (calculateConstraintValue t cell.row cell.col).1 } : GameState).grid := by
        rw [h4]; exact Grid.set_isGrid8 _ hg _ _ _
      obtain ⟨i1, i2⟩ := ih _ hc' hg'
      refine ⟨i1, ?_⟩
      intro q hq
      rw [i2 q hq]
      have e1 : ({ (calculateConstraintValue t cell.row cell.col).2 with
          grid := (calculateConstraintValue t cell.row cell.col).2.grid.set cell.row cell.col
            (calculateConstraintValue t cell.row cell.col).1 } : GameState).solutionGrid =
          t.solutionGrid := by rw [h4]
      have e2 : ({ (calculateConstraintValue t cell.row cell.col).2 with
          grid := (calculateConstraintValue t cell.row cell.col).2.grid.set cell.row cell.col
            (calculateConstraintValue t cell.row cell.col).1 } : GameState).solutionDominoes =
          t.solutionDominoes := by rw [h4]
      have e3 : ({ (calculateConstraintValue t cell.row cell.col).2 with
          grid := (calculateConstraintValue t cell.row cell.col).2.grid.set cell.row cell.col
            (calculateConstraintValue t cell.row cell.col).1 } : GameState).grid =
          t.grid.set cell.row cell.col
            (computeConstraintSum t.solutionGrid t.solutionDominoes cell.row cell.col) := by
        rw [← h1, h4]
      rw [e1, e2, e3, Grid.get_set_cases _ hg _ _ _ q hq]
      by_cases hr : q ∈ rest ∧ t.solutionGrid.get q.row q.col = -1
      · rw [if_pos hr, if_pos ⟨List.mem_cons_of_mem _ hr.1, hr.2⟩]
      · rw [if_neg hr]
        by_cases hqc : q.row = cell.row ∧ q.col = cell.col
        · have : q = cell := Position.eq_of_fields _ _ hqc
          subst this
          rw [if_pos hqc, if_pos ⟨List.mem_cons_self _ _, he⟩]
        · rw [if_neg hqc, if_neg]
          rintro ⟨hm, hemp⟩
          rcases List.mem_cons.1 hm with e | e
          · exact hqc (by rw [e]; exact ⟨rfl, rfl⟩)
          · exact hr ⟨e, hemp⟩
    · rw [if_neg he]
      obtain ⟨i1, i2⟩ := ih t hc hg
      refine ⟨i1, ?_⟩
      intro q hq
      rw [i2 q hq]
      by_cases hr : q ∈ rest ∧ t.solutionGrid.get q.row q.col = -1
      · rw [if_pos hr, if_pos ⟨List.mem_cons_of_mem _ hr.1, hr.2⟩]
      · rw [if_neg hr, if_neg]
        rintro ⟨hm, hemp⟩
        rcases List.mem_cons.1 hm with e | e
        · rw [e] at hemp; exact he hemp
        · exact hr ⟨e, hemp⟩

/-- After `generateConstraintGrid` (entered with a consistent cache) a cell the solution
leaves empty holds the uncached sum, and a covered cell holds 0. -/
theorem generateConstraintGrid_values (s : GameState) (hc : CacheOK s) (q : Position)
    (hq : InGrid q) :
    (generateConstraintGrid s).grid.get q.row q.col =
      if s.solutionGrid.get q.row q.col = -1 then
        computeConstraintSum s.solutionGrid s.solutionDominoes q.row q.col
      else 0 := by
  unfold generateConstraintGrid
  have := (constraintFold_spec allCells { s with grid := Grid.fill 0 } hc
    (Grid.fill_isGrid8 0)).2 q hq
  rw [this]
  have hm : q ∈ allCells := (mem_allCells q).2 hq
  by_cases he : s.solutionGrid.get q.row q.col = -1
  · rw [if_pos ⟨hm, he⟩, if_pos he]
  · rw [if_neg (fun h => he h.2), if_neg he]
    exact Grid.get_fill 0 _ _ hq.1 hq.2.1 hq.2.2.1 hq.2.2.2

theorem generateConstraintGrid_isGrid8 (s : GameState) :
    IsGrid8 (generateConstraintGrid s).grid := by
  unfold generateConstraintGrid
  have key : ∀ (cells : List Position) (t : GameState), IsGrid8 t.grid →
      IsGrid8 (cells.foldl
        (fun st cell =>
          if st.solutionGrid.get cell.row cell.col = -1 then
            let r := calculateConstraintValue st cell.row cell.col
            { r.2 with grid := r.2.grid.set cell.row cell.col r.1 }
          else st) t).grid := by
    intro cells
    induction cells with
    | nil => intro t h; exact h
    | cons cell rest ih =>
      intro t h
      rw [List.foldl_cons]
      apply ih
      split
      · obtain ⟨c, v, hf⟩ := calculateConstraintValue_frame t cell.row cell.col
        dsimp only
        rw [hf]
        exact Grid.set_isGrid8 _ h _ _ _
      · exact h
  exact key allCells _ (Grid.fill_isGrid8 0)

theorem hide_fold_get (ps : List Position) (g : Grid) (hg : IsGrid8 g) (q : Position)
    (hq : InGrid q) :
    (ps.foldl (fun g pos => g.set pos.row pos.col 0) g).get q.row q.col =
      if q ∈ ps then 0 else g.get q.row q.col := by
  induction ps generalizing g with
  | nil => simp
  | cons p rest ih =>
    rw [List.foldl_cons, ih _ (Grid.set_isGrid8 _ hg _ _ _), Grid.get_set_cases _ hg _ _ _ q hq]
    by_cases h1 : q ∈ rest
    · rw [if_pos h1, if_pos (List.mem_cons_of_mem _ h1)]
    · rw [if_neg h1]
      by_cases h2 : q.row = p.row ∧ q.col = p.col
      · rw [if_pos h2, if_pos]
        rw [Position.eq_of_fields _ _ h2]; exact List.mem_cons_self _ _
      · rw [if_neg h2, if_neg]
        intro hm
        rcases List.mem_cons.1 hm with e | e
        · exact h2 (by rw [e]; exact ⟨rfl, rfl⟩)
        · exact h1 e

/-- `applyDifficultySettings` leaves a clue as it is or sets it to 0. -/
theorem applyDifficultySettings_get (sh : Shuffles) (s : GameState) (hg : IsGrid8 s.grid)
    (q : Position) (hq : InGrid q) :
    (applyDifficultySettings sh s).grid.get q.row q.col = 0 ∨
      (applyDifficultySettings sh s).grid.get q.row q.col = s.grid.get q.row q.col := by
  unfold applyDifficultySettings
  dsimp only
  rw [hide_fold_get _ _ hg q hq]
  split
  · exact Or.inl rfl
  · exact Or.inr rfl

theorem mem_zipWith_placedCopy (l : List DominoPiece) (anchors : List Position)
    (o : Orientation) (p : DominoPiece)
    (h : p ∈ List.zipWith (fun q a => placedCopy q a o) l anchors) :
    ∃ q ∈ l, ∃ a, p = placedCopy q a o := by
  induction l generalizing anchors with
  | nil => simp at h
  | cons x xs ih =>
    cases anchors with
    | nil => simp at h
    | cons a as =>
      rw [List.zipWith_cons_cons, List.mem_cons] at h
      rcases h with h | h
      · exact ⟨x, List.mem_cons_self _ _, a, h⟩
      · obtain ⟨q, hq, b, hb⟩ := ih as h
        exact ⟨q, List.mem_cons_of_mem _ hq, b, hb⟩

theorem fallbackPieces_sum (sh : Shuffles) (hsh : ValidShuffles sh) (k : Nat) :
    ∀ p ∈ fallbackPieces (sh.pieces k generateAvailableDominoes),
      p.sum = p.value1 + p.value2 := by
  intro p hp
  obtain ⟨q, hq, a, rfl⟩ := mem_zipWith_placedCopy _ _ _ p hp
  have hcat : ∀ q ∈ generateAvailableDominoes, q.sum = q.value1 + q.value2 := by decide
  exact hcat q ((hsh.1 k _).mem_iff.1 hq)

theorem fallbackPieces_length (sh : Shuffles) (hsh : ValidShuffles sh) (k : Nat) :
    (fallbackPieces (sh.pieces k generateAvailableDominoes)).length = 12 := by
  unfold fallbackPieces
  rw [List.length_zipWith, (hsh.1 k generateAvailableDominoes).length_eq]
  decide

set_option maxRecDepth 100000 in
theorem fallbackGrid_ids (q : Position) (hq : InGrid q)
    (hne : fallbackGrid.get q.row q.col ≠ -1) :
    0 ≤ fallbackGrid.get q.row q.col ∧ fallbackGrid.get q.row q.col < 12 := by
  have h : ∀ q ∈ allCells, fallbackGrid.get q.row q.col ≠ -1 →
      0 ≤ fallbackGrid.get q.row q.col ∧ fallbackGrid.get q.row q.col < 12 := by
    decide
  exact h q ((mem_allCells q).2 hq) hne

/-- The clue grid `generateNewGame` leaves: each in-grid cell holds 0 or the neighbour-sum
recomputed from the stored solution. -/
theorem generateNewGame_clues (sh : Shuffles) (hsh : ValidShuffles sh) (s : GameState)
    (d : Difficulty) (q : Position) (hq : InGrid q) :
    (generateNewGame sh s d).2.grid.get q.row q.col = 0 ∨
      (generateNewGame sh s d).2.grid.get q.row q.col =
        neighbourSum (generateNewGame sh s d).2.solutionGrid
          (generateNewGame sh s d).2.solutionDominoes q.row q.col := by
  obtain ⟨_, hsg, hsd⟩ := generateNewGame_solution sh hsh s d
  rw [hsg, hsd]
  rw [generateNewGame_eq sh hsh]
  have hc : CacheOK (fallbackSolution sh { s with currentDifficulty := d, rng := s.rng + 200 }) := by
    intro h
    have hf : (fallbackSolution sh
        { s with currentDifficulty := d, rng := s.rng + 200 }).cacheValid = false := rfl
    rw [hf] at h
    exact absurd h (by decide)
  have hv := generateConstraintGrid_values _ hc q hq
  rcases applyDifficultySettings_get sh _ (generateConstraintGrid_isGrid8
    (fallbackSolution sh { s with currentDifficulty := d, rng := s.rng + 200 })) q hq with h | h
  · exact Or.inl h
  · rw [h, hv]
    have e1 : (fallbackSolution sh { s with currentDifficulty := d, rng := s.rng + 200 }).solutionGrid
        = fallbackGrid := rfl
    have e2 : (fallbackSolution sh
        { s with currentDifficulty := d, rng := s.rng + 200 }).solutionDominoes =
        fallbackPieces (sh.pieces (s.rng + 200) generateAvailableDominoes) := rfl
    rw [e1, e2]
    split
    · right
      apply computeConstraintSum_eq_neighbourSum
      · intro p hp hne
        have := fallbackGrid_ids p hp hne
        rw [fallbackPieces_length sh hsh]
        exact ⟨this.1, by simpa using this.2⟩
      · exact fallbackPieces_sum sh hsh _
    · exact Or.inl rfl

theorem opEq_self (p : DominoPiece) : p.opEq p = true := by
  simp [DominoPiece.opEq]

theorem catalog_opEq_eq : ∀ a ∈ generateAvailableDominoes, ∀ b ∈ generateAvailableDominoes,
    a.opEq b = true → a = b := by
  decide

theorem catalog_nodup : generateAvailableDominoes.Nodup := by
  decide

set_option maxRecDepth 100000 in
theorem fallbackGrid_idCells : ∀ i ∈ List.range 15,
    allCells.countP (fun q => decide (fallbackGrid.get q.row q.col = (i : Int))) =
      if i < 12 then 2 else 0 := by
  decide

/-- In the fallback solution a cell is occupied by the `i`-th shuffled piece exactly when it
holds the index `i`. -/
theorem occupiesCell_fallback (l : List DominoPiece) (hl : l.Perm generateAvailableDominoes)
    (i : Nat) (hi : i < l.length) (q : Position) (hq : InGrid q) :
    occupiesCell fallbackGrid (fallbackPieces l) (l.get ⟨i, hi⟩) q =
      decide (fallbackGrid.get q.row q.col = (i : Int)) := by
  have hlen : l.length = 15 := by rw [hl.length_eq]; decide
  unfold occupiesCell
  by_cases hne : fallbackGrid.get q.row q.col ≠ -1
  · obtain ⟨h0, h12⟩ := fallbackGrid_ids q hq hne
    obtain ⟨n, hn⟩ := Int.eq_ofNat_of_zero_le h0
    rw [hn] at h12 ⊢
    have hn12 : n < 12 := by omega
    have hnl : n < l.length := by omega
    have hna : n < horizontalAnchors.length := by
      have : horizontalAnchors.length = 12 := by decide
      omega
    have hnf : n < (fallbackPieces l).length := by
      unfold fallbackPieces; rw [List.length_zipWith]; omega
    have hp : pieceAt (fallbackPieces l) (n : Int) =
        placedCopy (l.get ⟨n, hnl⟩) (horizontalAnchors.get ⟨n, hna⟩) Orientation.HORIZONTAL := by
      rw [pieceAt_natCast _ n hnf]
      unfold fallbackPieces
      simp [List.getElem_zipWith]
    rw [hp]
    have he : (placedCopy (l.get ⟨n, hnl⟩) (horizontalAnchors.get ⟨n, hna⟩)
        Orientation.HORIZONTAL).opEq (l.get ⟨i, hi⟩) = (l.get ⟨n, hnl⟩).opEq (l.get ⟨i, hi⟩) := rfl
    rw [he]
    have hnd : l.Nodup := hl.nodup_iff.2 catalog_nodup
    by_cases hni : n = i
    · subst hni
      simp [opEq_self]
    · have hneq : l.get ⟨n, hnl⟩ ≠ l.get ⟨i, hi⟩ := by
        intro h
        have := (List.Nodup.get_inj_iff hnd).1 h
        exact hni (Fin.mk.inj this)
      have hfalse : (l.get ⟨n, hnl⟩).opEq (l.get ⟨i, hi⟩) = false := by
        rw [Bool.eq_false_iff]
        intro h
        exact hneq (catalog_opEq_eq _ (hl.mem_iff.1 (List.get_mem _ _ _)) _
          (hl.mem_iff.1 (List.get_mem _ _ _)) h)
      rw [hfalse]
      have : ¬ ((n : Int) = (i : Int)) := by omega
      simp [this]
  · have hm : fallbackGrid.get q.row q.col = -1 := by
      simpa using hne
    rw [hm]
    have : ¬ ((-1 : Int) = (i : Int)) := by omega
    simp [this]

theorem cellCount_fallback (l : List DominoPiece) (hl : l.Perm generateAvailableDominoes)
    (i : Nat) (hi : i < l.length) :
    cellCount fallbackGrid (fallbackPieces l) (l.get ⟨i, hi⟩) = if i < 12 then 2 else 0 := by
  have hlen : l.length = 15 := by rw [hl.length_eq]; decide
  unfold cellCount
  rw [← fallbackGrid_idCells i (List.mem_range.2 (by omega))]
  apply List.countP_congr
  intro q hq
  rw [occupiesCell_fallback l hl i hi q ((mem_allCells q).1 hq)]

/-- In the fallback solution every catalog piece occupies two cells or none, and more than ten
catalog pieces occupy two. -/
theorem fallback_catalog_cells (l : List DominoPiece) (hl : l.Perm generateAvailableDominoes) :
    (∀ p ∈ generateAvailableDominoes,
      cellCount fallbackGrid (fallbackPieces l) p = 2 ∨
        cellCount fallbackGrid (fallbackPieces l) p = 0) ∧
      10 < generateAvailableDominoes.countP
        (fun p => decide (cellCount fallbackGrid (fallbackPieces l) p = 2)) := by
  have hlen : l.length = 15 := by rw [hl.length_eq]; decide
  constructor
  · intro p hp
    obtain ⟨i, hi, rfl⟩ := List.getElem_of_mem (hl.mem_iff.2 hp)
    have := cellCount_fallback l hl i hi
    rw [List.get_eq_getElem] at this
    rw [this]
    by_cases h : i < 12
    · left; rw [if_pos h]
    · right; rw [if_neg h]
  · rw [← hl.countP_eq, ← List.take_append_drop 12 l, List.countP_append]
    have h12 : (l.take 12).countP
        (fun p => decide (cellCount fallbackGrid (fallbackPieces (l.take 12 ++ l.drop 12)) p = 2))
        = (l.take 12).length := by
      rw [List.countP_eq_length]
      intro p hp
      rw [List.take_append_drop]
      obtain ⟨i, hi, rfl⟩ := List.getElem_of_mem hp
      rw [List.length_take] at hi
      have hi12 : i < 12 := by omega
      have hil : i < l.length := by omega
      rw [List.getElem_take]
      have := cellCount_fallback l hl i hil
      rw [List.get_eq_getElem, if_pos hi12] at this
      simp [this]
    rw [h12, List.length_take, hlen]
    omega

theorem nodup_bounded_length (l : List Int) (hb : ∀ x ∈ l, 1 ≤ x ∧ x ≤ 6) (hn : l.Nodup) :
    l.length ≤ 6 := by
  have hsub : l.toFinset ⊆ Finset.Icc (1 : Int) 6 := by
    intro x hx
    rw [List.mem_toFinset] at hx
    rw [Finset.mem_Icc]
    exact hb x hx
  have hcard := Finset.card_le_card hsub
  rw [List.toFinset_card_of_nodup hn] at hcard
  simpa using hcard

set_option maxRecDepth 100000 in
/-- Whatever the shuffles return, the solution `generateNewGame` stores repeats a pip value in
column 0: four pieces, eight pips, six values. -/
theorem generateNewGame_never_unique (sh : Shuffles) (hsh : ValidShuffles sh) (s : GameState)
    (d : Difficulty) :
    (generateNewGame sh s d).1 = true ∧
      ¬ PipsUnique (generateNewGame sh s d).2.solutionGrid
        (generateNewGame sh s d).2.solutionDominoes := by
  obtain ⟨h1, h2, h3⟩ := generateNewGame_solution sh hsh s d
  refine ⟨h1, ?_⟩
  rw [h2, h3]
  intro h
  have hcol := (h 0 (by decide)).2
  have hlen : (pipsOnLine fallbackGrid
      (fallbackPieces (sh.pieces (s.rng + 200) generateAvailableDominoes))
      (colCells 0)).length = 8 := by
    have hp : piecesOnLine fallbackGrid (colCells 0) = [0, 3, 6, 9] := by decide
    unfold pipsOnLine
    rw [hp]
    rfl
  have hb : ∀ x ∈ pipsOnLine fallbackGrid
      (fallbackPieces (sh.pieces (s.rng + 200) generateAvailableDominoes)) (colCells 0),
      1 ≤ x ∧ x ≤ 6 := by
    intro x hx
    unfold pipsOnLine at hx
    rw [List.mem_flatMap] at hx
    obtain ⟨id, hid, hxv⟩ := hx
    have hp : piecesOnLine fallbackGrid (colCells 0) = [0, 3, 6, 9] := by decide
    rw [hp] at hid
    have hidb : 0 ≤ id ∧ id < 12 := by
      simp only [List.mem_cons, List.mem_singleton, List.not_mem_nil, or_false] at hid
      omega
    have hmem := pieceAt_mem (fallbackPieces (sh.pieces (s.rng + 200) generateAvailableDominoes))
      id hidb.1 (by rw [fallbackPieces_length sh hsh]; simpa using hidb.2)
    obtain ⟨q, hq, a, hqa⟩ := mem_zipWith_placedCopy _ _ _ _ hmem
    have hcat : ∀ q ∈ generateAvailableDominoes,
        (1 ≤ q.value1 ∧ q.value1 ≤ 6) ∧ (1 ≤ q.value2 ∧ q.value2 ≤ 6) := by decide
    have hqc := hcat q ((hsh.1 _ _).mem_iff.1 hq)
    rw [hqa] at hxv
    simp only [List.mem_cons, List.mem_singleton, List.not_mem_nil, or_false] at hxv
    rcases hxv with e | e
    · rw [e]; exact hqc.1
    · rw [e]; exact hqc.2
  have := nodup_bounded_length _ hb hcol
  omega

theorem opEq_of_canonical (p d : DominoPiece) (h : p.getCanonicalForm = d.getCanonicalForm) :
    p.opEq d = true := by
  unfold DominoPiece.getCanonicalForm at h
  simp only [Prod.mk.injEq] at h
  unfold DominoPiece.opEq
  simp only [Bool.or_eq_true, Bool.and_eq_true, decide_eq_true_eq]
  obtain ⟨h1, h2⟩ := h
  split_ifs at h1 h2 <;> omega

theorem placeDomino_placed_false (s : GameState) (d : DominoPiece) (pos : Position)
    (o : Orientation) (h : ∃ p ∈ s.placedDominoes, p.opEq d = true) :
    placeDomino s d pos o = (false, s) := by
  unfold placeDomino
  split
  · rfl
  · rw [if_pos]
    simp only [List.any_eq_true]
    exact h

theorem cellsToHide_eq (d : Difficulty) : cellsToHide d = (hideCount d : Int) := by
  cases d <;> decide

theorem allCells_nodup : allCells.Nodup := by
  decide

theorem countP_mem_of_nodup {α : Type} [DecidableEq α] (l t : List α) (hl : l.Nodup)
    (ht : t.Nodup) (hsub : ∀ x ∈ t, x ∈ l) :
    l.countP (fun x => decide (x ∈ t)) = t.length := by
  rw [List.countP_eq_length_filter]
  apply List.Perm.length_eq
  apply (List.perm_ext_iff_of_nodup (hl.filter _) ht).2
  intro a
  rw [List.mem_filter]
  constructor
  · intro h; exact of_decide_eq_true h.2
  · intro h; exact ⟨hsub a h, decide_eq_true h⟩

/-- What `applyDifficultySettings` does to a clue grid: the cells it zeroes are `min k n`
cells that held a positive clue, and every other cell keeps its value. -/
theorem applyDifficultySettings_spec (sh : Shuffles) (hsh : ValidShuffles sh) (s : GameState)
    (hg : ClueGrid s.grid) :
    allCells.countP (fun q => decide (s.grid.get q.row q.col ≠ 0 ∧
        (applyDifficultySettings sh s).grid.get q.row q.col = 0)) =
      min (hideCount s.currentDifficulty)
        (allCells.countP fun q => decide (s.grid.get q.row q.col ≠ 0)) ∧
    (∀ q : Position, InGrid q →
      (applyDifficultySettings sh s).grid.get q.row q.col ≠ s.grid.get q.row q.col →
        s.grid.get q.row q.col ≠ 0 ∧ (applyDifficultySettings sh s).grid.get q.row q.col = 0) := by
  have hpos : ∀ q : Position, InGrid q → (s.grid.get q.row q.col > 0 ↔ s.grid.get q.row q.col ≠ 0) := by
    intro q hq
    have := hg.2 q hq
    omega
  have hperm := hsh.2.2 s.rng (allCells.filter fun p => decide (s.grid.get p.row p.col > 0))
  have hnd : (sh.cells s.rng (allCells.filter fun p => decide (s.grid.get p.row p.col > 0))).Nodup :=
    hperm.nodup_iff.2 (allCells_nodup.filter _)
  have hget : ∀ q : Position, InGrid q →
      (applyDifficultySettings sh s).grid.get q.row q.col =
        if q ∈ (sh.cells s.rng (allCells.filter fun p => decide (s.grid.get p.row p.col > 0))).take
            (min (cellsToHide s.currentDifficulty)
              ((sh.cells s.rng
                (allCells.filter fun p => decide (s.grid.get p.row p.col > 0))).length : Int)).toNat
        then 0 else s.grid.get q.row q.col := by
    intro q hq
    unfold applyDifficultySettings
    dsimp only
    rw [hide_fold_get _ _ hg.1 q hq]
  have hmem : ∀ q : Position,
      q ∈ (sh.cells s.rng (allCells.filter fun p => decide (s.grid.get p.row p.col > 0))).take
          (min (cellsToHide s.currentDifficulty)
            ((sh.cells s.rng
              (allCells.filter fun p => decide (s.grid.get p.row p.col > 0))).length : Int)).toNat →
      InGrid q ∧ s.grid.get q.row q.col ≠ 0 := by
    intro q hq
    have h1 := hperm.mem_iff.1 (List.mem_of_mem_take hq)
    rw [List.mem_filter] at h1
    have hin := (mem_allCells q).1 h1.1
    exact ⟨hin, (hpos q hin).1 (of_decide_eq_true h1.2)⟩
  constructor
  · have hc : allCells.countP (fun q => decide (s.grid.get q.row q.col ≠ 0 ∧
          (applyDifficultySettings sh s).grid.get q.row q.col = 0)) =
        allCells.countP (fun q => decide (q ∈
          (sh.cells s.rng (allCells.filter fun p => decide (s.grid.get p.row p.col > 0))).take
            (min (cellsToHide s.currentDifficulty)
              ((sh.cells s.rng (allCells.filter
                fun p => decide (s.grid.get p.row p.col > 0))).length : Int)).toNat)) := by
      apply List.countP_congr
      intro q hq
      have hin := (mem_allCells q).1 hq
      rw [decide_eq_true_eq, decide_eq_true_eq, hget q hin]
      constructor
      · rintro ⟨h1, h2⟩
        by_contra hn
        rw [if_neg hn] at h2
        exact h1 h2
      · intro h
        rw [if_pos h]
        exact ⟨(hmem q h).2, rfl⟩
    rw [hc, countP_mem_of_nodup _ _ allCells_nodup (hnd.sublist (List.take_sublist _ _))
      (fun x hx => (mem_allCells x).2 (hmem x hx).1)]
    have hlen : (sh.cells s.rng
        (allCells.filter fun p => decide (s.grid.get p.row p.col > 0))).length =
        allCells.countP fun q => decide (s.grid.get q.row q.col ≠ 0) := by
      rw [hperm.length_eq, ← List.countP_eq_length_filter]
      apply List.countP_congr
      intro q hq
      rw [decide_eq_true_eq, decide_eq_true_eq]
      exact hpos q ((mem_allCells q).1 hq)
    rw [List.length_take, cellsToHide_eq, hlen]
    omega
  · intro q hq hne
    rw [hget q hq] at hne ⊢
    by_cases h : q ∈ (sh.cells s.rng
        (allCells.filter fun p => decide (s.grid.get p.row p.col > 0))).take
          (min (cellsToHide s.currentDifficulty)
            ((sh.cells s.rng (allCells.filter
              fun p => decide (s.grid.get p.row p.col > 0))).length : Int)).toNat
    · rw [if_pos h]
      exact ⟨(hmem q h).2, rfl⟩
    · rw [if_neg h] at hne
      exact absurd rfl hne

set_option maxRecDepth 100000 in
theorem clueState_clueGrid : ClueGrid clueState.grid := by
  refine ⟨generateConstraintGrid_isGrid8 _, ?_⟩
  have h : ∀ q ∈ allCells, 0 ≤ clueState.grid.get q.row q.col := by decide
  intro q hq
  exact h q ((mem_allCells q).2 hq)

theorem generateConstraintGrid_spec (s : GameState) (hcache : s.cacheValid = false)
    (hids : ∀ q : Position, InGrid q → s.solutionGrid.get q.row q.col ≠ -1 →
      0 ≤ s.solutionGrid.get q.row q.col ∧
        s.solutionGrid.get q.row q.col < (s.solutionDominoes.length : Int))
    (hsum : ∀ p ∈ s.solutionDominoes, p.sum = p.value1 + p.value2) (q : Position)
    (hq : InGrid q) :
    (generateConstraintGrid s).solutionGrid = s.solutionGrid ∧
      (generateConstraintGrid s).solutionDominoes = s.solutionDominoes ∧
      (generateConstraintGrid s).grid.get q.row q.col =
        if s.solutionGrid.get q.row q.col = -1 then
          neighbourSum s.solutionGrid s.solutionDominoes q.row q.col
        else 0 := by
  obtain ⟨g, c, v, hf⟩ := generateConstraintGrid_frame s
  have hc : CacheOK s := by
    intro h
    rw [hcache] at h
    exact absurd h (by decide)
  refine ⟨by rw [hf], by rw [hf], ?_⟩
  rw [generateConstraintGrid_values s hc q hq,
    computeConstraintSum_eq_neighbourSum s.solutionGrid s.solutionDominoes hids hsum]


theorem pieceH_insert_shift (k : Int) (p : DominoPieceH.DominoPiece)
    (l : List DominoPieceH.DominoPiece) :
    DominoPieceH.pieceSetInsert (DominoPieceH.shiftId k p) (l.map (DominoPieceH.shiftId k)) =
      (DominoPieceH.pieceSetInsert p l).map (DominoPieceH.shiftId k) := by
  induction l with
  | nil => rfl
  | cons q qs ih =>
    have h1 : (DominoPieceH.shiftId k p).opLt (DominoPieceH.shiftId k q) = p.opLt q := rfl
    have h2 : (DominoPieceH.shiftId k q).opLt (DominoPieceH.shiftId k p) = q.opLt p := rfl
    simp only [List.map_cons, DominoPieceH.pieceSetInsert, h1, h2]
    by_cases a : p.opLt q = true
    · simp [a]
    · by_cases b : q.opLt p = true
      · simp [a, b, ih]
      · simp [a, b]

theorem pieceH_orderedInsert_shift (k : Int) (p : DominoPieceH.DominoPiece)
    (l : List DominoPieceH.DominoPiece) :
    List.orderedInsert (fun a b => DominoPieceH.DominoPiece.opLt a b = true)
        (DominoPieceH.shiftId k p) (l.map (DominoPieceH.shiftId k)) =
      (List.orderedInsert (fun a b => DominoPieceH.DominoPiece.opLt a b = true) p l).map
        (DominoPieceH.shiftId k) := by
  induction l with
  | nil => rfl
  | cons q qs ih =>
    have h1 : (DominoPieceH.shiftId k p).opLt (DominoPieceH.shiftId k q) = p.opLt q := rfl
    simp only [List.map_cons, List.orderedInsert, h1]
    by_cases a : p.opLt q = true
    · simp [a]
    · simp [a, ih]

theorem pieceH_sort_shift (k : Int) (l : List DominoPieceH.DominoPiece) :
    DominoPieceH.sortPieces (l.map (DominoPieceH.shiftId k)) =
      (DominoPieceH.sortPieces l).map (DominoPieceH.shiftId k) := by
  induction l with
  | nil => rfl
  | cons q qs ih =>
    simp only [List.map_cons, DominoPieceH.sortPieces, ih, pieceH_orderedInsert_shift]

theorem pieceH_new_shift (v1 v2 n k : Int) :
    DominoPieceH.DominoPiece.new v1 v2 (n + k) =
      (DominoPieceH.shiftId k (DominoPieceH.DominoPiece.new v1 v2 n).1,
        (DominoPieceH.DominoPiece.new v1 v2 n).2 + k) := by
  unfold DominoPieceH.DominoPiece.new DominoPieceH.shiftId
  refine Prod.ext rfl ?_
  show n + k + 1 = n + 1 + k
  omega

theorem pieceH_inner_shift (k v1 : Int) (l : List Int)
    (acc : List DominoPieceH.DominoPiece × Int) :
    l.foldl (fun acc v2 =>
        (DominoPieceH.pieceSetInsert (DominoPieceH.DominoPiece.new v1 v2 acc.2).1 acc.1,
          (DominoPieceH.DominoPiece.new v1 v2 acc.2).2))
        (acc.1.map (DominoPieceH.shiftId k), acc.2 + k) =
      ((l.foldl (fun acc v2 =>
        (DominoPieceH.pieceSetInsert (DominoPieceH.DominoPiece.new v1 v2 acc.2).1 acc.1,
          (DominoPieceH.DominoPiece.new v1 v2 acc.2).2)) acc).1.map (DominoPieceH.shiftId k),
       (l.foldl (fun acc v2 =>
        (DominoPieceH.pieceSetInsert (DominoPieceH.DominoPiece.new v1 v2 acc.2).1 acc.1,
          (DominoPieceH.DominoPiece.new v1 v2 acc.2).2)) acc).2 + k) := by
  induction l generalizing acc with
  | nil => rfl
  | cons x xs ih =>
    rw [List.foldl_cons, List.foldl_cons, ← ih]
    dsimp only
    rw [pieceH_new_shift]
    dsimp only
    rw [pieceH_insert_shift]

theorem pieceH_outer_shift (k : Int) (l : List Int)
    (acc : List DominoPieceH.DominoPiece × Int) :
    l.foldl (fun acc v1 =>
        (DominoPieceH.intRange (v1 + 1) 6).foldl (fun acc v2 =>
          (DominoPieceH.pieceSetInsert (DominoPieceH.DominoPiece.new v1 v2 acc.2).1 acc.1,
            (DominoPieceH.DominoPiece.new v1 v2 acc.2).2)) acc)
        (acc.1.map (DominoPieceH.shiftId k), acc.2 + k) =
      ((l.foldl (fun acc v1 =>
        (DominoPieceH.intRange (v1 + 1) 6).foldl (fun acc v2 =>
          (DominoPieceH.pieceSetInsert (DominoPieceH.DominoPiece.new v1 v2 acc.2).1 acc.1,
            (DominoPieceH.DominoPiece.new v1 v2 acc.2).2)) acc) acc).1.map
              (DominoPieceH.shiftId k),
       (l.foldl (fun acc v1 =>
        (DominoPieceH.intRange (v1 + 1) 6).foldl (fun acc v2 =>
          (DominoPieceH.pieceSetInsert (DominoPieceH.DominoPiece.new v1 v2 acc.2).1 acc.1,
            (DominoPieceH.DominoPiece.new v1 v2 acc.2).2)) acc) acc).2 + k) := by
  induction l generalizing acc with
  | nil => rfl
  | cons x xs ih =>
    rw [List.foldl_cons, List.foldl_cons, ← ih, pieceH_inner_shift]

/-- Starting `createStandardSet` from another value of `nextId` moves every `uniqueId` and
changes nothing else. -/
theorem createStandardSet_shift (k : Int) :
    DominoPieceH.createStandardSet k =
      ((DominoPieceH.createStandardSet 0).1.map (DominoPieceH.shiftId k),
        (DominoPieceH.createStandardSet 0).2 + k) := by
  have h := pieceH_outer_shift k (DominoPieceH.intRange 1 5) ([], 0)
  simp only [List.map_nil, zero_add] at h
  unfold DominoPieceH.createStandardSet
  dsimp only
  rw [h, pieceH_sort_shift]

theorem createStandardSet_pips (nextId : Int) :
    (DominoPieceH.createStandardSet nextId).1.map DominoPieceH.pips =
      [(1, 2), (1, 3), (1, 4), (1, 5), (1, 6), (2, 3), (2, 4), (2, 5), (2, 6), (3, 4), (3, 5),
       (3, 6), (4, 5), (4, 6), (5, 6)] := by
  rw [createStandardSet_shift, List.map_map]
  have h : DominoPieceH.pips ∘ DominoPieceH.shiftId nextId = DominoPieceH.pips := by
    funext p; rfl
  rw [h]
  decide

theorem generateAvailableDominoes_pips :
    generateAvailableDominoes.map (fun p => (p.value1, p.value2)) =
      [(1, 2), (1, 3), (1, 4), (1, 5), (1, 6), (2, 3), (2, 4), (2, 5), (2, 6), (3, 4), (3, 5),
       (3, 6), (4, 5), (4, 6), (5, 6)] := by
  decide

theorem mem_standard_pairs (a b : Int) :
    (a, b) ∈ ([(1, 2), (1, 3), (1, 4), (1, 5), (1, 6), (2, 3), (2, 4), (2, 5), (2, 6), (3, 4),
         (3, 5), (3, 6), (4, 5), (4, 6), (5, 6)] : List (Int × Int)) ↔
      1 ≤ a ∧ a < b ∧ b ≤ 6 := by
  constructor
  · intro h
    simp only [List.mem_cons, Prod.mk.injEq, List.mem_singleton, List.mem_nil_iff,
      or_false] at h
    rcases h with h | h | h | h | h | h | h | h | h | h | h | h | h | h | h <;>
      (obtain ⟨rfl, rfl⟩ := h; decide)
  · rintro ⟨h1, h2, h3⟩
    have h4 : a ≤ 5 := by omega
    interval_cases a <;> interval_cases b <;> decide

theorem Grid.get_set2 (g : Grid) (hg : IsGrid8 g) (c1 c2 q : Position) (v : Int)
    (hq : InGrid q) :
    ((g.set c1.row c1.col v).set c2.row c2.col v).get q.row q.col =
      if q = c1 ∨ q = c2 then v else g.get q.row q.col := by
  have e : ∀ a b : Position, (a.row = b.row ∧ a.col = b.col) ↔ a = b := by
    intro a b
    exact ⟨Position.eq_of_fields a b, fun h => by rw [h]; exact ⟨rfl, rfl⟩⟩
  rw [Grid.get_set_cases _ (Grid.set_isGrid8 g hg _ _ _) _ _ _ q hq,
    Grid.get_set_cases g hg _ _ _ q hq]
  simp only [e]
  by_cases h2 : q = c2
  · simp [h2]
  · by_cases h1 : q = c1
    · simp [h1]
    · simp [h1, h2]

theorem foldl_set_cells (p : DominoPiece) (g : Grid) (v : Int) :
    (getDominoPositions p).foldl (fun g pos => g.set pos.row pos.col v) g =
      (g.set p.position.row p.position.col v).set (secondCell p.position p.orientation).row
        (secondCell p.position p.orientation).col v := by
  rw [getDominoPositions_eq]
  rfl

/-- Writing the index `k` on the two empty cells of piece `k` completes a tiling that is
consistent for the other pieces. -/
theorem wellFormed_add (g : Grid) (L : List DominoPiece) (k : Nat) (hk : k < L.length)
    (hdims : IsGrid8 g)
    (hocc : ∀ q : Position, InGrid q → g.get q.row q.col ≠ -1 →
      0 ≤ g.get q.row q.col ∧ g.get q.row q.col < (L.length : Int) ∧
        q ∈ getDominoPositions (pieceAt L (g.get q.row q.col)))
    (hpieces : ∀ (i : Nat) (h : i < L.length), i ≠ k →
      ∀ pos ∈ getDominoPositions (L.get ⟨i, h⟩), InGrid pos ∧ g.get pos.row pos.col = (i : Int))
    (hnew : ∀ pos ∈ getDominoPositions (L.get ⟨k, hk⟩),
      InGrid pos ∧ g.get pos.row pos.col = -1)
    (t : GameState) (ht1 : t.placedDominoes = L)
    (ht2 : t.dominoGrid =
      (getDominoPositions (L.get ⟨k, hk⟩)).foldl (fun g pos => g.set pos.row pos.col (k : Int))
        g) : WellFormed t := by
  rw [foldl_set_cells] at ht2
  have hmem : ∀ q : Position, q ∈ getDominoPositions (L.get ⟨k, hk⟩) ↔
      (q = (L.get ⟨k, hk⟩).position ∨
        q = secondCell (L.get ⟨k, hk⟩).position (L.get ⟨k, hk⟩).orientation) := by
    intro q
    rw [getDominoPositions_eq]
    simp
  refine ⟨?_, ?_, ?_⟩
  · rw [ht2]
    exact Grid.set_isGrid8 _ (Grid.set_isGrid8 _ hdims _ _ _) _ _ _
  · intro q hq hne
    rw [ht2, Grid.get_set2 g hdims _ _ q _ hq] at hne
    rw [ht1, ht2, Grid.get_set2 g hdims _ _ q _ hq]
    by_cases hc : q = (L.get ⟨k, hk⟩).position ∨
        q = secondCell (L.get ⟨k, hk⟩).position (L.get ⟨k, hk⟩).orientation
    · rw [if_pos hc]
      refine ⟨by omega, by omega, ?_⟩
      rw [pieceAt_natCast L k hk]
      exact (hmem q).2 hc
    · rw [if_neg hc] at hne ⊢
      exact hocc q hq hne
  · intro i h pos hpos
    have h2 : i < L.length := by rw [← ht1]; exact h
    have hget : t.placedDominoes.get ⟨i, h⟩ = L.get ⟨i, h2⟩ := by
      subst ht1; rfl
    rw [hget] at hpos
    by_cases hik : i = k
    · subst hik
      have hin := (hnew pos hpos).1
      refine ⟨hin, ?_⟩
      rw [ht2, Grid.get_set2 g hdims _ _ pos _ hin, if_pos ((hmem pos).1 hpos)]
    · obtain ⟨hin, hval⟩ := hpieces i h2 hik pos hpos
      refine ⟨hin, ?_⟩
      rw [ht2, Grid.get_set2 g hdims _ _ pos _ hin, if_neg, hval]
      intro hc
      have := (hnew pos ((hmem pos).2 hc)).2
      rw [hval] at this
      omega


theorem adjacent_symm {a b : Position} (h : Adjacent a b) : Adjacent b a :=
  ⟨fun e => h.1 e.symm, h.2.2.1, h.2.1, h.2.2.2.2, h.2.2.2.1⟩

/-- A piece accepted by the placement rule fits the pieces that hold their own index on their
cells. -/
theorem fits_of_allowed (t : GameState) (d a : DominoPiece) (pos : Position) (o : Orientation)
    (hallow : PlacementAllowed t d pos o)
    (hcells : getDominoPositions a = [pos, secondCell pos o]) (hv1 : a.value1 = d.value1)
    (hv2 : a.value2 = d.value2) (others : List DominoPiece)
    (hoth : ∀ p ∈ others, ∃ j : Nat, pieceAt t.placedDominoes (j : Int) = p ∧
      ∀ y ∈ getDominoPositions p, InGrid y ∧ t.dominoGrid.get y.row y.col = (j : Int)) :
    Fits t.grid a others := by
  obtain ⟨⟨hi1, hi2⟩, ⟨he1, he2⟩, ⟨hc1, hc2⟩, hadj, hpip⟩ := hallow
  have hx : ∀ x ∈ getDominoPositions a, x = pos ∨ x = secondCell pos o := by
    intro x hxm
    rw [hcells] at hxm
    simpa using hxm
  have hempty : ∀ x ∈ getDominoPositions a, t.dominoGrid.get x.row x.col = -1 := by
    intro x hxm
    rcases hx x hxm with rfl | rfl
    · exact he1
    · exact he2
  refine ⟨?_, ?_⟩
  · intro y hy
    rcases hx y hy with rfl | rfl
    · exact ⟨hi1, hc1⟩
    · exact ⟨hi2, hc2⟩
  · intro p hp
    obtain ⟨j, hj, hcell⟩ := hoth p hp
    have hocc : ∀ y ∈ getDominoPositions p, t.dominoGrid.get y.row y.col ≠ -1 := by
      intro y hy
      rw [(hcell y hy).2]
      omega
    have hne : ∀ x ∈ getDominoPositions a, ∀ y ∈ getDominoPositions p, y ≠ x := by
      intro x hxm y hy e
      rw [e] at hy
      exact hocc x hy (hempty x hxm)
    refine ⟨?_, ?_⟩
    · intro x hxm y hy
      refine ⟨fun e => hne x hxm y hy e.symm, ?_⟩
      intro hxy
      have h1 : y ≠ pos := fun e => by
        apply hocc y hy
        rw [e]
        exact he1
      have h2 : y ≠ secondCell pos o := fun e => by
        apply hocc y hy
        rw [e]
        exact he2
      apply hocc y hy
      apply hadj y (hcell y hy).1 h1 h2
      rcases hx x hxm with rfl | rfl
      · exact Or.inl (adjacent_symm hxy)
      · exact Or.inr (adjacent_symm hxy)
    · rintro ⟨x, hxm, y, hy, hline⟩
      have hq := hpip y (hcell y hy).1 (by
        rcases hx x hxm with rfl | rfl
        · rcases hline with h | h
          · exact Or.inl h.symm
          · exact Or.inr (Or.inr (Or.inl h.symm))
        · rcases hline with h | h
          · exact Or.inr (Or.inl h.symm)
          · exact Or.inr (Or.inr (Or.inr h.symm))) (hocc y hy)
      rw [(hcell y hy).2, hj] at hq
      have q1 := hq p.value1 (by simp)
      have q2 := hq p.value2 (by simp)
      rw [hv1, hv2]
      exact ⟨q1.1, q2.1, q1.2, q2.2⟩

theorem getDominoPositions_placedCopy2 (d : DominoPiece) (pos : Position) (o : Orientation) :
    getDominoPositions (placedCopy d pos o) = [pos, secondCell pos o] :=
  getDominoPositions_eq _

theorem placeDomino_step (s : GameState) (hwf : WellFormed s) (d : DominoPiece)
    (pos : Position) (o : Orientation) (h : (placeDomino s d pos o).1 = true) :
    WellFormed (placeDomino s d pos o).2 ∧
      (placeDomino s d pos o).2.grid = s.grid ∧
      (placeDomino s d pos o).2.placedDominoes = s.placedDominoes ++ [placedCopy d pos o] ∧
      Fits s.grid (placedCopy d pos o) s.placedDominoes := by
  obtain ⟨hcan, _, c, v, comp, hst⟩ := placeDomino_true s d pos o h
  have hallow := (canPlaceDomino_spec s hwf.occupied d pos o).1 hcan
  rw [hst]
  have hk : s.placedDominoes.length < (s.placedDominoes ++ [placedCopy d pos o]).length := by
    simp
  have hget : (s.placedDominoes ++ [placedCopy d pos o]).get ⟨s.placedDominoes.length, hk⟩ =
      placedCopy d pos o := by
    simp
  refine ⟨?_, rfl, rfl, ?_⟩
  · refine wellFormed_add s.dominoGrid (s.placedDominoes ++ [placedCopy d pos o])
      s.placedDominoes.length hk hwf.dims ?_ ?_ ?_ _ rfl ?_
    · intro q hq hne
      obtain ⟨h0, h1, h2⟩ := hwf.occupied q hq hne
      refine ⟨h0, by simp; omega, ?_⟩
      obtain ⟨i, hi⟩ := Int.eq_ofNat_of_zero_le h0
      rw [hi] at h1 h2 ⊢
      have hil : i < s.placedDominoes.length := by omega
      rw [pieceAt_natCast _ i hil] at h2
      rw [pieceAt_natCast _ i (by simp; omega)]
      simpa [List.getElem_append_left hil] using h2
    · intro i hi hne pos1 hpos1
      have hil : i < s.placedDominoes.length := by
        simp at hi
        omega
      have e : (s.placedDominoes ++ [placedCopy d pos o]).get ⟨i, hi⟩ =
          s.placedDominoes.get ⟨i, hil⟩ := by
        simp [List.getElem_append_left hil]
      rw [e] at hpos1
      exact hwf.pieces i hil pos1 hpos1
    · intro pos1 hpos1
      rw [hget, getDominoPositions_placedCopy2] at hpos1
      simp only [List.mem_cons, List.mem_singleton, List.mem_nil_iff, or_false] at hpos1
      rcases hpos1 with rfl | rfl
      · exact ⟨hallow.1.1, hallow.2.1.1⟩
      · exact ⟨hallow.1.2, hallow.2.1.2⟩
    · rw [hget, foldl_set_cells]
      rfl
  · refine fits_of_allowed s d _ pos o hallow (getDominoPositions_placedCopy2 d pos o) rfl rfl _ ?_
    intro p hp
    obtain ⟨j, hj, hjp⟩ := List.mem_iff_getElem.1 hp
    refine ⟨j, ?_, ?_⟩
    · rw [pieceAt_natCast _ j hj]
      exact hjp
    · intro y hy
      rw [← hjp] at hy
      exact hwf.pieces j hj y hy


theorem Grid.get_ofFn (f : Int → Int → Int) (r c : Int) (h0 : 0 ≤ r) (h1 : r < 8) (h2 : 0 ≤ c)
    (h3 : c < 8) : (Grid.ofFn f).get r c = f r c := by
  interval_cases r <;> interval_cases c <;> rfl

theorem Grid.ofFn_isGrid8 (f : Int → Int → Int) : IsGrid8 (Grid.ofFn f) := by
  refine ⟨rfl, ?_⟩
  intro row hrow
  simp only [Grid.ofFn, gridIndices, List.map_cons, List.map_nil, List.mem_cons,
    List.mem_singleton, List.mem_nil_iff, or_false] at hrow
  rcases hrow with h | h | h | h | h | h | h | h <;> (rw [h]; rfl)

theorem gridOfPieces_get (L : List DominoPiece) (q : Position) (hq : InGrid q) :
    (gridOfPieces L).get q.row q.col =
      if L.findIdx (fun p => decide (q ∈ getDominoPositions p)) < L.length then
        (L.findIdx (fun p => decide (q ∈ getDominoPositions p)) : Int)
      else -1 := by
  unfold gridOfPieces
  rw [Grid.get_ofFn _ _ _ hq.1 hq.2.1 hq.2.2.1 hq.2.2.2]

/-- The cells of the pieces of a consistent tiling are inside the grid. -/
theorem WellFormed.cells_inGrid {s : GameState} (hwf : WellFormed s) :
    ∀ p ∈ s.placedDominoes, ∀ y ∈ getDominoPositions p, InGrid y := by
  intro p hp y hy
  obtain ⟨j, hj, hjp⟩ := List.mem_iff_getElem.1 hp
  rw [← hjp] at hy
  exact (hwf.pieces j hj y hy).1

/-- No cell belongs to two pieces of a consistent tiling. -/
theorem WellFormed.pairwise_disjoint {s : GameState} (hwf : WellFormed s) :
    s.placedDominoes.Pairwise
      (fun a b => ∀ x ∈ getDominoPositions a, x ∉ getDominoPositions b) := by
  rw [List.pairwise_iff_getElem]
  intro i j hi hj hij x hx hx2
  have h1 := (hwf.pieces i hi x hx).2
  have h2 := (hwf.pieces j hj x hx2).2
  rw [h1] at h2
  omega

/-- The id grid of a list of pieces inside the grid no two of which share a cell is consistent
with the list, and it is the grid `updateDominoIds` rebuilds. -/
theorem rebuild_ok (L : List DominoPiece)
    (hin : ∀ p ∈ L, ∀ y ∈ getDominoPositions p, InGrid y)
    (hdis : L.Pairwise (fun a b => ∀ x ∈ getDominoPositions a, x ∉ getDominoPositions b)) :
    updateDominoIds.pieces L 0 (Grid.fill (-1)) = Except.ok (gridOfPieces L) ∧
      IsGrid8 (gridOfPieces L) ∧
      (∀ q : Position, InGrid q → (gridOfPieces L).get q.row q.col ≠ -1 →
        0 ≤ (gridOfPieces L).get q.row q.col ∧
          (gridOfPieces L).get q.row q.col < (L.length : Int) ∧
          q ∈ getDominoPositions (pieceAt L ((gridOfPieces L).get q.row q.col))) ∧
      (∀ (i : Nat) (h : i < L.length), ∀ pos ∈ getDominoPositions (L.get ⟨i, h⟩),
        InGrid pos ∧ (gridOfPieces L).get pos.row pos.col = (i : Int)) := by
  have hocc : ∀ q : Position, InGrid q → (gridOfPieces L).get q.row q.col ≠ -1 →
      0 ≤ (gridOfPieces L).get q.row q.col ∧
        (gridOfPieces L).get q.row q.col < (L.length : Int) ∧
        q ∈ getDominoPositions (pieceAt L ((gridOfPieces L).get q.row q.col)) := by
    intro q hq hne
    rw [gridOfPieces_get L q hq] at hne ⊢
    by_cases hlt : L.findIdx (fun p => decide (q ∈ getDominoPositions p)) < L.length
    · rw [if_pos hlt]
      refine ⟨by omega, by omega, ?_⟩
      rw [pieceAt_natCast L _ hlt]
      have := @List.findIdx_getElem _ (fun p => decide (q ∈ getDominoPositions p)) L hlt
      simpa using this
    · rw [if_neg hlt] at hne
      exact absurd rfl hne
  have hpieces : ∀ (i : Nat) (h : i < L.length), ∀ pos ∈ getDominoPositions (L.get ⟨i, h⟩),
      InGrid pos ∧ (gridOfPieces L).get pos.row pos.col = (i : Int) := by
    intro i h pos hpos
    have hig : InGrid pos := hin _ (List.get_mem L i h) pos hpos
    refine ⟨hig, ?_⟩
    rw [gridOfPieces_get L pos hig]
    have hex : ∃ x ∈ L, (fun p => decide (pos ∈ getDominoPositions p)) x = true :=
      ⟨L.get ⟨i, h⟩, List.get_mem L i h, by simpa using hpos⟩
    have hlt := List.findIdx_lt_length_of_exists hex
    rw [if_pos hlt]
    have hle : L.findIdx (fun p => decide (pos ∈ getDominoPositions p)) ≤ i := by
      by_contra hgt
      have := @List.not_of_lt_findIdx _ (fun p => decide (pos ∈ getDominoPositions p)) L i
        (by omega)
      simp only [decide_eq_false_iff_not] at this
      exact this hpos
    have hfound := @List.findIdx_getElem _ (fun p => decide (pos ∈ getDominoPositions p)) L hlt
    simp only [decide_eq_true_eq] at hfound
    rcases Nat.lt_or_eq_of_le hle with hlt2 | heq
    · exact absurd hpos ((List.pairwise_iff_getElem.1 hdis) _ i hlt h hlt2 pos hfound)
    · rw [heq]
  refine ⟨?_, Grid.ofFn_isGrid8 _, hocc, hpieces⟩
  apply updateDominoIds_pieces_eq (gridOfPieces L) L (Grid.ofFn_isGrid8 _) hocc hpieces L 0
    (Grid.fill (-1)) rfl (Grid.fill_isGrid8 _)
  intro q hq
  rw [Grid.get_fill _ _ _ hq.1 hq.2.1 hq.2.2.1 hq.2.2.2, if_neg]
  intro hh
  have := (hocc q hq hh.1).1
  have := hh.2
  simp only [Nat.cast_zero] at this
  omega

theorem findCovering_some (position : Position) (l : List DominoPiece) (k i : Nat)
    (h : findCovering position l k = some i) : k ≤ i ∧ i < k + l.length := by
  induction l generalizing k with
  | nil => simp [findCovering] at h
  | cons p rest ih =>
    rw [findCovering] at h
    split at h
    · simp only [Option.some.injEq] at h
      simp only [List.length_cons]
      omega
    · have := ih (k + 1) h
      simp only [List.length_cons]
      omega

theorem removeDomino_step (s : GameState) (hwf : WellFormed s) (pos : Position) :
    (∃ b, (removeDomino s pos).1 = Except.ok b) ∧
      WellFormed (removeDomino s pos).2 ∧
      (removeDomino s pos).2.grid = s.grid ∧
      ((removeDomino s pos).2.placedDominoes = s.placedDominoes ∨
        ∃ i, i < s.placedDominoes.length ∧
          (removeDomino s pos).2.placedDominoes = s.placedDominoes.eraseIdx i) := by
  unfold removeDomino
  split
  · exact ⟨⟨false, rfl⟩, hwf, rfl, Or.inl rfl⟩
  dsimp only
  split
  · exact ⟨⟨false, rfl⟩, hwf, rfl, Or.inl rfl⟩
  split
  · exact ⟨⟨false, rfl⟩, hwf, rfl, Or.inl rfl⟩
  rename_i i hfind
  have hi := (findCovering_some pos s.placedDominoes 0 i hfind).2
  simp only [Nat.zero_add] at hi
  have hsub := List.eraseIdx_sublist s.placedDominoes i
  obtain ⟨hok, hdims, hocc, hpieces⟩ := rebuild_ok (s.placedDominoes.eraseIdx i)
    (fun p hp => hwf.cells_inGrid p (hsub.subset hp)) (hwf.pairwise_disjoint.sublist hsub)
  unfold updateDominoIds
  dsimp only
  rw [hok]
  dsimp only
  exact ⟨⟨true, rfl⟩, ⟨hdims, hocc, hpieces⟩, rfl, Or.inr ⟨i, hi, rfl⟩⟩


theorem WellFormed.of_fields {s t : GameState} (hwf : WellFormed s)
    (h1 : t.dominoGrid = s.dominoGrid) (h2 : t.placedDominoes = s.placedDominoes) :
    WellFormed t := by
  cases s
  cases t
  simp only at h1 h2
  subst h1 h2
  exact ⟨hwf.dims, hwf.occupied, hwf.pieces⟩

/-- The state in the middle of `moveDomino`: the piece `i` lifted off the grid and its record
rewritten. The other pieces still hold their index on their cells. -/
theorem lifted_facts (s : GameState) (hwf : WellFormed s) (i : Nat)
    (hi : i < s.placedDominoes.length) (q : Position) (hq : InGrid q) :
    (((s.dominoGrid.set (s.placedDominoes.get ⟨i, hi⟩).position.row
        (s.placedDominoes.get ⟨i, hi⟩).position.col (-1)).set
      (secondCell (s.placedDominoes.get ⟨i, hi⟩).position
        (s.placedDominoes.get ⟨i, hi⟩).orientation).row
      (secondCell (s.placedDominoes.get ⟨i, hi⟩).position
        (s.placedDominoes.get ⟨i, hi⟩).orientation).col (-1)).get q.row q.col =
      if s.dominoGrid.get q.row q.col = (i : Int) then -1 else s.dominoGrid.get q.row q.col) := by
  rw [Grid.get_set2 _ hwf.dims _ _ q _ hq]
  have hp := hwf.pieces i hi
  rw [getDominoPositions_eq] at hp
  by_cases hc : q = (s.placedDominoes.get ⟨i, hi⟩).position ∨
      q = secondCell (s.placedDominoes.get ⟨i, hi⟩).position
        (s.placedDominoes.get ⟨i, hi⟩).orientation
  · rw [if_pos hc, if_pos]
    rcases hc with rfl | rfl
    · exact (hp _ (by simp)).2
    · exact (hp _ (by simp)).2
  · rw [if_neg hc]
    by_cases hv : s.dominoGrid.get q.row q.col = (i : Int)
    · exfalso
      have hne : s.dominoGrid.get q.row q.col ≠ -1 := by omega
      have hmem := (hwf.occupied q hq hne).2.2
      rw [hv, pieceAt_natCast _ i hi, getDominoPositions_eq] at hmem
      simp only [List.mem_cons, List.mem_singleton, List.mem_nil_iff, or_false] at hmem
      exact hc hmem
    · rw [if_neg hv]

theorem pieceAt_set_ne (L : List DominoPiece) (i j : Nat) (d : DominoPiece) (hj : j < L.length)
    (hne : j ≠ i) : pieceAt (L.set i d) (j : Int) = L.get ⟨j, hj⟩ := by
  rw [pieceAt_natCast _ j (by simpa using hj)]
  simp only [List.get_eq_getElem, List.getElem_set]
  rw [if_neg (fun e => hne e.symm)]


/-- The successful branch of `moveDomino`: the lifted piece `i` is accepted at its new anchor
by the placement rule, and its index is written on the two new cells. -/
theorem moved_ok (s : GameState) (hwf : WellFormed s) (i : Nat)
    (hi : i < s.placedDominoes.length) (b : Position) (o : Orientation) (dg : Grid)
    (hdg : dg = (s.dominoGrid.set (s.placedDominoes.get ⟨i, hi⟩).position.row
        (s.placedDominoes.get ⟨i, hi⟩).position.col (-1)).set
      (secondCell (s.placedDominoes.get ⟨i, hi⟩).position
        (s.placedDominoes.get ⟨i, hi⟩).orientation).row
      (secondCell (s.placedDominoes.get ⟨i, hi⟩).position
        (s.placedDominoes.get ⟨i, hi⟩).orientation).col (-1))
    (hcan : canPlaceDomino
      { s with dominoGrid := dg,
               placedDominoes :=
                 s.placedDominoes.set i (movedCopy (s.placedDominoes.get ⟨i, hi⟩) b o) }
      (movedCopy (s.placedDominoes.get ⟨i, hi⟩) b o) b o = true) :
    (∀ t : GameState,
      t.placedDominoes =
        s.placedDominoes.set i (movedCopy (s.placedDominoes.get ⟨i, hi⟩) b o) →
      t.dominoGrid = (dg.set b.row b.col (i : Int)).set (secondCell b o).row
        (secondCell b o).col (i : Int) → WellFormed t) ∧
      Fits s.grid (movedCopy (s.placedDominoes.get ⟨i, hi⟩) b o) (s.placedDominoes.eraseIdx i) := by
  have hdims : IsGrid8 dg := by
    rw [hdg]
    exact Grid.set_isGrid8 _ (Grid.set_isGrid8 _ hwf.dims _ _ _) _ _ _
  have hget : ∀ q : Position, InGrid q → dg.get q.row q.col =
      if s.dominoGrid.get q.row q.col = (i : Int) then -1 else s.dominoGrid.get q.row q.col := by
    intro q hq
    rw [hdg]
    exact lifted_facts s hwf i hi q hq
  have hlen : (s.placedDominoes.set i (movedCopy (s.placedDominoes.get ⟨i, hi⟩) b o)).length =
      s.placedDominoes.length := by simp
  have hocc : ∀ q : Position, InGrid q → dg.get q.row q.col ≠ -1 →
      0 ≤ dg.get q.row q.col ∧
        dg.get q.row q.col <
          ((s.placedDominoes.set i (movedCopy (s.placedDominoes.get ⟨i, hi⟩) b o)).length :
            Int) ∧
        q ∈ getDominoPositions
          (pieceAt (s.placedDominoes.set i (movedCopy (s.placedDominoes.get ⟨i, hi⟩) b o))
            (dg.get q.row q.col)) := by
    intro q hq hne
    rw [hget q hq] at hne ⊢
    by_cases hv : s.dominoGrid.get q.row q.col = (i : Int)
    · rw [if_pos hv] at hne
      exact absurd rfl hne
    · rw [if_neg hv] at hne ⊢
      obtain ⟨h0, h1, h2⟩ := hwf.occupied q hq hne
      rw [hlen]
      refine ⟨h0, h1, ?_⟩
      obtain ⟨j, hj⟩ := Int.eq_ofNat_of_zero_le h0
      rw [hj] at h1 h2 hv ⊢
      have hjl : j < s.placedDominoes.length := by omega
      rw [pieceAt_set_ne _ i j _ hjl (by omega)]
      rw [pieceAt_natCast _ j hjl] at h2
      exact h2
  have hother : ∀ (j : Nat) (hj : j < s.placedDominoes.length), j ≠ i →
      ∀ pos ∈ getDominoPositions (s.placedDominoes.get ⟨j, hj⟩),
        InGrid pos ∧ dg.get pos.row pos.col = (j : Int) := by
    intro j hj hne pos hpos
    obtain ⟨hin, hval⟩ := hwf.pieces j hj pos hpos
    refine ⟨hin, ?_⟩
    rw [hget pos hin, hval, if_neg]
    omega
  have hallow := (canPlaceDomino_spec
    { s with dominoGrid := dg,
             placedDominoes :=
               s.placedDominoes.set i (movedCopy (s.placedDominoes.get ⟨i, hi⟩) b o) }
    hocc _ b o).1 hcan
  have hcells : getDominoPositions (movedCopy (s.placedDominoes.get ⟨i, hi⟩) b o) =
      [b, secondCell b o] := getDominoPositions_eq _
  have hk : i < (s.placedDominoes.set i (movedCopy (s.placedDominoes.get ⟨i, hi⟩) b o)).length := by
    rw [hlen]
    exact hi
  have hgk : (s.placedDominoes.set i (movedCopy (s.placedDominoes.get ⟨i, hi⟩) b o)).get ⟨i, hk⟩ =
      movedCopy (s.placedDominoes.get ⟨i, hi⟩) b o := by
    simp
  refine ⟨?_, ?_⟩
  · intro t ht1 ht2
    refine wellFormed_add dg _ i hk hdims hocc ?_ ?_ t ht1 ?_
    · intro j hj hne pos hpos
      have hjl : j < s.placedDominoes.length := by rw [← hlen]; exact hj
      have e : (s.placedDominoes.set i (movedCopy (s.placedDominoes.get ⟨i, hi⟩) b o)).get
          ⟨j, hj⟩ = s.placedDominoes.get ⟨j, hjl⟩ := by
        simp only [List.get_eq_getElem, List.getElem_set]
        rw [if_neg (fun e => hne e.symm)]
      rw [e] at hpos
      exact hother j hjl hne pos hpos
    · intro pos hpos
      rw [hgk, hcells] at hpos
      simp only [List.mem_cons, List.mem_singleton, List.mem_nil_iff, or_false] at hpos
      rcases hpos with rfl | rfl
      · exact ⟨hallow.1.1, hallow.2.1.1⟩
      · exact ⟨hallow.1.2, hallow.2.1.2⟩
    · rw [hgk, foldl_set_cells]
      exact ht2
  · refine fits_of_allowed _ _ _ b o hallow hcells rfl rfl _ ?_
    intro p hp
    obtain ⟨j, hj, hne, hjp⟩ := List.mem_eraseIdx_iff_getElem.1 hp
    refine ⟨j, ?_, ?_⟩
    · show pieceAt (s.placedDominoes.set i (movedCopy (s.placedDominoes.get ⟨i, hi⟩) b o))
        (j : Int) = p
      rw [pieceAt_set_ne _ i j _ hj hne]
      exact hjp
    · intro y hy
      rw [← hjp] at hy
      exact hother j hj hne y hy

theorem moveDomino_step (s : GameState) (hwf : WellFormed s) (a b : Position)
    (o : Orientation) :
    (∃ r, (moveDomino s a b o).1 = Except.ok r) ∧
      WellFormed (moveDomino s a b o).2 ∧
      (moveDomino s a b o).2.grid = s.grid ∧
      ((moveDomino s a b o).2.placedDominoes = s.placedDominoes ∨
        ∃ (i : Nat) (hi : i < s.placedDominoes.length),
          (moveDomino s a b o).2.placedDominoes =
            s.placedDominoes.set i (movedCopy (s.placedDominoes.get ⟨i, hi⟩) b o) ∧
          Fits s.grid (movedCopy (s.placedDominoes.get ⟨i, hi⟩) b o)
            (s.placedDominoes.eraseIdx i)) := by
  unfold moveDomino
  by_cases hg : (!a.isValidForGrid GRID_SIZE || !b.isValidForGrid GRID_SIZE) = true
  · rw [if_pos hg]
    exact ⟨⟨false, rfl⟩, hwf, rfl, Or.inl rfl⟩
  rw [if_neg hg]
  dsimp only
  by_cases hid : s.dominoGrid.get a.row a.col = -1 ∨
      s.dominoGrid.get a.row a.col ≥ (s.placedDominoes.length : Int)
  · rw [if_pos hid]
    exact ⟨⟨false, rfl⟩, hwf, rfl, Or.inl rfl⟩
  rw [if_neg hid]
  simp only [Bool.or_eq_true, Bool.not_eq_true', not_or, Bool.not_eq_false] at hg
  have hfrom : InGrid a := (isValidForGrid_iff _).1 hg.1
  have hne : s.dominoGrid.get a.row a.col ≠ -1 := fun h => hid (Or.inl h)
  obtain ⟨h0, hlt, _⟩ := hwf.occupied a hfrom hne
  obtain ⟨i, hi⟩ := Int.eq_ofNat_of_zero_le h0
  rw [hi] at hlt ⊢
  have hilt : i < s.placedDominoes.length := by omega
  rw [pieceAt_natCast _ i hilt, getDominoPositions_eq]
  have hp := hwf.pieces i hilt
  rw [getDominoPositions_eq] at hp
  have hp1 := hp (s.placedDominoes.get ⟨i, hilt⟩).position (by simp)
  have hp2 := hp (secondCell (s.placedDominoes.get ⟨i, hilt⟩).position
    (s.placedDominoes.get ⟨i, hilt⟩).orientation) (by simp)
  have hset : ∀ (ps : List DominoPiece) (p : DominoPiece),
      setPieceAt ps (i : Int) p = ps.set i p := by
    intro ps p
    unfold setPieceAt
    rw [if_neg (by omega), Int.toNat_ofNat]
  simp only [List.foldl_cons, List.foldl_nil, hset]
  split
  · rename_i r hr
    split at hr
    · simp at hr
    · rename_i hcan
      simp only [Except.ok.injEq] at hr
      subst hr
      obtain ⟨w1, w2⟩ := moved_ok s hwf i hilt b o _ rfl (by simpa using hcan)
      exact ⟨⟨true, rfl⟩,
        w1 _ rfl (foldl_set_cells (movedCopy (s.placedDominoes.get ⟨i, hilt⟩) b o) _ _), rfl,
        Or.inr ⟨i, hilt, rfl, w2⟩⟩
  · refine ⟨⟨false, rfl⟩, ?_, rfl, Or.inl ?_⟩
    · refine hwf.of_fields ?_ ?_
      · exact restore_cells s.dominoGrid hwf.dims _ _ _ hp1.1 hp2.1 hp1.2 hp2.2
      · simp only [List.set_set]
        exact list_set_get_self _ i hilt
    · simp only [List.set_set]
      exact list_set_get_self _ i hilt


theorem applyCall_step (s : GameState) (hwf : WellFormed s) (c : Call) :
    (∃ b, (applyCall s c).1 = Except.ok b) ∧
      WellFormed (applyCall s c).2 ∧
      (applyCall s c).2.grid = s.grid ∧
      TilingStep s.grid c s.placedDominoes (applyCall s c).2.placedDominoes := by
  cases c with
  | place d pos o =>
    refine ⟨⟨_, rfl⟩, ?_⟩
    show WellFormed (placeDomino s d pos o).2 ∧ (placeDomino s d pos o).2.grid = s.grid ∧
      TilingStep s.grid (Call.place d pos o) s.placedDominoes
        (placeDomino s d pos o).2.placedDominoes
    by_cases h : (placeDomino s d pos o).1 = true
    · obtain ⟨h1, h2, h3, h4⟩ := placeDomino_step s hwf d pos o h
      exact ⟨h1, h2, Or.inr (Or.inl ⟨d, pos, o, rfl, h3, h4⟩)⟩
    · rw [placeDomino_false_state s d pos o (by simpa using h)]
      exact ⟨hwf, rfl, Or.inl rfl⟩
  | remove pos =>
    obtain ⟨h1, h2, h3, h4⟩ := removeDomino_step s hwf pos
    refine ⟨h1, h2, h3, ?_⟩
    rcases h4 with h4 | h4
    · exact Or.inl h4
    · exact Or.inr (Or.inr (Or.inl h4))
  | move a b o =>
    obtain ⟨h1, h2, h3, h4⟩ := moveDomino_step s hwf a b o
    refine ⟨h1, h2, h3, ?_⟩
    rcases h4 with h4 | ⟨i, hi, h4⟩
    · exact Or.inl h4
    · exact Or.inr (Or.inr (Or.inr ⟨i, hi, b, o, h4⟩))

theorem apart_symm {a b : DominoPiece} (h : Apart a b) : Apart b a := by
  intro x hx y hy
  obtain ⟨h1, h2⟩ := h y hy x hx
  exact ⟨fun e => h1 e.symm, fun e => h2 (adjacent_symm e)⟩

theorem pipsApart_symm {a b : DominoPiece} (h : PipsApart a b) : PipsApart b a := by
  rintro ⟨x, hx, y, hy, hl⟩
  obtain ⟨h1, h2, h3, h4⟩ := h ⟨y, hy, x, hx, by
    rcases hl with e | e
    · exact Or.inl e.symm
    · exact Or.inr e.symm⟩
  exact ⟨fun e => h1 e.symm, fun e => h3 e.symm, fun e => h2 e.symm, fun e => h4 e.symm⟩

theorem pairwise_set {α : Type} {R : α → α → Prop} (hsym : ∀ a b, R a b → R b a) (L : List α)
    (i : Nat) (hi : i < L.length) (a : α) (h1 : (L.eraseIdx i).Pairwise R)
    (h2 : ∀ p ∈ L.eraseIdx i, R a p) : (L.set i a).Pairwise R := by
  rw [List.set_eq_take_append_cons_drop, if_pos hi]
  rw [List.eraseIdx_eq_take_drop_succ] at h1 h2
  rw [List.pairwise_append] at h1 ⊢
  obtain ⟨p1, p2, p3⟩ := h1
  refine ⟨p1, ?_, ?_⟩
  · rw [List.pairwise_cons]
    exact ⟨fun p hp => h2 p (List.mem_append_right _ hp), p2⟩
  · intro x hx y hy
    rcases List.mem_cons.1 hy with rfl | hy
    · exact hsym _ _ (h2 x (List.mem_append_left _ hx))
    · exact p3 x hx y hy

theorem tilingOK_step (grid : Grid) (c : Call) (L L1 : List DominoPiece)
    (hok : TilingOK grid L) (hstep : TilingStep grid c L L1) : TilingOK grid L1 := by
  have hsym : ∀ a b : DominoPiece, Apart a b ∧ PipsApart a b → Apart b a ∧ PipsApart b a :=
    fun a b h => ⟨apart_symm h.1, pipsApart_symm h.2⟩
  rcases hstep with rfl | ⟨d, pos, o, _, rfl, hfit⟩ | ⟨i, _, rfl⟩ | ⟨i, hi, b, o, rfl, hfit⟩
  · exact hok
  · refine ⟨?_, ?_⟩
    · intro p hp
      rcases List.mem_append.1 hp with h | h
      · exact hok.1 p h
      · rw [List.mem_singleton.1 h]
        exact hfit.1
    · rw [List.pairwise_append]
      refine ⟨hok.2, List.pairwise_singleton _ _, ?_⟩
      intro x hx y hy
      rw [List.mem_singleton.1 hy]
      exact hsym _ _ (hfit.2 x hx)
  · exact ⟨fun p hp => hok.1 p (List.mem_of_mem_eraseIdx hp),
      hok.2.sublist (List.eraseIdx_sublist L i)⟩
  · refine ⟨?_, ?_⟩
    · intro p hp
      rcases List.mem_or_eq_of_mem_set hp with h | h
      · exact hok.1 p h
      · rw [h]
        exact hfit.1
    · exact pairwise_set hsym L i hi _ (hok.2.sublist (List.eraseIdx_sublist L i)) hfit.2

theorem runCalls_append (s : GameState) (calls : List Call) (c : Call) :
    runCalls s (calls ++ [c]) = (applyCall (runCalls s calls) c).2 := by
  unfold runCalls
  rw [List.foldl_append]
  rfl

/-- Every state reached by calls from a consistent tiling whose pieces fit one another is of
the same kind, and the clue grid is the one of the start. -/
theorem runCalls_inv (s : GameState) (hwf : WellFormed s)
    (hok : TilingOK s.grid s.placedDominoes) (calls : List Call) :
    WellFormed (runCalls s calls) ∧ (runCalls s calls).grid = s.grid ∧
      TilingOK s.grid (runCalls s calls).placedDominoes := by
  induction calls generalizing s with
  | nil => exact ⟨hwf, rfl, hok⟩
  | cons c rest ih =>
    obtain ⟨_, h2, h3, h4⟩ := applyCall_step s hwf c
    have hok2 := tilingOK_step s.grid c _ _ hok h4
    rw [← h3] at hok2
    have := ih (applyCall s c).2 h2 hok2
    rw [h3] at this
    exact this

theorem emptyTiling_wellFormed (s : GameState) : WellFormed (emptyTiling s) := by
  refine ⟨Grid.fill_isGrid8 (-1), ?_, ?_⟩
  · intro q hq hne
    exact absurd (Grid.get_fill (-1) q.row q.col hq.1 hq.2.1 hq.2.2.1 hq.2.2.2) hne
  · intro i h
    exact absurd h (Nat.not_lt_zero i)

theorem emptyTiling_ok (s : GameState) :
    TilingOK (emptyTiling s).grid (emptyTiling s).placedDominoes :=
  ⟨fun p hp => absurd hp (List.not_mem_nil p), List.Pairwise.nil⟩

theorem initializeGame_eq_emptyTiling (s : GameState) :
    initializeGame s = emptyTiling (initializeGame s) := rfl

/-- In a consistent tiling, the cell `q` holds the index `i` exactly when it is one of the two
cells of piece `i`, cells of no piece hold -1, and distinct pieces share no cell. -/
theorem WellFormed.consistent {t : GameState} (hwf : WellFormed t) :
    (∀ (i : Nat) (h : i < t.placedDominoes.length),
      ∀ pos ∈ getDominoPositions (t.placedDominoes.get ⟨i, h⟩), InGrid pos) ∧
    (∀ (i j : Nat) (hi : i < t.placedDominoes.length) (hj : j < t.placedDominoes.length),
      i ≠ j → ∀ pos ∈ getDominoPositions (t.placedDominoes.get ⟨i, hi⟩),
        pos ∉ getDominoPositions (t.placedDominoes.get ⟨j, hj⟩)) ∧
    (∀ q : Position, InGrid q → ∀ i : Nat,
      (t.dominoGrid.get q.row q.col = (i : Int) ↔
        ∃ h : i < t.placedDominoes.length,
          q ∈ getDominoPositions (t.placedDominoes.get ⟨i, h⟩))) ∧
    (∀ q : Position, InGrid q →
      (t.dominoGrid.get q.row q.col = -1 ↔
        ∀ p ∈ t.placedDominoes, q ∉ getDominoPositions p)) := by
  refine ⟨fun i h pos hpos => (hwf.pieces i h pos hpos).1, ?_, ?_, ?_⟩
  · intro i j hi hj hne pos h1 h2
    have e1 := (hwf.pieces i hi pos h1).2
    have e2 := (hwf.pieces j hj pos h2).2
    rw [e1] at e2
    omega
  · intro q hq i
    constructor
    · intro h
      have hne : t.dominoGrid.get q.row q.col ≠ -1 := by omega
      obtain ⟨_, h1, h2⟩ := hwf.occupied q hq hne
      rw [h] at h1 h2
      have hi : i < t.placedDominoes.length := by omega
      rw [pieceAt_natCast _ i hi] at h2
      exact ⟨hi, h2⟩
    · rintro ⟨h, hmem⟩
      exact (hwf.pieces i h q hmem).2
  · intro q hq
    constructor
    · intro h p hp hmem
      obtain ⟨j, hj, hjp⟩ := List.mem_iff_getElem.1 hp
      rw [← hjp] at hmem
      have := (hwf.pieces j hj q hmem).2
      rw [h] at this
      omega
    · intro h
      by_contra hne
      obtain ⟨h0, h1, h2⟩ := hwf.occupied q hq hne
      exact h _ (pieceAt_mem _ _ h0 h1) h2

/-- Two occupied adjacent cells of a consistent tiling whose pieces are pairwise apart hold the
same index. -/
theorem nonAdjacent_of_apart {t : GameState} (hwf : WellFormed t)
    (hap : t.placedDominoes.Pairwise (fun a b => Apart a b ∧ PipsApart a b)) :
    (∀ (i j : Nat) (hi : i < t.placedDominoes.length) (hj : j < t.placedDominoes.length),
      i ≠ j → ∀ x ∈ getDominoPositions (t.placedDominoes.get ⟨i, hi⟩),
        ∀ y ∈ getDominoPositions (t.placedDominoes.get ⟨j, hj⟩), ¬ Adjacent x y) ∧
      SolutionNonAdjacent t.dominoGrid := by
  have hidx : ∀ (i j : Nat) (hi : i < t.placedDominoes.length)
      (hj : j < t.placedDominoes.length), i ≠ j →
      Apart (t.placedDominoes.get ⟨i, hi⟩) (t.placedDominoes.get ⟨j, hj⟩) ∧
        PipsApart (t.placedDominoes.get ⟨i, hi⟩) (t.placedDominoes.get ⟨j, hj⟩) := by
    intro i j hi hj hne
    rcases Nat.lt_or_gt_of_ne hne with h | h
    · exact (List.pairwise_iff_getElem.1 hap) i j hi hj h
    · have := (List.pairwise_iff_getElem.1 hap) j i hj hi h
      exact ⟨apart_symm this.1, pipsApart_symm this.2⟩
  refine ⟨fun i j hi hj hne x hx y hy => ((hidx i j hi hj hne).1 x hx y hy).2, ?_⟩
  intro a b ha hb hadj hna hnb
  obtain ⟨a0, a1, a2⟩ := hwf.occupied a ha hna
  obtain ⟨b0, b1, b2⟩ := hwf.occupied b hb hnb
  obtain ⟨i, hi⟩ := Int.eq_ofNat_of_zero_le a0
  obtain ⟨j, hj⟩ := Int.eq_ofNat_of_zero_le b0
  rw [hi] at a1 a2 ⊢
  rw [hj] at b1 b2 ⊢
  have hil : i < t.placedDominoes.length := by omega
  have hjl : j < t.placedDominoes.length := by omega
  rw [pieceAt_natCast _ i hil] at a2
  rw [pieceAt_natCast _ j hjl] at b2
  by_contra hne
  exact ((hidx i j hil hjl (fun e => hne (by rw [e]))).1 a a2 b b2).2 hadj

theorem tilingStep_values (grid : Grid) (c : Call) (L L1 : List DominoPiece)
    (hstep : TilingStep grid c L L1) (hL : ∀ p ∈ L, p.value1 ≠ p.value2)
    (hc : CatalogLike c) : ∀ p ∈ L1, p.value1 ≠ p.value2 := by
  rcases hstep with rfl | ⟨d, pos, o, rfl, rfl, _⟩ | ⟨i, _, rfl⟩ | ⟨i, hi, b, o, rfl, _⟩
  · exact hL
  · intro p hp
    rcases List.mem_append.1 hp with h | h
    · exact hL p h
    · rw [List.mem_singleton.1 h]
      exact hc
  · exact fun p hp => hL p (List.mem_of_mem_eraseIdx hp)
  · intro p hp
    rcases List.mem_or_eq_of_mem_set hp with h | h
    · exact hL p h
    · rw [h]
      show (L.get ⟨i, hi⟩).value1 ≠ (L.get ⟨i, hi⟩).value2
      exact hL _ (List.get_mem L i hi)

theorem runCalls_values (s : GameState) (hwf : WellFormed s)
    (hL : ∀ p ∈ s.placedDominoes, p.value1 ≠ p.value2) (calls : List Call)
    (hcalls : PlacesCatalogLike calls) :
    ∀ p ∈ (runCalls s calls).placedDominoes, p.value1 ≠ p.value2 := by
  induction calls generalizing s with
  | nil => exact hL
  | cons c rest ih =>
    obtain ⟨_, h2, _, h4⟩ := applyCall_step s hwf c
    exact ih (applyCall s c).2 h2
      (tilingStep_values s.grid c _ _ h4 hL (hcalls c (List.mem_cons_self _ _)))
      (fun c1 h1 => hcalls c1 (List.mem_cons_of_mem _ h1))

/-- In a consistent tiling whose pieces share no pip along a common line and each carry two
different pips, no row or column holds a pip value twice. -/
theorem pipsUnique_of_apart {t : GameState} (hwf : WellFormed t)
    (hap : t.placedDominoes.Pairwise (fun a b => Apart a b ∧ PipsApart a b))
    (hval : ∀ p ∈ t.placedDominoes, p.value1 ≠ p.value2) :
    PipsUnique t.dominoGrid t.placedDominoes := by
  have hidx : ∀ (i j : Nat) (hi : i < t.placedDominoes.length)
      (hj : j < t.placedDominoes.length), i ≠ j →
      PipsApart (t.placedDominoes.get ⟨i, hi⟩) (t.placedDominoes.get ⟨j, hj⟩) := by
    intro i j hi hj hne
    rcases Nat.lt_or_gt_of_ne hne with h | h
    · exact ((List.pairwise_iff_getElem.1 hap) i j hi hj h).2
    · exact pipsApart_symm ((List.pairwise_iff_getElem.1 hap) j i hj hi h).2
  have key : ∀ cells : List Position, (∀ q ∈ cells, InGrid q) →
      (∀ q1 ∈ cells, ∀ q2 ∈ cells, q1.row = q2.row ∨ q1.col = q2.col) →
      (pipsOnLine t.dominoGrid t.placedDominoes cells).Nodup := by
    intro cells hin hline
    unfold pipsOnLine
    rw [List.nodup_flatMap]
    have hmem : ∀ id ∈ piecesOnLine t.dominoGrid cells,
        ∃ q ∈ cells, t.dominoGrid.get q.row q.col = id ∧ id ≠ -1 := by
      intro id hid
      unfold piecesOnLine at hid
      rw [List.mem_dedup, List.mem_filter, List.mem_map] at hid
      obtain ⟨⟨q, hq, e⟩, hne⟩ := hid
      exact ⟨q, hq, e, by simpa using hne⟩
    refine ⟨?_, ?_⟩
    · intro id hid
      obtain ⟨q, hq, e, hne⟩ := hmem id hid
      rw [← e] at hne
      obtain ⟨h0, h1, _⟩ := hwf.occupied q (hin q hq) hne
      rw [e] at h0 h1
      have := hval _ (pieceAt_mem _ _ h0 h1)
      simpa using this
    · refine List.Nodup.pairwise_of_forall_ne (List.nodup_dedup _) ?_
      intro id1 h1 id2 h2 hne
      obtain ⟨q1, hq1, e1, n1⟩ := hmem id1 h1
      obtain ⟨q2, hq2, e2, n2⟩ := hmem id2 h2
      rw [← e1] at n1
      rw [← e2] at n2
      obtain ⟨a0, a1, a2⟩ := hwf.occupied q1 (hin q1 hq1) n1
      obtain ⟨b0, b1, b2⟩ := hwf.occupied q2 (hin q2 hq2) n2
      rw [e1] at a0 a1 a2
      rw [e2] at b0 b1 b2
      obtain ⟨i, hi⟩ := Int.eq_ofNat_of_zero_le a0
      obtain ⟨j, hj⟩ := Int.eq_ofNat_of_zero_le b0
      subst hi hj
      have hil : i < t.placedDominoes.length := by omega
      have hjl : j < t.placedDominoes.length := by omega
      rw [pieceAt_natCast _ i hil] at a2
      rw [pieceAt_natCast _ j hjl] at b2
      have hp := hidx i j hil hjl (fun e => hne (by rw [e]))
        ⟨q1, a2, q2, b2, hline q1 hq1 q2 hq2⟩
      show List.Disjoint
        [(pieceAt t.placedDominoes (i : Int)).value1, (pieceAt t.placedDominoes (i : Int)).value2]
        [(pieceAt t.placedDominoes (j : Int)).value1, (pieceAt t.placedDominoes (j : Int)).value2]
      rw [pieceAt_natCast _ i hil, pieceAt_natCast _ j hjl]
      intro v hv1 hv2
      simp only [List.mem_cons, List.mem_singleton, List.mem_nil_iff, or_false] at hv1 hv2
      obtain ⟨p1, p2, p3, p4⟩ := hp
      rcases hv1 with rfl | rfl <;> rcases hv2 with h | h
      · exact p1 h
      · exact p2 h
      · exact p3 h
      · exact p4 h
  intro i hi
  have hi2 := (mem_gridIndices i).1 hi
  refine ⟨key (rowCells i) ?_ ?_, key (colCells i) ?_ ?_⟩
  · intro q hq
    rw [mem_rowCells] at hq
    exact ⟨by omega, by omega, hq.2.1, hq.2.2⟩
  · intro q1 h1 q2 h2
    rw [mem_rowCells] at h1 h2
    exact Or.inl (by rw [h1.1, h2.1])
  · intro q hq
    rw [mem_colCells] at hq
    exact ⟨hq.2.1, hq.2.2, by omega, by omega⟩
  · intro q1 h1 q2 h2
    rw [mem_colCells] at h1 h2
    exact Or.inr (by rw [h1.1, h2.1])

theorem generateNewGame_tiling (sh : Shuffles) (hsh : ValidShuffles sh) (s : GameState)
    (d : Difficulty) :
    (generateNewGame sh s d).2.dominoGrid = Grid.fill (-1) ∧
      (generateNewGame sh s d).2.placedDominoes = [] := by
  rw [generateNewGame_eq sh hsh]
  obtain ⟨g, c, v, h⟩ := generateConstraintGrid_frame
    (fallbackSolution sh { s with currentDifficulty := d, rng := s.rng + 200 })
  unfold applyDifficultySettings
  rw [h]
  exact ⟨rfl, rfl⟩

/-- In a state reached by calls from a tiling whose pieces avoid the shown clues, no cell is
both a shown clue and occupied. -/
theorem clue_free_of_ok {t : GameState} (hwf : WellFormed t)
    (hok : TilingOK t.grid t.placedDominoes) (q : Position) (hq : InGrid q) :
    ¬ (t.grid.get q.row q.col > 0 ∧ t.dominoGrid.get q.row q.col ≠ -1) := by
  rintro ⟨h1, h2⟩
  obtain ⟨h0, hlt, hmem⟩ := hwf.occupied q hq h2
  exact (hok.1 _ (pieceAt_mem _ _ h0 hlt) q hmem).2 h1

theorem getNextDominoHint_counter (pk : Picks) (s : GameState) (h : HintSystem) :
    (getNextDominoHint pk s h).2.hintsUsed =
        h.hintsUsed + (if (getNextDominoHint pk s h).1.isValid then 1 else 0) ∧
      (getNextDominoHint pk s h).2.maxHintsAllowed = h.maxHintsAllowed ∧
      ((getNextDominoHint pk s h).1.isValid = true → h.canProvideHint s = true) := by
  unfold getNextDominoHint
  split
  · exact ⟨by simp [DominoHint.default], rfl, fun hv => by simp [DominoHint.default] at hv⟩
  rename_i hc
  dsimp only
  split
  · exact ⟨by simp [DominoHint.default], rfl, fun hv => by simp [DominoHint.default] at hv⟩
  split
  · exact ⟨by simp, rfl, fun _ => by simpa using hc⟩
  · exact ⟨by simp [DominoHint.default], rfl, fun hv => by simp [DominoHint.default] at hv⟩

theorem getConstraintHint_counter (s : GameState) (h : HintSystem) :
    (getConstraintHint s h).2.hintsUsed =
        h.hintsUsed + (if (getConstraintHint s h).1.isValid then 1 else 0) ∧
      (getConstraintHint s h).2.maxHintsAllowed = h.maxHintsAllowed ∧
      ((getConstraintHint s h).1.isValid = true → h.canProvideHint s = true) := by
  unfold getConstraintHint
  split
  · exact ⟨by simp [ConstraintHint.default], rfl,
      fun hv => by simp [ConstraintHint.default] at hv⟩
  rename_i hc
  split
  · exact ⟨by simp, rfl, fun _ => by simpa using hc⟩
  · exact ⟨by simp [ConstraintHint.default], rfl,
      fun hv => by simp [ConstraintHint.default] at hv⟩

theorem getMostConstrainedHint_counter (s : GameState) (h : HintSystem) :
    (getMostConstrainedHint s h).2.hintsUsed =
        h.hintsUsed + (if (getMostConstrainedHint s h).1.isValid then 1 else 0) ∧
      (getMostConstrainedHint s h).2.maxHintsAllowed = h.maxHintsAllowed ∧
      ((getMostConstrainedHint s h).1.isValid = true → h.canProvideHint s = true) := by
  unfold getMostConstrainedHint
  split
  · exact ⟨by simp [PositionHint.default], rfl,
      fun hv => by simp [PositionHint.default] at hv⟩
  rename_i hc
  dsimp only
  split
  · exact ⟨by simp, rfl, fun _ => by simpa using hc⟩
  · exact ⟨by simp [PositionHint.default], rfl,
      fun hv => by simp [PositionHint.default] at hv⟩

theorem getRandomHint_counter (pk : Picks) (s : GameState) (h : HintSystem) :
    (getRandomHint pk s h).2.hintsUsed =
        h.hintsUsed + (if (getRandomHint pk s h).1.isValid then 1 else 0) ∧
      (getRandomHint pk s h).2.maxHintsAllowed = h.maxHintsAllowed ∧
      ((getRandomHint pk s h).1.isValid = true → h.canProvideHint s = true) := by
  obtain ⟨a1, a2, _⟩ := getNextDominoHint_counter pk s h
  obtain ⟨b1, b2, _⟩ := getConstraintHint_counter s (getNextDominoHint pk s h).2
  obtain ⟨c1, c2, _⟩ := getMostConstrainedHint_counter s
    (getConstraintHint s (getNextDominoHint pk s h).2).2
  unfold getRandomHint
  split
  · exact ⟨by simp [RandomHint.default], rfl, fun hv => by simp [RandomHint.default] at hv⟩
  rename_i hc
  dsimp only
  split
  · rename_i v1
    rw [v1] at a1
    exact ⟨by simpa using a1, a2, fun _ => by simpa using hc⟩
  rename_i v1
  rw [if_neg v1] at a1
  split
  · rename_i v2
    rw [v2] at b1
    refine ⟨?_, by rw [b2, a2], fun _ => by simpa using hc⟩
    simp only [if_true] at b1 ⊢
    omega
  rename_i v2
  rw [if_neg v2] at b1
  split
  · rename_i v3
    rw [v3] at c1
    refine ⟨?_, by rw [c2, b2, a2], fun _ => by simpa using hc⟩
    simp only [if_true] at c1 ⊢
    omega
  · rename_i v3
    rw [if_neg v3] at c1
    refine ⟨?_, by rw [c2, b2, a2], fun hv => by simp [RandomHint.default] at hv⟩
    simp only [RandomHint.default, Bool.false_eq_true, if_false]
    omega

/-- Every hint method adds 1 to `hintsUsed` when it returns a valid hint and nothing otherwise,
keeps the budget, and returns a valid hint only if `canProvideHint`. -/
theorem hintCall_counter (pk : Picks) (s : GameState) (h : HintSystem) (c : HintCall) :
    (hintCall pk s h c).2.hintsUsed =
        h.hintsUsed + (if (hintCall pk s h c).1 then 1 else 0) ∧
      (hintCall pk s h c).2.maxHintsAllowed = h.maxHintsAllowed ∧
      ((hintCall pk s h c).1 = true → h.canProvideHint s = true) := by
  cases c
  · exact getRandomHint_counter pk s h
  · exact getNextDominoHint_counter pk s h
  · exact getConstraintHint_counter s h
  · exact getMostConstrainedHint_counter s h

theorem hintRun_counter (pk : Picks) (h : HintSystem) (calls : List (GameState × HintCall)) :
    (hintRun pk h calls).1.hintsUsed = h.hintsUsed + ((hintRun pk h calls).2 : Int) ∧
      (hintRun pk h calls).1.maxHintsAllowed = h.maxHintsAllowed := by
  induction calls generalizing h with
  | nil => simp [hintRun]
  | cons x rest ih =>
    obtain ⟨s, c⟩ := x
    obtain ⟨h1, h2, _⟩ := hintCall_counter pk s h c
    obtain ⟨i1, i2⟩ := ih (hintCall pk s h c).2
    simp only [hintRun]
    refine ⟨?_, by rw [i2, h2]⟩
    rw [i1, h1]
    split <;> simp
    omega

theorem hintCall_exhausted (pk : Picks) (s : GameState) (h : HintSystem) (c : HintCall)
    (hx : h.maxHintsAllowed ≤ h.hintsUsed) :
    (hintCall pk s h c).1 = false ∧ (hintCall pk s h c).2.hintsUsed = h.hintsUsed ∧
      (hintCall pk s h c).2.maxHintsAllowed = h.maxHintsAllowed := by
  obtain ⟨h1, h2, h3⟩ := hintCall_counter pk s h c
  have hv : (hintCall pk s h c).1 = false := by
    by_contra hne
    have := h3 (by simpa using hne)
    unfold HintSystem.canProvideHint at this
    simp only [Bool.and_eq_true, decide_eq_true_eq] at this
    omega
  rw [hv] at h1
  exact ⟨hv, by simpa using h1, h2⟩

theorem hintRun_le (pk : Picks) (h : HintSystem) (calls : List (GameState × HintCall))
    (h0 : h.hintsUsed ≤ h.maxHintsAllowed) :
    (hintRun pk h calls).1.hintsUsed ≤ h.maxHintsAllowed := by
  induction calls generalizing h with
  | nil => exact h0
  | cons x rest ih =>
    obtain ⟨s, c⟩ := x
    obtain ⟨h1, h2, h3⟩ := hintCall_counter pk s h c
    simp only [hintRun]
    rw [← h2]
    apply ih
    rw [h1, h2]
    split
    · rename_i hv
      have := h3 hv
      unfold HintSystem.canProvideHint at this
      simp only [Bool.and_eq_true, decide_eq_true_eq] at this
      omega
    · omega

theorem useHint_fst (t : DominoPieceH.GameState) :
    (DominoPieceH.useHint t).1 = decide (t.hintsUsed < 3) := by
  unfold DominoPieceH.useHint DominoPieceH.MAX_HINTS_ALLOWED
  split
  · rename_i h
    exact (decide_eq_false (by omega)).symm
  · rename_i h
    exact (decide_eq_true (by omega)).symm

theorem useHint_snd (t : DominoPieceH.GameState) :
    (DominoPieceH.useHint t).2.hintsUsed = if t.hintsUsed < 3 then t.hintsUsed + 1
      else t.hintsUsed := by
  unfold DominoPieceH.useHint DominoPieceH.MAX_HINTS_ALLOWED
  split
  · rename_i h
    rw [if_neg (by omega)]
  · rename_i h
    rw [if_pos (by omega)]

theorem useHints_counter (n : Nat) (g : DominoPieceH.GameState) (h0 : g.hintsUsed = 0) :
    (useHints n g).hintsUsed = min (n : Int) 3 := by
  induction n with
  | zero => simpa [useHints] using h0
  | succ k ih =>
    unfold useHints at ih ⊢
    rw [Function.iterate_succ_apply', useHint_snd, ih]
    split <;> omega

theorem initializeGame_hintsUsed (g : DominoPieceH.GameState) :
    (DominoPieceH.initializeGame g).hintsUsed = 0 := by
  unfold DominoPieceH.initializeGame DominoPieceH.generateAvailableDominoes
  split <;> rfl

theorem opLt_equiv_iff (e d : DominoPiece) :
    (!e.opLt d && !d.opLt e) = true ↔ e.getCanonicalForm = d.getCanonicalForm := by
  unfold DominoPiece.opLt
  generalize e.getCanonicalForm = a
  generalize d.getCanonicalForm = b
  obtain ⟨a1, a2⟩ := a
  obtain ⟨b1, b2⟩ := b
  simp only [Bool.and_eq_true, Bool.not_eq_true', Prod.mk.injEq]
  constructor
  · rintro ⟨h1, h2⟩
    by_cases e1 : a1 = b1
    · subst e1
      simp only [ne_eq, not_true_eq_false, if_false, decide_eq_false_iff_not, not_lt] at h1 h2
      exact ⟨rfl, by omega⟩
    · rw [if_pos e1] at h1
      rw [if_pos (fun h => e1 h.symm)] at h2
      simp only [decide_eq_false_iff_not, not_lt] at h1 h2
      omega
  · rintro ⟨rfl, rfl⟩
    simp

theorem opEq_iff_canonical (p d : DominoPiece) :
    p.opEq d = true ↔ p.getCanonicalForm = d.getCanonicalForm := by
  refine ⟨?_, opEq_of_canonical p d⟩
  unfold DominoPiece.opEq DominoPiece.getCanonicalForm
  simp only [Bool.or_eq_true, Bool.and_eq_true, decide_eq_true_eq, Prod.mk.injEq]
  intro h
  split_ifs <;> omega

theorem pieceSetInsert_canonical (p : DominoPiece) (l : List DominoPiece) (c : Int × Int) :
    (∃ e ∈ pieceSetInsert p l, e.getCanonicalForm = c) ↔
      (p.getCanonicalForm = c ∨ ∃ e ∈ l, e.getCanonicalForm = c) := by
  induction l with
  | nil => simp [pieceSetInsert]
  | cons q qs ih =>
    unfold pieceSetInsert
    split
    · simp
    · split
      · simp only [List.mem_cons, exists_eq_or_imp]
        rw [ih]
        tauto
      · rename_i h1 h2
        have heq : p.getCanonicalForm = q.getCanonicalForm := by
          apply (opLt_equiv_iff p q).1
          simp only [Bool.and_eq_true, Bool.not_eq_true']
          exact ⟨by simpa using h1, by simpa using h2⟩
        simp only [List.mem_cons, exists_eq_or_imp]
        rw [heq]
        tauto

theorem placedSet_canonical (placed acc : List DominoPiece) (c : Int × Int) :
    (∃ e ∈ placed.foldl (fun acc p => pieceSetInsert p acc) acc, e.getCanonicalForm = c) ↔
      ((∃ e ∈ acc, e.getCanonicalForm = c) ∨ ∃ p ∈ placed, p.getCanonicalForm = c) := by
  induction placed generalizing acc with
  | nil => simp
  | cons p rest ih =>
    rw [List.foldl_cons, ih, pieceSetInsert_canonical]
    simp only [List.mem_cons, exists_eq_or_imp]
    rw [or_assoc, or_left_comm]

/-- The pieces `getUnplacedDominoes` returns are the catalog pieces that no placed piece
equals. -/
theorem mem_getUnplacedDominoes (s : GameState) (d : DominoPiece) :
    d ∈ getUnplacedDominoes s ↔ Unplaced s d := by
  unfold getUnplacedDominoes Unplaced
  simp only [List.mem_filter, Bool.not_eq_true', List.any_eq_false]
  apply and_congr_right
  intro _
  constructor
  · intro h p hp
    by_contra hne
    have hc := (opEq_iff_canonical p d).1 (by simpa using hne)
    obtain ⟨e, he, hec⟩ := (placedSet_canonical s.placedDominoes [] d.getCanonicalForm).2
      (Or.inr ⟨p, hp, hc⟩)
    exact h e he ((opLt_equiv_iff e d).2 hec)
  · intro h e he heq
    have hec := (opLt_equiv_iff e d).1 heq
    rcases (placedSet_canonical s.placedDominoes [] d.getCanonicalForm).1 ⟨e, he, hec⟩ with
      ⟨x, hx, _⟩ | ⟨p, hp, hpc⟩
    · exact absurd hx (List.not_mem_nil x)
    · have := h p hp
      rw [opEq_of_canonical p d hpc] at this
      exact absurd this (by simp)

theorem mem_placementsOf (s : GameState) (d : DominoPiece)
    (x : DominoPiece × Position × Orientation) :
    x ∈ placementsOf s d ↔ x.1 = d ∧ canPlaceDomino s d x.2.1 x.2.2 = true := by
  obtain ⟨x1, x2, x3⟩ := x
  unfold placementsOf
  simp only [List.mem_flatMap, List.mem_append]
  constructor
  · rintro ⟨pos, _, h | h⟩
    · split at h
      · rename_i hc
        simp only [List.mem_singleton, Prod.mk.injEq] at h
        obtain ⟨rfl, rfl, rfl⟩ := h
        exact ⟨rfl, hc⟩
      · simp at h
    · split at h
      · rename_i hc
        simp only [List.mem_singleton, Prod.mk.injEq] at h
        obtain ⟨rfl, rfl, rfl⟩ := h
        exact ⟨rfl, hc⟩
      · simp at h
  · rintro ⟨rfl, hc⟩
    refine ⟨x2, (mem_allCells x2).2 (canPlaceDomino_true_cells s x1 x2 x3 hc).1, ?_⟩
    cases x3
    · left
      rw [if_pos hc]
      simp
    · right
      rw [if_pos hc]
      simp

theorem placementsOf_eq_nil (s : GameState) (d : DominoPiece) :
    placementsOf s d = [] ↔ ∀ pos o, canPlaceDomino s d pos o = false := by
  constructor
  · intro h pos o
    by_contra hne
    have : (d, pos, o) ∈ placementsOf s d :=
      (mem_placementsOf s d (d, pos, o)).2 ⟨rfl, by simpa using hne⟩
    rw [h] at this
    exact absurd this (List.not_mem_nil _)
  · intro h
    apply List.eq_nil_iff_forall_not_mem.2
    intro x hx
    have := ((mem_placementsOf s d x).1 hx).2
    rw [h] at this
    exact absurd this (by simp)

theorem firstPlacements_spec (s : GameState) (l : List DominoPiece)
    (x : DominoPiece × Position × Orientation) (hx : x ∈ firstPlacements s l) :
    canPlaceDomino s x.1 x.2.1 x.2.2 = true ∧
      ∃ pre post, l = pre ++ x.1 :: post ∧
        ∀ p ∈ pre, ∀ pos o, canPlaceDomino s p pos o = false := by
  induction l with
  | nil => simp [firstPlacements] at hx
  | cons d rest ih =>
    unfold firstPlacements at hx
    split at hx
    · obtain ⟨h1, h2⟩ := (mem_placementsOf s d x).1 hx
      rw [← h1] at h2
      refine ⟨h2, [], rest, by rw [h1]; rfl, ?_⟩
      intro p hp
      exact absurd hp (List.not_mem_nil p)
    · rename_i hne
      obtain ⟨h1, pre, post, h2, h3⟩ := ih hx
      refine ⟨h1, d :: pre, post, by rw [h2]; rfl, ?_⟩
      intro p hp
      rcases List.mem_cons.1 hp with rfl | hp
      · apply (placementsOf_eq_nil s p).1
        simpa using hne
      · exact h3 p hp

theorem firstPlacements_eq_nil (s : GameState) (l : List DominoPiece) :
    firstPlacements s l = [] ↔ ∀ d ∈ l, ∀ pos o, canPlaceDomino s d pos o = false := by
  induction l with
  | nil => simp [firstPlacements]
  | cons d rest ih =>
    unfold firstPlacements
    split
    · rename_i h
      simp only [Bool.not_eq_true', List.isEmpty_eq_false] at h
      constructor
      · intro h2
        exact absurd h2 (by simpa using h)
      · intro h2
        exact absurd ((placementsOf_eq_nil s d).2 (h2 d (List.mem_cons_self _ _)))
          (by simpa using h)
    · rename_i h
      have hnil : placementsOf s d = [] := by simpa using h
      rw [ih]
      constructor
      · intro h2 p hp
        rcases List.mem_cons.1 hp with rfl | hp
        · exact (placementsOf_eq_nil s p).1 hnil
        · exact h2 p hp
      · intro h2 p hp
        exact h2 p (List.mem_cons_of_mem _ hp)

theorem placeDomino_eq_true (s : GameState) (d : DominoPiece) (pos : Position)
    (o : Orientation) (hc : canPlaceDomino s d pos o = true)
    (hp : ∀ p ∈ s.placedDominoes, p.opEq d = false) : (placeDomino s d pos o).1 = true := by
  have hin := (canPlaceDomino_true_cells s d pos o hc).1
  have hv := (isValidForGrid_iff pos).2 hin
  have hany : s.placedDominoes.any (fun placed => placed.opEq d) = false := by
    rw [List.any_eq_false]
    intro p hpm
    rw [hp p hpm]
    simp
  unfold placeDomino
  rw [if_neg (by simp [hv, hc]), if_neg (by simp [hany])]
  dsimp only
  split <;> rfl

theorem zeroPicks_valid : ValidPicks zeroPicks := fun _ hi => Nat.zero_le hi

theorem getNextDominoHint_valid (pk : Picks) (hpk : ValidPicks pk) (s : GameState)
    (h : HintSystem) (hv : (getNextDominoHint pk s h).1.isValid = true) :
    ∃ x ∈ firstPlacements s (getUnplacedDominoes s),
      (getNextDominoHint pk s h).1 =
        { domino := x.1, position := x.2.1, orientation := x.2.2, isValid := true } := by
  unfold getNextDominoHint at hv ⊢
  split at hv
  · simp [DominoHint.default] at hv
  rename_i hc
  rw [if_neg hc]
  dsimp only at hv ⊢
  split at hv
  · simp [DominoHint.default] at hv
  rename_i hu
  rw [if_neg hu]
  split at hv
  · rename_i hne
    rw [if_pos hne]
    have hlen : 0 < (firstPlacements s (getUnplacedDominoes s)).length := by
      apply List.length_pos.2
      intro hnil
      rw [hnil] at hne
      simp at hne
    have hidx : pk.pick h.rng ((firstPlacements s (getUnplacedDominoes s)).length - 1) <
        (firstPlacements s (getUnplacedDominoes s)).length := by
      have := hpk h.rng ((firstPlacements s (getUnplacedDominoes s)).length - 1)
      omega
    refine ⟨(firstPlacements s (getUnplacedDominoes s)).get ⟨_, hidx⟩, List.get_mem _ _ _, ?_⟩
    rw [List.getD_eq_getElem _ _ hidx]
    rfl
  · simp [DominoHint.default] at hv

theorem getNextDominoHint_invalid (pk : Picks) (s : GameState) (h : HintSystem)
    (hc : h.canProvideHint s = true) :
    (getNextDominoHint pk s h).1.isValid = false ↔
      firstPlacements s (getUnplacedDominoes s) = [] := by
  unfold getNextDominoHint
  rw [if_neg (by simp [hc])]
  dsimp only
  split
  · rename_i hu
    have : getUnplacedDominoes s = [] := by simpa using hu
    rw [this]
    simp [DominoHint.default, firstPlacements]
  split
  · rename_i hne
    simp only [Bool.true_eq_false, false_iff]
    intro hnil
    rw [hnil] at hne
    simp at hne
  · rename_i hne
    simp only [DominoHint.default, true_iff]
    simpa using hne

theorem canonLt_trans {x y z : Int × Int} (h1 : canonLt x y) (h2 : canonLt y z) :
    canonLt x z := by
  unfold canonLt at *
  omega

theorem canonLt_irrefl (x : Int × Int) : ¬ canonLt x x := by
  unfold canonLt
  omega

theorem canonLt_trichotomy (x y : Int × Int) :
    (canonLt x y ∧ ¬ canonLt y x ∧ x ≠ y) ∨ (canonLt y x ∧ ¬ canonLt x y ∧ x ≠ y) ∨
      (x = y ∧ ¬ canonLt x y ∧ ¬ canonLt y x) := by
  obtain ⟨x1, x2⟩ := x
  obtain ⟨y1, y2⟩ := y
  unfold canonLt
  simp only [ne_eq, Prod.mk.injEq]
  omega

theorem getCanonicalForm_eq (p : DominoPiece) :
    p.getCanonicalForm = (min p.value1 p.value2, max p.value1 p.value2) := by
  unfold DominoPiece.getCanonicalForm
  by_cases h : p.value1 < p.value2
  · simp only [h, if_true, Prod.mk.injEq]
    exact ⟨(min_eq_left (le_of_lt h)).symm, (max_eq_right (le_of_lt h)).symm⟩
  · simp only [h, if_false, Prod.mk.injEq]
    exact ⟨(min_eq_right (not_lt.1 h)).symm, (max_eq_left (not_lt.1 h)).symm⟩

theorem opLt_iff_canonLt (p q : DominoPiece) :
    p.opLt q = true ↔ canonLt p.getCanonicalForm q.getCanonicalForm := by
  unfold DominoPiece.opLt canonLt
  dsimp only
  by_cases h : p.getCanonicalForm.1 = q.getCanonicalForm.1
  · rw [if_neg (by simpa using h)]
    simp only [decide_eq_true_eq]
    omega
  · rw [if_pos h]
    simp only [decide_eq_true_eq]
    omega

theorem getCanonicalForm_swap (p : DominoPiece) :
    (swapValues p).getCanonicalForm = p.getCanonicalForm := by
  rw [getCanonicalForm_eq, getCanonicalForm_eq]
  show (min p.value2 p.value1, max p.value2 p.value1) = _
  rw [min_comm, max_comm]

theorem opEq_congr (p q p1 q1 : DominoPiece)
    (h1 : p1.getCanonicalForm = p.getCanonicalForm)
    (h2 : q1.getCanonicalForm = q.getCanonicalForm) : p1.opEq q1 = p.opEq q := by
  rw [Bool.eq_iff_iff, opEq_iff_canonical, opEq_iff_canonical, h1, h2]

theorem opLt_congr (p q p1 q1 : DominoPiece)
    (h1 : p1.getCanonicalForm = p.getCanonicalForm)
    (h2 : q1.getCanonicalForm = q.getCanonicalForm) : p1.opLt q1 = p.opLt q := by
  rw [Bool.eq_iff_iff, opLt_iff_canonLt, opLt_iff_canonLt, h1, h2]

theorem pieceH_getCanonicalForm_eq (p : DominoPieceH.DominoPiece) :
    p.getCanonicalForm = (min p.value1 p.value2, max p.value1 p.value2) := by
  unfold DominoPieceH.DominoPiece.getCanonicalForm
  by_cases h : p.value1 < p.value2
  · simp only [h, if_true, Prod.mk.injEq]
    exact ⟨(min_eq_left (le_of_lt h)).symm, (max_eq_right (le_of_lt h)).symm⟩
  · simp only [h, if_false, Prod.mk.injEq]
    exact ⟨(min_eq_right (not_lt.1 h)).symm, (max_eq_left (not_lt.1 h)).symm⟩

theorem pieceH_opLt_iff_canonLt (p q : DominoPieceH.DominoPiece) :
    p.opLt q = true ↔ canonLt p.getCanonicalForm q.getCanonicalForm := by
  unfold DominoPieceH.DominoPiece.opLt canonLt
  dsimp only
  by_cases h : p.getCanonicalForm.1 = q.getCanonicalForm.1
  · rw [if_neg (by simpa using h)]
    simp only [decide_eq_true_eq]
    omega
  · rw [if_pos h]
    simp only [decide_eq_true_eq]
    omega

theorem pieceH_opEq_iff_canonical (p q : DominoPieceH.DominoPiece) :
    p.opEq q = true ↔ p.getCanonicalForm = q.getCanonicalForm := by
  rw [pieceH_getCanonicalForm_eq, pieceH_getCanonicalForm_eq]
  unfold DominoPieceH.DominoPiece.opEq
  simp only [Bool.or_eq_true, Bool.and_eq_true, decide_eq_true_eq, Prod.mk.injEq]
  constructor
  · intro h
    rcases h with ⟨h1, h2⟩ | ⟨h1, h2⟩
    · rw [h1, h2]
      exact ⟨rfl, rfl⟩
    · rw [h1, h2]
      exact ⟨min_comm _ _, max_comm _ _⟩
  · rintro ⟨h1, h2⟩
    rcases le_total p.value1 p.value2 with hp | hp <;>
      rcases le_total q.value1 q.value2 with hq | hq <;>
      simp only [min_eq_left, min_eq_right, max_eq_left, max_eq_right, hp, hq] at h1 h2 <;>
      omega

theorem pieceH_getCanonicalForm_swap (p : DominoPieceH.DominoPiece) :
    (DominoPieceH.swapValues p).getCanonicalForm = p.getCanonicalForm := by
  rw [pieceH_getCanonicalForm_eq, pieceH_getCanonicalForm_eq]
  show (min p.value2 p.value1, max p.value2 p.value1) = _
  rw [min_comm, max_comm]

theorem pieceH_opEq_congr (p q p1 q1 : DominoPieceH.DominoPiece)
    (h1 : p1.getCanonicalForm = p.getCanonicalForm)
    (h2 : q1.getCanonicalForm = q.getCanonicalForm) : p1.opEq q1 = p.opEq q := by
  rw [Bool.eq_iff_iff, pieceH_opEq_iff_canonical, pieceH_opEq_iff_canonical, h1, h2]

theorem pieceH_opLt_congr (p q p1 q1 : DominoPieceH.DominoPiece)
    (h1 : p1.getCanonicalForm = p.getCanonicalForm)
    (h2 : q1.getCanonicalForm = q.getCanonicalForm) : p1.opLt q1 = p.opLt q := by
  rw [Bool.eq_iff_iff, pieceH_opLt_iff_canonLt, pieceH_opLt_iff_canonLt, h1, h2]

/-- Exactly one of `a`, `b`, `c` holds, for three booleans decided by a trichotomy. -/
theorem exactly_one_of_trichotomy (x y : Int × Int) (lt gt eq : Bool)
    (hlt : lt = true ↔ canonLt x y) (hgt : gt = true ↔ canonLt y x) (heq : eq = true ↔ x = y) :
    (lt = true ∧ gt = false ∧ eq = false) ∨ (lt = false ∧ gt = true ∧ eq = false) ∨
      (lt = false ∧ gt = false ∧ eq = true) := by
  have e1 : lt = false ↔ ¬ canonLt x y := by rw [← hlt]; simp
  have e2 : gt = false ↔ ¬ canonLt y x := by rw [← hgt]; simp
  have e3 : eq = false ↔ x ≠ y := by rw [ne_eq, ← heq]; simp
  rw [hlt, hgt, heq, e1, e2, e3]
  rcases canonLt_trichotomy x y with h | h | h
  · exact Or.inl ⟨h.1, h.2.1, h.2.2⟩
  · exact Or.inr (Or.inl ⟨h.2.1, h.1, h.2.2⟩)
  · exact Or.inr (Or.inr ⟨h.2.1, h.2.2, h.1⟩)

theorem mem_intRange (lo hi v : Int) : v ∈ DominoPieceH.intRange lo hi ↔ lo ≤ v ∧ v ≤ hi := by
  unfold DominoPieceH.intRange
  rw [List.mem_map]
  constructor
  · rintro ⟨k, hk, rfl⟩
    have hk2 := List.mem_range.1 hk
    rw [Int.lt_toNat] at hk2
    omega
  · intro h
    have e : (((v - lo).toNat : Nat) : Int) = v - lo := Int.toNat_of_nonneg (by omega)
    refine ⟨(v - lo).toNat, List.mem_range.2 ?_, by rw [e]; omega⟩
    rw [Int.lt_toNat, e]
    omega

theorem foldl_invariant {α β : Type} (P : α → Prop) (f : α → β → α) (l : List β) (a : α)
    (h0 : P a) (hstep : ∀ acc, P acc → ∀ b ∈ l, P (f acc b)) : P (l.foldl f a) := by
  induction l generalizing a with
  | nil => exact h0
  | cons x xs ih =>
    rw [List.foldl_cons]
    exact ih (f a x) (hstep a h0 x (List.mem_cons_self _ _))
      (fun acc hacc b hb => hstep acc hacc b (List.mem_cons_of_mem _ hb))

theorem pieceH_mem_insert (p x : DominoPieceH.DominoPiece) (l : List DominoPieceH.DominoPiece)
    (h : x ∈ DominoPieceH.pieceSetInsert p l) : x = p ∨ x ∈ l := by
  induction l with
  | nil =>
    simp only [DominoPieceH.pieceSetInsert, List.mem_singleton] at h
    exact Or.inl h
  | cons q qs ih =>
    unfold DominoPieceH.pieceSetInsert at h
    split at h
    · rcases List.mem_cons.1 h with h | h
      · exact Or.inl h
      · exact Or.inr h
    · split at h
      · rcases List.mem_cons.1 h with h | h
        · exact Or.inr (h ▸ List.mem_cons_self _ _)
        · rcases ih h with h | h
          · exact Or.inl h
          · exact Or.inr (List.mem_cons_of_mem _ h)
      · exact Or.inr h

theorem pieceH_insert_keeps (p x : DominoPieceH.DominoPiece)
    (l : List DominoPieceH.DominoPiece) (h : x ∈ l) : x ∈ DominoPieceH.pieceSetInsert p l := by
  induction l with
  | nil => exact absurd h (List.not_mem_nil x)
  | cons q qs ih =>
    unfold DominoPieceH.pieceSetInsert
    split
    · exact List.mem_cons_of_mem _ h
    · split
      · rcases List.mem_cons.1 h with h | h
        · exact h ▸ List.mem_cons_self _ _
        · exact List.mem_cons_of_mem _ (ih h)
      · exact h

/-- Inserting into a `std::set` kept strictly ascending under `operator<` keeps it so. -/
theorem pieceH_insert_sorted (p : DominoPieceH.DominoPiece) (l : List DominoPieceH.DominoPiece)
    (h : l.Pairwise (fun a b => canonLt a.getCanonicalForm b.getCanonicalForm)) :
    (DominoPieceH.pieceSetInsert p l).Pairwise
      (fun a b => canonLt a.getCanonicalForm b.getCanonicalForm) := by
  induction l with
  | nil => exact List.pairwise_singleton _ _
  | cons q qs ih =>
    rw [List.pairwise_cons] at h
    unfold DominoPieceH.pieceSetInsert
    split
    · rename_i hpq
      rw [pieceH_opLt_iff_canonLt] at hpq
      rw [List.pairwise_cons]
      refine ⟨?_, List.pairwise_cons.2 h⟩
      intro x hx
      rcases List.mem_cons.1 hx with rfl | hx
      · exact hpq
      · exact canonLt_trans hpq (h.1 x hx)
    · split
      · rename_i hqp
        rw [pieceH_opLt_iff_canonLt] at hqp
        rw [List.pairwise_cons]
        refine ⟨?_, ih h.2⟩
        intro x hx
        rcases pieceH_mem_insert p x qs hx with rfl | hx
        · exact hqp
        · exact h.1 x hx
      · exact List.pairwise_cons.2 h

theorem pieceH_sort_sorted (l : List DominoPieceH.DominoPiece)
    (h : l.Pairwise (fun a b => canonLt a.getCanonicalForm b.getCanonicalForm)) :
    DominoPieceH.sortPieces l = l := by
  induction l with
  | nil => rfl
  | cons q qs ih =>
    rw [List.pairwise_cons] at h
    unfold DominoPieceH.sortPieces
    rw [ih h.2]
    cases qs with
    | nil => rfl
    | cons r rs =>
      have hqr := (pieceH_opLt_iff_canonLt q r).2 (h.1 r (List.mem_cons_self _ _))
      simp only [List.orderedInsert, hqr, if_true]

/-- The state of the set in `createStandardSet` and `createExtendedSet` is strictly ascending
after any number of `emplace` calls. -/
theorem createStandardSet_sorted (nextId : Int) :
    (DominoPieceH.createStandardSet nextId).1.Pairwise
      (fun a b => canonLt a.getCanonicalForm b.getCanonicalForm) := by
  unfold DominoPieceH.createStandardSet
  dsimp only
  have key : ((DominoPieceH.intRange 1 5).foldl
      (fun acc v1 =>
        (DominoPieceH.intRange (v1 + 1) 6).foldl
          (fun acc v2 =>
            (DominoPieceH.pieceSetInsert (DominoPieceH.DominoPiece.new v1 v2 acc.2).1 acc.1,
              (DominoPieceH.DominoPiece.new v1 v2 acc.2).2))
          acc)
      (([] : List DominoPieceH.DominoPiece), nextId)).1.Pairwise
        (fun a b => canonLt a.getCanonicalForm b.getCanonicalForm) := by
    apply foldl_invariant
      (fun acc : List DominoPieceH.DominoPiece × Int =>
        acc.1.Pairwise (fun a b => canonLt a.getCanonicalForm b.getCanonicalForm))
    · exact List.Pairwise.nil
    · intro acc hacc v1 _
      apply foldl_invariant
        (fun acc : List DominoPieceH.DominoPiece × Int =>
          acc.1.Pairwise (fun a b => canonLt a.getCanonicalForm b.getCanonicalForm))
      · exact hacc
      · intro acc2 hacc2 v2 _
        exact pieceH_insert_sorted _ _ hacc2
  rw [pieceH_sort_sorted _ key]
  exact key

theorem createExtendedSet_inv (P : List DominoPieceH.DominoPiece → Prop) (h0 : P [])
    (hstep : ∀ (l : List DominoPieceH.DominoPiece) (v1 v2 n : Int), P l → 6 ≤ v1 → v1 ≤ v2 →
      v2 ≤ 28 → P (DominoPieceH.pieceSetInsert (DominoPieceH.DominoPiece.new v1 v2 n).1 l))
    (nextId : Int) :
    P ((DominoPieceH.intRange 12 56).foldl
      (fun acc sum =>
        (DominoPieceH.intRange 6 28).foldl
          (fun acc v1 =>
            if sum - v1 ≥ v1 ∧ sum - v1 ≤ 28 then
              (DominoPieceH.pieceSetInsert
                (DominoPieceH.DominoPiece.new v1 (sum - v1) acc.2).1 acc.1,
                (DominoPieceH.DominoPiece.new v1 (sum - v1) acc.2).2)
            else acc)
          acc)
      (([] : List DominoPieceH.DominoPiece), nextId)).1 := by
  apply foldl_invariant (fun acc : List DominoPieceH.DominoPiece × Int => P acc.1)
  · exact h0
  · intro acc hacc sum _
    apply foldl_invariant (fun acc : List DominoPieceH.DominoPiece × Int => P acc.1)
    · exact hacc
    · intro acc2 hacc2 v1 hv1
      rw [mem_intRange] at hv1
      split
      · rename_i hc
        exact hstep _ _ _ _ hacc2 hv1.1 hc.1 hc.2
      · exact hacc2

theorem createExtendedSet_sorted (nextId : Int) :
    (DominoPieceH.createExtendedSet nextId).1.Pairwise
      (fun a b => canonLt a.getCanonicalForm b.getCanonicalForm) := by
  have key := createExtendedSet_inv
    (fun l => l.Pairwise (fun a b => canonLt a.getCanonicalForm b.getCanonicalForm))
    List.Pairwise.nil (fun l v1 v2 n hl _ _ _ => pieceH_insert_sorted _ l hl) nextId
  unfold DominoPieceH.createExtendedSet
  dsimp only
  rw [pieceH_sort_sorted _ key]
  exact key

theorem createExtendedSet_values (nextId : Int) :
    ∀ p ∈ (DominoPieceH.createExtendedSet nextId).1,
      6 ≤ p.value1 ∧ p.value1 ≤ p.value2 ∧ p.value2 ≤ 28 := by
  have key := createExtendedSet_inv
    (fun l => ∀ p ∈ l, 6 ≤ p.value1 ∧ p.value1 ≤ p.value2 ∧ p.value2 ≤ 28)
    (fun p hp => absurd hp (List.not_mem_nil p))
    (fun l v1 v2 n hl h1 h2 h3 p hp => by
      rcases pieceH_mem_insert _ p l hp with rfl | hp
      · exact ⟨h1, h2, h3⟩
      · exact hl p hp) nextId
  have hs := createExtendedSet_inv
    (fun l => l.Pairwise (fun a b => canonLt a.getCanonicalForm b.getCanonicalForm))
    List.Pairwise.nil (fun l v1 v2 n hl _ _ _ => pieceH_insert_sorted _ l hl) nextId
  unfold DominoPieceH.createExtendedSet
  dsimp only
  rw [pieceH_sort_sorted _ hs]
  exact key

theorem createExtendedSet_has_six (nextId : Int) :
    (DominoPieceH.DominoPiece.new 6 6 nextId).1 ∈ (DominoPieceH.createExtendedSet nextId).1 := by
  have hs := createExtendedSet_inv
    (fun l => l.Pairwise (fun a b => canonLt a.getCanonicalForm b.getCanonicalForm))
    List.Pairwise.nil (fun l v1 v2 n hl _ _ _ => pieceH_insert_sorted _ l hl) nextId
  unfold DominoPieceH.createExtendedSet
  dsimp only
  rw [pieceH_sort_sorted _ hs]
  have e1 : DominoPieceH.intRange 12 56 = 12 :: DominoPieceH.intRange 13 56 := by decide
  have e2 : DominoPieceH.intRange 6 28 = 6 :: DominoPieceH.intRange 7 28 := by decide
  have inner : ∀ (sum : Int) (l : List Int) (acc : List DominoPieceH.DominoPiece × Int),
      (DominoPieceH.DominoPiece.new 6 6 nextId).1 ∈ acc.1 →
      (DominoPieceH.DominoPiece.new 6 6 nextId).1 ∈ (l.foldl
        (fun acc v1 =>
          if sum - v1 ≥ v1 ∧ sum - v1 ≤ 28 then
            (DominoPieceH.pieceSetInsert
              (DominoPieceH.DominoPiece.new v1 (sum - v1) acc.2).1 acc.1,
              (DominoPieceH.DominoPiece.new v1 (sum - v1) acc.2).2)
          else acc) acc).1 := by
    intro sum l acc hacc
    apply foldl_invariant
      (fun acc : List DominoPieceH.DominoPiece × Int =>
        (DominoPieceH.DominoPiece.new 6 6 nextId).1 ∈ acc.1)
    · exact hacc
    · intro acc2 hacc2 v1 _
      split
      · exact pieceH_insert_keeps _ _ _ hacc2
      · exact hacc2
  rw [e1, List.foldl_cons]
  apply foldl_invariant
    (fun acc : List DominoPieceH.DominoPiece × Int =>
      (DominoPieceH.DominoPiece.new 6 6 nextId).1 ∈ acc.1)
  · rw [e2, List.foldl_cons]
    apply inner
    rw [if_pos (by decide)]
    exact List.mem_singleton.2 rfl
  · intro acc hacc sum _
    exact inner sum _ acc hacc

theorem nodup_of_canon_sorted (l : List DominoPieceH.DominoPiece)
    (h : l.Pairwise (fun a b => canonLt a.getCanonicalForm b.getCanonicalForm)) :
    (l.map DominoPieceH.DominoPiece.getCanonicalForm).Nodup ∧
      l.Pairwise (fun a b => a.opEq b = false) := by
  constructor
  · unfold List.Nodup
    rw [List.pairwise_map]
    refine h.imp ?_
    intro a b hab e
    rw [e] at hab
    exact canonLt_irrefl _ hab
  · refine h.imp ?_
    intro a b hab
    by_contra hne
    have e := (pieceH_opEq_iff_canonical a b).1 (by simpa using hne)
    rw [e] at hab
    exact canonLt_irrefl _ hab

theorem Grid.set_restore (g : Grid) (hdims : IsGrid8 g) (p1 p2 : Position) (a b : Int)
    (h1 : InGrid p1) (h2 : InGrid p2) (e1 : g.get p1.row p1.col = b)
    (e2 : g.get p2.row p2.col = b) :
    (((g.set p1.row p1.col a).set p2.row p2.col a).set p1.row p1.col b).set
      p2.row p2.col b = g := by
  have d1 := Grid.set_isGrid8 g hdims p1.row p1.col a
  have d2 := Grid.set_isGrid8 _ d1 p2.row p2.col a
  have d3 := Grid.set_isGrid8 _ d2 p1.row p1.col b
  have d4 := Grid.set_isGrid8 _ d3 p2.row p2.col b
  apply Grid.ext8 _ _ d4 hdims
  intro r c h0 h8 c0 c8
  by_cases q2 : r = p2.row ∧ c = p2.col
  · rw [q2.1, q2.2, Grid.get_set_same _ d3 _ _ _ h2.1 h2.2.1 h2.2.2.1 h2.2.2.2, e2]
  · rw [Grid.get_set_of_ne _ _ _ _ _ _ q2]
    by_cases q1 : r = p1.row ∧ c = p1.col
    · rw [q1.1, q1.2, Grid.get_set_same _ d2 _ _ _ h1.1 h1.2.1 h1.2.2.1 h1.2.2.2, e1]
    · rw [Grid.get_set_of_ne _ _ _ _ _ _ q1, Grid.get_set_of_ne _ _ _ _ _ _ q2,
        Grid.get_set_of_ne _ _ _ _ _ _ q1]

theorem canPlaceDominoInSolution_empty (s : GameState) (d : DominoPiece) (pos : Position)
    (o : Orientation) (h : canPlaceDominoInSolution s d pos o = true) :
    s.solutionGrid.get pos.row pos.col = -1 ∧
      s.solutionGrid.get (secondCell pos o).row (secondCell pos o).col = -1 := by
  unfold canPlaceDominoInSolution at h
  cases o
  · dsimp only at h
    split at h
    · simp at h
    · simp only [Bool.and_eq_true, decide_eq_true_eq] at h
      exact ⟨h.1.1, h.1.2⟩
  · dsimp only at h
    split at h
    · simp at h
    · simp only [Bool.and_eq_true, decide_eq_true_eq] at h
      exact ⟨h.1.1, h.1.2⟩

theorem removeDominoFromSolution_grid (s : GameState) (pos : Position) (o : Orientation) :
    (removeDominoFromSolution s pos o).solutionGrid =
      (s.solutionGrid.set pos.row pos.col (-1)).set (secondCell pos o).row
        (secondCell pos o).col (-1) := by
  cases o <;> rfl

/-- Taking back a piece, placed on two empty cells, gives the solution grid back. -/
theorem place_remove_grid (s : GameState) (d : DominoPiece) (pos : Position) (o : Orientation)
    (idx : Nat) (hg : IsGrid8 s.solutionGrid) (hpos : InGrid pos)
    (hcan : canPlaceDominoInSolution s d pos o = true) :
    (removeDominoFromSolution (placeDominoInSolution s d pos o idx) pos o).solutionGrid =
      s.solutionGrid := by
  obtain ⟨e1, e2⟩ := canPlaceDominoInSolution_empty s d pos o hcan
  rw [removeDominoFromSolution_grid, placeDominoInSolution_grid]
  exact Grid.set_restore _ hg pos (secondCell pos o) _ _ hpos
    (canPlaceDominoInSolution_second s d pos o hpos hcan) e1 e2

theorem tryCandidates_restore (next : GameState → Bool × GameState) (d : DominoPiece)
    (idx : Nat) (cands : List (Position × Orientation)) (s : GameState)
    (hg : IsGrid8 s.solutionGrid) (hc : ∀ c ∈ cands, InGrid c.1) :
    ∃ sd, tryCandidates next d idx cands s = (false, { s with solutionDominoes := sd }) := by
  induction cands generalizing s with
  | nil => exact ⟨s.solutionDominoes, rfl⟩
  | cons c rest ih =>
    obtain ⟨pos, o⟩ := c
    have hpos : InGrid pos := hc (pos, o) (List.mem_cons_self _ _)
    have hrest : ∀ c ∈ rest, InGrid c.1 := fun c h => hc c (List.mem_cons_of_mem _ h)
    unfold tryCandidates
    by_cases hcan : canPlaceDominoInSolution s d pos o = true
    · rw [if_pos hcan]
      dsimp only
      have hsec := canPlaceDominoInSolution_second s d pos o hpos hcan
      rw [checkRowColumnUniquenessForPlacement_after_place s d pos o idx hg hpos hsec]
      simp only [Bool.false_eq_true, if_false]
      have hback := place_remove_grid s d pos o idx hg hpos hcan
      obtain ⟨sd, heq⟩ := ih (removeDominoFromSolution
        (placeDominoInSolution s d pos o idx) pos o) (by rw [hback]; exact hg) hrest
      refine ⟨sd, ?_⟩
      rw [heq, removeDominoFromSolution_frame, hback, placeDominoInSolution_frame]
    · rw [if_neg hcan]
      exact ih s hg hrest

/-- At an index that has a piece `backtrackSolution` returns false and leaves the state as it
was but for the generator and the vector `solutionDominoes`. -/
theorem backtrackSolution_restore (sh : Shuffles) (hsh : ValidShuffles sh)
    (dominoes : List DominoPiece) (idx : Nat) (s : GameState) (hidx : idx < dominoes.length)
    (hg : IsGrid8 s.solutionGrid) :
    ∃ sd, backtrackSolution sh dominoes idx s =
      (false, { s with rng := s.rng + 1, solutionDominoes := sd }) := by
  rw [backtrackSolution]
  have hn : ¬ (idx ≥ dominoes.length) := by omega
  rw [dif_neg hn]
  dsimp only
  obtain ⟨sd, heq⟩ := tryCandidates_restore
    (fun s1 => backtrackSolution sh dominoes (idx + 1) s1)
    (dominoes.getD idx (DominoPiece.new 0 0)) idx (sh.cands s.rng allCandidates)
    { s with rng := s.rng + 1 } hg
    (fun c hc => mem_allCandidates c ((hsh.2.1 s.rng allCandidates).mem_iff.1 hc))
  exact ⟨sd, heq⟩

theorem scanAnchors_horizontal (l : List DominoPiece) (hl : l.length = 15) (s1 : GameState)
    (h1 : s1.solutionGrid = Grid.fill (-1)) (h2 : s1.solutionDominoes = []) :
    scanAnchors l Orientation.HORIZONTAL horizontalAnchors (0, s1) =
      (12, { s1 with solutionGrid := fallbackGrid, solutionDominoes := fallbackPieces l }) := by
  rw [scanAnchors_eq_trace l Orientation.HORIZONTAL horizontalAnchors 0 s1 (by rw [h2]; rfl)]
  rw [hl, h1, h2, scanTrace_horizontal]
  rfl

theorem zipWith_take_left {α β γ : Type} (f : α → β → γ) (l : List α) (m : List β) :
    List.zipWith f (l.take m.length) m = List.zipWith f l m := by
  induction l generalizing m with
  | nil => simp
  | cons x xs ih =>
    cases m with
    | nil => simp
    | cons y ys =>
      simp only [List.length_cons, List.take_succ_cons, List.zipWith_cons_cons, ih]

theorem fallbackPieces_eq_take (l : List DominoPiece) :
    fallbackPieces l =
      List.zipWith (fun p a => placedCopy p a Orientation.HORIZONTAL) (l.take 12)
        horizontalAnchors := by
  unfold fallbackPieces
  have h : horizontalAnchors.length = 12 := by decide
  rw [← h, zipWith_take_left]

theorem opEq_placedCopy (q p : DominoPiece) (a : Position) (o : Orientation) :
    (placedCopy q a o).opEq p = q.opEq p := rfl

/-- The pieces of a shuffled catalog after the twelfth equal no piece of the fallback
solution. -/
theorem fallbackPieces_absent (l : List DominoPiece) (hl : l.Perm generateAvailableDominoes) :
    ∀ p ∈ l.drop 12, ∀ q ∈ fallbackPieces l, q.opEq p = false := by
  intro p hp q hq
  rw [fallbackPieces_eq_take] at hq
  obtain ⟨x, hx, a, rfl⟩ := mem_zipWith_placedCopy _ _ _ q hq
  rw [opEq_placedCopy]
  by_contra hne
  have heq : x = p := catalog_opEq_eq x (hl.mem_iff.1 (List.mem_of_mem_take hx)) p
    (hl.mem_iff.1 (List.mem_of_mem_drop hp)) (by simpa using hne)
  have hnd : l.Nodup := hl.nodup_iff.2 catalog_nodup
  rw [← List.take_append_drop 12 l] at hnd
  exact (List.nodup_append.1 hnd).2.2 hx (heq ▸ hp)

theorem fallbackPieces_horizontal (l : List DominoPiece) :
    ∀ q ∈ fallbackPieces l, q.orientation = Orientation.HORIZONTAL ∧ q.isPlaced = true ∧
      q.position ∈ horizontalAnchors := by
  intro q hq
  unfold fallbackPieces at hq
  have key : ∀ (l : List DominoPiece) (anchors : List Position),
      ∀ q ∈ List.zipWith (fun p a => placedCopy p a Orientation.HORIZONTAL) l anchors,
        q.orientation = Orientation.HORIZONTAL ∧ q.isPlaced = true ∧ q.position ∈ anchors := by
    intro l
    induction l with
    | nil => intro anchors q hq; simp at hq
    | cons x xs ih =>
      intro anchors q hq
      cases anchors with
      | nil => simp at hq
      | cons a as =>
        rw [List.zipWith_cons_cons, List.mem_cons] at hq
        rcases hq with rfl | hq
        · exact ⟨rfl, rfl, List.mem_cons_self _ _⟩
        · obtain ⟨h1, h2, h3⟩ := ih as q hq
          exact ⟨h1, h2, List.mem_cons_of_mem _ h3⟩
  exact key l horizontalAnchors q hq

/-- On a consistent tiling that holds a piece, `checkRowColumnUniqueness` returns false: the
two cells of the first piece lie in one row or one column and both insert its `value1`. -/
theorem checkRowColumnUniqueness_false (s : GameState) (hwf : WellFormed s)
    (hne : s.placedDominoes ≠ []) : checkRowColumnUniqueness s = false := by
  have h0 : 0 < s.placedDominoes.length := List.length_pos.2 hne
  have hp := hwf.pieces 0 h0
  rw [getDominoPositions_eq] at hp
  obtain ⟨i1, e1⟩ := hp (s.placedDominoes.get ⟨0, h0⟩).position (by simp)
  obtain ⟨i2, e2⟩ := hp (secondCell (s.placedDominoes.get ⟨0, h0⟩).position
    (s.placedDominoes.get ⟨0, h0⟩).orientation) (by simp)
  have hlt : s.dominoGrid.get (s.placedDominoes.get ⟨0, h0⟩).position.row
      (s.placedDominoes.get ⟨0, h0⟩).position.col < (s.placedDominoes.length : Int) := by
    rw [e1]
    exact_mod_cast h0
  have hid : s.dominoGrid.get (s.placedDominoes.get ⟨0, h0⟩).position.row
      (s.placedDominoes.get ⟨0, h0⟩).position.col =
      s.dominoGrid.get
        (secondCell (s.placedDominoes.get ⟨0, h0⟩).position
          (s.placedDominoes.get ⟨0, h0⟩).orientation).row
        (secondCell (s.placedDominoes.get ⟨0, h0⟩).position
          (s.placedDominoes.get ⟨0, h0⟩).orientation).col := by
    rw [e1, e2]
  have hn1 : s.dominoGrid.get (s.placedDominoes.get ⟨0, h0⟩).position.row
      (s.placedDominoes.get ⟨0, h0⟩).position.col ≠ -1 := by
    rw [e1]
    simp
  have hab := (secondCell_ne (s.placedDominoes.get ⟨0, h0⟩).position
    (s.placedDominoes.get ⟨0, h0⟩).orientation).symm
  unfold checkRowColumnUniqueness
  rw [Bool.and_eq_false_iff]
  generalize (s.placedDominoes.get ⟨0, h0⟩).position = a at *
  cases ho : (s.placedDominoes.get ⟨0, h0⟩).orientation
  · left
    rw [ho] at i2 hid hab
    rw [List.all_eq_false]
    refine ⟨a.row, (mem_gridIndices _).2 ⟨i1.1, i1.2.1⟩, ?_⟩
    rw [scanDigits_none_of_two _ _ _ _ a (secondCell a Orientation.HORIZONTAL)
      ((mem_rowCells _ _).2 ⟨rfl, i1.2.2.1, i1.2.2.2⟩)
      ((mem_rowCells _ _).2 ⟨rfl, i2.2.2.1, i2.2.2.2⟩) hab hid hn1 hlt]
    simp
  · right
    rw [ho] at i2 hid hab
    rw [List.all_eq_false]
    refine ⟨a.col, (mem_gridIndices _).2 ⟨i1.2.2.1, i1.2.2.2⟩, ?_⟩
    rw [scanDigits_none_of_two _ _ _ _ a (secondCell a Orientation.VERTICAL)
      ((mem_colCells _ _).2 ⟨rfl, i1.1, i1.2.1⟩)
      ((mem_colCells _ _).2 ⟨rfl, i2.1, i2.2.1⟩) hab hid hn1 hlt]
    simp

theorem cacheOK_of_fields {s t : GameState} (h : CacheOK s)
    (h1 : t.cacheValid = s.cacheValid) (h2 : t.constraintCache = s.constraintCache)
    (h3 : t.solutionGrid = s.solutionGrid) (h4 : t.solutionDominoes = s.solutionDominoes) :
    CacheOK t := by
  unfold CacheOK at *
  rw [h1, h2, h3, h4]
  exact h

theorem cacheOK_of_invalid {s : GameState} (h : s.cacheValid = false) : CacheOK s := by
  intro hv
  rw [h] at hv
  exact absurd hv (by decide)

theorem checkClues_spec (cells : List Position) (s : GameState) (hc : CacheOK s) :
    (checkClues cells s).1 =
        cells.all (fun cell =>
          !decide (s.grid.get cell.row cell.col > 0) ||
            decide (calculateConstraintValueNoCache s cell.row cell.col =
              s.grid.get cell.row cell.col)) ∧
      CacheOK (checkClues cells s).2 := by
  induction cells generalizing s with
  | nil => exact ⟨rfl, hc⟩
  | cons cell rest ih =>
    unfold checkClues
    rw [List.all_cons]
    by_cases hg : s.grid.get cell.row cell.col > 0
    · rw [if_pos hg]
      dsimp only
      obtain ⟨h1, h2, _, cache, h4⟩ := calculateConstraintValue_spec s hc cell.row cell.col
      by_cases hne : (calculateConstraintValue s cell.row cell.col).1 ≠
          s.grid.get cell.row cell.col
      · rw [if_pos hne]
        refine ⟨?_, h2⟩
        rw [h1] at hne
        simp [calculateConstraintValueNoCache, hg, hne]
      · rw [if_neg hne]
        obtain ⟨i1, i2⟩ := ih (calculateConstraintValue s cell.row cell.col).2 h2
        refine ⟨?_, i2⟩
        rw [i1]
        rw [h1] at hne
        have e : calculateConstraintValueNoCache s cell.row cell.col =
            s.grid.get cell.row cell.col := by
          unfold calculateConstraintValueNoCache
          exact not_not.1 hne
        rw [h4]
        simp only [hg, e, decide_True, Bool.or_true, Bool.true_and]
        rfl
    · rw [if_neg hg]
      obtain ⟨i1, i2⟩ := ih s hc
      refine ⟨?_, i2⟩
      rw [i1]
      simp [hg]

theorem isValidSolution_spec (s : GameState) (hc : CacheOK s) :
    (isValidSolution s).1 = isValidSolutionNoCache s ∧ CacheOK (isValidSolution s).2 := by
  unfold isValidSolution isValidSolutionNoCache
  split
  · exact ⟨rfl, hc⟩
  · obtain ⟨h1, h2⟩ := checkClues_spec allCells s hc
    obtain ⟨c, v, hf⟩ := checkClues_frame allCells s
    dsimp only
    rw [← h1]
    split
    · refine ⟨?_, h2⟩
      rw [hf]
      rfl
    · exact ⟨rfl, h2⟩

theorem placeDomino_cacheOK (s : GameState) (hc : CacheOK s) (d : DominoPiece)
    (pos : Position) (o : Orientation) : CacheOK (placeDomino s d pos o).2 := by
  unfold placeDomino
  split
  · exact hc
  split
  · exact hc
  dsimp only
  split
  · exact cacheOK_of_fields (isValidSolution_spec _ (cacheOK_of_invalid rfl)).2 rfl rfl rfl rfl
  · exact cacheOK_of_invalid rfl

theorem removeDomino_cacheOK (s : GameState) (hc : CacheOK s) (pos : Position) :
    CacheOK (removeDomino s pos).2 := by
  unfold removeDomino
  split
  · exact hc
  dsimp only
  split
  · exact hc
  split
  · exact hc
  unfold updateDominoIds
  dsimp only
  split
  · rename_i e s2 heq
    split at heq
    · simp only [Prod.mk.injEq] at heq
      rw [← heq.2]
      exact cacheOK_of_fields hc rfl rfl rfl rfl
    · simp at heq
  · exact cacheOK_of_invalid rfl

theorem moveDomino_cacheOK (s : GameState) (hc : CacheOK s) (a b : Position)
    (o : Orientation) : CacheOK (moveDomino s a b o).2 := by
  unfold moveDomino
  split
  · exact hc
  dsimp only
  split
  · exact hc
  split
  · rename_i r hr
    split at hr
    · simp at hr
    · simp only [Except.ok.injEq] at hr
      rw [← hr]
      exact cacheOK_of_invalid rfl
  · exact cacheOK_of_fields hc rfl rfl rfl rfl

theorem applyCall_cacheOK (s : GameState) (hc : CacheOK s) (c : Call) :
    CacheOK (applyCall s c).2 := by
  cases c with
  | place d pos o => exact placeDomino_cacheOK s hc d pos o
  | remove pos => exact removeDomino_cacheOK s hc pos
  | move a b o => exact moveDomino_cacheOK s hc a b o

/-- The clue grid of `generateConstraintGrid`, entered with a consistent cache, is the one the
cache-free loop assigns; the cache stays consistent. -/
theorem constraintFold_noCache (sg : Grid) (sd : List DominoPiece) (cells : List Position)
    (t : GameState) (hc : CacheOK t) (h1 : t.solutionGrid = sg) (h2 : t.solutionDominoes = sd) :
    (cells.foldl
      (fun st cell =>
        if st.solutionGrid.get cell.row cell.col = -1 then
          let r := calculateConstraintValue st cell.row cell.col
          { r.2 with grid := r.2.grid.set cell.row cell.col r.1 }
        else st) t).grid =
      cells.foldl
        (fun g cell =>
          if sg.get cell.row cell.col = -1 then
            g.set cell.row cell.col (computeConstraintSum sg sd cell.row cell.col)
          else g) t.grid ∧
    CacheOK (cells.foldl
      (fun st cell =>
        if st.solutionGrid.get cell.row cell.col = -1 then
          let r := calculateConstraintValue st cell.row cell.col
          { r.2 with grid := r.2.grid.set cell.row cell.col r.1 }
        else st) t) := by
  induction cells generalizing t with
  | nil => exact ⟨rfl, hc⟩
  | cons cell rest ih =>
    rw [List.foldl_cons, List.foldl_cons]
    by_cases he : t.solutionGrid.get cell.row cell.col = -1
    · rw [if_pos he, if_pos (h1 ▸ he)]
      dsimp only
      obtain ⟨v1, v2, _, cache, v4⟩ := calculateConstraintValue_spec t hc cell.row cell.col
      have hc1 : CacheOK { (calculateConstraintValue t cell.row cell.col).2 with
          grid := (calculateConstraintValue t cell.row cell.col).2.grid.set cell.row cell.col
            (calculateConstraintValue t cell.row cell.col).1 } := v2
      have e1 : ({ (calculateConstraintValue t cell.row cell.col).2 with
          grid := (calculateConstraintValue t cell.row cell.col).2.grid.set cell.row cell.col
            (calculateConstraintValue t cell.row cell.col).1 } : GameState).solutionGrid =
          sg := by rw [v4]; exact h1
      have e2 : ({ (calculateConstraintValue t cell.row cell.col).2 with
          grid := (calculateConstraintValue t cell.row cell.col).2.grid.set cell.row cell.col
            (calculateConstraintValue t cell.row cell.col).1 } : GameState).solutionDominoes =
          sd := by rw [v4]; exact h2
      have e3 : ({ (calculateConstraintValue t cell.row cell.col).2 with
          grid := (calculateConstraintValue t cell.row cell.col).2.grid.set cell.row cell.col
            (calculateConstraintValue t cell.row cell.col).1 } : GameState).grid =
          t.grid.set cell.row cell.col (computeConstraintSum sg sd cell.row cell.col) := by
        rw [← h1, ← h2, ← v1, v4]
      obtain ⟨i1, i2⟩ := ih _ hc1 e1 e2
      rw [e3] at i1
      exact ⟨i1, i2⟩
    · rw [if_neg he, if_neg (h1 ▸ he)]
      exact ih t hc h1 h2

theorem generateConstraintGrid_noCache (s : GameState) (hc : CacheOK s) :
    (generateConstraintGrid s).grid = generateConstraintGridNoCache s ∧
      CacheOK (generateConstraintGrid s) := by
  unfold generateConstraintGrid generateConstraintGridNoCache calculateConstraintValueNoCache
  exact constraintFold_noCache s.solutionGrid s.solutionDominoes allCells
    { s with grid := Grid.fill 0 } (cacheOK_of_fields hc rfl rfl rfl rfl) rfl rfl

theorem applyDifficultySettings_cacheOK (sh : Shuffles) (s : GameState) (h : CacheOK s) :
    CacheOK (applyDifficultySettings sh s) :=
  cacheOK_of_fields h rfl rfl rfl rfl

theorem generateNewGame_cacheOK (sh : Shuffles) (hsh : ValidShuffles sh) (s : GameState)
    (d : Difficulty) : CacheOK (generateNewGame sh s d).2 := by
  rw [generateNewGame_eq sh hsh]
  have h := (generateConstraintGrid_noCache
    (fallbackSolution sh { s with currentDifficulty := d, rng := s.rng + 200 })
    (cacheOK_of_invalid rfl)).2
  exact applyDifficultySettings_cacheOK sh _ h

theorem runGameCalls_cacheOK (sh : Shuffles) (hsh : ValidShuffles sh) (s : GameState)
    (hc : CacheOK s) (calls : List GameCall) : CacheOK (runGameCalls sh s calls) := by
  induction calls generalizing s with
  | nil => exact hc
  | cons c rest ih =>
    apply ih
    cases c with
    | newGame d => exact generateNewGame_cacheOK sh hsh s d
    | tiling c => exact applyCall_cacheOK s hc c

/-- `removeDomino` of `GameGrid.h` writes neither `constraintCache` nor `cacheValid`. -/
theorem gridRemove_cache (s : GameGridH.GameState) (pos : Position) :
    (GameGridH.removeDomino s pos).2.constraintCache = s.constraintCache ∧
      (GameGridH.removeDomino s pos).2.cacheValid = s.cacheValid := by
  unfold GameGridH.removeDomino
  split
  · exact ⟨rfl, rfl⟩
  · simp only []
    split <;> exact ⟨rfl, rfl⟩

/-- `calculateConstraintValue` of `GameGrid.h` writes the two cache fields only. -/
theorem gridCalc_frame (s : GameGridH.GameState) (row col : Int) :
    GameGridH.boardOf (GameGridH.calculateConstraintValue s row col).2 = GameGridH.boardOf s := by
  unfold GameGridH.calculateConstraintValue
  simp only []
  split <;> split <;> rfl

theorem cache_find_nil (pos : Position) : Cache.find [] pos = none := rfl

theorem cache_assign_ne_nil (c : Cache) (pos : Position) (v : Int) : c.assign pos v ≠ [] := by
  cases c with
  | nil => simp [Cache.assign]
  | cons hd tl =>
    obtain ⟨k, w⟩ := hd
    simp only [Cache.assign]
    split
    · simp
    · split <;> simp

/-- After `calculateConstraintValue` of `GameGrid.h` the cache is valid and holds an entry. -/
theorem gridCalc_fills (s : GameGridH.GameState) (row col : Int) :
    (GameGridH.calculateConstraintValue s row col).2.cacheValid = true ∧
      (GameGridH.calculateConstraintValue s row col).2.constraintCache ≠ [] := by
  unfold GameGridH.calculateConstraintValue
  simp only []
  by_cases hv : s.cacheValid = true
  · simp only [hv, Bool.not_true, Bool.false_eq_true, if_false]
    split
    · rename_i v hf
      refine ⟨hv, ?_⟩
      intro e
      rw [e, cache_find_nil] at hf
      exact absurd hf (by simp)
    · exact ⟨rfl, cache_assign_ne_nil _ _ _⟩
  · simp only [Bool.not_eq_true] at hv
    simp only [hv, Bool.not_false, if_true]
    split
    · rename_i v hf
      simp [cache_find_nil] at hf
    · exact ⟨rfl, cache_assign_ne_nil _ _ _⟩

/-- The clue loop of `isValidSolution` writes the two cache fields only. -/
theorem gridCheckClues_frame (cells : List Position) (s : GameGridH.GameState) :
    GameGridH.boardOf (GameGridH.checkClues cells s).2 = GameGridH.boardOf s := by
  induction cells generalizing s with
  | nil => rfl
  | cons cell rest ih =>
    simp only [GameGridH.checkClues]
    split
    · split
      · exact gridCalc_frame s _ _
      · exact (ih _).trans (gridCalc_frame s _ _)
    · exact ih s

/-- A valid, non-empty cache stays so through the clue loop of `isValidSolution`. -/
theorem gridCheckClues_keeps (cells : List Position) (s : GameGridH.GameState)
    (h : s.cacheValid = true ∧ s.constraintCache ≠ []) :
    (GameGridH.checkClues cells s).2.cacheValid = true ∧
      (GameGridH.checkClues cells s).2.constraintCache ≠ [] := by
  induction cells generalizing s with
  | nil => exact h
  | cons cell rest ih =>
    simp only [GameGridH.checkClues]
    split
    · split
      · exact gridCalc_fills s _ _
      · exact ih _ (gridCalc_fills s _ _)
    · exact ih s h

/-- The clue loop of `isValidSolution` leaves a valid, non-empty cache as soon as one of the
cells it visits shows a positive number. -/
theorem gridCheckClues_fills (cells : List Position) (s : GameGridH.GameState)
    (h : ∃ cell ∈ cells, s.grid.get cell.row cell.col > 0) :
    (GameGridH.checkClues cells s).2.cacheValid = true ∧
      (GameGridH.checkClues cells s).2.constraintCache ≠ [] := by
  induction cells with
  | nil => obtain ⟨cell, hc, _⟩ := h; cases hc
  | cons cell rest ih =>
    simp only [GameGridH.checkClues]
    split
    · split
      · exact gridCalc_fills s _ _
      · exact gridCheckClues_keeps _ _ (gridCalc_fills s _ _)
    · rename_i hcell
      apply ih
      obtain ⟨q, hq, hpos⟩ := h
      rcases List.mem_cons.mp hq with e | hmem
      · rw [e] at hpos; exact absurd hpos hcell
      · exact ⟨q, hmem, hpos⟩

/-- `isValidSolution` of `GameGrid.h` writes the two cache fields only. -/
theorem gridIsValidSolution_frame (s : GameGridH.GameState) :
    GameGridH.boardOf (GameGridH.isValidSolution s).2 = GameGridH.boardOf s := by
  unfold GameGridH.isValidSolution
  split
  · rfl
  · simp only []
    split <;> exact gridCheckClues_frame _ s

/-- On a full board that shows a positive number in some cell, `isValidSolution` leaves a
valid, non-empty cache. -/
theorem gridIsValidSolution_fills (s : GameGridH.GameState)
    (hfull : s.placedDominoes.length = s.availableDominoes.length)
    (h : ∃ cell ∈ GameGridH.allCells s.gridSize, s.grid.get cell.row cell.col > 0) :
    (GameGridH.isValidSolution s).2.cacheValid = true ∧
      (GameGridH.isValidSolution s).2.constraintCache ≠ [] := by
  unfold GameGridH.isValidSolution
  rw [if_neg (by simpa using hfull)]
  simp only []
  split <;> exact gridCheckClues_fills _ s h

theorem gridOf_get_set_same (n : Nat) (g : Grid) (hg : GameGridH.IsGridOf n g) (r c v : Int)
    (h0 : 0 ≤ r) (h1 : r < n) (h2 : 0 ≤ c) (h3 : c < n) : (g.set r c v).get r c = v := by
  unfold Grid.get Grid.set
  have hn : ¬ (r < 0 ∨ c < 0) := by omega
  simp only [hn, if_false]
  have hlt : r.toNat < g.length := by rw [hg.1]; omega
  have hrow : (g[r.toNat]).length = n := hg.2 _ (List.getElem_mem _)
  simp only [List.getD_eq_getElem?_getD, List.getElem?_set, hlt, if_true, Option.getD_some,
    List.getElem?_eq_getElem hlt]
  have hc : c.toNat < (g[r.toNat]).length := by rw [hrow]; omega
  simp [hc]

theorem gridOf_set_isGridOf (n : Nat) (g : Grid) (hg : GameGridH.IsGridOf n g) (r c v : Int) :
    GameGridH.IsGridOf n (g.set r c v) := by
  unfold Grid.set
  split
  · exact hg
  · refine ⟨by simp [hg.1], ?_⟩
    intro row hrow
    rcases List.mem_or_eq_of_mem_set hrow with h | h
    · exact hg.2 row h
    · by_cases hlt : r.toNat < g.length
      · rw [h]
        simp only [List.length_set, List.getD_eq_getElem?_getD, List.getElem?_eq_getElem hlt,
          Option.getD_some]
        exact hg.2 _ (List.getElem_mem _)
      · rw [List.set_eq_of_length_le (Nat.le_of_not_lt hlt)] at hrow
        exact hg.2 _ hrow

theorem gridOf_foldl_set_isGridOf (n : Nat) (cells : List Position) (v : Int) (g : Grid)
    (hg : GameGridH.IsGridOf n g) :
    GameGridH.IsGridOf n (cells.foldl (fun g pos => g.set pos.row pos.col v) g) := by
  induction cells generalizing g with
  | nil => exact hg
  | cons cell rest ih => exact ih _ (gridOf_set_isGridOf n g hg _ _ _)

theorem sameTiling_of_board {s t c : GameGridH.GameState}
    (hb : GameGridH.boardOf t = GameGridH.boardOf s) (h : GameGridH.SameTiling s c) :
    GameGridH.SameTiling t c := by
  simp only [GameGridH.boardOf, Prod.mk.injEq] at hb
  obtain ⟨b1, _, b3, b4, b5, b6⟩ := hb
  obtain ⟨h1, h2, h3, h4, h5⟩ := h
  exact ⟨b1.trans h1, b3.trans h2, b5.trans h3, b6.trans h4, by rw [b4]; exact h5⟩

theorem sameTiling_symm {s c : GameGridH.GameState} (h : GameGridH.SameTiling s c) :
    GameGridH.SameTiling c s :=
  ⟨h.1.symm, h.2.1.symm, h.2.2.1.symm, h.2.2.2.1.symm, h.2.2.2.2.symm⟩

theorem sameTiling_trans {s t c : GameGridH.GameState} (h : GameGridH.SameTiling s t)
    (k : GameGridH.SameTiling t c) : GameGridH.SameTiling s c :=
  ⟨h.1.trans k.1, h.2.1.trans k.2.1, h.2.2.1.trans k.2.2.1, h.2.2.2.1.trans k.2.2.2.1,
    h.2.2.2.2.trans k.2.2.2.2⟩

/-- `canPlaceDomino` of `GameGrid.h` reads the tiling only. -/
theorem gridCanPlace_congr {s c : GameGridH.GameState} (h : GameGridH.SameTiling s c)
    (d : GameGridH.Domino) (p : Position) (o : Orientation) :
    GameGridH.canPlaceDomino s d p o = GameGridH.canPlaceDomino c d p o := by
  obtain ⟨h1, h2, h3, h4, _⟩ := h
  unfold GameGridH.canPlaceDomino GameGridH.wouldMaintainRowColumnUniqueness
    GameGridH.wouldTouchOtherDominoes
  rw [h1, h2, h3, h4]

theorem gridPlacedState_sameTiling {s c : GameGridH.GameState} (h : GameGridH.SameTiling s c)
    (d : GameGridH.Domino) (p : Position) (o : Orientation) :
    GameGridH.SameTiling (GameGridH.placedState s d p o) (GameGridH.placedState c d p o) := by
  obtain ⟨h1, h2, h3, h4, h5⟩ := h
  unfold GameGridH.placedState
  simp only []
  refine ⟨h1, ?_, ?_, ?_, h5⟩
  · show _ = _
    rw [h2, h3]
  · show _ = _
    rw [h3]
  · show _ = _
    rw [h4]

/-- The outcome of `placeDomino` of `GameGrid.h`: the guard decides the result; on `false`
the game is as before, on `true` the board is that of `placedState`, and the cache is the one
`isValidSolution` leaves when the board is full, the cleared one otherwise. -/
theorem gridPlaceDomino_spec (s : GameGridH.GameState) (d : GameGridH.Domino) (p : Position)
    (o : Orientation) :
    (GameGridH.placeDomino s d p o).1 =
        (p.isValidForGrid s.gridSize && GameGridH.canPlaceDomino s d p o &&
          !s.usedSums.contains d.sum) ∧
      ((GameGridH.placeDomino s d p o).1 = false → (GameGridH.placeDomino s d p o).2 = s) ∧
      ((GameGridH.placeDomino s d p o).1 = true →
        GameGridH.boardOf (GameGridH.placeDomino s d p o).2 =
            GameGridH.boardOf (GameGridH.placedState s d p o) ∧
          ((GameGridH.placedState s d p o).placedDominoes.length =
              (GameGridH.placedState s d p o).availableDominoes.length →
            (GameGridH.placeDomino s d p o).2.cacheValid =
                (GameGridH.isValidSolution (GameGridH.placedState s d p o)).2.cacheValid ∧
              (GameGridH.placeDomino s d p o).2.constraintCache =
                (GameGridH.isValidSolution (GameGridH.placedState s d p o)).2.constraintCache) ∧
          (¬ (GameGridH.placedState s d p o).placedDominoes.length =
              (GameGridH.placedState s d p o).availableDominoes.length →
            (GameGridH.placeDomino s d p o).2.cacheValid = false ∧
              (GameGridH.placeDomino s d p o).2.constraintCache = [])) := by
  unfold GameGridH.placeDomino
  by_cases hg : (!p.isValidForGrid s.gridSize || !GameGridH.canPlaceDomino s d p o) = true
  · rw [if_pos hg]
    refine ⟨?_, fun _ => rfl, fun h => absurd h (by simp)⟩
    simp only [Bool.or_eq_true, Bool.not_eq_true'] at hg
    rcases hg with hg | hg <;> simp [hg]
  · rw [if_neg hg]
    simp only [Bool.or_eq_true, Bool.not_eq_true', not_or, Bool.not_eq_false] at hg
    by_cases hu : s.usedSums.contains d.sum = true
    · rw [if_pos hu]
      refine ⟨?_, fun _ => rfl, fun h => absurd h (by simp)⟩
      simp [hu]
    · rw [if_neg hu]
      simp only [Bool.not_eq_true] at hu
      simp only []
      split
      · rename_i hfull
        refine ⟨by simp [hg.1, hg.2, hu], fun h => absurd h (by simp), fun _ => ?_⟩
        exact ⟨gridIsValidSolution_frame _, fun _ => ⟨rfl, rfl⟩, fun hn => absurd hfull hn⟩
      · rename_i hfull
        refine ⟨by simp [hg.1, hg.2, hu], fun h => absurd h (by simp), fun _ => ?_⟩
        exact ⟨rfl, fun hf => absurd hf hfull, fun _ => ⟨rfl, rfl⟩⟩

/-- `placeDomino` of `GameGrid.h` returns the same result on two games with the same tiling,
and leaves them with the same tiling. -/
theorem gridPlaceDomino_congr {s c : GameGridH.GameState} (h : GameGridH.SameTiling s c)
    (d : GameGridH.Domino) (p : Position) (o : Orientation) :
    (GameGridH.placeDomino s d p o).1 = (GameGridH.placeDomino c d p o).1 ∧
      GameGridH.SameTiling (GameGridH.placeDomino s d p o).2 (GameGridH.placeDomino c d p o).2 := by
  have hs := gridPlaceDomino_spec s d p o
  have hc := gridPlaceDomino_spec c d p o
  have e : (GameGridH.placeDomino s d p o).1 = (GameGridH.placeDomino c d p o).1 := by
    rw [hs.1, hc.1, gridCanPlace_congr h, h.1, h.2.2.2.1]
  refine ⟨e, ?_⟩
  cases hr : (GameGridH.placeDomino s d p o).1 with
  | false =>
    rw [hs.2.1 hr, hc.2.1 (e ▸ hr)]
    exact h
  | true =>
    have a := (hs.2.2 hr).1
    have b := (hc.2.2 (e ▸ hr)).1
    exact sameTiling_of_board a
      (sameTiling_symm (sameTiling_of_board b (sameTiling_symm (gridPlacedState_sameTiling h d p o))))

/-- A run of `placeDomino` calls returns the same results on two games with the same tiling,
and leaves them with the same tiling. -/
theorem gridPlaceAll_congr (calls : List GameGridH.Placement) {s c : GameGridH.GameState}
    (h : GameGridH.SameTiling s c) :
    (GameGridH.placeAll s calls).1 = (GameGridH.placeAll c calls).1 ∧
      GameGridH.SameTiling (GameGridH.placeAll s calls).2 (GameGridH.placeAll c calls).2 := by
  unfold GameGridH.placeAll
  suffices H : ∀ (a b : Bool × GameGridH.GameState), a.1 = b.1 → GameGridH.SameTiling a.2 b.2 →
      (calls.foldl (fun acc c =>
          ((acc.1 && (GameGridH.placeDomino acc.2 c.domino c.position c.orientation).1,
            (GameGridH.placeDomino acc.2 c.domino c.position c.orientation).2) :
            Bool × GameGridH.GameState)) a).1 =
        (calls.foldl (fun acc c =>
          ((acc.1 && (GameGridH.placeDomino acc.2 c.domino c.position c.orientation).1,
            (GameGridH.placeDomino acc.2 c.domino c.position c.orientation).2) :
            Bool × GameGridH.GameState)) b).1 ∧
      GameGridH.SameTiling
        (calls.foldl (fun acc c =>
          ((acc.1 && (GameGridH.placeDomino acc.2 c.domino c.position c.orientation).1,
            (GameGridH.placeDomino acc.2 c.domino c.position c.orientation).2) :
            Bool × GameGridH.GameState)) a).2
        (calls.foldl (fun acc c =>
          ((acc.1 && (GameGridH.placeDomino acc.2 c.domino c.position c.orientation).1,
            (GameGridH.placeDomino acc.2 c.domino c.position c.orientation).2) :
            Bool × GameGridH.GameState)) b).2 from H (true, s) (true, c) rfl h
  induction calls with
  | nil => intro a b h1 h2; exact ⟨h1, h2⟩
  | cons call rest ih =>
    intro a b h1 h2
    simp only [List.foldl_cons]
    have k := gridPlaceDomino_congr h2 call.domino call.position call.orientation
    exact ih _ _ (by simp only [h1, k.1]) k.2

/-- `placeDomino` of `GameGrid.h` keeps the shape of the clue grid. -/
theorem gridPlaceDomino_dims (n : Nat) (s : GameGridH.GameState)
    (hg : GameGridH.IsGridOf n s.grid) (d : GameGridH.Domino) (p : Position) (o : Orientation) :
    GameGridH.IsGridOf n (GameGridH.placeDomino s d p o).2.grid := by
  have hs := gridPlaceDomino_spec s d p o
  cases hr : (GameGridH.placeDomino s d p o).1 with
  | false => rw [hs.2.1 hr]; exact hg
  | true =>
    have a := (hs.2.2 hr).1
    simp only [GameGridH.boardOf, Prod.mk.injEq] at a
    rw [a.2.1]
    exact gridOf_foldl_set_isGridOf n _ _ _ hg

/-- A run of `placeDomino` calls keeps the shape of the clue grid. -/
theorem gridPlaceAll_dims (n : Nat) (calls : List GameGridH.Placement) (s : GameGridH.GameState)
    (hg : GameGridH.IsGridOf n s.grid) :
    GameGridH.IsGridOf n (GameGridH.placeAll s calls).2.grid := by
  unfold GameGridH.placeAll
  suffices H : ∀ (a : Bool × GameGridH.GameState), GameGridH.IsGridOf n a.2.grid →
      GameGridH.IsGridOf n
        (calls.foldl (fun acc c =>
          ((acc.1 && (GameGridH.placeDomino acc.2 c.domino c.position c.orientation).1,
            (GameGridH.placeDomino acc.2 c.domino c.position c.orientation).2) :
            Bool × GameGridH.GameState)) a).2.grid from H (true, s) hg
  induction calls with
  | nil => intro a h; exact h
  | cons call rest ih =>
    intro a h
    simp only [List.foldl_cons]
    exact ih _ (gridPlaceDomino_dims n a.2 h _ _ _)

/-- A run that ends with one more call. -/
theorem gridPlaceAll_snoc (s : GameGridH.GameState) (calls : List GameGridH.Placement)
    (c : GameGridH.Placement) :
    GameGridH.placeAll s (calls ++ [c]) =
      ((GameGridH.placeAll s calls).1 &&
          (GameGridH.placeDomino (GameGridH.placeAll s calls).2 c.domino c.position
            c.orientation).1,
        (GameGridH.placeDomino (GameGridH.placeAll s calls).2 c.domino c.position
          c.orientation).2) := by
  unfold GameGridH.placeAll
  rw [List.foldl_append]
  rfl

theorem emptyBoard20_ok : GameGridH.EmptyBoard20 GameGridH.emptyBoard20 := by
  refine ⟨rfl, rfl, rfl, rfl, by decide, by decide, ?_⟩
  intro row hrow
  simp only [GameGridH.emptyBoard20, GameGridH.gridOf, List.mem_replicate] at hrow
  rw [hrow.2]; rfl

theorem sameTiling_emptyBoard20 (g : GameGridH.GameState) (hg : GameGridH.EmptyBoard20 g) :
    GameGridH.SameTiling g GameGridH.emptyBoard20 := by
  obtain ⟨h1, h2, h3, h4, h5, _⟩ := hg
  exact ⟨h1, h2, h3, h4, by rw [h5]; decide⟩

theorem fullBoardCalls_split :
    GameGridH.fullBoardCalls =
      GameGridH.fullBoardCalls.take 27 ++
        [{ domino := GameGridH.runPiece 27, position := ⟨19, 12⟩,
           orientation := Orientation.HORIZONTAL }] := by
  decide

set_option maxRecDepth 1000000 in
/-- The run of `fullBoardCalls` on the concrete empty board: every call returns `true`, the
28th call fills the board, and `removeDomino` at the cell (0, 0) returns `true` after it. -/
theorem fullBoardCalls_run :
    (GameGridH.placeAll GameGridH.emptyBoard20 GameGridH.fullBoardCalls).1 = true ∧
      (GameGridH.placeAll GameGridH.emptyBoard20
        (GameGridH.fullBoardCalls.take 27)).2.placedDominoes.length = 27 ∧
      (GameGridH.placeAll GameGridH.emptyBoard20
        (GameGridH.fullBoardCalls.take 27)).2.availableDominoes.length = 28 ∧
      (GameGridH.placeAll GameGridH.emptyBoard20
        (GameGridH.fullBoardCalls.take 27)).2.gridSize = 20 ∧
      (GameGridH.removeDomino
        (GameGridH.placeAll GameGridH.emptyBoard20 GameGridH.fullBoardCalls).2 ⟨0, 0⟩).1 = true := by
  decide

/-- Whether `removeDomino` of `GameGrid.h` returns `true` depends on the tiling only. -/
theorem gridRemove_congr {s c : GameGridH.GameState} (h : GameGridH.SameTiling s c)
    (pos : Position) :
    (GameGridH.removeDomino s pos).1 = (GameGridH.removeDomino c pos).1 := by
  obtain ⟨h1, h2, h3, _, _⟩ := h
  unfold GameGridH.removeDomino
  rw [h1, h2, h3]
  split
  · rfl
  · simp only []
    split <;> rfl

theorem mem_gridIndicesOf (n : Nat) (x : Int) (h0 : 0 ≤ x) (h1 : x < n) :
    x ∈ GameGridH.gridIndices (n : Int) := by
  unfold GameGridH.gridIndices
  rw [List.mem_map]
  exact ⟨x.toNat, List.mem_range.mpr (by simp only [Int.toNat_ofNat]; omega),
    Int.toNat_of_nonneg h0⟩

theorem mem_allCellsOf (n : Nat) (p : Position) (h : p.isValidForGrid (n : Int) = true) :
    p ∈ GameGridH.allCells (n : Int) := by
  simp only [Position.isValidForGrid, Bool.and_eq_true, decide_eq_true_eq] at h
  unfold GameGridH.allCells
  rw [List.mem_flatMap]
  exact ⟨p.row, mem_gridIndicesOf n _ h.1.1.1 h.1.1.2,
    List.mem_map.mpr ⟨p.col, mem_gridIndicesOf n _ h.1.2 h.2, rfl⟩⟩

/-- A successful `placeDomino` of `GameGrid.h` writes the sum of the piece into the clue grid
at the position of the call. -/
theorem gridPlacedState_grid (n : Nat) (s : GameGridH.GameState) (d : GameGridH.Domino)
    (p : Position) (o : Orientation) (hdims : GameGridH.IsGridOf n s.grid)
    (hp : p.isValidForGrid (n : Int) = true) :
    (GameGridH.placedState s d p o).grid.get p.row p.col = d.sum := by
  simp only [Position.isValidForGrid, Bool.and_eq_true, decide_eq_true_eq] at hp
  have hv : GameGridH.Position.isValid p = true := by
    simp only [GameGridH.Position.isValid, Bool.and_eq_true, decide_eq_true_eq]
    exact ⟨hp.1.1.1, hp.1.2⟩
  unfold GameGridH.placedState
  simp only [GameGridH.Domino.getOccupiedPositions, GameGridH.Domino.place, hv, Bool.and_self,
    if_true]
  cases o with
  | HORIZONTAL =>
    simp only [List.foldl_cons, List.foldl_nil]
    rw [Grid.get_set_of_ne _ _ _ _ _ _ (by omega),
      gridOf_get_set_same n _ hdims _ _ _ hp.1.1.1 hp.1.1.2 hp.1.2 hp.2]
  | VERTICAL =>
    simp only [List.foldl_cons, List.foldl_nil]
    rw [Grid.get_set_of_ne _ _ _ _ _ _ (by omega),
      gridOf_get_set_same n _ hdims _ _ _ hp.1.1.1 hp.1.1.2 hp.1.2 hp.2]

/-- The call of `placeDomino` of `GameGrid.h` that fills the board returns with a valid cache
that holds an entry, when the piece has a positive sum. -/
theorem gridPlaceDomino_fills (n : Nat) (s : GameGridH.GameState) (d : GameGridH.Domino)
    (p : Position) (o : Orientation) (hres : (GameGridH.placeDomino s d p o).1 = true)
    (hfull : s.placedDominoes.length + 1 = s.availableDominoes.length)
    (hsize : s.gridSize = (n : Int)) (hdims : GameGridH.IsGridOf n s.grid) (hsum : d.sum > 0) :
    (GameGridH.placeDomino s d p o).2.cacheValid = true ∧
      (GameGridH.placeDomino s d p o).2.constraintCache ≠ [] := by
  have hs := gridPlaceDomino_spec s d p o
  have hp : p.isValidForGrid (n : Int) = true := by
    have h1 := hs.1
    rw [hres, hsize] at h1
    have h2 := h1.symm
    simp only [Bool.and_eq_true] at h2
    exact h2.1.1
  have hlen : (GameGridH.placedState s d p o).placedDominoes.length =
      (GameGridH.placedState s d p o).availableDominoes.length := by
    show (s.placedDominoes ++ [_]).length = s.availableDominoes.length
    rw [List.length_append]; exact hfull
  have hc := (hs.2.2 hres).2.1 hlen
  have hfill := gridIsValidSolution_fills _ hlen ⟨p, by
      show p ∈ GameGridH.allCells s.gridSize
      rw [hsize]; exact mem_allCellsOf n p hp, by
      rw [gridPlacedState_grid n s d p o hdims hp]; exact hsum⟩
  exact ⟨hc.1.trans hfill.1, by rw [hc.2]; exact hfill.2⟩

/-- On every empty board of side 20 with a catalog of 28 pieces, the 28 calls of
`fullBoardCalls` return `true`, the last of them leaves a valid cache with an entry, and
`removeDomino` at the cell (0, 0) then returns `true`. -/
theorem fullBoardCalls_fill (g : GameGridH.GameState) (hg : GameGridH.EmptyBoard20 g) :
    (GameGridH.placeAll g GameGridH.fullBoardCalls).1 = true ∧
      (GameGridH.placeAll g GameGridH.fullBoardCalls).2.cacheValid = true ∧
      (GameGridH.placeAll g GameGridH.fullBoardCalls).2.constraintCache ≠ [] ∧
      (GameGridH.removeDomino (GameGridH.placeAll g GameGridH.fullBoardCalls).2 ⟨0, 0⟩).1 =
        true := by
  have hst := sameTiling_emptyBoard20 g hg
  obtain ⟨r1, r2, r3, r4, r5⟩ := fullBoardCalls_run
  have hall := gridPlaceAll_congr GameGridH.fullBoardCalls hst
  have hres : (GameGridH.placeAll g GameGridH.fullBoardCalls).1 = true := hall.1.trans r1
  have hrem := (gridRemove_congr hall.2 ⟨0, 0⟩).trans r5
  refine ⟨hres, ?_⟩
  rw [← and_assoc]
  refine ⟨?_, hrem⟩
  have h27 := gridPlaceAll_congr (GameGridH.fullBoardCalls.take 27) hst
  have hdims := gridPlaceAll_dims 20 (GameGridH.fullBoardCalls.take 27) g hg.2.2.2.2.2
  rw [fullBoardCalls_split, gridPlaceAll_snoc] at hres ⊢
  generalize (GameGridH.placeAll GameGridH.emptyBoard20 (GameGridH.fullBoardCalls.take 27)).2 = c27
    at r2 r3 r4 h27
  generalize GameGridH.placeAll g (GameGridH.fullBoardCalls.take 27) = a27 at hres h27 hdims ⊢
  simp only [Bool.and_eq_true] at hres
  have k := gridPlaceDomino_fills 20 a27.2 (GameGridH.runPiece 27) ⟨19, 12⟩
    Orientation.HORIZONTAL hres.2
    (by rw [h27.2.2.2.1, h27.2.2.2.2.2, r2, r3]) (by rw [h27.2.1, r4]; rfl) hdims (by decide)
  exact k

/-- A successful `removeDomino` of `DominoGame.h` returns with the cache cleared. -/
theorem removeDomino_clears (s : GameState) (pos : Position)
    (h : (removeDomino s pos).1 = Except.ok true) :
    (removeDomino s pos).2.constraintCache = [] ∧ (removeDomino s pos).2.cacheValid = false := by
  unfold removeDomino at h ⊢
  split
  · rename_i hv; rw [if_pos hv] at h; cases h
  · rename_i hv
    rw [if_neg hv] at h
    simp only [] at h ⊢
    split
    · rename_i hid; rw [if_pos hid] at h; cases h
    · rename_i hid
      rw [if_neg hid] at h
      split
      · rename_i hf; rw [hf] at h; cases h
      · rename_i i hf
        rw [hf] at h
        simp only [] at h ⊢
        split
        · rename_i e s2 hu; rw [hu] at h; cases h
        · exact ⟨rfl, rfl⟩

/-- The uniqueness re-check reads the tiling only. -/
theorem checkRowColumnUniqueness_congr (s t : GameState) (h1 : t.dominoGrid = s.dominoGrid)
    (h2 : t.placedDominoes = s.placedDominoes) :
    checkRowColumnUniqueness t = checkRowColumnUniqueness s := by
  unfold checkRowColumnUniqueness
  rw [h1, h2]

/-- On a consistent tiling that holds a piece `isValidSolution` returns false. -/
theorem isValidSolution_false (s : GameState) (hwf : WellFormed s)
    (hne : s.placedDominoes ≠ []) : (isValidSolution s).1 = false := by
  have hcr : checkRowColumnUniqueness (checkClues allCells s).2 = false := by
    obtain ⟨cache, valid, e⟩ := checkClues_frame allCells s
    rw [e]
    exact (checkRowColumnUniqueness_congr s _ rfl rfl).trans
      (checkRowColumnUniqueness_false s hwf hne)
  unfold isValidSolution
  split
  · rfl
  · simp only [hcr]
    split <;> rfl

/-- What a successful `placeDomino` leaves in `gameCompleted`: the result of
`isValidSolution` when the placed pieces are as many as the catalog, the old value otherwise. -/
theorem placeDomino_completed (s : GameState) (d : DominoPiece) (pos : Position)
    (o : Orientation) (h : (placeDomino s d pos o).1 = true) :
    (placeDomino s d pos o).2.gameCompleted =
      if s.placedDominoes.length + 1 = s.availableDominoes.length then
        (isValidSolution (placedState s d pos o)).1
      else s.gameCompleted := by
  unfold placeDomino at h ⊢
  by_cases h1 : (!pos.isValidForGrid GRID_SIZE || !canPlaceDomino s d pos o) = true
  · rw [if_pos h1] at h; simp at h
  rw [if_neg h1] at h ⊢
  by_cases h2 : s.placedDominoes.any (fun placed => placed.opEq d) = true
  · rw [if_pos h2] at h; simp at h
  rw [if_neg h2] at h ⊢
  have hpos : getDominoPositions
      { d with position := pos, orientation := o, isPlaced := true } =
      [pos, secondCell pos o] := getDominoPositions_placedCopy d pos o
  have hlen : (((s.placedDominoes ++
      [({ d with position := pos, orientation := o, isPlaced := true } : DominoPiece)]).length :
        Int) - 1) = (s.placedDominoes.length : Int) := by
    simp
  simp only [hpos, hlen, List.foldl_cons, List.foldl_nil]
  simp only [List.length_append, List.length_singleton]
  by_cases hc : s.placedDominoes.length + 1 = s.availableDominoes.length
  · rw [if_pos hc, if_pos hc]
    rfl
  · rw [if_neg hc, if_neg hc]

/-- `placeDomino` never sets `gameCompleted` on a consistent tiling. -/
theorem placeDomino_gameCompleted (s : GameState) (hwf : WellFormed s)
    (hg : s.gameCompleted = false) (d : DominoPiece) (pos : Position) (o : Orientation) :
    (placeDomino s d pos o).2.gameCompleted = false := by
  cases hr : (placeDomino s d pos o).1 with
  | false => rw [placeDomino_false_state s d pos o hr]; exact hg
  | true =>
    have hstep := placeDomino_step s hwf d pos o hr
    have hwf1 : WellFormed (placedState s d pos o) := by
      obtain ⟨_, _, cache, valid, completed, e⟩ := placeDomino_true s d pos o hr
      exact hstep.1.of_fields (by rw [e]) (by rw [e])
    have hne : (placedState s d pos o).placedDominoes ≠ [] := by
      show s.placedDominoes ++ [_] ≠ []
      simp
    rw [placeDomino_completed s d pos o hr]
    split
    · exact isValidSolution_false _ hwf1 hne
    · exact hg

/-- `removeDomino` never sets `gameCompleted`. -/
theorem removeDomino_gameCompleted (s : GameState) (hg : s.gameCompleted = false)
    (pos : Position) : (removeDomino s pos).2.gameCompleted = false := by
  unfold removeDomino
  split
  · exact hg
  · simp only []
    split
    · exact hg
    · split
      · exact hg
      · simp only [updateDominoIds]
        cases updateDominoIds.pieces (s.placedDominoes.eraseIdx _) 0 (Grid.fill (-1)) with
        | error e => exact hg
        | ok g => rfl

/-- `moveDomino` does not write `gameCompleted`. -/
theorem moveDomino_gameCompleted (s : GameState) (a b : Position) (o : Orientation) :
    (moveDomino s a b o).2.gameCompleted = s.gameCompleted := by
  unfold moveDomino
  split
  · rfl
  · simp only []
    split
    · rfl
    · split
      · rename_i r heq
        split at heq
        · cases heq
        · cases heq; rfl
      · rfl

theorem applyDifficultySettings_gameCompleted (sh : Shuffles) (s : GameState) :
    (applyDifficultySettings sh s).gameCompleted = s.gameCompleted := rfl

theorem generateConstraintGrid_gameCompleted (s : GameState) :
    (generateConstraintGrid s).gameCompleted = s.gameCompleted := by
  obtain ⟨g, c, v, e⟩ := generateConstraintGrid_frame s
  rw [e]

/-- `generateNewGame` leaves `gameCompleted` false. -/
theorem generateNewGame_gameCompleted (sh : Shuffles) (hsh : ValidShuffles sh) (s : GameState)
    (d : Difficulty) : (generateNewGame sh s d).2.gameCompleted = false := by
  rw [generateNewGame_eq sh hsh, applyDifficultySettings_gameCompleted,
    generateConstraintGrid_gameCompleted]
  rfl

/-- The invariant behind C31: the tiling is consistent and `gameCompleted` is false. -/
theorem runGameCalls_gameCompleted (sh : Shuffles) (hsh : ValidShuffles sh) (s : GameState)
    (hwf : WellFormed s) (hg : s.gameCompleted = false) (calls : List GameCall) :
    WellFormed (runGameCalls sh s calls) ∧ (runGameCalls sh s calls).gameCompleted = false := by
  unfold runGameCalls
  induction calls generalizing s with
  | nil => exact ⟨hwf, hg⟩
  | cons c rest ih =>
    rw [List.foldl_cons]
    cases c with
    | newGame d =>
      have ht := generateNewGame_tiling sh hsh s d
      exact ih _ ((emptyTiling_wellFormed (generateNewGame sh s d).2).of_fields ht.1 ht.2)
        (generateNewGame_gameCompleted sh hsh s d)
    | tiling c =>
      refine ih _ (applyCall_step s hwf c).2.1 ?_
      cases c with
      | place p pos o => exact placeDomino_gameCompleted s hwf hg p pos o
      | remove pos => exact removeDomino_gameCompleted s hg pos
      | move a b o => exact (moveDomino_gameCompleted s a b o).trans hg

/-- `placeDomino` writes `gameCompleted` only with the result of `isValidSolution`. -/
theorem placeDomino_gameCompleted_source (s : GameState) (d : DominoPiece) (pos : Position)
    (o : Orientation) :
    (placeDomino s d pos o).2.gameCompleted = s.gameCompleted ∨
      (placeDomino s d pos o).2.gameCompleted = (isValidSolution (placedState s d pos o)).1 := by
  cases hr : (placeDomino s d pos o).1 with
  | false => rw [placeDomino_false_state s d pos o hr]; exact Or.inl rfl
  | true =>
    rw [placeDomino_completed s d pos o hr]
    split
    · exact Or.inr rfl
    · exact Or.inl rfl

/-- A successful `moveDomino` on a consistent tiling, step by step: the source cell holds an
index `i` of a placed piece, `canPlaceDomino` accepts the rewritten piece on the state with
piece `i` lifted, and the final state is the lifted state with `i` written on the two target
cells and the cache cleared. -/
theorem moveDomino_true_spec (s : GameState) (hwf : WellFormed s) (a b : Position)
    (o : Orientation) (h : (moveDomino s a b o).1 = Except.ok true) :
    ∃ (i : Nat), i < s.placedDominoes.length ∧ s.dominoGrid.get a.row a.col = (i : Int) ∧
      canPlaceDomino (liftedState s i b o)
        (movedCopy (s.placedDominoes.getD i (DominoPiece.new 0 0)) b o) b o = true ∧
      (moveDomino s a b o).2 =
        { liftedState s i b o with
          dominoGrid := ((liftedState s i b o).dominoGrid.set b.row b.col (i : Int)).set
            (secondCell b o).row (secondCell b o).col (i : Int),
          constraintCache := [], cacheValid := false } := by
  unfold moveDomino at h ⊢
  by_cases hg : (!a.isValidForGrid GRID_SIZE || !b.isValidForGrid GRID_SIZE) = true
  · rw [if_pos hg] at h; cases h
  rw [if_neg hg] at h ⊢
  dsimp only at h ⊢
  by_cases hid : s.dominoGrid.get a.row a.col = -1 ∨
      s.dominoGrid.get a.row a.col ≥ (s.placedDominoes.length : Int)
  · rw [if_pos hid] at h; cases h
  rw [if_neg hid] at h ⊢
  simp only [Bool.or_eq_true, Bool.not_eq_true', not_or, Bool.not_eq_false] at hg
  have hfrom : InGrid a := (isValidForGrid_iff _).1 hg.1
  have hne : s.dominoGrid.get a.row a.col ≠ -1 := fun h => hid (Or.inl h)
  obtain ⟨h0, hlt, _⟩ := hwf.occupied a hfrom hne
  obtain ⟨i, hi⟩ := Int.eq_ofNat_of_zero_le h0
  rw [hi] at hlt h ⊢
  have hilt : i < s.placedDominoes.length := by omega
  have hgetD : s.placedDominoes.getD i (DominoPiece.new 0 0) = s.placedDominoes.get ⟨i, hilt⟩ := by
    simp [List.getD_eq_getElem?_getD, List.getElem?_eq_getElem hilt]
  refine ⟨i, hilt, rfl, ?_⟩
  rw [pieceAt_natCast _ i hilt, getDominoPositions_eq] at h ⊢
  have hset : ∀ (ps : List DominoPiece) (p : DominoPiece),
      setPieceAt ps (i : Int) p = ps.set i p := by
    intro ps p
    unfold setPieceAt
    rw [if_neg (by omega), Int.toNat_ofNat]
  simp only [List.foldl_cons, List.foldl_nil, hset] at h ⊢
  unfold liftedState
  rw [hgetD]
  split
  · rename_i r hr
    split at hr
    · simp at hr
    · rename_i hcan
      simp only [Except.ok.injEq] at hr
      subst hr
      refine ⟨by simpa [movedCopy] using hcan, ?_⟩
      simp only [getDominoPositions_eq, List.foldl_cons, List.foldl_nil]
      rfl
  · rename_i e he
    rw [he] at h
    cases h

theorem liftedState_get (s : GameState) (hwf : WellFormed s) (i : Nat)
    (hi : i < s.placedDominoes.length) (b : Position) (o : Orientation) (q : Position)
    (hq : InGrid q) :
    (liftedState s i b o).dominoGrid.get q.row q.col =
      if s.dominoGrid.get q.row q.col = (i : Int) then -1 else s.dominoGrid.get q.row q.col := by
  have hgetD : s.placedDominoes.getD i (DominoPiece.new 0 0) = s.placedDominoes.get ⟨i, hi⟩ := by
    simp [List.getD_eq_getElem?_getD, List.getElem?_eq_getElem hi]
  unfold liftedState
  rw [hgetD]
  exact lifted_facts s hwf i hi q hq

theorem liftedState_isGrid8 (s : GameState) (hwf : WellFormed s) (i : Nat) (b : Position)
    (o : Orientation) : IsGrid8 (liftedState s i b o).dominoGrid :=
  Grid.set_isGrid8 _ (Grid.set_isGrid8 _ hwf.dims _ _ _) _ _ _

/-- The loop of `updateDominoIds` over the two cells of one piece: it raises exactly when one
of the two cells is taken, and writes the index on both otherwise. -/
theorem updateDominoIds_cells_eq (k : Int) (p : DominoPiece) (g : Grid) :
    updateDominoIds.cells k (getDominoPositions p) g =
      if g.get p.position.row p.position.col ≠ -1 ∨
          g.get (secondCell p.position p.orientation).row
            (secondCell p.position p.orientation).col ≠ -1 then
        Except.error "Domino position conflict detected"
      else
        Except.ok ((g.set p.position.row p.position.col k).set
          (secondCell p.position p.orientation).row (secondCell p.position p.orientation).col k) := by
  rw [getDominoPositions_eq]
  simp only [updateDominoIds.cells]
  have hne : ¬ ((secondCell p.position p.orientation).row = p.position.row ∧
      (secondCell p.position p.orientation).col = p.position.col) := by
    intro h
    exact secondCell_ne p.position p.orientation (Position.eq_of_fields _ _ h)
  rw [Grid.get_set_of_ne _ _ _ _ _ _ hne]
  by_cases h1 : g.get p.position.row p.position.col ≠ -1
  · rw [if_pos h1, if_pos (Or.inl h1)]
  · rw [if_neg h1]
    by_cases h2 : g.get (secondCell p.position p.orientation).row
        (secondCell p.position p.orientation).col ≠ -1
    · rw [if_pos h2, if_pos (Or.inr h2)]
    · rw [if_neg h2, if_neg (by tauto)]

/-- The loop of `updateDominoIds` over the pieces: it raises exactly when a piece has a cell
that is taken in the starting grid, or two pieces of the list share a cell. -/
theorem updateDominoIds_pieces_raises (L : List DominoPiece)
    (hin : ∀ p ∈ L, ∀ y ∈ getDominoPositions p, InGrid y) :
    ∀ (k : Nat) (g : Grid), IsGrid8 g →
      (((∃ p ∈ L, ∃ q ∈ getDominoPositions p, g.get q.row q.col ≠ -1) ∨
          ¬ L.Pairwise (fun a b => ∀ x ∈ getDominoPositions a, x ∉ getDominoPositions b)) →
        updateDominoIds.pieces L k g = Except.error "Domino position conflict detected") ∧
      (¬ ((∃ p ∈ L, ∃ q ∈ getDominoPositions p, g.get q.row q.col ≠ -1) ∨
          ¬ L.Pairwise (fun a b => ∀ x ∈ getDominoPositions a, x ∉ getDominoPositions b)) →
        ∃ g1, updateDominoIds.pieces L k g = Except.ok g1) := by
  induction L with
  | nil =>
    intro k g _
    refine ⟨?_, fun _ => ⟨g, rfl⟩⟩
    rintro (⟨p, hp, _⟩ | h)
    · cases hp
    · exact absurd List.Pairwise.nil h
  | cons p rest ih =>
    intro k g hg
    have hinp := hin p (List.mem_cons_self _ _)
    have hrest : ∀ p ∈ rest, ∀ y ∈ getDominoPositions p, InGrid y :=
      fun r hr => hin r (List.mem_cons_of_mem _ hr)
    have hcells := getDominoPositions_eq p
    have hc1 : InGrid p.position := hinp _ (by rw [hcells]; simp)
    have hc2 : InGrid (secondCell p.position p.orientation) := hinp _ (by rw [hcells]; simp)
    simp only [updateDominoIds.pieces, updateDominoIds_cells_eq]
    by_cases htaken : g.get p.position.row p.position.col ≠ -1 ∨
        g.get (secondCell p.position p.orientation).row
          (secondCell p.position p.orientation).col ≠ -1
    · rw [if_pos htaken]
      refine ⟨fun _ => rfl, fun hn => absurd (Or.inl ?_) hn⟩
      rcases htaken with h | h
      · exact ⟨p, List.mem_cons_self _ _, _, by rw [hcells]; simp, h⟩
      · exact ⟨p, List.mem_cons_self _ _, _, by rw [hcells]; simp, h⟩
    · rw [if_neg htaken]
      simp only []
      have hg1 : IsGrid8 ((g.set p.position.row p.position.col (k : Int)).set
          (secondCell p.position p.orientation).row (secondCell p.position p.orientation).col
          (k : Int)) := Grid.set_isGrid8 _ (Grid.set_isGrid8 _ hg _ _ _) _ _ _
      have hget : ∀ q : Position, InGrid q →
          (((g.set p.position.row p.position.col (k : Int)).set
            (secondCell p.position p.orientation).row
            (secondCell p.position p.orientation).col (k : Int)).get q.row q.col ≠ -1 ↔
            (q ∈ getDominoPositions p ∨ g.get q.row q.col ≠ -1)) := by
        intro q hq
        rw [Grid.get_set2 g hg _ _ q _ hq, hcells]
        by_cases hq2 : q = p.position ∨ q = secondCell p.position p.orientation
        · rw [if_pos hq2]
          simp only [List.mem_cons, List.mem_singleton, List.not_mem_nil, or_false]
          constructor
          · intro _; exact Or.inl hq2
          · intro _; omega
        · rw [if_neg hq2]
          simp only [List.mem_cons, List.mem_singleton, List.not_mem_nil, or_false]
          tauto
      have key : ((∃ r ∈ rest, ∃ q ∈ getDominoPositions r,
            ((g.set p.position.row p.position.col (k : Int)).set
              (secondCell p.position p.orientation).row
              (secondCell p.position p.orientation).col (k : Int)).get q.row q.col ≠ -1) ∨
            ¬ rest.Pairwise
              (fun a b => ∀ x ∈ getDominoPositions a, x ∉ getDominoPositions b)) ↔
          ((∃ r ∈ p :: rest, ∃ q ∈ getDominoPositions r, g.get q.row q.col ≠ -1) ∨
            ¬ (p :: rest).Pairwise
              (fun a b => ∀ x ∈ getDominoPositions a, x ∉ getDominoPositions b)) := by
        have hpfree : ∀ q ∈ getDominoPositions p, g.get q.row q.col = -1 := by
          intro q hq
          rw [hcells] at hq
          simp only [List.mem_cons, List.mem_singleton, List.not_mem_nil, or_false] at hq
          rcases hq with e | e <;> rw [e] <;> by_contra hn
          · exact htaken (Or.inl hn)
          · exact htaken (Or.inr hn)
        rw [List.pairwise_cons]
        constructor
        · rintro (⟨r, hr, q, hq, hv⟩ | hnp)
          · rcases (hget q (hrest r hr q hq)).1 hv with hqp | hqg
            · right
              intro hpw
              exact hpw.1 r hr q hqp hq
            · exact Or.inl ⟨r, List.mem_cons_of_mem _ hr, q, hq, hqg⟩
          · right
            intro hpw
            exact hnp hpw.2
        · rintro (⟨r, hr, q, hq, hv⟩ | hnp)
          · rcases List.mem_cons.mp hr with e | hr1
            · rw [e] at hq
              exact absurd (hpfree q hq) hv
            · exact Or.inl ⟨r, hr1, q, hq, (hget q (hrest r hr1 q hq)).2 (Or.inr hv)⟩
          · by_cases hpr : rest.Pairwise
                (fun a b => ∀ x ∈ getDominoPositions a, x ∉ getDominoPositions b)
            · left
              have : ¬ ∀ a' ∈ rest, ∀ x ∈ getDominoPositions p, x ∉ getDominoPositions a' :=
                fun hall => hnp ⟨hall, hpr⟩
              push_neg at this
              obtain ⟨r, hr, x, hx, hxr⟩ := this
              exact ⟨r, hr, x, hxr, (hget x (hrest r hr x hxr)).2 (Or.inl hx)⟩
            · exact Or.inr hpr
      obtain ⟨ih1, ih2⟩ := ih hrest (k + 1) _ hg1
      exact ⟨fun h => ih1 (key.2 h), fun h => ih2 (fun h' => h (key.1 h'))⟩

/-- Two pieces of the list share a cell exactly when the list is not pairwise disjoint. -/
theorem shared_cell_iff (L : List DominoPiece) :
    (∃ (i j : Nat) (hi : i < L.length) (hj : j < L.length), i ≠ j ∧
        ∃ q, q ∈ getDominoPositions (L.get ⟨i, hi⟩) ∧ q ∈ getDominoPositions (L.get ⟨j, hj⟩)) ↔
      ¬ L.Pairwise (fun a b => ∀ x ∈ getDominoPositions a, x ∉ getDominoPositions b) := by
  rw [List.pairwise_iff_getElem]
  constructor
  · rintro ⟨i, j, hi, hj, hne, q, hq1, hq2⟩ hall
    rcases Nat.lt_or_gt_of_ne hne with hlt | hgt
    · exact hall i j hi hj hlt q hq1 hq2
    · exact hall j i hj hi hgt q hq2 hq1
  · intro h
    push_neg at h
    obtain ⟨i, j, hi, hj, hij, x, hx1, hx2⟩ := h
    exact ⟨i, j, hi, hj, by omega, x, hx1, hx2⟩

/-- On an id grid whose occupied cells hold indices of placed pieces, the helper of
`HintSystem` collects the same set as the neighbour loop of `calculateConstraintValue` run on
the live tiling. -/
theorem helperAdjacentDominoes_eq (dg : Grid) (n : Nat)
    (h1 : ∀ q : Position, InGrid q → dg.get q.row q.col ≠ -1 →
      0 ≤ dg.get q.row q.col ∧ dg.get q.row q.col < (n : Int)) (row col : Int) :
    helperAdjacentDominoes dg (n : Int) row col = adjacentDominoes dg row col := by
  unfold helperAdjacentDominoes adjacentDominoes
  apply List.foldl_ext
  intro acc d _
  by_cases h0 : d.1 = 0 ∧ d.2 = 0
  · simp only [h0, and_self, if_true]
  · simp only [h0, if_false]
    by_cases hb : row + d.1 ≥ 0 ∧ row + d.1 < GRID_SIZE ∧ col + d.2 ≥ 0 ∧ col + d.2 < GRID_SIZE
    · simp only [hb, and_self, if_true]
      by_cases hv : dg.get (row + d.1) (col + d.2) ≠ -1
      · have hq : InGrid { row := row + d.1, col := col + d.2 } := by
          unfold InGrid GRID_SIZE at *
          exact ⟨hb.1, hb.2.1, hb.2.2.1, hb.2.2.2⟩
        have := (h1 _ hq hv).2
        rw [if_pos ⟨hv, this⟩, if_pos hv]
      · rw [if_neg hv, if_neg (fun h => hv h.1)]
    · simp only [hb, if_false]

/-- On a consistent tiling whose pieces carry the sum of their pips, the helper of
`HintSystem` returns the neighbour-sum of the live tiling. -/
theorem calculateConstraintValueHelper_eq (s : GameState) (hwf : WellFormed s)
    (hsum : ∀ p ∈ s.placedDominoes, p.sum = p.value1 + p.value2) (row col : Int) :
    calculateConstraintValueHelper s row col =
      neighbourSum s.dominoGrid s.placedDominoes row col := by
  have h1 : ∀ q : Position, InGrid q → s.dominoGrid.get q.row q.col ≠ -1 →
      0 ≤ s.dominoGrid.get q.row q.col ∧
        s.dominoGrid.get q.row q.col < (s.placedDominoes.length : Int) :=
    fun q hq hv => ⟨(hwf.occupied q hq hv).1, (hwf.occupied q hq hv).2.1⟩
  rw [← computeConstraintSum_eq_neighbourSum _ _ h1 hsum]
  unfold calculateConstraintValueHelper computeConstraintSum
  rw [helperAdjacentDominoes_eq _ _ h1]

theorem generateNewGame_wellFormed (sh : Shuffles) (hsh : ValidShuffles sh) (s : GameState)
    (d : Difficulty) : WellFormed (generateNewGame sh s d).2 :=
  (emptyTiling_wellFormed (generateNewGame sh s d).2).of_fields
    (generateNewGame_tiling sh hsh s d).1 (generateNewGame_tiling sh hsh s d).2

theorem canProvideHint_generated (sh : Shuffles) (hsh : ValidShuffles sh) (s : GameState)
    (d : Difficulty) : HintSystem.default.canProvideHint (generateNewGame sh s d).2 = true := by
  unfold HintSystem.canProvideHint
  rw [generateNewGame_gameCompleted sh hsh]
  rfl

/-- The search loop of `getMostConstrainedHint` over a list of cells, from a running best
`(p0, m0)`: the value found is at least `m0` and at least the clue of every unoccupied cell of
the list; either nothing changed, or the cell found is the first unoccupied cell of the list
whose clue is the value found. -/
theorem mostConstrained_fold (s : GameState) (L : List Position) (p0 : Position) (m0 : Int) :
    m0 ≤ (L.foldl
      (fun best pos =>
        if s.grid.get pos.row pos.col > best.2 ∧ s.dominoGrid.get pos.row pos.col = -1 then
          (pos, s.grid.get pos.row pos.col)
        else best) (p0, m0)).2 ∧
    (∀ x ∈ L, s.dominoGrid.get x.row x.col = -1 →
      s.grid.get x.row x.col ≤ (L.foldl
        (fun best pos =>
          if s.grid.get pos.row pos.col > best.2 ∧ s.dominoGrid.get pos.row pos.col = -1 then
            (pos, s.grid.get pos.row pos.col)
          else best) (p0, m0)).2) ∧
    ((L.foldl
        (fun best pos =>
          if s.grid.get pos.row pos.col > best.2 ∧ s.dominoGrid.get pos.row pos.col = -1 then
            (pos, s.grid.get pos.row pos.col)
          else best) (p0, m0)) = (p0, m0) ∨
      ∃ p m pre post, (L.foldl
          (fun best pos =>
            if s.grid.get pos.row pos.col > best.2 ∧ s.dominoGrid.get pos.row pos.col = -1 then
              (pos, s.grid.get pos.row pos.col)
            else best) (p0, m0)) = (p, m) ∧ m0 < m ∧
        L = pre ++ p :: post ∧ s.dominoGrid.get p.row p.col = -1 ∧
        s.grid.get p.row p.col = m ∧
        ∀ x ∈ pre, s.dominoGrid.get x.row x.col = -1 → s.grid.get x.row x.col < m) := by
  induction L generalizing p0 m0 with
  | nil => exact ⟨le_refl _, fun x hx _ => absurd hx (List.not_mem_nil x), Or.inl rfl⟩
  | cons c rest ih =>
    rw [List.foldl_cons]
    by_cases hu : s.grid.get c.row c.col > m0 ∧ s.dominoGrid.get c.row c.col = -1
    · rw [if_pos hu]
      obtain ⟨a1, a2, a3⟩ := ih c (s.grid.get c.row c.col)
      refine ⟨by omega, ?_, Or.inr ?_⟩
      · intro x hx hfree
        rcases List.mem_cons.mp hx with e | hmem
        · rw [e]; exact a1
        · exact a2 x hmem hfree
      · rcases a3 with e | ⟨p, m, pre, post, e, hlt, hsplit, hfree, hval, hpre⟩
        · exact ⟨c, s.grid.get c.row c.col, [], rest, e, hu.1, rfl, hu.2, rfl,
            fun x hx _ => absurd hx (List.not_mem_nil x)⟩
        · refine ⟨p, m, c :: pre, post, e, by omega, by rw [hsplit]; rfl, hfree, hval, ?_⟩
          intro x hx hxf
          rcases List.mem_cons.mp hx with e1 | hmem
          · rw [e1]; exact hlt
          · exact hpre x hmem hxf
    · rw [if_neg hu]
      obtain ⟨a1, a2, a3⟩ := ih p0 m0
      refine ⟨a1, ?_, ?_⟩
      · intro x hx hfree
        rcases List.mem_cons.mp hx with e | hmem
        · rw [e]
          rw [e] at hfree
          have : ¬ s.grid.get c.row c.col > m0 := fun h => hu ⟨h, hfree⟩
          omega
        · exact a2 x hmem hfree
      · rcases a3 with e | ⟨p, m, pre, post, e, hlt, hsplit, hfree, hval, hpre⟩
        · exact Or.inl e
        · refine Or.inr ⟨p, m, c :: pre, post, e, hlt, by rw [hsplit]; rfl, hfree, hval, ?_⟩
          intro x hx hxf
          rcases List.mem_cons.mp hx with e1 | hmem
          · rw [e1]
            rw [e1] at hxf
            have : ¬ s.grid.get c.row c.col > m0 := fun h => hu ⟨h, hxf⟩
            omega
          · exact hpre x hmem hxf

theorem block_length (p : DominoPiece) : (block p).length = 6 := by
  unfold block; cases p.orientation <;> rfl

theorem block_nodup (p : DominoPiece) : (block p).Nodup := by
  obtain ⟨v1, v2, sm, ⟨r, c⟩, o, pl⟩ := p
  cases o <;>
    simp only [block, List.nodup_cons, List.mem_cons, List.mem_singleton, Position.mk.injEq,
      List.not_mem_nil, List.nodup_nil, or_false, and_true, not_or, true_and,
      not_false_eq_true] <;>
    omega

/-- A cell of the block of a piece lies at most one row below and one column right of a cell
of the piece. -/
theorem mem_block (p : DominoPiece) (x : Position) (hx : x ∈ block p) :
    ∃ y ∈ getDominoPositions p, (x.row = y.row ∨ x.row = y.row + 1) ∧
      (x.col = y.col ∨ x.col = y.col + 1) := by
  rw [getDominoPositions_eq]
  unfold block at hx
  unfold secondCell
  cases ho : p.orientation <;> rw [ho] at hx <;>
    simp only [List.mem_cons, List.mem_singleton, List.not_mem_nil, or_false] at hx <;>
    rcases hx with e | e | e | e | e | e <;> rw [e]
  · exact ⟨p.position, by simp, Or.inl rfl, Or.inl rfl⟩
  · exact ⟨p.position, by simp, Or.inl rfl, Or.inr rfl⟩
  · exact ⟨⟨p.position.row, p.position.col + 1⟩, by simp, Or.inl rfl, Or.inr (by ring)⟩
  · exact ⟨p.position, by simp, Or.inr rfl, Or.inl rfl⟩
  · exact ⟨p.position, by simp, Or.inr rfl, Or.inr rfl⟩
  · exact ⟨⟨p.position.row, p.position.col + 1⟩, by simp, Or.inr rfl, Or.inr (by ring)⟩
  · exact ⟨p.position, by simp, Or.inl rfl, Or.inl rfl⟩
  · exact ⟨p.position, by simp, Or.inl rfl, Or.inr rfl⟩
  · exact ⟨p.position, by simp, Or.inr rfl, Or.inl rfl⟩
  · exact ⟨p.position, by simp, Or.inr rfl, Or.inr rfl⟩
  · exact ⟨⟨p.position.row + 1, p.position.col⟩, by simp, Or.inr (by ring), Or.inl rfl⟩
  · exact ⟨⟨p.position.row + 1, p.position.col⟩, by simp, Or.inr (by ring), Or.inr rfl⟩

theorem mem_cells9 (x : Position) (h : 0 ≤ x.row ∧ x.row ≤ 8 ∧ 0 ≤ x.col ∧ x.col ≤ 8) :
    x ∈ cells9 := by
  unfold cells9
  rw [List.mem_flatMap]
  refine ⟨x.row.toNat, List.mem_range.mpr (by omega), ?_⟩
  rw [List.mem_map]
  refine ⟨x.col.toNat, List.mem_range.mpr (by omega), ?_⟩
  obtain ⟨r, c⟩ := x
  simp only [Position.mk.injEq]
  simp only at h
  constructor <;> omega

theorem cells9_length : cells9.length = 81 := by decide

/-- The blocks of two pieces that are apart share no cell. -/
theorem block_disjoint (a b : DominoPiece) (h : Apart a b) : List.Disjoint (block a) (block b) := by
  intro x hxa hxb
  obtain ⟨ya, hya, hra, hca⟩ := mem_block a x hxa
  obtain ⟨yb, hyb, hrb, hcb⟩ := mem_block b x hxb
  obtain ⟨hne, hnadj⟩ := h ya hya yb hyb
  apply hnadj
  unfold Adjacent
  refine ⟨hne, ?_, ?_, ?_, ?_⟩ <;> omega

/-- At most 13 pieces that are pairwise apart fit in the 8x8 grid: their blocks are disjoint
sets of six cells inside a square of 81 cells. -/
theorem apart_length_le (L : List DominoPiece)
    (hin : ∀ p ∈ L, ∀ y ∈ getDominoPositions p, InGrid y)
    (hap : L.Pairwise (fun a b => Apart a b)) : L.length ≤ 13 := by
  have hnd : (L.flatMap block).Nodup := by
    rw [List.nodup_flatMap]
    refine ⟨fun p _ => block_nodup p, ?_⟩
    exact hap.imp (fun {a b} h => block_disjoint a b h)
  have hsub : L.flatMap block ⊆ cells9 := by
    intro x hx
    rw [List.mem_flatMap] at hx
    obtain ⟨p, hp, hxp⟩ := hx
    obtain ⟨y, hy, hr, hc⟩ := mem_block p x hxp
    obtain ⟨h0, h1, h2, h3⟩ := hin p hp y hy
    exact mem_cells9 x (by omega)
  have hlen := (List.subperm_of_subset hnd hsub).length_le
  rw [cells9_length, List.length_flatMap] at hlen
  have hsum : (L.map (fun p => (block p).length)).sum = 6 * L.length := by
    simp only [block_length]
    rw [List.map_const', List.sum_replicate, smul_eq_mul, Nat.mul_comm]
  rw [show (List.map (List.length ∘ block) L) = L.map (fun p => (block p).length) from rfl,
    hsum] at hlen
  omega

theorem placeDomino_available (s : GameState) (d : DominoPiece) (pos : Position)
    (o : Orientation) : (placeDomino s d pos o).2.availableDominoes = s.availableDominoes := by
  cases hr : (placeDomino s d pos o).1 with
  | false => rw [placeDomino_false_state s d pos o hr]
  | true =>
    obtain ⟨_, _, c, v, comp, e⟩ := placeDomino_true s d pos o hr
    rw [e]; rfl

theorem removeDomino_available (s : GameState) (pos : Position) :
    (removeDomino s pos).2.availableDominoes = s.availableDominoes := by
  unfold removeDomino
  split
  · rfl
  · simp only []
    split
    · rfl
    · split
      · rfl
      · simp only [updateDominoIds]
        cases updateDominoIds.pieces (s.placedDominoes.eraseIdx _) 0 (Grid.fill (-1)) with
        | error e => rfl
        | ok g => rfl

theorem moveDomino_available (s : GameState) (a b : Position) (o : Orientation) :
    (moveDomino s a b o).2.availableDominoes = s.availableDominoes := by
  unfold moveDomino
  split
  · rfl
  · simp only []
    split
    · rfl
    · split
      · rename_i r heq
        split at heq
        · cases heq
        · cases heq; rfl
      · rfl

theorem applyDifficultySettings_available (sh : Shuffles) (s : GameState) :
    (applyDifficultySettings sh s).availableDominoes = s.availableDominoes := rfl

theorem generateConstraintGrid_available (s : GameState) :
    (generateConstraintGrid s).availableDominoes = s.availableDominoes := by
  obtain ⟨g, c, v, e⟩ := generateConstraintGrid_frame s
  rw [e]

theorem generateNewGame_available (sh : Shuffles) (hsh : ValidShuffles sh) (s : GameState)
    (d : Difficulty) :
    (generateNewGame sh s d).2.availableDominoes = generateAvailableDominoes := by
  rw [generateNewGame_eq sh hsh, applyDifficultySettings_available,
    generateConstraintGrid_available]
  rfl

/-- The invariant behind the bound of C36: the tiling is consistent, its pieces fit one
another, and the catalog is the one `initializeGame` builds. -/
theorem runGameCalls_tilingOK (sh : Shuffles) (hsh : ValidShuffles sh) (s : GameState)
    (hwf : WellFormed s) (hok : TilingOK s.grid s.placedDominoes)
    (hav : s.availableDominoes = generateAvailableDominoes) (calls : List GameCall) :
    WellFormed (runGameCalls sh s calls) ∧
      TilingOK (runGameCalls sh s calls).grid (runGameCalls sh s calls).placedDominoes ∧
      (runGameCalls sh s calls).availableDominoes = generateAvailableDominoes := by
  unfold runGameCalls
  induction calls generalizing s with
  | nil => exact ⟨hwf, hok, hav⟩
  | cons c rest ih =>
    rw [List.foldl_cons]
    cases c with
    | newGame d =>
      have ht := generateNewGame_tiling sh hsh s d
      refine ih _ (generateNewGame_wellFormed sh hsh s d) ?_
        (generateNewGame_available sh hsh s d)
      show TilingOK (generateNewGame sh s d).2.grid (generateNewGame sh s d).2.placedDominoes
      rw [ht.2]
      exact ⟨fun p hp => absurd hp (List.not_mem_nil p), List.Pairwise.nil⟩
    | tiling c =>
      obtain ⟨_, h1, h2, h3⟩ := applyCall_step s hwf c
      refine ih _ h1 ?_ ?_
      · show TilingOK (applyCall s c).2.grid (applyCall s c).2.placedDominoes
        rw [h2]
        exact tilingOK_step s.grid c _ _ hok h3
      · show (applyCall s c).2.availableDominoes = _
        rw [← hav]
        cases c with
        | place p pos o => exact placeDomino_available s p pos o
        | remove pos => exact removeDomino_available s pos
        | move a b o => exact moveDomino_available s a b o

/-- In every state reached from `initializeGame` at most 13 pieces are placed, and the catalog
holds 15. -/
theorem runGameCalls_count (sh : Shuffles) (hsh : ValidShuffles sh) (s : GameState)
    (calls : List GameCall) :
    (runGameCalls sh (initializeGame s) calls).placedDominoes.length ≤ 13 ∧
      (runGameCalls sh (initializeGame s) calls).availableDominoes.length = 15 := by
  have hwf : WellFormed (initializeGame s) := by
    rw [initializeGame_eq_emptyTiling]; exact emptyTiling_wellFormed _
  have hok : TilingOK (initializeGame s).grid (initializeGame s).placedDominoes :=
    ⟨fun p hp => absurd hp (List.not_mem_nil p), List.Pairwise.nil⟩
  obtain ⟨_, h2, h3⟩ := runGameCalls_tilingOK sh hsh (initializeGame s) hwf hok rfl calls
  refine ⟨apart_length_le _ (fun p hp y hy => (h2.1 p hp y hy).1) (h2.2.imp fun h => h.1), ?_⟩
  rw [h3]
  decide

theorem tryCandidatesCalls_fst (next : GameState → Bool × GameState)
    (nextc : GameState → (Bool × GameState) × Nat) (hn : ∀ s, (nextc s).1 = next s)
    (d : DominoPiece) (idx : Nat) (cands : List (Position × Orientation)) (s : GameState) :
    (tryCandidatesCalls nextc d idx cands s).1 = tryCandidates next d idx cands s := by
  induction cands generalizing s with
  | nil => rfl
  | cons c rest ih =>
    obtain ⟨pos, o⟩ := c
    unfold tryCandidatesCalls tryCandidates
    by_cases hcan : canPlaceDominoInSolution s d pos o = true
    · rw [if_pos hcan, if_pos hcan]
      dsimp only
      by_cases hchk : checkRowColumnUniquenessForPlacement
          (placeDominoInSolution s d pos o idx) pos o d = true
      · rw [if_pos hchk, if_pos hchk, hn]
        by_cases hr : (next (placeDominoInSolution s d pos o idx)).1 = true
        · rw [if_pos hr, if_pos hr]
        · rw [if_neg hr, if_neg hr]
          exact ih _
      · rw [if_neg hchk, if_neg hchk]
        exact ih _
    · rw [if_neg hcan, if_neg hcan]
      exact ih s

theorem tryCandidatesCalls_le (nextc : GameState → (Bool × GameState) × Nat) (B : Nat)
    (hn : ∀ s, (nextc s).2 ≤ B)
    (d : DominoPiece) (idx : Nat) (cands : List (Position × Orientation)) (s : GameState) :
    (tryCandidatesCalls nextc d idx cands s).2 ≤ cands.length * B := by
  induction cands generalizing s with
  | nil => exact Nat.zero_le _
  | cons c rest ih =>
    obtain ⟨pos, o⟩ := c
    have hlen : ((pos, o) :: rest).length * B = B + rest.length * B := by
      rw [List.length_cons, Nat.succ_mul, Nat.add_comm]
    rw [hlen]
    unfold tryCandidatesCalls
    by_cases hcan : canPlaceDominoInSolution s d pos o = true
    · rw [if_pos hcan]
      dsimp only
      by_cases hchk : checkRowColumnUniquenessForPlacement
          (placeDominoInSolution s d pos o idx) pos o d = true
      · rw [if_pos hchk]
        by_cases hr : (nextc (placeDominoInSolution s d pos o idx)).1.1 = true
        · rw [if_pos hr]
          exact Nat.le_trans (hn _) (Nat.le_add_right _ _)
        · rw [if_neg hr]
          exact Nat.add_le_add (hn _) (ih _)
      · rw [if_neg hchk]
        exact Nat.le_trans (ih _) (Nat.le_add_left _ _)
    · rw [if_neg hcan]
      exact Nat.le_trans (ih _) (Nat.le_add_left _ _)

theorem callBound_pos (m : Nat) : 1 ≤ callBound m := by
  cases m with
  | zero => exact Nat.le_refl _
  | succ m => unfold callBound; exact Nat.le_add_right _ _

theorem allCandidates_length : allCandidates.length = 128 := rfl

theorem backtrackSolutionCalls_fst (sh : Shuffles) (dominoes : List DominoPiece) (m : Nat) :
    ∀ (idx : Nat) (s : GameState), dominoes.length - idx = m →
      (backtrackSolutionCalls sh dominoes idx s).1 = backtrackSolution sh dominoes idx s := by
  induction m with
  | zero =>
    intro idx s h
    have hge : idx ≥ dominoes.length := by omega
    rw [backtrackSolutionCalls, backtrackSolution, dif_pos hge, dif_pos hge]
  | succ m ih =>
    intro idx s h
    have hn : ¬ (idx ≥ dominoes.length) := by omega
    rw [backtrackSolutionCalls, backtrackSolution, dif_neg hn, dif_neg hn]
    dsimp only
    exact tryCandidatesCalls_fst _ _ (fun s1 => ih (idx + 1) s1 (by omega)) _ _ _ _

theorem backtrackSolutionCalls_le (sh : Shuffles) (hsh : ValidShuffles sh)
    (dominoes : List DominoPiece) (m : Nat) :
    ∀ (idx : Nat) (s : GameState), dominoes.length - idx = m →
      (backtrackSolutionCalls sh dominoes idx s).2 ≤ callBound m := by
  induction m with
  | zero =>
    intro idx s h
    have hge : idx ≥ dominoes.length := by omega
    rw [backtrackSolutionCalls, dif_pos hge]
    exact Nat.le_refl _
  | succ m ih =>
    intro idx s h
    have hn : ¬ (idx ≥ dominoes.length) := by omega
    rw [backtrackSolutionCalls, dif_neg hn]
    dsimp only
    have hb := tryCandidatesCalls_le
      (fun s1 => backtrackSolutionCalls sh dominoes (idx + 1) s1) (callBound m)
      (fun s1 => ih (idx + 1) s1 (by omega))
      (dominoes.getD idx (DominoPiece.new 0 0)) idx (sh.cands s.rng allCandidates)
      { s with rng := s.rng + 1 }
    rw [(hsh.2.1 s.rng allCandidates).length_eq, allCandidates_length] at hb
    unfold callBound
    omega

theorem generateAttemptsCalls_le (sh : Shuffles) (n : Nat) (s : GameState) :
    generateAttemptsCalls sh n s ≤ n := by
  induction n generalizing s with
  | zero => exact Nat.le_refl _
  | succ n ih =>
    unfold generateAttemptsCalls
    dsimp only
    split
    · omega
    · have := ih (generateSolution sh (initializeGame s)).2
      omega

theorem scanAnchors_index_le (sd : List DominoPiece) (o : Orientation)
    (anchors : List Position) (acc : Nat × GameState) :
    (scanAnchors sd o anchors acc).1 ≤ acc.1 + anchors.length := by
  induction anchors generalizing acc with
  | nil => exact Nat.le_refl _
  | cons pos rest ih =>
    obtain ⟨i, s⟩ := acc
    unfold scanAnchors
    rw [List.length_cons]
    by_cases hi : i < sd.length
    · rw [if_pos hi]
      dsimp only
      by_cases hc : canPlaceDominoInSolution s (sd.getD i (DominoPiece.new 0 0)) pos o = true
      · rw [if_pos hc]
        have := ih (i + 1, placeDominoInSolution s (sd.getD i (DominoPiece.new 0 0)) pos o i)
        dsimp only at this ⊢
        omega
      · rw [if_neg hc]
        have := ih (i, s)
        dsimp only at this ⊢
        omega
    · rw [if_neg hi]
      dsimp only
      omega

theorem clearId_fold_isGrid8 (cells : List Position) (g : Grid) (hg : IsGrid8 g) (id : Int) :
    IsGrid8 (cells.foldl
      (fun g p => if g.get p.row p.col = id then g.set p.row p.col (-1) else g) g) := by
  induction cells generalizing g with
  | nil => exact hg
  | cons p rest ih =>
    rw [List.foldl_cons]
    apply ih
    split
    · exact Grid.set_isGrid8 _ hg _ _ _
    · exact hg

theorem clearId_fold_get (cells : List Position) (g : Grid) (hg : IsGrid8 g) (id : Int)
    (q : Position) (hq : InGrid q) :
    (cells.foldl
      (fun g p => if g.get p.row p.col = id then g.set p.row p.col (-1) else g) g).get
        q.row q.col =
      if q ∈ cells ∧ g.get q.row q.col = id then -1 else g.get q.row q.col := by
  induction cells generalizing g with
  | nil => simp
  | cons p rest ih =>
    rw [List.foldl_cons]
    by_cases hp : g.get p.row p.col = id
    · rw [if_pos hp, ih _ (Grid.set_isGrid8 _ hg _ _ _), Grid.get_set_cases g hg _ _ _ q hq]
      by_cases hqp : q.row = p.row ∧ q.col = p.col
      · have e : q = p := by
          obtain ⟨qr, qc⟩ := q
          obtain ⟨pr, pc⟩ := p
          simp only at hqp
          rw [hqp.1, hqp.2]
        subst e
        simp [hp]
      · have e : q ≠ p := fun h => hqp (by rw [h]; exact ⟨rfl, rfl⟩)
        simp [hqp, e]
    · rw [if_neg hp, ih _ hg]
      by_cases e : q = p
      · subst e
        simp [hp]
      · simp [e]

theorem clearId_isGrid8 (g : Grid) (hg : IsGrid8 g) (id : Int) :
    IsGrid8 (GameLogicCpp.clearId g id) :=
  clearId_fold_isGrid8 allCells g hg id

theorem clearId_get (g : Grid) (hg : IsGrid8 g) (id : Int) (q : Position) (hq : InGrid q) :
    (GameLogicCpp.clearId g id).get q.row q.col =
      if g.get q.row q.col = id then -1 else g.get q.row q.col := by
  unfold GameLogicCpp.clearId
  rw [clearId_fold_get allCells g hg id q hq]
  simp [(mem_allCells q).2 hq]

theorem find_eraseP_split {α : Type} (p : α → Bool) (l : List α) (a : α)
    (h : l.find? p = some a) :
    ∃ l1 l2, l = l1 ++ a :: l2 ∧ (∀ b ∈ l1, p b = false) ∧ p a = true ∧
      l.eraseP p = l1 ++ l2 := by
  induction l with
  | nil => simp at h
  | cons x rest ih =>
    by_cases hx : p x = true
    · rw [List.find?_cons_of_pos _ hx] at h
      cases h
      exact ⟨[], rest, rfl, fun b hb => absurd hb (List.not_mem_nil b), hx,
        by rw [List.eraseP_cons_of_pos hx]; rfl⟩
    · rw [List.find?_cons_of_neg _ hx] at h
      obtain ⟨l1, l2, e1, e2, e3, e4⟩ := ih h
      refine ⟨x :: l1, l2, by rw [e1]; rfl, ?_, e3, ?_⟩
      · intro b hb
        rcases List.mem_cons.1 hb with hb | hb
        · rw [hb]; simpa using hx
        · exact e2 b hb
      · rw [List.eraseP_cons_of_neg hx, e4]; rfl

/-- What `IsValidPlacement` tests: the second cell is inside the grid (to the right or below),
both cells are empty, and a shown number under a cell equals the pip value placed on it. -/
theorem IsValidPlacement_spec (s : GameLogicCpp.GameState) (row col : Int)
    (d : GameLogicCpp.Domino) (o : Orientation) :
    GameLogicCpp.IsValidPlacement s row col d o = true ↔
      (o = Orientation.HORIZONTAL → col + 1 < 8) ∧ (o = Orientation.VERTICAL → row + 1 < 8) ∧
        s.dominoGrid.get row col = -1 ∧
        s.dominoGrid.get (secondCell ⟨row, col⟩ o).row (secondCell ⟨row, col⟩ o).col = -1 ∧
        (s.gameGrid.get row col > 0 → s.gameGrid.get row col = d.value1) ∧
        (s.gameGrid.get (secondCell ⟨row, col⟩ o).row (secondCell ⟨row, col⟩ o).col > 0 →
          s.gameGrid.get (secondCell ⟨row, col⟩ o).row (secondCell ⟨row, col⟩ o).col =
            d.value2) := by
  cases o <;> simp only [GameLogicCpp.IsValidPlacement, secondCell] <;>
    (split_ifs <;> simp_all <;> omega)

theorem IsValidPlacement_second (s : GameLogicCpp.GameState) (row col : Int)
    (d : GameLogicCpp.Domino) (o : Orientation) (hq : InGrid ⟨row, col⟩)
    (h : GameLogicCpp.IsValidPlacement s row col d o = true) :
    InGrid (secondCell ⟨row, col⟩ o) := by
  have hs := (IsValidPlacement_spec s row col d o).1 h
  obtain ⟨h0, h1, h2, h3⟩ := hq
  simp only at h0 h1 h2 h3
  cases o
  · have := hs.1 rfl
    simp only [InGrid, secondCell]
    omega
  · have := hs.2.1 rfl
    simp only [InGrid, secondCell]
    omega

/-- `PlaceDomino` succeeds exactly when the selected index is in range and `IsValidPlacement`
accepts the selected piece; the state is then `logicPlaced`, otherwise it is unchanged. -/
theorem PlaceDomino_spec (s : GameLogicCpp.GameState) (row col : Int) :
    GameLogicCpp.PlaceDomino s row col =
      if 0 ≤ s.selectedDomino ∧ s.selectedDomino < (s.availableDominoes.length : Int) ∧
          GameLogicCpp.IsValidPlacement s row col
            (s.availableDominoes.getD s.selectedDomino.toNat ⟨0, 0, Orientation.HORIZONTAL⟩)
            s.currentOrientation = true
      then (true, logicPlaced s row col) else (false, s) := by
  unfold GameLogicCpp.PlaceDomino
  by_cases hr : s.selectedDomino < 0 ∨ s.selectedDomino ≥ (s.availableDominoes.length : Int)
  · rw [if_pos hr, if_neg (by omega)]
  · rw [if_neg hr]
    dsimp only
    by_cases hv : GameLogicCpp.IsValidPlacement s row col
        (s.availableDominoes.getD s.selectedDomino.toNat ⟨0, 0, Orientation.HORIZONTAL⟩)
        s.currentOrientation = true
    · have hs := (IsValidPlacement_spec s row col _ _).1 hv
      have hcond : 0 ≤ s.selectedDomino ∧ s.selectedDomino < (s.availableDominoes.length : Int) ∧
          GameLogicCpp.IsValidPlacement s row col
            (s.availableDominoes.getD s.selectedDomino.toNat ⟨0, 0, Orientation.HORIZONTAL⟩)
            s.currentOrientation = true := ⟨by omega, by omega, hv⟩
      rw [if_neg (by rw [hv]; decide), if_pos hcond]
      simp only [GameLogicCpp.GetNextAvailableDominoId]
      cases ho : s.currentOrientation
      · have hc := hs.1 ho
        have hn : ¬ (col + 1 ≥ 8) := by omega
        simp only [if_neg hn, logicPlaced, ho, secondCell]
      · have hc := hs.2.1 ho
        have hn : ¬ (row + 1 ≥ 8) := by omega
        simp only [if_neg hn, logicPlaced, ho, secondCell]
    · have hf : GameLogicCpp.IsValidPlacement s row col
          (s.availableDominoes.getD s.selectedDomino.toNat ⟨0, 0, Orientation.HORIZONTAL⟩)
          s.currentOrientation = false := by
        cases hb : GameLogicCpp.IsValidPlacement s row col
          (s.availableDominoes.getD s.selectedDomino.toNat ⟨0, 0, Orientation.HORIZONTAL⟩)
          s.currentOrientation
        · rfl
        · exact absurd hb hv
      rw [if_pos hf, if_neg (fun h => hv h.2.2)]

theorem RemoveDomino_spec (s : GameLogicCpp.GameState) (row col : Int)
    (h : (GameLogicCpp.RemoveDomino s row col).1 = true) :
    s.dominoGrid.get row col ≠ -1 ∧
      ∃ l1 it l2, s.placedDominoes = l1 ++ it :: l2 ∧
        (∀ b ∈ l1, b.id ≠ s.dominoGrid.get row col) ∧ it.id = s.dominoGrid.get row col ∧
        GameLogicCpp.RemoveDomino s row col =
          (true, { s with
            dominoGrid := GameLogicCpp.clearId s.dominoGrid (s.dominoGrid.get row col)
            availableDominoes := s.availableDominoes ++ [it.domino]
            placedDominoes := l1 ++ l2 }) := by
  unfold GameLogicCpp.RemoveDomino at h ⊢
  dsimp only at h ⊢
  by_cases hid : s.dominoGrid.get row col = -1
  · rw [if_pos hid] at h
    cases h
  · rw [if_neg hid] at h ⊢
    refine ⟨hid, ?_⟩
    cases hf : s.placedDominoes.find? (fun pd => decide (pd.id = s.dominoGrid.get row col)) with
    | none =>
      rw [hf] at h
      cases h
    | some it =>
      obtain ⟨l1, l2, e1, e2, e3, e4⟩ := find_eraseP_split _ _ _ hf
      refine ⟨l1, it, l2, e1, ?_, by simpa using e3, ?_⟩
      · intro b hb
        simpa using e2 b hb
      · simp only [e4]

theorem RemoveDomino_false (s : GameLogicCpp.GameState) (row col : Int)
    (h : (GameLogicCpp.RemoveDomino s row col).1 = false) :
    GameLogicCpp.RemoveDomino s row col = (false, s) := by
  unfold GameLogicCpp.RemoveDomino at h ⊢
  dsimp only at h ⊢
  by_cases hid : s.dominoGrid.get row col = -1
  · rw [if_pos hid]
  · rw [if_neg hid] at h ⊢
    cases hf : s.placedDominoes.find? (fun pd => decide (pd.id = s.dominoGrid.get row col)) with
    | none => rfl
    | some it =>
      rw [hf] at h
      cases h

theorem logicInv_empty (s : GameLogicCpp.GameState) (hc : 0 ≤ s.nextId)
    (hg : s.dominoGrid = Grid.fill (-1)) (hp : s.placedDominoes = []) : LogicInv s where
  dims := by rw [hg]; exact Grid.fill_isGrid8 _
  counter := hc
  cellsBelow := by
    intro q hq
    rw [hg, Grid.get_fill _ _ _ hq.1 hq.2.1 hq.2.2.1 hq.2.2.2]
    omega
  ids := by rw [hp]; intro pd h; exact absurd h (List.not_mem_nil pd)
  distinct := by rw [hp]; exact List.Pairwise.nil
  inGrid := by rw [hp]; intro pd h; exact absurd h (List.not_mem_nil pd)
  cells := by rw [hp]; intro pd h; exact absurd h (List.not_mem_nil pd)

theorem GeneratePuzzle_fields (sh : Nat → List GameLogicCpp.Domino → List GameLogicCpp.Domino)
    (s : GameLogicCpp.GameState) (d : Difficulty) :
    (GameLogicCpp.GeneratePuzzle sh s d).2.dominoGrid = Grid.fill (-1) ∧
      (GameLogicCpp.GeneratePuzzle sh s d).2.placedDominoes = [] ∧
      (GameLogicCpp.GeneratePuzzle sh s d).2.nextId = s.nextId ∧
      (GameLogicCpp.GeneratePuzzle sh s d).2.gameGrid = Grid.fill 0 := by
  cases d
  · simp only [GameLogicCpp.GeneratePuzzle, GameLogicCpp.CreateEasyPuzzle]
    split <;> exact ⟨rfl, rfl, rfl, rfl⟩
  · simp only [GameLogicCpp.GeneratePuzzle, GameLogicCpp.CreateMediumPuzzle]
    split <;> exact ⟨rfl, rfl, rfl, rfl⟩
  · simp only [GameLogicCpp.GeneratePuzzle, GameLogicCpp.CreateHardPuzzle]
    split <;> exact ⟨rfl, rfl, rfl, rfl⟩

theorem logicInv_placed (s : GameLogicCpp.GameState) (h : LogicInv s) (row col : Int)
    (hq : InGrid ⟨row, col⟩)
    (hv : GameLogicCpp.IsValidPlacement s row col
      (s.availableDominoes.getD s.selectedDomino.toNat ⟨0, 0, Orientation.HORIZONTAL⟩)
      s.currentOrientation = true) :
    LogicInv (logicPlaced s row col) := by
  have hq2 := IsValidPlacement_second s row col _ _ hq hv
  have hs := (IsValidPlacement_spec s row col _ _).1 hv
  have he1 : s.dominoGrid.get row col = -1 := hs.2.2.1
  have he2 := hs.2.2.2.1
  have hget : ∀ q : Position, InGrid q →
      (logicPlaced s row col).dominoGrid.get q.row q.col =
        if q = ⟨row, col⟩ ∨ q = secondCell ⟨row, col⟩ s.currentOrientation then s.nextId + 1
        else s.dominoGrid.get q.row q.col := fun q hqq =>
    Grid.get_set2 s.dominoGrid h.dims ⟨row, col⟩ (secondCell ⟨row, col⟩ s.currentOrientation) q
      (s.nextId + 1) hqq
  have hc := h.counter
  have hempty : ∀ q : Position, (q = ⟨row, col⟩ ∨ q = secondCell ⟨row, col⟩ s.currentOrientation) →
      s.dominoGrid.get q.row q.col = -1 := by
    intro q hqq
    rcases hqq with e | e
    · rw [e]; exact he1
    · rw [e]; exact he2
  refine ⟨?_, ?_, ?_, ?_, ?_, ?_, ?_⟩
  · exact Grid.set_isGrid8 _ (Grid.set_isGrid8 _ h.dims _ _ _) _ _ _
  · show 0 ≤ s.nextId + 1
    omega
  · intro q hqq
    rw [hget q hqq]
    show _ ≤ s.nextId + 1
    have := h.cellsBelow q hqq
    split <;> omega
  · intro pd hpd
    show 1 ≤ pd.id ∧ pd.id ≤ s.nextId + 1
    rcases List.mem_append.1 hpd with hpd | hpd
    · have := h.ids pd hpd
      omega
    · rw [List.mem_singleton.1 hpd]
      dsimp only
      omega
  · show (s.placedDominoes ++ _).Pairwise _
    rw [List.pairwise_append]
    refine ⟨h.distinct, List.pairwise_singleton _ _, ?_⟩
    intro a ha b hb
    rw [List.mem_singleton.1 hb]
    have := h.ids a ha
    dsimp only
    omega
  · intro pd hpd q hqq
    rcases List.mem_append.1 hpd with hpd | hpd
    · exact h.inGrid pd hpd q hqq
    · rw [List.mem_singleton.1 hpd] at hqq
      simp only [placedCells, List.mem_cons, List.mem_singleton, List.not_mem_nil, or_false] at hqq
      rcases hqq with e | e
      · rw [e]; exact hq
      · rw [e]; exact hq2
  · intro pd hpd q hqq
    rw [hget q hqq]
    rcases List.mem_append.1 hpd with hpd | hpd
    · have hid := h.ids pd hpd
      by_cases hc2 : q = ⟨row, col⟩ ∨ q = secondCell ⟨row, col⟩ s.currentOrientation
      · rw [if_pos hc2]
        constructor
        · intro e
          omega
        · intro hm
          have := (h.cells pd hpd q hqq).2 hm
          rw [hempty q hc2] at this
          omega
      · rw [if_neg hc2]
        exact h.cells pd hpd q hqq
    · rw [List.mem_singleton.1 hpd]
      simp only [placedCells, List.mem_cons, List.mem_singleton, List.not_mem_nil, or_false]
      by_cases hc2 : q = ⟨row, col⟩ ∨ q = secondCell ⟨row, col⟩ s.currentOrientation
      · rw [if_pos hc2]
        exact ⟨fun _ => hc2, fun _ => rfl⟩
      · rw [if_neg hc2]
        have := h.cellsBelow q hqq
        constructor
        · intro e
          omega
        · intro hm
          exact absurd hm hc2

theorem logicInv_select (s : GameLogicCpp.GameState) (h : LogicInv s) (sel : Int)
    (o : Orientation) : LogicInv { s with selectedDomino := sel, currentOrientation := o } :=
  ⟨h.dims, h.counter, h.cellsBelow, h.ids, h.distinct, h.inGrid, h.cells⟩

theorem logicInv_place (s : GameLogicCpp.GameState) (h : LogicInv s) (row col : Int)
    (hq : InGrid ⟨row, col⟩) : LogicInv (GameLogicCpp.PlaceDomino s row col).2 := by
  rw [PlaceDomino_spec]
  split
  · rename_i hc
    exact logicInv_placed s h row col hq hc.2.2
  · exact h

theorem logicInv_remove (s : GameLogicCpp.GameState) (h : LogicInv s) (row col : Int) :
    LogicInv (GameLogicCpp.RemoveDomino s row col).2 := by
  cases hr : (GameLogicCpp.RemoveDomino s row col).1
  · rw [RemoveDomino_false s row col hr]
    exact h
  · obtain ⟨hid, l1, it, l2, e1, e2, e3, e4⟩ := RemoveDomino_spec s row col hr
    rw [e4]
    have hsub : ∀ pd, pd ∈ l1 ++ l2 → pd ∈ s.placedDominoes := by
      intro pd hpd
      rw [e1]
      rcases List.mem_append.1 hpd with hpd | hpd
      · exact List.mem_append_left _ hpd
      · exact List.mem_append_right _ (List.mem_cons_of_mem _ hpd)
    have hdist := h.distinct
    rw [e1, List.pairwise_append, List.pairwise_cons] at hdist
    have hne : ∀ pd, pd ∈ l1 ++ l2 → pd.id ≠ s.dominoGrid.get row col := by
      intro pd hpd
      rcases List.mem_append.1 hpd with hpd | hpd
      · exact e2 pd hpd
      · rw [← e3]
        exact fun e => hdist.2.1.1 pd hpd e.symm
    have hget := clearId_get s.dominoGrid h.dims (s.dominoGrid.get row col)
    have hgd := clearId_isGrid8 s.dominoGrid h.dims (s.dominoGrid.get row col)
    have hc := h.counter
    generalize GameLogicCpp.clearId s.dominoGrid (s.dominoGrid.get row col) = g at hget hgd ⊢
    refine ⟨hgd, h.counter, ?_, ?_, ?_, ?_, ?_⟩
    · intro q hqq
      show g.get q.row q.col ≤ s.nextId
      rw [hget q hqq]
      have := h.cellsBelow q hqq
      split <;> omega
    · intro pd hpd
      exact h.ids pd (hsub pd hpd)
    · show (l1 ++ l2).Pairwise _
      rw [List.pairwise_append]
      exact ⟨hdist.1, hdist.2.1.2, fun a ha b hb => hdist.2.2 a ha b (List.mem_cons_of_mem _ hb)⟩
    · intro pd hpd
      exact h.inGrid pd (hsub pd hpd)
    · intro pd hpd q hqq
      show g.get q.row q.col = _ ↔ _
      rw [hget q hqq]
      have hid2 := h.ids pd (hsub pd hpd)
      have hcell := h.cells pd (hsub pd hpd) q hqq
      by_cases hc2 : s.dominoGrid.get q.row q.col = s.dominoGrid.get row col
      · rw [if_pos hc2]
        constructor
        · intro e
          omega
        · intro hm
          exact absurd (hcell.2 hm).symm (fun e => hne pd hpd (e.trans hc2))
      · rw [if_neg hc2]
        exact hcell

theorem logicInv_new : LogicInv GameLogicCpp.GameState.new :=
  logicInv_empty _ (Int.le_refl 0) rfl rfl

theorem logicInv_apply (sh : Nat → List GameLogicCpp.Domino → List GameLogicCpp.Domino)
    (s : GameLogicCpp.GameState) (h : LogicInv s) (c : LogicCall) (hc : c.OnBoard) :
    LogicInv (applyLogicCall sh s c) := by
  cases c with
  | reset => exact logicInv_empty _ h.counter rfl rfl
  | generate d =>
    have hf := GeneratePuzzle_fields sh s d
    exact logicInv_empty (GameLogicCpp.GeneratePuzzle sh s d).2
      (by rw [hf.2.2.1]; exact h.counter) hf.1 hf.2.1
  | place sel o row col => exact logicInv_place _ (logicInv_select s h sel o) row col hc
  | remove row col => exact logicInv_remove s h row col

theorem logicInv_run (sh : Nat → List GameLogicCpp.Domino → List GameLogicCpp.Domino)
    (calls : List LogicCall) (s : GameLogicCpp.GameState) (h : LogicInv s)
    (hc : ∀ c ∈ calls, c.OnBoard) : LogicInv (runLogicCalls sh s calls) := by
  induction calls generalizing s with
  | nil => exact h
  | cons c rest ih =>
    exact ih _ (logicInv_apply sh s h c (hc c (List.mem_cons_self _ _)))
      (fun c1 h1 => hc c1 (List.mem_cons_of_mem _ h1))

set_option maxRecDepth 1000000 in
theorem logicSample_state :
    (runLogicCalls logicIdShuffle GameLogicCpp.GameState.new logicSampleCalls).placedDominoes =
        [{ domino := ⟨0, 0, Orientation.HORIZONTAL⟩, row := 0, col := 0,
           orientation := Orientation.HORIZONTAL, id := 1 },
         { domino := ⟨0, 1, Orientation.HORIZONTAL⟩, row := 1, col := 0,
           orientation := Orientation.HORIZONTAL, id := 2 }] ∧
      (runLogicCalls logicIdShuffle GameLogicCpp.GameState.new logicSampleCalls).dominoGrid.get
        0 0 = 1 ∧
      (runLogicCalls logicIdShuffle GameLogicCpp.GameState.new logicSampleCalls).dominoGrid.get
        1 0 = 2 := by
  decide

theorem logicSampleCalls_onBoard : ∀ c ∈ logicSampleCalls, c.OnBoard := by
  decide

theorem perm_getD_eraseIdx {α : Type} (l : List α) (i : Nat) (d : α) (h : i < l.length) :
    l.Perm (l.getD i d :: l.eraseIdx i) := by
  induction l generalizing i with
  | nil => simp at h
  | cons x rest ih =>
    cases i with
    | zero => exact List.Perm.refl _
    | succ i =>
      have h1 : i < rest.length := by simpa using h
      have e : (x :: rest).getD (i + 1) d = rest.getD i d := by simp
      rw [e, List.eraseIdx_cons_succ]
      exact ((ih i h1).cons x).trans (List.Perm.swap _ _ _)

theorem pipPairs_placed (s : GameLogicCpp.GameState) (row col : Int)
    (h0 : 0 ≤ s.selectedDomino) (h1 : s.selectedDomino < (s.availableDominoes.length : Int)) :
    (pipPairs (logicPlaced s row col)).Perm (pipPairs s) := by
  unfold pipPairs logicPlaced
  apply List.Perm.map
  dsimp only
  have hi : s.selectedDomino.toNat < s.availableDominoes.length := by omega
  have hp := perm_getD_eraseIdx s.availableDominoes s.selectedDomino.toNat
    ⟨0, 0, Orientation.HORIZONTAL⟩ hi
  rw [List.map_append, List.map_singleton, ← List.append_assoc]
  refine List.Perm.trans ?_ (List.Perm.append_right _ hp.symm)
  rw [List.cons_append]
  refine (List.perm_append_comm).trans ?_
  exact List.Perm.refl _

theorem pipPairs_place (s : GameLogicCpp.GameState) (row col : Int) :
    (pipPairs (GameLogicCpp.PlaceDomino s row col).2).Perm (pipPairs s) := by
  rw [PlaceDomino_spec]
  split
  · rename_i hc
    exact pipPairs_placed s row col hc.1 hc.2.1
  · exact List.Perm.refl _

theorem pipPairs_remove (s : GameLogicCpp.GameState) (row col : Int) :
    (pipPairs (GameLogicCpp.RemoveDomino s row col).2).Perm (pipPairs s) := by
  cases hr : (GameLogicCpp.RemoveDomino s row col).1
  · rw [RemoveDomino_false s row col hr]
  · obtain ⟨_, l1, it, l2, e1, _, _, e4⟩ := RemoveDomino_spec s row col hr
    rw [e4]
    unfold pipPairs
    apply List.Perm.map
    dsimp only
    rw [e1, List.map_append, List.map_append, List.map_cons, List.append_assoc]
    apply List.Perm.append_left
    rw [List.singleton_append]
    exact List.perm_middle.symm

theorem pipPairs_moves (sh : Nat → List GameLogicCpp.Domino → List GameLogicCpp.Domino)
    (moves : List LogicCall) (s : GameLogicCpp.GameState) (hm : ∀ c ∈ moves, c.IsMove) :
    (pipPairs (runLogicCalls sh s moves)).Perm (pipPairs s) := by
  induction moves generalizing s with
  | nil => exact List.Perm.refl _
  | cons c rest ih =>
    refine (ih (applyLogicCall sh s c) (fun c1 h1 => hm c1 (List.mem_cons_of_mem _ h1))).trans ?_
    have hc := hm c (List.mem_cons_self _ _)
    cases c with
    | reset => exact absurd hc (by simp [LogicCall.IsMove])
    | generate d => exact absurd hc (by simp [LogicCall.IsMove])
    | place sel o row col =>
      exact pipPairs_place { s with selectedDomino := sel, currentOrientation := o } row col
    | remove row col => exact pipPairs_remove s row col

theorem isMove_onBoard (c : LogicCall) (h : c.IsMove) : c.OnBoard := by
  cases c with
  | reset => exact trivial
  | generate d => exact trivial
  | place sel o row col => exact h
  | remove row col => exact h

/-- In a state that satisfies the tiling invariant, `RemoveDomino` on the cell of a successful
`PlaceDomino` takes the new domino off again. -/
theorem place_then_remove (s : GameLogicCpp.GameState) (h : LogicInv s) (row col : Int)
    (hq : InGrid ⟨row, col⟩) (hp : (GameLogicCpp.PlaceDomino s row col).1 = true) :
    (GameLogicCpp.RemoveDomino (GameLogicCpp.PlaceDomino s row col).2 row col).1 = true ∧
      (GameLogicCpp.RemoveDomino (GameLogicCpp.PlaceDomino s row col).2 row col).2.dominoGrid =
        s.dominoGrid ∧
      (GameLogicCpp.RemoveDomino (GameLogicCpp.PlaceDomino s row col).2 row col).2.placedDominoes =
        s.placedDominoes ∧
      (GameLogicCpp.RemoveDomino (GameLogicCpp.PlaceDomino s row col).2 row
          col).2.availableDominoes =
        s.availableDominoes.eraseIdx s.selectedDomino.toNat ++
          [s.availableDominoes.getD s.selectedDomino.toNat ⟨0, 0, Orientation.HORIZONTAL⟩] := by
  rw [PlaceDomino_spec] at hp ⊢
  by_cases hc : 0 ≤ s.selectedDomino ∧ s.selectedDomino < (s.availableDominoes.length : Int) ∧
      GameLogicCpp.IsValidPlacement s row col
        (s.availableDominoes.getD s.selectedDomino.toNat ⟨0, 0, Orientation.HORIZONTAL⟩)
        s.currentOrientation = true
  · rw [if_pos hc]
    dsimp only
    have hv := hc.2.2
    have hq2 := IsValidPlacement_second s row col _ _ hq hv
    have hs := (IsValidPlacement_spec s row col _ _).1 hv
    have he1 : s.dominoGrid.get row col = -1 := hs.2.2.1
    have he2 := hs.2.2.2.1
    have hget : ∀ q : Position, InGrid q →
        (logicPlaced s row col).dominoGrid.get q.row q.col =
          if q = ⟨row, col⟩ ∨ q = secondCell ⟨row, col⟩ s.currentOrientation then s.nextId + 1
          else s.dominoGrid.get q.row q.col := fun q hqq =>
      Grid.get_set2 s.dominoGrid h.dims ⟨row, col⟩ (secondCell ⟨row, col⟩ s.currentOrientation)
        q (s.nextId + 1) hqq
    have hcnt := h.counter
    have hid : (logicPlaced s row col).dominoGrid.get row col = s.nextId + 1 := by
      have := hget ⟨row, col⟩ hq
      rw [if_pos (Or.inl rfl)] at this
      exact this
    have hdims : IsGrid8 (logicPlaced s row col).dominoGrid :=
      Grid.set_isGrid8 _ (Grid.set_isGrid8 _ h.dims _ _ _) _ _ _
    have hplaced : (logicPlaced s row col).placedDominoes = s.placedDominoes ++
        [{ domino := s.availableDominoes.getD s.selectedDomino.toNat
              ⟨0, 0, Orientation.HORIZONTAL⟩,
           row := row, col := col, orientation := s.currentOrientation,
           id := s.nextId + 1 }] := rfl
    have havail : (logicPlaced s row col).availableDominoes =
        s.availableDominoes.eraseIdx s.selectedDomino.toNat := rfl
    have hold : ∀ b ∈ s.placedDominoes,
        ¬ (fun pd : GameLogicCpp.PlacedDomino => decide (pd.id = s.nextId + 1)) b = true := by
      intro b hb
      have := h.ids b hb
      simp only [decide_eq_true_eq]
      omega
    have hclear : GameLogicCpp.clearId (logicPlaced s row col).dominoGrid (s.nextId + 1) =
        s.dominoGrid := by
      apply Grid.ext8 _ _ (clearId_isGrid8 _ hdims _) h.dims
      intro r c h0 h1 h2 h3
      have hqq : InGrid ⟨r, c⟩ := ⟨h0, h1, h2, h3⟩
      have e := clearId_get _ hdims (s.nextId + 1) ⟨r, c⟩ hqq
      have e2 := hget ⟨r, c⟩ hqq
      dsimp only at e e2
      rw [e, e2]
      by_cases hc2 : (⟨r, c⟩ : Position) = ⟨row, col⟩ ∨
          (⟨r, c⟩ : Position) = secondCell ⟨row, col⟩ s.currentOrientation
      · rw [if_pos hc2, if_pos rfl]
        rcases hc2 with e3 | e3
        · have e4 : r = row ∧ c = col := by simpa using e3
          rw [e4.1, e4.2, he1]
        · have e4 : s.dominoGrid.get (⟨r, c⟩ : Position).row (⟨r, c⟩ : Position).col = -1 := by
            rw [e3]; exact he2
          exact e4.symm
      · rw [if_neg hc2]
        have := h.cellsBelow ⟨r, c⟩ hqq
        dsimp only at this
        rw [if_neg (by omega)]
    generalize hL : logicPlaced s row col = t at hid hplaced havail hclear
    unfold GameLogicCpp.RemoveDomino
    dsimp only
    rw [hid, if_neg (by omega), hplaced, List.find?_append,
      List.find?_eq_none.2 hold, List.eraseP_append_right _ hold]
    simp only [List.find?_cons_of_pos, decide_True, Option.none_or, List.eraseP_cons_of_pos,
      List.append_nil, hclear, havail, true_and]
  · rw [if_neg hc] at hp
    cases hp

theorem logicGame_inv (sh : Nat → List GameLogicCpp.Domino → List GameLogicCpp.Domino)
    (calls : List LogicCall) (d : Difficulty) (moves : List LogicCall)
    (hc : ∀ c ∈ calls, c.OnBoard) (hm : ∀ c ∈ moves, c.IsMove) :
    LogicInv (logicGame sh calls d moves) := by
  unfold logicGame
  refine logicInv_run sh moves _ ?_ (fun c h => isMove_onBoard c (hm c h))
  exact logicInv_apply sh _ (logicInv_run sh calls _ logicInv_new hc) (LogicCall.generate d)
    trivial

theorem logicSampleMoves_isMove : ∀ c ∈ logicSampleMoves, c.IsMove := by
  decide

/-- C1: in a state whose occupied cells hold the index of the covering piece, `canPlaceDomino`
returns true exactly when both target cells are inside the grid, both are unoccupied, neither
holds a shown clue, no other in-grid cell adjacent (by edge or corner) to a target cell is
occupied, and no pip value of the piece equals a pip value of a placed piece that occupies a
cell of a row or column containing a target cell. -/
theorem canPlaceDomino_iff (s : GameState) (hwf : OccupiedCellsIndexed s) (d : DominoPiece)
    (pos : Position) (o : Orientation) :
    canPlaceDomino s d pos o = true ↔ PlacementAllowed s d pos o :=
  canPlaceDomino_spec s hwf d pos o

/-- Witness of C1: with (1,2) placed at the corner, the rule decides the piece (3,4) at the
cell (2,0). -/
theorem canPlaceDomino_iff_witness :
    OccupiedCellsIndexed onePieceState ∧
      (canPlaceDomino onePieceState (DominoPiece.new 3 4) { row := 2, col := 0 }
          Orientation.HORIZONTAL = true ↔
        PlacementAllowed onePieceState (DominoPiece.new 3 4) { row := 2, col := 0 }
          Orientation.HORIZONTAL) :=
  ⟨onePieceState_occupied,
    canPlaceDomino_iff onePieceState onePieceState_occupied (DominoPiece.new 3 4)
      { row := 2, col := 0 } Orientation.HORIZONTAL⟩

/-- C2: from a well-formed state, a successful `placeDomino(d, c, o)` followed by
`removeDomino(c)` returns true and restores `dominoGrid`, `placedDominoes` and the clue grid. -/
theorem place_then_remove_restores (s : GameState) (hwf : WellFormed s) (d : DominoPiece)
    (c : Position) (o : Orientation) (h : (placeDomino s d c o).1 = true) :
    (removeDomino (placeDomino s d c o).2 c).1 = Except.ok true ∧
      (removeDomino (placeDomino s d c o).2 c).2.dominoGrid = s.dominoGrid ∧
      (removeDomino (placeDomino s d c o).2 c).2.placedDominoes = s.placedDominoes ∧
      (removeDomino (placeDomino s d c o).2 c).2.grid = s.grid := by
  obtain ⟨hcan, _, cache, valid, completed, hst⟩ := placeDomino_true s d c o h
  obtain ⟨hc, hc2, he1, he2⟩ := canPlaceDomino_true_cells s d c o hcan
  rw [hst]
  have hvalid : c.isValidForGrid GRID_SIZE = true := (isValidForGrid_iff c).2 hc
  have hne : ¬ (c.row = (secondCell c o).row ∧ c.col = (secondCell c o).col) := by
    intro hh
    apply secondCell_ne c o
    cases hs : secondCell c o
    obtain ⟨cr, cc⟩ := c
    rw [hs] at hh; simp only at hh
    rw [hh.1, hh.2]
  have hid : ((s.dominoGrid.set c.row c.col (s.placedDominoes.length : Int)).set
      (secondCell c o).row (secondCell c o).col (s.placedDominoes.length : Int)).get c.row c.col
      = (s.placedDominoes.length : Int) := by
    rw [Grid.get_set_of_ne _ _ _ _ _ _ hne,
      Grid.get_set_same _ hwf.dims _ _ _ hc.1 hc.2.1 hc.2.2.1 hc.2.2.2]
  have hfind : findCovering c (s.placedDominoes ++ [placedCopy d c o]) 0 =
      some s.placedDominoes.length := by
    rw [findCovering_append c s.placedDominoes (placedCopy d c o) 0]
    · simp
    · intro q hq hmem
      obtain ⟨i, hi, rfl⟩ := List.getElem_of_mem hq
      have := (hwf.pieces i hi c hmem).2
      rw [he1] at this
      omega
    · rw [getDominoPositions_placedCopy]; simp
  have herase : (s.placedDominoes ++ [placedCopy d c o]).eraseIdx s.placedDominoes.length =
      s.placedDominoes := by
    rw [List.eraseIdx_append_of_length_le (Nat.le_refl _)]
    simp
  unfold removeDomino
  simp only [hvalid, Bool.not_true, Bool.false_eq_true, if_false, placedState, hid, hfind, herase]
  have hnm : ¬ ((s.placedDominoes.length : Int) = -1) := by omega
  rw [if_neg hnm]
  rw [updateDominoIds_wellFormed s hwf]
  · exact ⟨rfl, rfl, rfl, rfl⟩
  · rfl

/-- Witness of C2: on a new game, placing (1,2) at the corner and removing it again. -/
theorem place_then_remove_restores_witness :
    WellFormed newGame ∧
      (placeDomino newGame (DominoPiece.new 1 2) { row := 0, col := 0 }
        Orientation.HORIZONTAL).1 = true ∧
      (removeDomino (placeDomino newGame (DominoPiece.new 1 2) { row := 0, col := 0 }
        Orientation.HORIZONTAL).2 { row := 0, col := 0 }).1 = Except.ok true ∧
      (removeDomino (placeDomino newGame (DominoPiece.new 1 2) { row := 0, col := 0 }
        Orientation.HORIZONTAL).2 { row := 0, col := 0 }).2.dominoGrid = newGame.dominoGrid ∧
      (removeDomino (placeDomino newGame (DominoPiece.new 1 2) { row := 0, col := 0 }
        Orientation.HORIZONTAL).2 { row := 0, col := 0 }).2.placedDominoes =
          newGame.placedDominoes ∧
      (removeDomino (placeDomino newGame (DominoPiece.new 1 2) { row := 0, col := 0 }
        Orientation.HORIZONTAL).2 { row := 0, col := 0 }).2.grid = newGame.grid :=
  ⟨newGame_wellFormed, by decide,
    place_then_remove_restores newGame newGame_wellFormed (DominoPiece.new 1 2)
      { row := 0, col := 0 } Orientation.HORIZONTAL (by decide)⟩

/-- C3: from a well-formed state `moveDomino` never leaves through an exception, and when it
returns false `dominoGrid`, `placedDominoes` and the clue grid are what they were before. -/
theorem moveDomino_false_restores (s : GameState) (hwf : WellFormed s)
    (fromPosition toPosition : Position) (newOrientation : Orientation) :
    (∃ b, (moveDomino s fromPosition toPosition newOrientation).1 = Except.ok b) ∧
      ((moveDomino s fromPosition toPosition newOrientation).1 = Except.ok false →
        (moveDomino s fromPosition toPosition newOrientation).2.dominoGrid = s.dominoGrid ∧
        (moveDomino s fromPosition toPosition newOrientation).2.placedDominoes =
          s.placedDominoes ∧
        (moveDomino s fromPosition toPosition newOrientation).2.grid = s.grid) :=
  moveDomino_spec s hwf fromPosition toPosition newOrientation

/-- Witness of C3: moving the piece at the corner onto the cell (7,7), whose right neighbour
is outside the grid, fails and changes nothing. -/
theorem moveDomino_false_restores_witness :
    WellFormed onePieceState ∧
      (moveDomino onePieceState { row := 0, col := 0 } { row := 7, col := 7 }
        Orientation.HORIZONTAL).1 = Except.ok false ∧
      (moveDomino onePieceState { row := 0, col := 0 } { row := 7, col := 7 }
        Orientation.HORIZONTAL).2.dominoGrid = onePieceState.dominoGrid ∧
      (moveDomino onePieceState { row := 0, col := 0 } { row := 7, col := 7 }
        Orientation.HORIZONTAL).2.placedDominoes = onePieceState.placedDominoes ∧
      (moveDomino onePieceState { row := 0, col := 0 } { row := 7, col := 7 }
        Orientation.HORIZONTAL).2.grid = onePieceState.grid :=
  ⟨onePieceState_wellFormed, rfl,
    (moveDomino_false_restores onePieceState onePieceState_wellFormed { row := 0, col := 0 }
      { row := 7, col := 7 } Orientation.HORIZONTAL).2 rfl⟩

/-- C4: whenever `placeDomino` or `removeDomino` returns false, for any state and any
arguments, the whole game state (including `gameCompleted` and the constraint cache) is the
state before the call. -/
theorem failed_mutation_leaves_state (s : GameState) (d : DominoPiece) (pos : Position)
    (o : Orientation) :
    ((placeDomino s d pos o).1 = false → (placeDomino s d pos o).2 = s) ∧
      ((removeDomino s pos).1 = Except.ok false → (removeDomino s pos).2 = s) :=
  ⟨placeDomino_false_state s d pos o, removeDomino_false_state s pos⟩

/-- Witness of C4: on the state with (1,2) placed, placing (3,4) on the occupied corner is
refused and removing from the empty cell (5,5) is refused; the state is unchanged. -/
theorem failed_mutation_leaves_state_witness :
    ((placeDomino onePieceState (DominoPiece.new 3 4) { row := 0, col := 0 }
        Orientation.VERTICAL).1 = false ∧
      (placeDomino onePieceState (DominoPiece.new 3 4) { row := 0, col := 0 }
        Orientation.VERTICAL).2 = onePieceState) ∧
    ((removeDomino onePieceState { row := 5, col := 5 }).1 = Except.ok false ∧
      (removeDomino onePieceState { row := 5, col := 5 }).2 = onePieceState) :=
  ⟨⟨by decide,
      (failed_mutation_leaves_state onePieceState (DominoPiece.new 3 4) { row := 0, col := 0 }
        Orientation.VERTICAL).1 (by decide)⟩,
    ⟨rfl,
      (failed_mutation_leaves_state onePieceState (DominoPiece.new 3 4) { row := 5, col := 5 }
        Orientation.VERTICAL).2 rfl⟩⟩

/-- C5: if `placedDominoes` already holds a piece with the canonical form of `d`,
`placeDomino(d, cell, orientation)` returns false for every cell and orientation and leaves
the state unchanged. -/
theorem placeDomino_rejects_placed_piece (s : GameState) (d : DominoPiece) (pos : Position)
    (o : Orientation)
    (h : ∃ p ∈ s.placedDominoes, p.getCanonicalForm = d.getCanonicalForm) :
    placeDomino s d pos o = (false, s) := by
  obtain ⟨p, hp, hc⟩ := h
  exact placeDomino_placed_false s d pos o ⟨p, hp, opEq_of_canonical p d hc⟩

/-- Witness of C5: with (1,2) placed, the piece (2,1) is refused at the free cell (4,4). -/
theorem placeDomino_rejects_placed_piece_witness :
    (∃ p ∈ onePieceState.placedDominoes,
        p.getCanonicalForm = (DominoPiece.new 2 1).getCanonicalForm) ∧
      placeDomino onePieceState (DominoPiece.new 2 1) { row := 4, col := 4 }
        Orientation.HORIZONTAL = (false, onePieceState) :=
  ⟨by decide,
    placeDomino_rejects_placed_piece onePieceState (DominoPiece.new 2 1) { row := 4, col := 4 }
      Orientation.HORIZONTAL (by decide)⟩

set_option maxRecDepth 100000 in
/-- C7 (defect): with shuffles that leave every order, `generateNewGame` returns true and the
stored solution has the pip value 1 three times in row 0 (pieces (1,2), (1,3), (1,4)). -/
theorem generateNewGame_accepts_duplicate_pips :
    (generateNewGame idShuffles newGame Difficulty.EASY).1 = true ∧
      ¬ PipsUnique (generateNewGame idShuffles newGame Difficulty.EASY).2.solutionGrid
        (generateNewGame idShuffles newGame Difficulty.EASY).2.solutionDominoes := by
  obtain ⟨h1, h2, h3⟩ := generateNewGame_solution idShuffles idShuffles_valid newGame
    Difficulty.EASY
  refine ⟨h1, ?_⟩
  rw [h2, h3]
  intro h
  have := (h 0 (by decide)).1
  revert this
  decide

set_option maxRecDepth 100000 in
/-- Counterexample to C8 as stated: with shuffles that leave every order `generateNewGame`
returns true, yet not every catalog piece occupies two cells of `solutionGrid`: the piece
(5,6) occupies none. -/
theorem generated_solution_misses_pieces :
    ¬ ((generateNewGame idShuffles newGame Difficulty.EASY).1 = true →
      ∀ p ∈ generateAvailableDominoes,
        cellCount (generateNewGame idShuffles newGame Difficulty.EASY).2.solutionGrid
          (generateNewGame idShuffles newGame Difficulty.EASY).2.solutionDominoes p = 2) := by
  obtain ⟨h1, h2, h3⟩ := generateNewGame_solution idShuffles idShuffles_valid newGame
    Difficulty.EASY
  intro h
  have := h h1 (DominoPiece.new 5 6) (by decide)
  rw [h2, h3] at this
  revert this
  decide

/-- C8 as amended: for every difficulty and every outcome of the shuffles, when
`generateNewGame` returns true every piece of the 15-piece catalog occupies exactly two cells
of `solutionGrid` or none (it appears at most once), and more than ten catalog pieces occupy
two cells. -/
theorem generated_solution_catalog_cells (sh : Shuffles) (hsh : ValidShuffles sh)
    (s : GameState) (d : Difficulty) (_h : (generateNewGame sh s d).1 = true) :
    (∀ p ∈ generateAvailableDominoes,
      cellCount (generateNewGame sh s d).2.solutionGrid
          (generateNewGame sh s d).2.solutionDominoes p = 2 ∨
        cellCount (generateNewGame sh s d).2.solutionGrid
          (generateNewGame sh s d).2.solutionDominoes p = 0) ∧
      10 < generateAvailableDominoes.countP
        (fun p => decide (cellCount (generateNewGame sh s d).2.solutionGrid
          (generateNewGame sh s d).2.solutionDominoes p = 2)) := by
  obtain ⟨_, hsg, hsd⟩ := generateNewGame_solution sh hsh s d
  rw [hsg, hsd]
  exact fallback_catalog_cells _ (hsh.1 _ _)

/-- Witness of the amended C8: a new game generated on EASY with shuffles that leave every
order. -/
theorem generated_solution_catalog_cells_witness :
    ValidShuffles idShuffles ∧ (generateNewGame idShuffles newGame Difficulty.EASY).1 = true ∧
      (∀ p ∈ generateAvailableDominoes,
        cellCount (generateNewGame idShuffles newGame Difficulty.EASY).2.solutionGrid
            (generateNewGame idShuffles newGame Difficulty.EASY).2.solutionDominoes p = 2 ∨
          cellCount (generateNewGame idShuffles newGame Difficulty.EASY).2.solutionGrid
            (generateNewGame idShuffles newGame Difficulty.EASY).2.solutionDominoes p = 0) ∧
      10 < generateAvailableDominoes.countP
        (fun p => decide (cellCount
          (generateNewGame idShuffles newGame Difficulty.EASY).2.solutionGrid
          (generateNewGame idShuffles newGame Difficulty.EASY).2.solutionDominoes p = 2)) :=
  ⟨idShuffles_valid, (generateNewGame_solution idShuffles idShuffles_valid newGame _).1,
    generated_solution_catalog_cells idShuffles idShuffles_valid newGame Difficulty.EASY
      (generateNewGame_solution idShuffles idShuffles_valid newGame _).1⟩

/-- C9: for every difficulty and every outcome of the shuffles, when `generateNewGame` returns
true no two distinct solution pieces occupy cells of `solutionGrid` that share an edge or a
corner. -/
theorem generated_solution_nonadjacent (sh : Shuffles) (hsh : ValidShuffles sh) (s : GameState)
    (d : Difficulty) (_h : (generateNewGame sh s d).1 = true) :
    SolutionNonAdjacent (generateNewGame sh s d).2.solutionGrid := by
  rw [(generateNewGame_solution sh hsh s d).2.1]
  exact fallbackGrid_nonAdjacent

/-- Witness of C9: a new game generated on EASY with shuffles that leave every order. -/
theorem generated_solution_nonadjacent_witness :
    ValidShuffles idShuffles ∧ (generateNewGame idShuffles newGame Difficulty.EASY).1 = true ∧
      SolutionNonAdjacent (generateNewGame idShuffles newGame Difficulty.EASY).2.solutionGrid :=
  ⟨idShuffles_valid, (generateNewGame_solution idShuffles idShuffles_valid newGame _).1,
    generated_solution_nonadjacent idShuffles idShuffles_valid newGame Difficulty.EASY
      (generateNewGame_solution idShuffles idShuffles_valid newGame _).1⟩

/-- C10: after a `generateNewGame` that returns true, every cell whose clue is nonzero holds
the sum of the pip-sums of the distinct solution pieces on its in-grid neighbours, recomputed
from `solutionGrid` and `solutionDominoes`. -/
theorem generated_clues_match_solution (sh : Shuffles) (hsh : ValidShuffles sh) (s : GameState)
    (d : Difficulty) (_h : (generateNewGame sh s d).1 = true) (q : Position) (hq : InGrid q)
    (hne : (generateNewGame sh s d).2.grid.get q.row q.col ≠ 0) :
    (generateNewGame sh s d).2.grid.get q.row q.col =
      neighbourSum (generateNewGame sh s d).2.solutionGrid
        (generateNewGame sh s d).2.solutionDominoes q.row q.col := by
  rcases generateNewGame_clues sh hsh s d q hq with h | h
  · exact absurd h hne
  · exact h

set_option maxRecDepth 100000 in
/-- Witness of C10: with shuffles that leave every order, the clue left at the cell (3,2) is
nonzero and equals the recomputed neighbour-sum. -/
theorem generated_clues_match_solution_witness :
    ValidShuffles idShuffles ∧
      (generateNewGame idShuffles newGame Difficulty.EASY).1 = true ∧
      InGrid { row := 3, col := 2 } ∧
      (generateNewGame idShuffles newGame Difficulty.EASY).2.grid.get 3 2 ≠ 0 ∧
      (generateNewGame idShuffles newGame Difficulty.EASY).2.grid.get 3 2 =
        neighbourSum (generateNewGame idShuffles newGame Difficulty.EASY).2.solutionGrid
          (generateNewGame idShuffles newGame Difficulty.EASY).2.solutionDominoes 3 2 :=
  ⟨idShuffles_valid, (generateNewGame_solution idShuffles idShuffles_valid newGame _).1,
    by decide,
    by rw [generateNewGame_eq idShuffles idShuffles_valid]; decide,
    generated_clues_match_solution idShuffles idShuffles_valid newGame Difficulty.EASY
      (generateNewGame_solution idShuffles idShuffles_valid newGame _).1 { row := 3, col := 2 }
      (by decide) (by rw [generateNewGame_eq idShuffles idShuffles_valid]; decide)⟩

/-- C11: for every 8x8 clue grid (non-negative entries), every difficulty and every shuffle
outcome, the cells `applyDifficultySettings` turns from nonzero to zero number `min k n`, with
`n` the number of nonzero clues and `k` = 10, 16, 21 for EASY, MEDIUM, HARD; every cell whose
value changes held a nonzero clue and now holds 0 (all other cells keep their value); on EASY
with at least 10 clues exactly 10 are removed. -/
theorem applyDifficultySettings_zeroes (sh : Shuffles) (hsh : ValidShuffles sh) (s : GameState)
    (hg : ClueGrid s.grid) :
    allCells.countP (fun q => decide (s.grid.get q.row q.col ≠ 0 ∧
        (applyDifficultySettings sh s).grid.get q.row q.col = 0)) =
      min (hideCount s.currentDifficulty)
        (allCells.countP fun q => decide (s.grid.get q.row q.col ≠ 0)) ∧
    (∀ q : Position, InGrid q →
      (applyDifficultySettings sh s).grid.get q.row q.col ≠ s.grid.get q.row q.col →
        s.grid.get q.row q.col ≠ 0 ∧ (applyDifficultySettings sh s).grid.get q.row q.col = 0) ∧
    (s.currentDifficulty = Difficulty.EASY →
      10 ≤ (allCells.countP fun q => decide (s.grid.get q.row q.col ≠ 0)) →
      allCells.countP (fun q => decide (s.grid.get q.row q.col ≠ 0 ∧
        (applyDifficultySettings sh s).grid.get q.row q.col = 0)) = 10) := by
  obtain ⟨h1, h2⟩ := applyDifficultySettings_spec sh hsh s hg
  refine ⟨h1, h2, ?_⟩
  intro hd hn
  rw [h1, hd]
  exact Nat.min_eq_left hn

set_option maxRecDepth 100000 in
/-- Witness of C11: the clue grid derived from the fallback solution, on EASY, holds at least
ten clues and loses exactly ten. -/
theorem applyDifficultySettings_zeroes_witness :
    ValidShuffles idShuffles ∧ ClueGrid clueState.grid ∧
      clueState.currentDifficulty = Difficulty.EASY ∧
      10 ≤ (allCells.countP fun q => decide (clueState.grid.get q.row q.col ≠ 0)) ∧
      allCells.countP (fun q => decide (clueState.grid.get q.row q.col ≠ 0 ∧
        (applyDifficultySettings idShuffles clueState).grid.get q.row q.col = 0)) = 10 :=
  ⟨idShuffles_valid, clueState_clueGrid, by decide, by decide,
    (applyDifficultySettings_zeroes idShuffles idShuffles_valid clueState
      clueState_clueGrid).2.2 (by decide) (by decide)⟩

/-- C12: after `generateConstraintGrid` (entered, as at both call sites, with the cache
invalidated, on a solution whose ids index `solutionDominoes` and whose pieces carry the sum
of their pips) every cell the solution leaves empty holds the sum of the pip-sums of the
distinct piece ids on its in-grid neighbours, and every covered cell holds 0; the solution
itself is unchanged. -/
theorem generateConstraintGrid_clues (s : GameState) (hcache : s.cacheValid = false)
    (hids : ∀ q : Position, InGrid q → s.solutionGrid.get q.row q.col ≠ -1 →
      0 ≤ s.solutionGrid.get q.row q.col ∧
        s.solutionGrid.get q.row q.col < (s.solutionDominoes.length : Int))
    (hsum : ∀ p ∈ s.solutionDominoes, p.sum = p.value1 + p.value2) (q : Position)
    (hq : InGrid q) :
    (generateConstraintGrid s).solutionGrid = s.solutionGrid ∧
      (generateConstraintGrid s).solutionDominoes = s.solutionDominoes ∧
      (generateConstraintGrid s).grid.get q.row q.col =
        if s.solutionGrid.get q.row q.col = -1 then
          neighbourSum s.solutionGrid s.solutionDominoes q.row q.col
        else 0 :=
  generateConstraintGrid_spec s hcache hids hsum q hq

/-- Witness of C12: the fallback solution of a new game at the empty cell (3,2) and at the
covered cell (0,0). -/
theorem generateConstraintGrid_clues_witness :
    (fallbackSolution idShuffles newGame).cacheValid = false ∧
      clueState.grid.get 3 2 =
        neighbourSum (fallbackSolution idShuffles newGame).solutionGrid
          (fallbackSolution idShuffles newGame).solutionDominoes 3 2 ∧
      clueState.grid.get 0 0 = 0 :=
  ⟨rfl,
    (generateConstraintGrid_clues (fallbackSolution idShuffles newGame) rfl
      (fun p hp hne => by
        have h := fallbackGrid_ids p hp hne
        have hl := fallbackPieces_length idShuffles idShuffles_valid newGame.rng
        exact ⟨h.1, by
          show fallbackGrid.get p.row p.col <
            ((fallbackPieces (idShuffles.pieces newGame.rng generateAvailableDominoes)).length :
              Int)
          rw [hl]; simpa using h.2⟩)
      (fallbackPieces_sum idShuffles idShuffles_valid newGame.rng)
      { row := 3, col := 2 } (by decide)).2.2,
    (generateConstraintGrid_clues (fallbackSolution idShuffles newGame) rfl
      (fun p hp hne => by
        have h := fallbackGrid_ids p hp hne
        have hl := fallbackPieces_length idShuffles idShuffles_valid newGame.rng
        exact ⟨h.1, by
          show fallbackGrid.get p.row p.col <
            ((fallbackPieces (idShuffles.pieces newGame.rng generateAvailableDominoes)).length :
              Int)
          rw [hl]; simpa using h.2⟩)
      (fallbackPieces_sum idShuffles idShuffles_valid newGame.rng)
      { row := 0, col := 0 } (by decide)).2.2⟩


/-- C20: the standard catalog of both engine variants, `DominoPiece::createStandardSet`
(whatever the value of the id counter it starts from) and
`DominoGame::generateAvailableDominoes`, lists exactly the 15 pip pairs (a,b) with
1 <= a < b <= 6 in ascending lexicographic order; neither function has a random input. -/
theorem standard_catalog (nextId : Int) :
    (DominoPieceH.createStandardSet nextId).1.map DominoPieceH.pips =
        [(1, 2), (1, 3), (1, 4), (1, 5), (1, 6), (2, 3), (2, 4), (2, 5), (2, 6), (3, 4),
         (3, 5), (3, 6), (4, 5), (4, 6), (5, 6)] ∧
      generateAvailableDominoes.map (fun p => (p.value1, p.value2)) =
        [(1, 2), (1, 3), (1, 4), (1, 5), (1, 6), (2, 3), (2, 4), (2, 5), (2, 6), (3, 4),
         (3, 5), (3, 6), (4, 5), (4, 6), (5, 6)] ∧
      generateAvailableDominoes =
        [DominoPiece.new 1 2, DominoPiece.new 1 3, DominoPiece.new 1 4, DominoPiece.new 1 5,
         DominoPiece.new 1 6, DominoPiece.new 2 3, DominoPiece.new 2 4, DominoPiece.new 2 5,
         DominoPiece.new 2 6, DominoPiece.new 3 4, DominoPiece.new 3 5, DominoPiece.new 3 6,
         DominoPiece.new 4 5, DominoPiece.new 4 6, DominoPiece.new 5 6] ∧
      (∀ a b : Int, (a, b) ∈ (DominoPieceH.createStandardSet nextId).1.map DominoPieceH.pips ↔
        1 ≤ a ∧ a < b ∧ b ≤ 6) ∧
      (∀ a b : Int, (a, b) ∈ generateAvailableDominoes.map (fun p => (p.value1, p.value2)) ↔
        1 ≤ a ∧ a < b ∧ b ≤ 6) := by
  refine ⟨createStandardSet_pips nextId, generateAvailableDominoes_pips, by decide, ?_, ?_⟩
  · intro a b
    have h := mem_standard_pairs a b
    rwa [← createStandardSet_pips nextId] at h
  · intro a b
    have h := mem_standard_pairs a b
    rwa [← generateAvailableDominoes_pips] at h

/-- C13: in every state reached from `initializeGame` by calls of `placeDomino`,
`removeDomino` and `moveDomino` (any arguments, in any order) the tiling is well formed: the
two cells of every placed piece are inside the grid, distinct pieces share no cell,
`dominoGrid[r][c] = i` exactly when (r,c) is a cell of `placedDominoes[i]`, so the ids are the
contiguous indices of the pieces present (also after a removal), and a cell of no piece holds
-1. No call made in such a state raises. -/
theorem tiling_wellFormed_invariant (s : GameState) (calls : List Call) :
    WellFormed (runCalls (initializeGame s) calls) ∧
    (∀ c : Call, ∃ b, (applyCall (runCalls (initializeGame s) calls) c).1 = Except.ok b) ∧
    (∀ (i : Nat) (h : i < (runCalls (initializeGame s) calls).placedDominoes.length),
      ∀ pos ∈ getDominoPositions ((runCalls (initializeGame s) calls).placedDominoes.get ⟨i, h⟩),
        InGrid pos) ∧
    (∀ (i j : Nat) (hi : i < (runCalls (initializeGame s) calls).placedDominoes.length)
      (hj : j < (runCalls (initializeGame s) calls).placedDominoes.length), i ≠ j →
      ∀ pos ∈ getDominoPositions ((runCalls (initializeGame s) calls).placedDominoes.get ⟨i, hi⟩),
        pos ∉ getDominoPositions
          ((runCalls (initializeGame s) calls).placedDominoes.get ⟨j, hj⟩)) ∧
    (∀ q : Position, InGrid q → ∀ i : Nat,
      ((runCalls (initializeGame s) calls).dominoGrid.get q.row q.col = (i : Int) ↔
        ∃ h : i < (runCalls (initializeGame s) calls).placedDominoes.length,
          q ∈ getDominoPositions
            ((runCalls (initializeGame s) calls).placedDominoes.get ⟨i, h⟩))) ∧
    (∀ q : Position, InGrid q →
      ((runCalls (initializeGame s) calls).dominoGrid.get q.row q.col = -1 ↔
        ∀ p ∈ (runCalls (initializeGame s) calls).placedDominoes,
          q ∉ getDominoPositions p)) := by
  have hwf := (runCalls_inv (initializeGame s) (emptyTiling_wellFormed (initializeGame s))
    (emptyTiling_ok (initializeGame s)) calls).1
  obtain ⟨h1, h2, h3, h4⟩ := hwf.consistent
  exact ⟨hwf, fun c => (applyCall_step _ hwf c).1, h1, h2, h3, h4⟩

/-- C14: in every state reached from an empty tiling (any clue grid, any catalog) by calls of
`placeDomino`, `removeDomino` and `moveDomino` with any pieces and arguments, no cell of a
placed piece is edge- or corner-adjacent to a cell of another placed piece; on the id grid:
two occupied adjacent cells hold the same piece index. -/
theorem tiling_nonadjacent (s : GameState) (calls : List Call) :
    (∀ (i j : Nat) (hi : i < (runCalls (emptyTiling s) calls).placedDominoes.length)
      (hj : j < (runCalls (emptyTiling s) calls).placedDominoes.length), i ≠ j →
      ∀ x ∈ getDominoPositions ((runCalls (emptyTiling s) calls).placedDominoes.get ⟨i, hi⟩),
        ∀ y ∈ getDominoPositions ((runCalls (emptyTiling s) calls).placedDominoes.get ⟨j, hj⟩),
          ¬ Adjacent x y) ∧
      SolutionNonAdjacent (runCalls (emptyTiling s) calls).dominoGrid := by
  obtain ⟨hwf, _, hok⟩ := runCalls_inv (emptyTiling s) (emptyTiling_wellFormed s)
    (emptyTiling_ok s) calls
  exact nonAdjacent_of_apart hwf hok.2

/-- C15: in every state reached from an empty tiling by calls of `placeDomino`, `removeDomino`
and `moveDomino` in which every placed piece has two different pip values (as every piece of
the standard catalog has), each row and each column holds every pip value at most once over the
distinct placed pieces that occupy a cell of it. -/
theorem tiling_pips_unique (s : GameState) (calls : List Call)
    (hcalls : PlacesCatalogLike calls) :
    PipsUnique (runCalls (emptyTiling s) calls).dominoGrid
      (runCalls (emptyTiling s) calls).placedDominoes := by
  obtain ⟨hwf, _, hok⟩ := runCalls_inv (emptyTiling s) (emptyTiling_wellFormed s)
    (emptyTiling_ok s) calls
  exact pipsUnique_of_apart hwf hok.2
    (runCalls_values (emptyTiling s) (emptyTiling_wellFormed s)
      (fun p hp => absurd hp (List.not_mem_nil p)) calls hcalls)

set_option maxRecDepth 100000 in
/-- Witness of C15: a session of two placements, a move and a removal on a new game. -/
theorem tiling_pips_unique_witness :
    PlacesCatalogLike sampleCalls ∧
      (runCalls (emptyTiling newGame) sampleCalls).placedDominoes.length = 1 ∧
      PipsUnique (runCalls (emptyTiling newGame) sampleCalls).dominoGrid
        (runCalls (emptyTiling newGame) sampleCalls).placedDominoes :=
  ⟨by decide, by decide, tiling_pips_unique newGame sampleCalls (by decide)⟩

/-- C16: in every state reached from a newly generated puzzle by calls of `placeDomino`,
`removeDomino` and `moveDomino`, the clue grid is the generated one, no cell is both a shown
clue (grid value > 0) and occupied (`dominoGrid` not -1), and a further call of any of the
three leaves the clue grid as it is. -/
theorem clue_cells_stay_free (sh : Shuffles) (hsh : ValidShuffles sh) (s : GameState)
    (d : Difficulty) (calls : List Call) :
    (runCalls (generateNewGame sh s d).2 calls).grid = (generateNewGame sh s d).2.grid ∧
      (∀ q : Position, InGrid q →
        ¬ ((runCalls (generateNewGame sh s d).2 calls).grid.get q.row q.col > 0 ∧
          (runCalls (generateNewGame sh s d).2 calls).dominoGrid.get q.row q.col ≠ -1)) ∧
      (∀ c : Call, (applyCall (runCalls (generateNewGame sh s d).2 calls) c).2.grid =
        (runCalls (generateNewGame sh s d).2 calls).grid) := by
  obtain ⟨h1, h2⟩ := generateNewGame_tiling sh hsh s d
  have hwf0 : WellFormed (generateNewGame sh s d).2 :=
    (emptyTiling_wellFormed (generateNewGame sh s d).2).of_fields h1 h2
  have hok0 : TilingOK (generateNewGame sh s d).2.grid
      (generateNewGame sh s d).2.placedDominoes := by
    rw [h2]
    exact ⟨fun p hp => absurd hp (List.not_mem_nil p), List.Pairwise.nil⟩
  obtain ⟨hwf, hgrid, hok⟩ := runCalls_inv _ hwf0 hok0 calls
  refine ⟨hgrid, ?_, fun c => (applyCall_step _ hwf c).2.2.1⟩
  intro q hq
  rw [← hgrid] at hok
  exact clue_free_of_ok hwf hok q hq

/-- Witness of C16: the sample session on the puzzle generated for a new game on EASY. -/
theorem clue_cells_stay_free_witness :
    ValidShuffles idShuffles ∧
      (runCalls (generateNewGame idShuffles newGame Difficulty.EASY).2 sampleCalls).grid =
        (generateNewGame idShuffles newGame Difficulty.EASY).2.grid :=
  ⟨idShuffles_valid,
    (clue_cells_stay_free idShuffles idShuffles_valid newGame Difficulty.EASY sampleCalls).1⟩

/-- C17: from a `HintSystem` built with the default budget 3, once three hint calls (of any
of the four methods, on any game states, with any calls in between) have returned a valid
hint, a further call of any hint method on any game state returns an invalid hint and
`getHintsRemaining()` is 0 before and after it. `DominoGame::useHint` of `DominoPiece.h`,
called on a new game, returns true on the call number n + 1 exactly when n < 3, and
`getHintsRemaining()` is 0 after the third call and after the fourth. -/
theorem hint_budget_exhausted (pk : Picks) (calls : List (GameState × HintCall))
    (h3 : (hintRun pk HintSystem.default calls).2 = 3) (s : GameState) (c : HintCall)
    (g : DominoPieceH.GameState) (n : Nat) :
    (hintCall pk s (hintRun pk HintSystem.default calls).1 c).1 = false ∧
      (hintRun pk HintSystem.default calls).1.getHintsRemaining = 0 ∧
      (hintCall pk s (hintRun pk HintSystem.default calls).1 c).2.getHintsRemaining = 0 ∧
      (DominoPieceH.useHint (useHints n (DominoPieceH.initializeGame g))).1 = decide (n < 3) ∧
      DominoPieceH.getHintsRemaining (useHints 3 (DominoPieceH.initializeGame g)) = 0 ∧
      DominoPieceH.getHintsRemaining (useHints 4 (DominoPieceH.initializeGame g)) = 0 := by
  obtain ⟨r1, r2⟩ := hintRun_counter pk HintSystem.default calls
  rw [h3] at r1
  have u1 : (hintRun pk HintSystem.default calls).1.hintsUsed = 3 := by
    rw [r1]; rfl
  have u2 : (hintRun pk HintSystem.default calls).1.maxHintsAllowed = 3 := by
    rw [r2]; rfl
  obtain ⟨e1, e2, e3⟩ := hintCall_exhausted pk s (hintRun pk HintSystem.default calls).1 c
    (by rw [u1, u2])
  have k := fun m => useHints_counter m (DominoPieceH.initializeGame g)
    (initializeGame_hintsUsed g)
  refine ⟨e1, ?_, ?_, ?_, ?_, ?_⟩
  · unfold HintSystem.getHintsRemaining
    rw [u1, u2]; rfl
  · unfold HintSystem.getHintsRemaining
    rw [e2, e3, u1, u2]; rfl
  · rw [useHint_fst, k n]
    by_cases hn : n < 3
    · rw [decide_eq_true hn]
      exact decide_eq_true (by omega)
    · rw [decide_eq_false hn]
      exact decide_eq_false (by omega)
  · unfold DominoPieceH.getHintsRemaining DominoPieceH.MAX_HINTS_ALLOWED
    rw [k 3]; rfl
  · unfold DominoPieceH.getHintsRemaining DominoPieceH.MAX_HINTS_ALLOWED
    rw [k 4]; rfl

set_option maxRecDepth 1000000 in
/-- Witness of C17: three placement hints on a new game (the third through `getRandomHint`)
use up the budget; a fourth call finds none. -/
theorem hint_budget_exhausted_witness :
    (hintRun zeroPicks HintSystem.default
        [(newGame, HintCall.nextDomino), (newGame, HintCall.nextDomino),
         (newGame, HintCall.random)]).2 = 3 ∧
      (hintCall zeroPicks newGame
        (hintRun zeroPicks HintSystem.default
          [(newGame, HintCall.nextDomino), (newGame, HintCall.nextDomino),
           (newGame, HintCall.random)]).1 HintCall.nextDomino).1 = false :=
  ⟨by decide,
    (hint_budget_exhausted zeroPicks
      [(newGame, HintCall.nextDomino), (newGame, HintCall.nextDomino),
       (newGame, HintCall.random)] (by decide) newGame HintCall.nextDomino
      { grid := [], dominoGrid := [], availableDominoes := [], placedDominoes := [],
        currentDifficulty := Difficulty.EASY, gameCompleted := false, hintsUsed := 0,
        movesCount := 0, solutionGrid := [], solutionDominoes := [], hasSolution := false,
        rng := 0, constraintCache := [], cacheValid := false, useExtendedSet := false,
        nextId := 0 } 0).1⟩

/-- C18: for every game state and every `HintSystem`, `getRandomHint` adds exactly 1 to
`hintsUsed` when the hint it returns is valid and leaves `hintsUsed` as it is when the hint is
invalid; the budget `maxHintsAllowed` is not changed, and no hint method lowers
`hintsUsed`. -/
theorem getRandomHint_budget (pk : Picks) (s : GameState) (h : HintSystem) (c : HintCall) :
    (getRandomHint pk s h).2.hintsUsed =
        h.hintsUsed + (if (getRandomHint pk s h).1.isValid then 1 else 0) ∧
      (getRandomHint pk s h).2.maxHintsAllowed = h.maxHintsAllowed ∧
      h.hintsUsed ≤ (hintCall pk s h c).2.hintsUsed ∧
      (hintCall pk s h c).2.hintsUsed ≤ h.hintsUsed + 1 := by
  obtain ⟨a1, a2, _⟩ := getRandomHint_counter pk s h
  obtain ⟨b1, _, _⟩ := hintCall_counter pk s h c
  refine ⟨a1, a2, ?_, ?_⟩
  · rw [b1]
    split <;> omega
  · rw [b1]
    split <;> omega

/-- C19: `getUnplacedDominoes` lists, in catalog order, the catalog pieces that no placed
piece equals. When `getNextDominoHint` returns a valid hint (piece, cell, orientation), the
piece is such an unplaced catalog piece, `canPlaceDomino` accepts the triple in the current
state, `placeDomino` with the triple would return true, and no unplaced piece before the
hinted one in that list has any cell and orientation that `canPlaceDomino` accepts. Within
budget and before completion the hint is invalid exactly when no unplaced catalog piece has a
legal placement. -/
theorem next_domino_hint_sound (pk : Picks) (hpk : ValidPicks pk) (s : GameState)
    (h : HintSystem) :
    (∀ d, d ∈ getUnplacedDominoes s ↔ Unplaced s d) ∧
      (getUnplacedDominoes s).Sublist s.availableDominoes ∧
      ((getNextDominoHint pk s h).1.isValid = true →
        Unplaced s (getNextDominoHint pk s h).1.domino ∧
        canPlaceDomino s (getNextDominoHint pk s h).1.domino
          (getNextDominoHint pk s h).1.position (getNextDominoHint pk s h).1.orientation =
            true ∧
        (placeDomino s (getNextDominoHint pk s h).1.domino
          (getNextDominoHint pk s h).1.position
          (getNextDominoHint pk s h).1.orientation).1 = true ∧
        ∃ pre post, getUnplacedDominoes s = pre ++ (getNextDominoHint pk s h).1.domino :: post ∧
          ∀ p ∈ pre, ∀ pos o, canPlaceDomino s p pos o = false) ∧
      (h.canProvideHint s = true →
        ((getNextDominoHint pk s h).1.isValid = false ↔
          ∀ d, Unplaced s d → ∀ pos o, canPlaceDomino s d pos o = false)) := by
  refine ⟨mem_getUnplacedDominoes s, List.filter_sublist _, ?_, ?_⟩
  · intro hv
    obtain ⟨x, hx, heq⟩ := getNextDominoHint_valid pk hpk s h hv
    rw [heq]
    obtain ⟨h1, pre, post, h2, h3⟩ := firstPlacements_spec s _ x hx
    have hun : Unplaced s x.1 := by
      rw [← mem_getUnplacedDominoes, h2]
      simp
    exact ⟨hun, h1, placeDomino_eq_true s _ _ _ h1 hun.2, pre, post, h2, h3⟩
  · intro hc
    rw [getNextDominoHint_invalid pk s h hc, firstPlacements_eq_nil]
    constructor
    · intro h1 d hd
      exact h1 d ((mem_getUnplacedDominoes s d).2 hd)
    · intro h1 d hd
      exact h1 d ((mem_getUnplacedDominoes s d).1 hd)

set_option maxRecDepth 1000000 in
/-- Witness of C19: on a new game the hint system suggests a placement that `canPlaceDomino`
accepts. -/
theorem next_domino_hint_sound_witness :
    ValidPicks zeroPicks ∧
      (getNextDominoHint zeroPicks newGame HintSystem.default).1.isValid = true ∧
      canPlaceDomino newGame (getNextDominoHint zeroPicks newGame HintSystem.default).1.domino
        (getNextDominoHint zeroPicks newGame HintSystem.default).1.position
        (getNextDominoHint zeroPicks newGame HintSystem.default).1.orientation = true :=
  ⟨zeroPicks_valid, by decide,
    ((next_domino_hint_sound zeroPicks zeroPicks_valid newGame HintSystem.default).2.2.1
      (by decide)).2.1⟩

/-- C23: for the pieces of `DominoGame.h` (`p`, `q`) and of `DominoPiece.h` (`a`, `b`):
`getCanonicalForm` is (min, max) of the two values; `operator==` holds exactly when the
canonical forms are equal; `operator<` holds exactly when the canonical form of the left
piece is lexicographically smaller; exchanging the two values of either operand changes
neither result; and exactly one of `p < q`, `q < p`, `p == q` holds. -/
theorem canonical_form_laws (p q : DominoPiece) (a b : DominoPieceH.DominoPiece) :
    (p.getCanonicalForm = (min p.value1 p.value2, max p.value1 p.value2) ∧
      (p.opEq q = true ↔ p.getCanonicalForm = q.getCanonicalForm) ∧
      (p.opLt q = true ↔ canonLt p.getCanonicalForm q.getCanonicalForm) ∧
      (swapValues p).opEq q = p.opEq q ∧ p.opEq (swapValues q) = p.opEq q ∧
      (swapValues p).opLt q = p.opLt q ∧ p.opLt (swapValues q) = p.opLt q ∧
      ((p.opLt q = true ∧ q.opLt p = false ∧ p.opEq q = false) ∨
        (p.opLt q = false ∧ q.opLt p = true ∧ p.opEq q = false) ∨
        (p.opLt q = false ∧ q.opLt p = false ∧ p.opEq q = true))) ∧
    (a.getCanonicalForm = (min a.value1 a.value2, max a.value1 a.value2) ∧
      (a.opEq b = true ↔ a.getCanonicalForm = b.getCanonicalForm) ∧
      (a.opLt b = true ↔ canonLt a.getCanonicalForm b.getCanonicalForm) ∧
      (DominoPieceH.swapValues a).opEq b = a.opEq b ∧
      a.opEq (DominoPieceH.swapValues b) = a.opEq b ∧
      (DominoPieceH.swapValues a).opLt b = a.opLt b ∧
      a.opLt (DominoPieceH.swapValues b) = a.opLt b ∧
      ((a.opLt b = true ∧ b.opLt a = false ∧ a.opEq b = false) ∨
        (a.opLt b = false ∧ b.opLt a = true ∧ a.opEq b = false) ∨
        (a.opLt b = false ∧ b.opLt a = false ∧ a.opEq b = true))) := by
  refine ⟨⟨getCanonicalForm_eq p, opEq_iff_canonical p q, opLt_iff_canonLt p q,
      opEq_congr p q _ q (getCanonicalForm_swap p) rfl,
      opEq_congr p q p _ rfl (getCanonicalForm_swap q),
      opLt_congr p q _ q (getCanonicalForm_swap p) rfl,
      opLt_congr p q p _ rfl (getCanonicalForm_swap q),
      exactly_one_of_trichotomy _ _ _ _ _ (opLt_iff_canonLt p q) (opLt_iff_canonLt q p)
        (opEq_iff_canonical p q)⟩,
    ⟨pieceH_getCanonicalForm_eq a, pieceH_opEq_iff_canonical a b, pieceH_opLt_iff_canonLt a b,
      pieceH_opEq_congr a b _ b (pieceH_getCanonicalForm_swap a) rfl,
      pieceH_opEq_congr a b a _ rfl (pieceH_getCanonicalForm_swap b),
      pieceH_opLt_congr a b _ b (pieceH_getCanonicalForm_swap a) rfl,
      pieceH_opLt_congr a b a _ rfl (pieceH_getCanonicalForm_swap b),
      exactly_one_of_trichotomy _ _ _ _ _ (pieceH_opLt_iff_canonLt a b)
        (pieceH_opLt_iff_canonLt b a) (pieceH_opEq_iff_canonical a b)⟩⟩

/-- C21, as stated, fails: the extended catalog holds the piece (6,6), both of whose pip
values are single digits. -/
theorem extended_set_has_single_digit_pips :
    ¬ ∀ p ∈ (DominoPieceH.createExtendedSet 0).1, p.value1 > 9 ∧ p.value2 > 9 := fun h =>
  absurd (h _ (createExtendedSet_has_six 0)).1 (by decide)

/-- C21, amended: every piece `createExtendedSet` returns, whatever the value of the id
counter, has 6 <= value1 <= value2 <= 28 (and `sum` is their sum, between 12 and 56). -/
theorem extended_set_values (nextId : Int) (p : DominoPieceH.DominoPiece)
    (hp : p ∈ (DominoPieceH.createExtendedSet nextId).1) :
    6 ≤ p.value1 ∧ p.value1 ≤ p.value2 ∧ p.value2 ≤ 28 :=
  createExtendedSet_values nextId p hp

/-- Witness of C21 (amended): the piece (6,6) of the extended catalog. -/
theorem extended_set_values_witness :
    (DominoPieceH.DominoPiece.new 6 6 0).1 ∈ (DominoPieceH.createExtendedSet 0).1 ∧
      6 ≤ (DominoPieceH.DominoPiece.new 6 6 0).1.value1 ∧
      (DominoPieceH.DominoPiece.new 6 6 0).1.value2 ≤ 28 :=
  ⟨createExtendedSet_has_six 0,
    (extended_set_values 0 _ (createExtendedSet_has_six 0)).1,
    (extended_set_values 0 _ (createExtendedSet_has_six 0)).2.2⟩

/-- C22: the lists `createStandardSet` and `createExtendedSet` return (whatever the value of
the id counter) are strictly ascending in the lexicographic order of canonical forms: of any
two entries the earlier has the smaller canonical form. Hence within each list the canonical
forms are pairwise different and no two pieces are equal under `operator==`. -/
theorem catalogs_strictly_ascending (nextId : Int) :
    ((DominoPieceH.createStandardSet nextId).1.Pairwise
        (fun a b => canonLt a.getCanonicalForm b.getCanonicalForm) ∧
      ((DominoPieceH.createStandardSet nextId).1.map
        DominoPieceH.DominoPiece.getCanonicalForm).Nodup ∧
      (DominoPieceH.createStandardSet nextId).1.Pairwise (fun a b => a.opEq b = false)) ∧
    ((DominoPieceH.createExtendedSet nextId).1.Pairwise
        (fun a b => canonLt a.getCanonicalForm b.getCanonicalForm) ∧
      ((DominoPieceH.createExtendedSet nextId).1.map
        DominoPieceH.DominoPiece.getCanonicalForm).Nodup ∧
      (DominoPieceH.createExtendedSet nextId).1.Pairwise (fun a b => a.opEq b = false)) :=
  ⟨⟨createStandardSet_sorted nextId,
      (nodup_of_canon_sorted _ (createStandardSet_sorted nextId)).1,
      (nodup_of_canon_sorted _ (createStandardSet_sorted nextId)).2⟩,
    ⟨createExtendedSet_sorted nextId,
      (nodup_of_canon_sorted _ (createExtendedSet_sorted nextId)).1,
      (nodup_of_canon_sorted _ (createExtendedSet_sorted nextId)).2⟩⟩

/-- C29: right after `placeDominoInSolution` of a piece at an in-grid position that
`canPlaceDominoInSolution` accepted, `checkRowColumnUniquenessForPlacement` for that piece
and position returns false. Hence, for every shuffle outcome, `backtrackSolution(i, dominoes)`
with `i < dominoes.size()` returns false on every state with an 8x8 solution grid and leaves
`solutionGrid` as it found it, and `generateSolution` returns false whenever the catalog is
not empty. -/
theorem backtracking_always_fails (sh : Shuffles) (hsh : ValidShuffles sh) :
    (∀ (s : GameState) (d : DominoPiece) (pos : Position) (o : Orientation) (idx : Nat),
      IsGrid8 s.solutionGrid → InGrid pos → canPlaceDominoInSolution s d pos o = true →
      checkRowColumnUniquenessForPlacement (placeDominoInSolution s d pos o idx) pos o d =
        false) ∧
    (∀ (dominoes : List DominoPiece) (i : Nat) (s : GameState), i < dominoes.length →
      IsGrid8 s.solutionGrid →
      (backtrackSolution sh dominoes i s).1 = false ∧
        (backtrackSolution sh dominoes i s).2.solutionGrid = s.solutionGrid) ∧
    (∀ s : GameState, s.availableDominoes ≠ [] → (generateSolution sh s).1 = false) := by
  refine ⟨?_, ?_, ?_⟩
  · intro s d pos o idx hg hpos hcan
    exact checkRowColumnUniquenessForPlacement_after_place s d pos o idx hg hpos
      (canPlaceDominoInSolution_second s d pos o hpos hcan)
  · intro dominoes i s hi hg
    obtain ⟨sd, heq⟩ := backtrackSolution_restore sh hsh dominoes i s hi hg
    rw [heq]
    exact ⟨rfl, rfl⟩
  · intro s hav
    obtain ⟨sg, sd, heq⟩ := generateSolution_false sh hsh s hav
    rw [heq]

set_option maxRecDepth 1000000 in
/-- Witness of C29: on a new game, with shuffles that leave every order, the piece (1,2) is
accepted at the top-left corner, the check after its placement fails, and the search from the
first catalog piece fails. -/
theorem backtracking_always_fails_witness :
    ValidShuffles idShuffles ∧
      canPlaceDominoInSolution (gridState (Grid.fill (-1))) (DominoPiece.new 1 2)
        { row := 0, col := 0 } Orientation.HORIZONTAL = true ∧
      checkRowColumnUniquenessForPlacement
        (placeDominoInSolution (gridState (Grid.fill (-1))) (DominoPiece.new 1 2)
          { row := 0, col := 0 } Orientation.HORIZONTAL 0)
        { row := 0, col := 0 } Orientation.HORIZONTAL (DominoPiece.new 1 2) = false ∧
      (backtrackSolution idShuffles generateAvailableDominoes 0
        (gridState (Grid.fill (-1)))).1 = false ∧
      (generateSolution idShuffles newGame).1 = false :=
  ⟨idShuffles_valid, by decide,
    (backtracking_always_fails idShuffles idShuffles_valid).1 _ _ _ _ _ (by decide) (by decide)
      (by decide),
    ((backtracking_always_fails idShuffles idShuffles_valid).2.1 generateAvailableDominoes 0
      (gridState (Grid.fill (-1))) (by decide) (by decide)).1,
    (backtracking_always_fails idShuffles idShuffles_valid).2.2 newGame (by decide)⟩

/-- C30: for every difficulty and every outcome of the shuffles (a permutation each), all 100
attempts of `generateNewGame` fail and it returns true through `generateSimplifiedPuzzle`.
The stored solution is the first 12 pieces of the shuffled catalog, piece `i` placed
horizontally on the `i`-th anchor of rows 0, 2, 4, 6 and columns 0, 3, 6; the vertical pass
adds nothing to what the horizontal pass left; the last 3 pieces of the shuffled catalog equal
no piece of the solution and occupy no cell of `solutionGrid`. -/
theorem fallback_solution_shape (sh : Shuffles) (hsh : ValidShuffles sh) (s : GameState)
    (d : Difficulty) :
    (generateNewGame sh s d).1 = true ∧
    (generateAttempts sh MAX_GENERATION_ATTEMPTS { s with currentDifficulty := d }).1 = false ∧
    generateNewGame sh s d =
      generateSimplifiedPuzzle sh { s with currentDifficulty := d, rng := s.rng + 200 } d ∧
    (generateNewGame sh s d).2.solutionGrid = fallbackGrid ∧
    (generateNewGame sh s d).2.solutionDominoes =
      List.zipWith (fun p a => placedCopy p a Orientation.HORIZONTAL)
        ((sh.pieces (s.rng + 200) generateAvailableDominoes).take 12) horizontalAnchors ∧
    horizontalAnchors =
      [⟨0, 0⟩, ⟨0, 3⟩, ⟨0, 6⟩, ⟨2, 0⟩, ⟨2, 3⟩, ⟨2, 6⟩, ⟨4, 0⟩, ⟨4, 3⟩, ⟨4, 6⟩, ⟨6, 0⟩, ⟨6, 3⟩,
        ⟨6, 6⟩] ∧
    (generateNewGame sh s d).2.solutionDominoes.length = 12 ∧
    (∀ q ∈ (generateNewGame sh s d).2.solutionDominoes,
      q.orientation = Orientation.HORIZONTAL ∧ q.isPlaced = true ∧
        q.position ∈ horizontalAnchors) ∧
    (∀ s1 : GameState, s1.solutionGrid = Grid.fill (-1) → s1.solutionDominoes = [] →
      (scanAnchors (sh.pieces (s.rng + 200) generateAvailableDominoes) Orientation.HORIZONTAL
        horizontalAnchors (0, s1)).1 = 12 ∧
      scanAnchors (sh.pieces (s.rng + 200) generateAvailableDominoes) Orientation.VERTICAL
          verticalAnchors
          (scanAnchors (sh.pieces (s.rng + 200) generateAvailableDominoes)
            Orientation.HORIZONTAL horizontalAnchors (0, s1)) =
        scanAnchors (sh.pieces (s.rng + 200) generateAvailableDominoes) Orientation.HORIZONTAL
          horizontalAnchors (0, s1)) ∧
    ((sh.pieces (s.rng + 200) generateAvailableDominoes).drop 12).length = 3 ∧
    (∀ p ∈ (sh.pieces (s.rng + 200) generateAvailableDominoes).drop 12,
      (∀ q ∈ (generateNewGame sh s d).2.solutionDominoes, q.opEq p = false) ∧
        cellCount (generateNewGame sh s d).2.solutionGrid
          (generateNewGame sh s d).2.solutionDominoes p = 0) := by
  have hperm := hsh.1 (s.rng + 200) generateAvailableDominoes
  have hlen : (sh.pieces (s.rng + 200) generateAvailableDominoes).length = 15 := by
    rw [hperm.length_eq]; decide
  obtain ⟨h1, h2, h3⟩ := generateNewGame_solution sh hsh s d
  obtain ⟨t, ht, _, _⟩ := generateAttempts_false sh hsh MAX_GENERATION_ATTEMPTS
    { s with currentDifficulty := d }
  refine ⟨h1, by rw [ht], generateNewGame_eq_fallback sh hsh s d, h2, ?_, by decide, ?_, ?_, ?_,
    ?_, ?_⟩
  · rw [h3]
    exact fallbackPieces_eq_take _
  · rw [h3]
    exact fallbackPieces_length sh hsh _
  · rw [h3]
    exact fallbackPieces_horizontal _
  · intro s1 e1 e2
    rw [scanAnchors_both _ hlen s1 e1 e2, scanAnchors_horizontal _ hlen s1 e1 e2]
    exact ⟨rfl, rfl⟩
  · rw [List.length_drop, hlen]
  · intro p hp
    rw [h2, h3]
    refine ⟨fallbackPieces_absent _ hperm p hp, ?_⟩
    obtain ⟨j, hj, rfl⟩ := List.getElem_of_mem hp
    rw [List.getElem_drop]
    rw [List.length_drop, hlen] at hj
    have := cellCount_fallback _ hperm (12 + j) (by omega)
    rw [List.get_eq_getElem, if_neg (by omega)] at this
    exact this

/-- Witness of C30: a new game on EASY with shuffles that leave every order. -/
theorem fallback_solution_shape_witness :
    ValidShuffles idShuffles ∧
      (generateNewGame idShuffles newGame Difficulty.EASY).1 = true ∧
      (generateNewGame idShuffles newGame Difficulty.EASY).2.solutionDominoes.length = 12 :=
  ⟨idShuffles_valid,
    (fallback_solution_shape idShuffles idShuffles_valid newGame Difficulty.EASY).1,
    (fallback_solution_shape idShuffles idShuffles_valid newGame
      Difficulty.EASY).2.2.2.2.2.2.1⟩

set_option maxRecDepth 100000 in
/-- C26 (defect): the tiling that holds the single piece (1,2), placed by `placeDomino` on a
new game, is well formed and no row or column holds a pip value twice, yet
`checkRowColumnUniqueness` returns false. -/
theorem uniqueness_recheck_rejects_single_piece :
    WellFormed onePieceState ∧ onePieceState.placedDominoes.length = 1 ∧
      PipsUnique onePieceState.dominoGrid onePieceState.placedDominoes ∧
      checkRowColumnUniqueness onePieceState = false :=
  ⟨onePieceState_wellFormed, by decide, by decide,
    checkRowColumnUniqueness_false onePieceState onePieceState_wellFormed (by decide)⟩

set_option maxRecDepth 1000000 in
/-- C28 (defect): on the empty solution of a new game `canPlaceDominoInSolution` accepts the
piece (1,2) at (0,0), horizontal; uniqueness holds before and after the tentative placement
(the solution then holds that one piece), yet `checkRowColumnUniquenessForPlacement` returns
false. -/
theorem placement_check_rejects_first_piece :
    PipsUnique (gridState (Grid.fill (-1))).solutionGrid
        (gridState (Grid.fill (-1))).solutionDominoes ∧
      canPlaceDominoInSolution (gridState (Grid.fill (-1))) (DominoPiece.new 1 2)
        { row := 0, col := 0 } Orientation.HORIZONTAL = true ∧
      PipsUnique
        (placeDominoInSolution (gridState (Grid.fill (-1))) (DominoPiece.new 1 2)
          { row := 0, col := 0 } Orientation.HORIZONTAL 0).solutionGrid
        (placeDominoInSolution (gridState (Grid.fill (-1))) (DominoPiece.new 1 2)
          { row := 0, col := 0 } Orientation.HORIZONTAL 0).solutionDominoes ∧
      checkRowColumnUniquenessForPlacement
        (placeDominoInSolution (gridState (Grid.fill (-1))) (DominoPiece.new 1 2)
          { row := 0, col := 0 } Orientation.HORIZONTAL 0)
        { row := 0, col := 0 } Orientation.HORIZONTAL (DominoPiece.new 1 2) = false := by
  decide

/-- C24: in every state reached from `initializeGame` by calls of `generateNewGame`,
`placeDomino`, `removeDomino` and `moveDomino` (shuffles being permutations),
`calculateConstraintValue(row, col)` returns what the neighbour loop over `solutionGrid` and
`solutionDominoes` computes without the cache, `generateConstraintGrid` assigns the clue grid
of its cache-free version, and `isValidSolution` returns the result of its cache-free
version. -/
theorem cache_is_transparent (sh : Shuffles) (hsh : ValidShuffles sh) (s : GameState)
    (calls : List GameCall) (row col : Int) :
    (calculateConstraintValue (runGameCalls sh (initializeGame s) calls) row col).1 =
        calculateConstraintValueNoCache (runGameCalls sh (initializeGame s) calls) row col ∧
      (generateConstraintGrid (runGameCalls sh (initializeGame s) calls)).grid =
        generateConstraintGridNoCache (runGameCalls sh (initializeGame s) calls) ∧
      (isValidSolution (runGameCalls sh (initializeGame s) calls)).1 =
        isValidSolutionNoCache (runGameCalls sh (initializeGame s) calls) := by
  have hc := runGameCalls_cacheOK sh hsh (initializeGame s) (cacheOK_of_invalid rfl) calls
  exact ⟨(calculateConstraintValue_spec _ hc row col).1,
    (generateConstraintGrid_noCache _ hc).1, (isValidSolution_spec _ hc).1⟩

/-- Witness of C24: a new puzzle followed by the sample session, then a second puzzle. -/
theorem cache_is_transparent_witness :
    ValidShuffles idShuffles ∧
      (calculateConstraintValue
        (runGameCalls idShuffles (initializeGame newGame)
          (GameCall.newGame Difficulty.EASY :: sampleCalls.map GameCall.tiling ++
            [GameCall.newGame Difficulty.HARD])) 2 2).1 =
        calculateConstraintValueNoCache
          (runGameCalls idShuffles (initializeGame newGame)
            (GameCall.newGame Difficulty.EASY :: sampleCalls.map GameCall.tiling ++
              [GameCall.newGame Difficulty.HARD])) 2 2 :=
  ⟨idShuffles_valid,
    (cache_is_transparent idShuffles idShuffles_valid newGame
      (GameCall.newGame Difficulty.EASY :: sampleCalls.map GameCall.tiling ++
        [GameCall.newGame Difficulty.HARD]) 2 2).1⟩

/-- C25 (defect): in `GameGrid.h` a successful `removeDomino` does not invalidate the
constraint cache.  The function writes neither `constraintCache` nor `cacheValid`, on any
state `s` and position `pos`.  And the cache it skips can hold entries: on every game `g` with
an empty board of side 20 and a catalog of 28 pieces, the 28 `placeDomino` calls of
`fullBoardCalls` all return `true`, the last of them runs the completion check, which fills
the cache, and `removeDomino` at the cell (0, 0) then returns `true` with `cacheValid` still
`true` and every entry computed before the call still stored. -/
theorem gamegrid_removeDomino_keeps_cache (s : GameGridH.GameState) (pos : Position)
    (g : GameGridH.GameState) (hg : GameGridH.EmptyBoard20 g) :
    ((GameGridH.removeDomino s pos).2.constraintCache = s.constraintCache ∧
        (GameGridH.removeDomino s pos).2.cacheValid = s.cacheValid) ∧
      (GameGridH.placeAll g GameGridH.fullBoardCalls).1 = true ∧
      (GameGridH.removeDomino (GameGridH.placeAll g GameGridH.fullBoardCalls).2 ⟨0, 0⟩).1 =
        true ∧
      (GameGridH.removeDomino
        (GameGridH.placeAll g GameGridH.fullBoardCalls).2 ⟨0, 0⟩).2.cacheValid = true ∧
      (GameGridH.removeDomino
        (GameGridH.placeAll g GameGridH.fullBoardCalls).2 ⟨0, 0⟩).2.constraintCache ≠ [] ∧
      (GameGridH.removeDomino
          (GameGridH.placeAll g GameGridH.fullBoardCalls).2 ⟨0, 0⟩).2.constraintCache =
        (GameGridH.placeAll g GameGridH.fullBoardCalls).2.constraintCache := by
  obtain ⟨h1, h2, h3, h4⟩ := fullBoardCalls_fill g hg
  have k := gridRemove_cache (GameGridH.placeAll g GameGridH.fullBoardCalls).2 ⟨0, 0⟩
  refine ⟨gridRemove_cache s pos, h1, h4, k.2.trans h2, ?_, k.1⟩
  rw [k.1]; exact h3

/-- C25, an instance: the concrete empty board of side 20, where the entry for the cell
(0, 0) survives the removal of the piece that covers that cell. -/
theorem gamegrid_removeDomino_keeps_cache_witness :
    GameGridH.EmptyBoard20 GameGridH.emptyBoard20 ∧
      (GameGridH.removeDomino
        (GameGridH.placeAll GameGridH.emptyBoard20 GameGridH.fullBoardCalls).2 ⟨0, 0⟩).1 =
        true ∧
      (GameGridH.removeDomino
        (GameGridH.placeAll GameGridH.emptyBoard20 GameGridH.fullBoardCalls).2
          ⟨0, 0⟩).2.constraintCache ≠ [] :=
  ⟨emptyBoard20_ok,
    (gamegrid_removeDomino_keeps_cache GameGridH.emptyBoard20 ⟨0, 0⟩ GameGridH.emptyBoard20
      emptyBoard20_ok).2.2.1,
    (gamegrid_removeDomino_keeps_cache GameGridH.emptyBoard20 ⟨0, 0⟩ GameGridH.emptyBoard20
      emptyBoard20_ok).2.2.2.2.1⟩

/-- C31: in every state reached from `initializeGame` by calls of `generateNewGame`,
`placeDomino`, `removeDomino` and `moveDomino` (shuffles being permutations),
`isGameCompleted()` returns false.  The reason: `placeDomino` leaves `gameCompleted` as it was
or assigns it the result of `isValidSolution` on the tiling with the new piece, `moveDomino`
does not write it, `removeDomino` can only clear it, and on every consistent tiling that holds
a piece `checkRowColumnUniqueness`, hence `isValidSolution`, returns false. -/
theorem gameCompleted_stays_false (sh : Shuffles) (hsh : ValidShuffles sh) (s : GameState)
    (calls : List GameCall) :
    isGameCompleted (runGameCalls sh (initializeGame s) calls) = false ∧
      (∀ (t : GameState) (d : DominoPiece) (pos : Position) (o : Orientation),
        (placeDomino t d pos o).2.gameCompleted = t.gameCompleted ∨
          (placeDomino t d pos o).2.gameCompleted =
            (isValidSolution (placedState t d pos o)).1) ∧
      (∀ (t : GameState) (a b : Position) (o : Orientation),
        (moveDomino t a b o).2.gameCompleted = t.gameCompleted) ∧
      (∀ (t : GameState) (pos : Position), t.gameCompleted = false →
        (removeDomino t pos).2.gameCompleted = false) ∧
      (∀ t : GameState, WellFormed t → t.placedDominoes ≠ [] →
        checkRowColumnUniqueness t = false ∧ (isValidSolution t).1 = false) := by
  refine ⟨?_, placeDomino_gameCompleted_source, moveDomino_gameCompleted,
    fun t pos h => removeDomino_gameCompleted t h pos,
    fun t hwf hne => ⟨checkRowColumnUniqueness_false t hwf hne, isValidSolution_false t hwf hne⟩⟩
  have hwf : WellFormed (initializeGame s) := by
    rw [initializeGame_eq_emptyTiling]; exact emptyTiling_wellFormed _
  exact (runGameCalls_gameCompleted sh hsh (initializeGame s) hwf rfl calls).2

/-- Witness of C31: a new puzzle, then the sample session. -/
theorem gameCompleted_stays_false_witness :
    ValidShuffles idShuffles ∧
      isGameCompleted (runGameCalls idShuffles (initializeGame newGame)
        (GameCall.newGame Difficulty.EASY :: sampleCalls.map GameCall.tiling)) = false :=
  ⟨idShuffles_valid,
    (gameCompleted_stays_false idShuffles idShuffles_valid newGame
      (GameCall.newGame Difficulty.EASY :: sampleCalls.map GameCall.tiling)).1⟩

/-- C37: whenever `moveDomino` returns true from a well-formed state, with `i` the index found
in the source cell: `placedDominoes` is the old list with entry `i` rewritten, so it keeps its
length and order, every other entry is unchanged, and entry `i` keeps its pip values and
records `toPosition` and `newOrientation`; `dominoGrid` holds `i` exactly on the two target
cells, -1 on the other cells that held `i`, and its old value everywhere else, so the cells of
all other pieces are unchanged; the clue grid and `gameCompleted` are unchanged; and
`canPlaceDomino` accepted the rewritten piece at the target on the state with piece `i` lifted
off the id grid. -/
theorem moveDomino_true_frame (s : GameState) (hwf : WellFormed s) (a b : Position)
    (o : Orientation) (h : (moveDomino s a b o).1 = Except.ok true) :
    ∃ (i : Nat) (hi : i < s.placedDominoes.length),
      s.dominoGrid.get a.row a.col = (i : Int) ∧
      (moveDomino s a b o).2.placedDominoes =
        s.placedDominoes.set i
          { s.placedDominoes.get ⟨i, hi⟩ with position := b, orientation := o } ∧
      (moveDomino s a b o).2.placedDominoes.length = s.placedDominoes.length ∧
      (∀ j : Nat, j ≠ i →
        (moveDomino s a b o).2.placedDominoes.get? j = s.placedDominoes.get? j) ∧
      (∀ q : Position, InGrid q →
        ((moveDomino s a b o).2.dominoGrid.get q.row q.col = (i : Int) ↔
          q = b ∨ q = secondCell b o)) ∧
      (∀ q : Position, InGrid q →
        (moveDomino s a b o).2.dominoGrid.get q.row q.col =
          if q = b ∨ q = secondCell b o then (i : Int)
          else if s.dominoGrid.get q.row q.col = (i : Int) then -1
          else s.dominoGrid.get q.row q.col) ∧
      (∀ q : Position, InGrid q → s.dominoGrid.get q.row q.col ≠ -1 →
        s.dominoGrid.get q.row q.col ≠ (i : Int) →
        (moveDomino s a b o).2.dominoGrid.get q.row q.col = s.dominoGrid.get q.row q.col) ∧
      (moveDomino s a b o).2.grid = s.grid ∧
      (moveDomino s a b o).2.gameCompleted = s.gameCompleted ∧
      canPlaceDomino (liftedState s i b o)
        { s.placedDominoes.get ⟨i, hi⟩ with position := b, orientation := o } b o = true := by
  obtain ⟨i, hi, hsrc, hcan, hst⟩ := moveDomino_true_spec s hwf a b o h
  have hgetD : s.placedDominoes.getD i (DominoPiece.new 0 0) = s.placedDominoes.get ⟨i, hi⟩ := by
    simp [List.getD_eq_getElem?_getD, List.getElem?_eq_getElem hi]
  rw [hgetD] at hcan
  have hcells := canPlaceDomino_true_cells _ _ _ _ hcan
  have hgrid : ∀ q : Position, InGrid q →
      (moveDomino s a b o).2.dominoGrid.get q.row q.col =
        if q = b ∨ q = secondCell b o then (i : Int)
        else if s.dominoGrid.get q.row q.col = (i : Int) then -1
        else s.dominoGrid.get q.row q.col := by
    intro q hq
    rw [hst]
    show (((liftedState s i b o).dominoGrid.set b.row b.col (i : Int)).set
      (secondCell b o).row (secondCell b o).col (i : Int)).get q.row q.col = _
    rw [Grid.get_set2 _ (liftedState_isGrid8 s hwf i b o) b (secondCell b o) q _ hq,
      liftedState_get s hwf i hi b o q hq]
  have hplaced : (moveDomino s a b o).2.placedDominoes =
      s.placedDominoes.set i
        { s.placedDominoes.get ⟨i, hi⟩ with position := b, orientation := o } := by
    rw [hst]
    show s.placedDominoes.set i _ = _
    rw [hgetD]
    rfl
  refine ⟨i, hi, hsrc, hplaced, ?_, ?_, ?_, hgrid, ?_, ?_, moveDomino_gameCompleted s a b o,
    hcan⟩
  · rw [hplaced, List.length_set]
  · intro j hj
    rw [hplaced]
    simp only [List.get?_eq_getElem?]
    rw [List.getElem?_set_ne (Ne.symm hj)]
  · intro q hq
    rw [hgrid q hq]
    constructor
    · intro hv
      by_contra hn
      rw [if_neg hn] at hv
      split at hv
      · omega
      · rename_i hne; exact hne hv
    · intro ht
      rw [if_pos ht]
  · intro q hq hne hni
    rw [hgrid q hq]
    have hl := liftedState_get s hwf i hi b o q hq
    rw [if_neg hni] at hl
    have hnt : ¬ (q = b ∨ q = secondCell b o) := by
      rintro (e | e)
      · rw [e] at hl hne; exact hne (hl.symm.trans hcells.2.2.1)
      · rw [e] at hl hne; exact hne (hl.symm.trans hcells.2.2.2)
    rw [if_neg hnt, if_neg hni]
  · rw [hst]; rfl

/-- Witness of C37: on the state with (1,2) placed at the corner, the move of that piece to
(2,0), vertical, succeeds and leaves the clue grid as it was. -/
theorem moveDomino_true_frame_witness :
    WellFormed onePieceState ∧
      (moveDomino onePieceState { row := 0, col := 0 } { row := 2, col := 0 }
        Orientation.VERTICAL).1 = Except.ok true ∧
      (moveDomino onePieceState { row := 0, col := 0 } { row := 2, col := 0 }
        Orientation.VERTICAL).2.grid = onePieceState.grid :=
  ⟨onePieceState_wellFormed, rfl,
    (moveDomino_true_frame onePieceState onePieceState_wellFormed { row := 0, col := 0 }
      { row := 2, col := 0 } Orientation.VERTICAL rfl).elim
      fun _ h => h.elim fun _ k => k.2.2.2.2.2.2.2.1⟩

/-- C32: `updateDominoIds`, run on placed pieces that lie inside the grid, raises the error
'Domino position conflict detected' if and only if two entries of `placedDominoes` occupy a
common cell, and returns normally otherwise.  From every well-formed state `removeDomino`
completes without raising; the cells it indexes are the argument, which it tests with
`isValidForGrid` first, and the cells of placed pieces, which all lie inside the grid. -/
theorem updateDominoIds_raises_iff (s : GameState)
    (hin : ∀ p ∈ s.placedDominoes, ∀ y ∈ getDominoPositions p, InGrid y) (t : GameState)
    (hwf : WellFormed t) (pos : Position) :
    ((updateDominoIds s).1 = Except.error "Domino position conflict detected" ↔
        ∃ (i j : Nat) (hi : i < s.placedDominoes.length) (hj : j < s.placedDominoes.length),
          i ≠ j ∧ ∃ q, q ∈ getDominoPositions (s.placedDominoes.get ⟨i, hi⟩) ∧
            q ∈ getDominoPositions (s.placedDominoes.get ⟨j, hj⟩)) ∧
      ((updateDominoIds s).1 = Except.ok () ∨
        (updateDominoIds s).1 = Except.error "Domino position conflict detected") ∧
      (∃ b, (removeDomino t pos).1 = Except.ok b) ∧
      (pos.isValidForGrid GRID_SIZE = false → removeDomino t pos = (Except.ok false, t)) ∧
      (∀ p ∈ t.placedDominoes, ∀ y ∈ getDominoPositions p, InGrid y) := by
  have hfree : ¬ ∃ p ∈ s.placedDominoes, ∃ q ∈ getDominoPositions p,
      (Grid.fill (-1)).get q.row q.col ≠ -1 := by
    rintro ⟨p, hp, q, hq, hv⟩
    obtain ⟨h0, h1, h2, h3⟩ := hin p hp q hq
    exact hv (Grid.get_fill (-1) _ _ h0 h1 h2 h3)
  obtain ⟨hraise, hok⟩ := updateDominoIds_pieces_raises s.placedDominoes hin 0 (Grid.fill (-1))
    (Grid.fill_isGrid8 _)
  rw [shared_cell_iff]
  by_cases hp : s.placedDominoes.Pairwise
      (fun a b => ∀ x ∈ getDominoPositions a, x ∉ getDominoPositions b)
  · obtain ⟨g1, hg1⟩ := hok (by rintro (h | h); exact hfree h; exact h hp)
    have e : (updateDominoIds s).1 = Except.ok () := by
      unfold updateDominoIds; rw [hg1]
    refine ⟨?_, Or.inl e, (removeDomino_step t hwf pos).1, ?_, hwf.cells_inGrid⟩
    · rw [e]
      constructor
      · intro h; cases h
      · intro h; exact absurd hp h
    · intro hv
      unfold removeDomino
      rw [hv]; rfl
  · have e : (updateDominoIds s).1 =
        Except.error "Domino position conflict detected" := by
      unfold updateDominoIds; rw [hraise (Or.inr hp)]
    refine ⟨?_, Or.inr e, (removeDomino_step t hwf pos).1, ?_, hwf.cells_inGrid⟩
    · rw [e]
      exact ⟨fun _ => hp, fun _ => rfl⟩
    · intro hv
      unfold removeDomino
      rw [hv]; rfl

/-- Witness of C32: the state with (1,2) placed at the corner, and the removal at (0,1); and a
list of two pieces that both cover the cell (0,1), on which `updateDominoIds` raises. -/
theorem updateDominoIds_raises_iff_witness :
    (∀ p ∈ onePieceState.placedDominoes, ∀ y ∈ getDominoPositions p, InGrid y) ∧
      WellFormed onePieceState ∧
      (updateDominoIds onePieceState).1 = Except.ok () ∧
      (∃ b, (removeDomino onePieceState { row := 0, col := 1 }).1 = Except.ok b) ∧
      (updateDominoIds
        { newGame with
          placedDominoes :=
            [placedCopy (DominoPiece.new 1 2) { row := 0, col := 0 } Orientation.HORIZONTAL,
             placedCopy (DominoPiece.new 3 4) { row := 0, col := 1 }
               Orientation.HORIZONTAL] }).1 =
        Except.error "Domino position conflict detected" :=
  ⟨onePieceState_wellFormed.cells_inGrid, onePieceState_wellFormed, rfl,
    (updateDominoIds_raises_iff onePieceState onePieceState_wellFormed.cells_inGrid
      onePieceState onePieceState_wellFormed { row := 0, col := 1 }).2.2.1, rfl⟩

/-- C33: on a consistent tiling whose pieces carry the sum of their pips, when the budget
allows and the game is not completed, `getConstraintHint` returns a valid hint if and only if
some cell of the grid shows a clue (> 0) that differs from its live neighbour-sum.  The cell
of a valid hint is the first such cell in row-major order, `expectedValue` is its clue and
`currentSum` its live neighbour-sum. -/
theorem constraint_hint_spec (s : GameState) (h : HintSystem) (hwf : WellFormed s)
    (hsum : ∀ p ∈ s.placedDominoes, p.sum = p.value1 + p.value2)
    (hc : h.canProvideHint s = true) :
    ((getConstraintHint s h).1.isValid = true ↔ ∃ q : Position, InGrid q ∧ ClueMismatch s q) ∧
      ((getConstraintHint s h).1.isValid = true →
        InGrid (getConstraintHint s h).1.position ∧
        ClueMismatch s (getConstraintHint s h).1.position ∧
        (∃ pre post, allCells = pre ++ (getConstraintHint s h).1.position :: post ∧
          ∀ x ∈ pre, ¬ ClueMismatch s x) ∧
        (getConstraintHint s h).1.expectedValue =
          s.grid.get (getConstraintHint s h).1.position.row
            (getConstraintHint s h).1.position.col ∧
        (getConstraintHint s h).1.currentSum =
          neighbourSum s.dominoGrid s.placedDominoes (getConstraintHint s h).1.position.row
            (getConstraintHint s h).1.position.col) := by
  have hp : ∀ q : Position,
      (decide (s.grid.get q.row q.col > 0) &&
        decide (calculateConstraintValueHelper s q.row q.col ≠ s.grid.get q.row q.col)) = true ↔
        ClueMismatch s q := by
    intro q
    unfold ClueMismatch
    rw [calculateConstraintValueHelper_eq s hwf hsum]
    simp only [Bool.and_eq_true, decide_eq_true_eq]
  unfold getConstraintHint
  rw [hc]
  simp only [Bool.not_true, Bool.false_eq_true, if_false]
  cases hf : allCells.find? (fun pos =>
      decide (s.grid.get pos.row pos.col > 0) &&
        decide (calculateConstraintValueHelper s pos.row pos.col ≠
          s.grid.get pos.row pos.col)) with
  | none =>
    simp only [ConstraintHint.default, Bool.false_eq_true, false_iff, false_implies, and_true]
    rintro ⟨q, hq, hm⟩
    rw [List.find?_eq_none] at hf
    exact hf q ((mem_allCells q).2 hq) ((hp q).2 hm)
  | some pos =>
    rw [List.find?_eq_some] at hf
    obtain ⟨hpos, pre, post, hsplit, hpre⟩ := hf
    have hin : InGrid pos := (mem_allCells pos).1 (by rw [hsplit]; simp)
    have hm := (hp pos).1 hpos
    have hfirst : ∀ x ∈ pre, ¬ ClueMismatch s x := by
      intro x hx hmx
      have := hpre x hx
      rw [(hp x).2 hmx] at this
      exact absurd this (by simp)
    exact ⟨⟨fun _ => ⟨pos, hin, hm⟩, fun _ => rfl⟩,
      fun _ => ⟨hin, hm, ⟨pre, post, hsplit, hfirst⟩, rfl,
        calculateConstraintValueHelper_eq s hwf hsum _ _⟩⟩

/-- Witness of C33: the puzzle generated for a new game, nothing placed yet. -/
theorem constraint_hint_spec_witness :
    WellFormed (generateNewGame idShuffles newGame Difficulty.EASY).2 ∧
      HintSystem.default.canProvideHint (generateNewGame idShuffles newGame Difficulty.EASY).2 =
        true ∧
      ((getConstraintHint (generateNewGame idShuffles newGame Difficulty.EASY).2
          HintSystem.default).1.isValid = true ↔
        ∃ q : Position, InGrid q ∧
          ClueMismatch (generateNewGame idShuffles newGame Difficulty.EASY).2 q) :=
  ⟨generateNewGame_wellFormed idShuffles idShuffles_valid newGame Difficulty.EASY,
    canProvideHint_generated idShuffles idShuffles_valid newGame Difficulty.EASY,
    (constraint_hint_spec (generateNewGame idShuffles newGame Difficulty.EASY).2
      HintSystem.default
      (generateNewGame_wellFormed idShuffles idShuffles_valid newGame Difficulty.EASY)
      (by
        intro p hp
        rw [(generateNewGame_tiling idShuffles idShuffles_valid newGame Difficulty.EASY).2] at hp
        cases hp)
      (canProvideHint_generated idShuffles idShuffles_valid newGame Difficulty.EASY)).1⟩

/-- C34: when the budget allows and the game is not completed, `getMostConstrainedHint`
returns a valid hint if and only if some unoccupied cell of the grid shows a clue > 0.  The
cell of a valid hint is unoccupied, no unoccupied cell shows a larger clue, every unoccupied
cell before it in row-major order shows a smaller clue, and `constraintValue` is its clue. -/
theorem most_constrained_hint_spec (s : GameState) (h : HintSystem)
    (hc : h.canProvideHint s = true) :
    ((getMostConstrainedHint s h).1.isValid = true ↔
        ∃ q : Position, InGrid q ∧ s.dominoGrid.get q.row q.col = -1 ∧
          s.grid.get q.row q.col > 0) ∧
      ((getMostConstrainedHint s h).1.isValid = true →
        InGrid (getMostConstrainedHint s h).1.position ∧
        s.dominoGrid.get (getMostConstrainedHint s h).1.position.row
          (getMostConstrainedHint s h).1.position.col = -1 ∧
        (∀ q : Position, InGrid q → s.dominoGrid.get q.row q.col = -1 →
          s.grid.get q.row q.col ≤
            s.grid.get (getMostConstrainedHint s h).1.position.row
              (getMostConstrainedHint s h).1.position.col) ∧
        (∃ pre post, allCells = pre ++ (getMostConstrainedHint s h).1.position :: post ∧
          ∀ x ∈ pre, s.dominoGrid.get x.row x.col = -1 →
            s.grid.get x.row x.col <
              s.grid.get (getMostConstrainedHint s h).1.position.row
                (getMostConstrainedHint s h).1.position.col) ∧
        (getMostConstrainedHint s h).1.constraintValue =
          s.grid.get (getMostConstrainedHint s h).1.position.row
            (getMostConstrainedHint s h).1.position.col) := by
  obtain ⟨_, hmax, hcase⟩ := mostConstrained_fold s allCells { row := -1, col := -1 } (-1)
  unfold getMostConstrainedHint
  rw [hc]
  simp only [Bool.not_true, Bool.false_eq_true, if_false]
  have hbest : mostConstrained s = allCells.foldl
      (fun best pos =>
        if s.grid.get pos.row pos.col > best.2 ∧ s.dominoGrid.get pos.row pos.col = -1 then
          (pos, s.grid.get pos.row pos.col)
        else best) (({ row := -1, col := -1 } : Position), -1) := rfl
  rw [← hbest] at hmax hcase
  by_cases hpos : (mostConstrained s).2 > 0
  · rw [if_pos hpos]
    rcases hcase with e | ⟨p, m, pre, post, e, hlt, hsplit, hfree, hval, hpre⟩
    · rw [e] at hpos
      exact absurd hpos (by decide)
    · rw [e] at hpos hmax ⊢
      have hin : InGrid p := (mem_allCells p).1 (by rw [hsplit]; simp)
      have hval2 : s.grid.get p.row p.col = m := hval
      refine ⟨⟨fun _ => ⟨p, hin, hfree, by rw [hval2]; exact hpos⟩, fun _ => rfl⟩,
        fun _ => ⟨hin, hfree, ?_, ⟨pre, post, hsplit, ?_⟩, hval2.symm⟩⟩
      · intro q hq hqf
        show s.grid.get q.row q.col ≤ s.grid.get p.row p.col
        rw [hval2]
        exact hmax q ((mem_allCells q).2 hq) hqf
      · intro x hx hxf
        show s.grid.get x.row x.col < s.grid.get p.row p.col
        rw [hval2]
        exact hpre x hx hxf
  · rw [if_neg hpos]
    refine ⟨⟨fun hv => absurd hv (by simp [PositionHint.default]), ?_⟩,
      fun hv => absurd hv (by simp [PositionHint.default])⟩
    rintro ⟨q, hq, hqf, hqv⟩
    have := hmax q ((mem_allCells q).2 hq) hqf
    omega

/-- Witness of C34: the puzzle generated for a new game, nothing placed yet. -/
theorem most_constrained_hint_spec_witness :
    HintSystem.default.canProvideHint (generateNewGame idShuffles newGame Difficulty.EASY).2 =
        true ∧
      ((getMostConstrainedHint (generateNewGame idShuffles newGame Difficulty.EASY).2
          HintSystem.default).1.isValid = true ↔
        ∃ q : Position, InGrid q ∧
          (generateNewGame idShuffles newGame Difficulty.EASY).2.dominoGrid.get q.row q.col =
            -1 ∧
          (generateNewGame idShuffles newGame Difficulty.EASY).2.grid.get q.row q.col > 0) :=
  ⟨canProvideHint_generated idShuffles idShuffles_valid newGame Difficulty.EASY,
    (most_constrained_hint_spec (generateNewGame idShuffles newGame Difficulty.EASY).2
      HintSystem.default
      (canProvideHint_generated idShuffles idShuffles_valid newGame Difficulty.EASY)).1⟩

/-- C35 (defect): on the well-formed state with the piece (1,2) lying on (0,0)-(0,1), the two
validators disagree on the piece (3,4) at (0,4), horizontal: `canPlaceDomino` of
`DominoGame.h` accepts it, `canPlaceDomino` of `DominoPiece.h`, run on the same clue grid,
tiling and placed pieces, rejects it.  The scan of row 0 in `DominoPiece.h` returns false at
the second cell of the placed piece, whose `value1` is already in the set. -/
theorem validators_disagree :
    WellFormed onePieceState ∧
      (DominoPieceH.ofGame onePieceState).grid = onePieceState.grid ∧
      (DominoPieceH.ofGame onePieceState).dominoGrid = onePieceState.dominoGrid ∧
      (DominoPieceH.ofGame onePieceState).placedDominoes.map DominoPieceH.pips =
        onePieceState.placedDominoes.map (fun p => (p.value1, p.value2)) ∧
      canPlaceDomino onePieceState (DominoPiece.new 3 4) { row := 0, col := 4 }
        Orientation.HORIZONTAL = true ∧
      DominoPieceH.canPlaceDomino (DominoPieceH.ofGame onePieceState)
        (DominoPieceH.DominoPiece.new 3 4 16).1 { row := 0, col := 4 }
        Orientation.HORIZONTAL = false ∧
      DominoPieceH.scanLine (DominoPieceH.ofGame onePieceState).dominoGrid
        (DominoPieceH.ofGame onePieceState).placedDominoes (rowCells 0) [] = none :=
  ⟨onePieceState_wellFormed, rfl, rfl, by decide, by decide, by decide, by decide⟩

/-- C36, the part that fails: no state reached from `initializeGame` by calls of
`generateNewGame`, `placeDomino`, `removeDomino` and `moveDomino` (shuffles being permutations)
has as many placed pieces as the catalog has pieces. -/
theorem placed_count_below_catalog :
    ¬ ∃ (sh : Shuffles) (s : GameState) (calls : List GameCall), ValidShuffles sh ∧
      (runGameCalls sh (initializeGame s) calls).placedDominoes.length =
        (runGameCalls sh (initializeGame s) calls).availableDominoes.length := by
  rintro ⟨sh, s, calls, hsh, h⟩
  obtain ⟨h1, h2⟩ := runGameCalls_count sh hsh s calls
  omega

set_option maxRecDepth 1000000 in
/-- C36 as amended: `placeDomino` does not check catalog membership.  On a new game (empty
tiling, no clue) the double (3,3) and the piece (7,8), neither of which equals a piece of
`availableDominoes`, are placed: `placeDomino` returns true and appends the piece to
`placedDominoes`.  The count of placed pieces stays at most 13 in every state reached from
`initializeGame`, below the catalog size 15. -/
theorem placeDomino_accepts_foreign_piece (sh : Shuffles) (hsh : ValidShuffles sh)
    (s : GameState) (calls : List GameCall) :
    (newGame.availableDominoes.any (fun a => a.opEq (DominoPiece.new 3 3)) = false ∧
        (placeDomino newGame (DominoPiece.new 3 3) { row := 0, col := 0 }
          Orientation.HORIZONTAL).1 = true ∧
        (placeDomino newGame (DominoPiece.new 3 3) { row := 0, col := 0 }
          Orientation.HORIZONTAL).2.placedDominoes =
          [placedCopy (DominoPiece.new 3 3) { row := 0, col := 0 } Orientation.HORIZONTAL]) ∧
      (newGame.availableDominoes.any (fun a => a.opEq (DominoPiece.new 7 8)) = false ∧
        (placeDomino newGame (DominoPiece.new 7 8) { row := 0, col := 0 }
          Orientation.HORIZONTAL).1 = true ∧
        (placeDomino newGame (DominoPiece.new 7 8) { row := 0, col := 0 }
          Orientation.HORIZONTAL).2.placedDominoes =
          [placedCopy (DominoPiece.new 7 8) { row := 0, col := 0 } Orientation.HORIZONTAL]) ∧
      (runGameCalls sh (initializeGame s) calls).placedDominoes.length ≤ 13 ∧
      (runGameCalls sh (initializeGame s) calls).availableDominoes.length = 15 :=
  ⟨by decide, by decide, runGameCalls_count sh hsh s calls⟩

/-- Witness of C36: a new game on which the double (3,3) is placed. -/
theorem placeDomino_accepts_foreign_piece_witness :
    ValidShuffles idShuffles ∧
      (runGameCalls idShuffles (initializeGame newGame)
        [GameCall.tiling (Call.place (DominoPiece.new 3 3) { row := 0, col := 0 }
          Orientation.HORIZONTAL)]).placedDominoes.length ≤ 13 :=
  ⟨idShuffles_valid,
    (placeDomino_accepts_foreign_piece idShuffles idShuffles_valid newGame
      [GameCall.tiling (Call.place (DominoPiece.new 3 3) { row := 0, col := 0 }
        Orientation.HORIZONTAL)]).2.2.1⟩

/-- C38: generation in DominoGame.h returns on every input.  For every solution state, piece
list and (permutation-valued) sequence of shuffle outcomes, `backtrackSolution` returns, after
at most `1 + 128 + ... + 128 ^ (dominoes.size() - dominoIndex)` calls of itself: it stops at
`dominoIndex >= dominoes.size()`, and below that it runs the loop over the 128 shuffled
candidates, whose only recursive call is at `dominoIndex + 1`.  `generateNewGame` makes at most
100 calls of `generateSolution` and returns either the result of a successful attempt or the
result of one call of `generateSimplifiedPuzzle`, whose two scans run over 12 and 9 anchors. -/
theorem generation_terminates (sh : Shuffles) (hsh : ValidShuffles sh)
    (dominoes : List DominoPiece) (dominoIndex : Nat) (s : GameState) (d : Difficulty) :
    (backtrackSolutionCalls sh dominoes dominoIndex s).1 =
        backtrackSolution sh dominoes dominoIndex s ∧
      (backtrackSolutionCalls sh dominoes dominoIndex s).2 ≤
        callBound (dominoes.length - dominoIndex) ∧
      (dominoIndex ≥ dominoes.length →
        backtrackSolution sh dominoes dominoIndex s = (true, { s with hasSolution := true })) ∧
      (dominoIndex < dominoes.length →
        backtrackSolution sh dominoes dominoIndex s =
          tryCandidates (fun s1 => backtrackSolution sh dominoes (dominoIndex + 1) s1)
            (dominoes.getD dominoIndex (DominoPiece.new 0 0)) dominoIndex
            (sh.cands s.rng allCandidates) { s with rng := s.rng + 1 }) ∧
      (sh.cands s.rng allCandidates).length = 128 ∧
      MAX_GENERATION_ATTEMPTS = 100 ∧
      generateAttemptsCalls sh MAX_GENERATION_ATTEMPTS { s with currentDifficulty := d } ≤ 100 ∧
      generateNewGame sh s d =
        (if (generateAttempts sh MAX_GENERATION_ATTEMPTS { s with currentDifficulty := d }).1
          then generateAttempts sh MAX_GENERATION_ATTEMPTS { s with currentDifficulty := d }
          else generateSimplifiedPuzzle sh
            (generateAttempts sh MAX_GENERATION_ATTEMPTS { s with currentDifficulty := d }).2 d) ∧
      horizontalAnchors.length = 12 ∧ verticalAnchors.length = 9 ∧
      (∀ (sd : List DominoPiece) (t : GameState),
        (scanAnchors sd Orientation.VERTICAL verticalAnchors
          (scanAnchors sd Orientation.HORIZONTAL horizontalAnchors (0, t))).1 ≤ 21) := by
  refine ⟨backtrackSolutionCalls_fst sh dominoes _ dominoIndex s rfl,
    backtrackSolutionCalls_le sh hsh dominoes _ dominoIndex s rfl, ?_, ?_, ?_, rfl,
    generateAttemptsCalls_le sh _ _, rfl, rfl, rfl, ?_⟩
  · intro h
    rw [backtrackSolution, dif_pos h]
  · intro h
    have hn : ¬ (dominoIndex ≥ dominoes.length) := by omega
    rw [backtrackSolution, dif_neg hn]
  · rw [(hsh.2.1 s.rng allCandidates).length_eq, allCandidates_length]
  · intro sd t
    have h1 := scanAnchors_index_le sd Orientation.HORIZONTAL horizontalAnchors (0, t)
    have h2 := scanAnchors_index_le sd Orientation.VERTICAL verticalAnchors
      (scanAnchors sd Orientation.HORIZONTAL horizontalAnchors (0, t))
    have e1 : horizontalAnchors.length = 12 := rfl
    have e2 : verticalAnchors.length = 9 := rfl
    rw [e2] at h2
    rw [e1] at h1
    dsimp only at h1
    omega

/-- Witness of C38: the identity shuffle, the catalog of a new game from index 0. -/
theorem generation_terminates_witness :
    ValidShuffles idShuffles ∧
      (backtrackSolutionCalls idShuffles newGame.availableDominoes 0 newGame).1 =
        backtrackSolution idShuffles newGame.availableDominoes 0 newGame ∧
      (backtrackSolutionCalls idShuffles newGame.availableDominoes 0 newGame).2 ≤
        callBound (newGame.availableDominoes.length - 0) :=
  ⟨idShuffles_valid,
    (generation_terminates idShuffles idShuffles_valid newGame.availableDominoes 0 newGame
      Difficulty.EASY).1,
    (generation_terminates idShuffles idShuffles_valid newGame.availableDominoes 0 newGame
      Difficulty.EASY).2.1⟩

/-- C39, as stated, fails: it is not the case that in every state reached from the start of
the program by `ResetGame`, `GeneratePuzzle`, `PlaceDomino` and `RemoveDomino` (on cells of the
grid, shuffles being permutations) the cells of two different placed dominoes are never edge-
or corner-adjacent.  After a new easy puzzle, the first two available pieces can be laid
horizontally on (0,0) and on (1,0), one directly below the other. -/
theorem gamelogic_placements_touch :
    ¬ ∀ (sh : Nat → List GameLogicCpp.Domino → List GameLogicCpp.Domino)
        (calls : List LogicCall),
        (∀ k l, (sh k l).Perm l) → (∀ c ∈ calls, c.OnBoard) →
          LogicNonAdjacent (runLogicCalls sh GameLogicCpp.GameState.new calls) := by
  intro h
  have hs := logicSample_state
  have hn := h logicIdShuffle logicSampleCalls (fun _ l => List.Perm.refl l)
    logicSampleCalls_onBoard
  generalize runLogicCalls logicIdShuffle GameLogicCpp.GameState.new logicSampleCalls = s
    at hs hn
  obtain ⟨hp, h1, h2⟩ := hs
  refine hn _ (by rw [hp]; exact List.mem_cons_self _ _)
    _ (by rw [hp]; exact List.mem_cons_of_mem _ (List.mem_cons_self _ _))
    (by decide) ⟨0, 0⟩ ⟨1, 0⟩ (by decide) (by decide) h1 h2 (by decide)

/-- C39, amended: in every state reached from the start of the program by `ResetGame`,
`GeneratePuzzle`, `PlaceDomino` and `RemoveDomino` on cells of the grid, the two cells of each
placed domino are inside the grid and are exactly the cells of `dominoGrid` that hold its id,
and different placed dominoes have different ids and no cell in common.  `IsValidPlacement`
tests only that the second cell is inside the grid, that both cells are empty and that a
shown number under a cell equals the pip value laid on it; it has no test of the
neighbouring cells. -/
theorem gamelogic_placements_disjoint
    (sh : Nat → List GameLogicCpp.Domino → List GameLogicCpp.Domino) (calls : List LogicCall)
    (hc : ∀ c ∈ calls, c.OnBoard) :
    (∀ pd ∈ (runLogicCalls sh GameLogicCpp.GameState.new calls).placedDominoes,
      (∀ q ∈ placedCells pd, InGrid q) ∧
        ∀ q : Position, InGrid q →
          ((runLogicCalls sh GameLogicCpp.GameState.new calls).dominoGrid.get q.row q.col =
            pd.id ↔ q ∈ placedCells pd)) ∧
      (runLogicCalls sh GameLogicCpp.GameState.new calls).placedDominoes.Pairwise
        (fun a b => a.id ≠ b.id ∧ ∀ q ∈ placedCells a, q ∉ placedCells b) ∧
      (∀ (t : GameLogicCpp.GameState) (row col : Int) (d : GameLogicCpp.Domino)
          (o : Orientation),
        GameLogicCpp.IsValidPlacement t row col d o = true ↔
          (o = Orientation.HORIZONTAL → col + 1 < 8) ∧
            (o = Orientation.VERTICAL → row + 1 < 8) ∧
            t.dominoGrid.get row col = -1 ∧
            t.dominoGrid.get (secondCell ⟨row, col⟩ o).row (secondCell ⟨row, col⟩ o).col = -1 ∧
            (t.gameGrid.get row col > 0 → t.gameGrid.get row col = d.value1) ∧
            (t.gameGrid.get (secondCell ⟨row, col⟩ o).row (secondCell ⟨row, col⟩ o).col > 0 →
              t.gameGrid.get (secondCell ⟨row, col⟩ o).row (secondCell ⟨row, col⟩ o).col =
                d.value2)) := by
  have h := logicInv_run sh calls _ logicInv_new hc
  generalize runLogicCalls sh GameLogicCpp.GameState.new calls = s at h
  refine ⟨fun pd hpd => ⟨h.inGrid pd hpd, h.cells pd hpd⟩, ?_, IsValidPlacement_spec⟩
  refine List.Pairwise.imp_of_mem ?_ h.distinct
  intro a b ha hb hab
  refine ⟨hab, fun q hqa hqb => ?_⟩
  have hq := h.inGrid a ha q hqa
  have e1 := (h.cells a ha q hq).2 hqa
  have e2 := (h.cells b hb q hq).2 hqb
  exact hab (e1.symm.trans e2)

/-- Witness of C39: the sample session, whose two placed dominoes touch and do not overlap. -/
theorem gamelogic_placements_disjoint_witness :
    (∀ c ∈ logicSampleCalls, c.OnBoard) ∧
      (runLogicCalls logicIdShuffle GameLogicCpp.GameState.new
        logicSampleCalls).placedDominoes.Pairwise
        (fun a b => a.id ≠ b.id ∧ ∀ q ∈ placedCells a, q ∉ placedCells b) :=
  ⟨logicSampleCalls_onBoard,
    (gamelogic_placements_disjoint logicIdShuffle logicSampleCalls
      logicSampleCalls_onBoard).2.1⟩

/-- C40: in `GameLogic`, pieces are conserved.  A successful `PlaceDomino` erases the selected
piece from `availableDominoes` and appends one record holding that piece to `placedDominoes`;
a successful `RemoveDomino` erases one record from `placedDominoes` and appends its piece to
`availableDominoes`; a failing call leaves both vectors as they are.  So after `GeneratePuzzle`
every sequence of `PlaceDomino` and `RemoveDomino` calls leaves the pip pairs of the available
and the placed pieces a permutation of what they were.  In every such state, `PlaceDomino`
followed by `RemoveDomino` on the same cell restores `dominoGrid` and `placedDominoes`, and
`availableDominoes` is the former vector with the selected piece moved to the end. -/
theorem gamelogic_pieces_conserved
    (sh : Nat → List GameLogicCpp.Domino → List GameLogicCpp.Domino)
    (calls moves : List LogicCall) (d : Difficulty)
    (hc : ∀ c ∈ calls, c.OnBoard) (hm : ∀ c ∈ moves, c.IsMove) :
    (pipPairs (logicGame sh calls d moves)).Perm (pipPairs (logicGame sh calls d [])) ∧
      (∀ (s : GameLogicCpp.GameState) (row col : Int),
        (GameLogicCpp.PlaceDomino s row col).1 = true →
          0 ≤ s.selectedDomino ∧ s.selectedDomino < (s.availableDominoes.length : Int) ∧
            (GameLogicCpp.PlaceDomino s row col).2.availableDominoes =
              s.availableDominoes.eraseIdx s.selectedDomino.toNat ∧
            ∃ pd : GameLogicCpp.PlacedDomino,
              pd.domino = s.availableDominoes.getD s.selectedDomino.toNat
                ⟨0, 0, Orientation.HORIZONTAL⟩ ∧
              (GameLogicCpp.PlaceDomino s row col).2.placedDominoes =
                s.placedDominoes ++ [pd]) ∧
      (∀ (s : GameLogicCpp.GameState) (row col : Int),
        (GameLogicCpp.RemoveDomino s row col).1 = true →
          ∃ l1 it l2, s.placedDominoes = l1 ++ it :: l2 ∧
            (GameLogicCpp.RemoveDomino s row col).2.placedDominoes = l1 ++ l2 ∧
            (GameLogicCpp.RemoveDomino s row col).2.availableDominoes =
              s.availableDominoes ++ [it.domino]) ∧
      (∀ (s : GameLogicCpp.GameState) (row col : Int),
        ((GameLogicCpp.PlaceDomino s row col).1 = false →
          (GameLogicCpp.PlaceDomino s row col).2 = s) ∧
        ((GameLogicCpp.RemoveDomino s row col).1 = false →
          (GameLogicCpp.RemoveDomino s row col).2 = s)) ∧
      (∀ (sel : Int) (o : Orientation) (row col : Int), InGrid ⟨row, col⟩ →
        (GameLogicCpp.PlaceDomino
          { logicGame sh calls d moves with selectedDomino := sel, currentOrientation := o }
          row col).1 = true →
        (GameLogicCpp.RemoveDomino (GameLogicCpp.PlaceDomino
          { logicGame sh calls d moves with selectedDomino := sel, currentOrientation := o }
          row col).2 row col).1 = true ∧
        (GameLogicCpp.RemoveDomino (GameLogicCpp.PlaceDomino
          { logicGame sh calls d moves with selectedDomino := sel, currentOrientation := o }
          row col).2 row col).2.dominoGrid = (logicGame sh calls d moves).dominoGrid ∧
        (GameLogicCpp.RemoveDomino (GameLogicCpp.PlaceDomino
          { logicGame sh calls d moves with selectedDomino := sel, currentOrientation := o }
          row col).2 row col).2.placedDominoes = (logicGame sh calls d moves).placedDominoes ∧
        (GameLogicCpp.RemoveDomino (GameLogicCpp.PlaceDomino
          { logicGame sh calls d moves with selectedDomino := sel, currentOrientation := o }
          row col).2 row col).2.availableDominoes =
          (logicGame sh calls d moves).availableDominoes.eraseIdx sel.toNat ++
            [(logicGame sh calls d moves).availableDominoes.getD sel.toNat
              ⟨0, 0, Orientation.HORIZONTAL⟩]) := by
  refine ⟨pipPairs_moves sh moves _ hm, ?_, ?_, ?_, ?_⟩
  · intro s row col hp
    rw [PlaceDomino_spec] at hp ⊢
    split at hp
    · rename_i hcond
      rw [if_pos hcond]
      exact ⟨hcond.1, hcond.2.1, rfl, _, rfl, rfl⟩
    · cases hp
  · intro s row col hr
    obtain ⟨_, l1, it, l2, e1, _, _, e4⟩ := RemoveDomino_spec s row col hr
    exact ⟨l1, it, l2, e1, by rw [e4], by rw [e4]⟩
  · intro s row col
    constructor
    · intro hp
      rw [PlaceDomino_spec] at hp ⊢
      split at hp
      · cases hp
      · rename_i hcond
        rw [if_neg hcond]
    · intro hr
      rw [RemoveDomino_false s row col hr]
  · intro sel o row col hq hp
    have hinv := logicInv_select _ (logicGame_inv sh calls d moves hc hm) sel o
    exact place_then_remove _ hinv row col hq hp

/-- Witness of C40: an easy puzzle at the start of the program, two pieces laid and the first
one taken off again. -/
theorem gamelogic_pieces_conserved_witness :
    (∀ c ∈ ([] : List LogicCall), c.OnBoard) ∧ (∀ c ∈ logicSampleMoves, c.IsMove) ∧
      (pipPairs (logicGame logicIdShuffle [] Difficulty.EASY logicSampleMoves)).Perm
        (pipPairs (logicGame logicIdShuffle [] Difficulty.EASY [])) :=
  ⟨fun c h => absurd h (List.not_mem_nil c), logicSampleMoves_isMove,
    (gamelogic_pieces_conserved logicIdShuffle [] logicSampleMoves Difficulty.EASY
      (fun c h => absurd h (List.not_mem_nil c)) logicSampleMoves_isMove).1⟩
end DominoGameH
